import Mathlib

/-! benzl: a shallow embedding of the evaluator

The development follows the C sources of benzl (`benzl-lval.h`, `benzl-lval.c`,
`benzl-hash-table.c`, `benzl-lenv.c`, `benzl-lval-eval.c`, `benzl-sprintf.c`,
`benzl-parse.c`, `benzl-builtin-*.c`).

Conventions of the embedding

* An `lval` is an immutable tree. Reference counts, source positions and the
  `bound_name` stamp (diagnostics only) are not represented.
* The two containers that C mutates in place through shared pointers, the symbol
  table of a dictionary and the property table of a record instance, live in a
  `heap` of tables and are referred to by address. Environment frames refer to
  their table by address as well, so the temporary frame that `lval_eval_sexpr`
  pushes for `(p x)` shares the table of `p` exactly as in C.
* A custom type carries the stamp of the `def-type` call that created it; equality
  of stamps stands for equality of the C pointers to the type value.
* Recursion of the evaluator is bounded by a fuel argument. A result `none` means
  that the fuel ran out or that the C program left defined behaviour (a failed
  `assert`, a read through `NULL`, a child index out of range).
* Text of error messages: the fixed part of the format string is kept, the
  rendered arguments, the position suffix and the stack trace text are not.
* A string holds the characters before the terminator of the C string, one
  character for one byte; a buffer is the list of its bytes, and an access outside
  of it is a result `none`.
* The variable `errno` of the C library is a flag that the parser takes and hands
  back: whether it holds `ERANGE`.
* The counts and sizes of a table are natural numbers. The decrement of `count` in
  `lval_table_remove` wraps as in `size_t`; the product `count * 4` of a resize is
  not reduced, since a count stays far below `2 ^ 62`.
-/

namespace Benzl

/-! ## Values -/

/-- Kind of value an lval can store (`lval_type`). -/
inductive lval_type
  | LVAL_INT | LVAL_FLT | LVAL_BYTE | LVAL_SYM | LVAL_STR | LVAL_BUF | LVAL_DICT
  | LVAL_FUN | LVAL_SEXPR | LVAL_QEXPR | LVAL_ERR | LVAL_CAUGHT_ERR | LVAL_TYPE
  | LVAL_CUSTOM_TYPE_INSTANCE | LVAL_KEY_VALUE_PAIR
  deriving DecidableEq, Repr

open lval_type

/-- Human readable name of a type (`ltype_name`). -/
def ltype_name : lval_type → String
  | LVAL_INT => "Integer"
  | LVAL_FLT => "Float"
  | LVAL_BYTE => "Byte"
  | LVAL_SYM => "Symbol"
  | LVAL_STR => "String"
  | LVAL_BUF => "Buffer"
  | LVAL_DICT => "Dictionary"
  | LVAL_FUN => "Function"
  | LVAL_SEXPR => "S-Expression"
  | LVAL_QEXPR => "List"
  | LVAL_ERR => "UnhandledError"
  | LVAL_CAUGHT_ERR => "Error"
  | LVAL_TYPE => "Type"
  | LVAL_CUSTOM_TYPE_INSTANCE => "CustomTypeInstance"
  | LVAL_KEY_VALUE_PAIR => "KeyValuePair"

/-- The native operations registered by `lenv_add_builtins` that the embedding
covers (the C type is the function pointer `lbuiltin`). -/
inductive lbuiltin
  | b_def | b_set | b_set_prop | b_lambda | b_fun | b_list | b_len | b_eval
  | b_error | b_try | b_if | b_dict | b_def_type | b_type_of
  deriving DecidableEq, Repr

/-- A C `double`, kept as its IEEE-754 binary64 bit pattern. -/
structure Flt where
  bits : Nat
  deriving DecidableEq, Repr

/-- The tagged value `struct lval`. A dictionary and a record instance hold the
address of their table in the heap. -/
inductive lval
  | int (vint : Int)
  | flt (vflt : Flt)
  | byte (vbyte : Nat)
  | sym (name : String)
  | str (vstr : String)
  | buf (data : List Nat)
  | dict (vdict : Nat)
  | fn (builtin : lbuiltin)
  | lambda (args : lval) (body : lval)
  | sexpr (cell : List lval)
  | qexpr (cell : List lval)
  | err (message : String) (stack_trace : Option String)
  | caught_err (message : String) (stack_trace : Option String)
  | ptype (primitive : lval_type)
  | ctype (stamp : Nat) (name : String) (props : List lval)
  | kvpair (key : lval) (value : lval)
  | inst (type : lval) (props : Nat)
  deriving Repr

namespace lval

/-- The field `v->type`. -/
def type : lval → lval_type
  | int _ => LVAL_INT
  | flt _ => LVAL_FLT
  | byte _ => LVAL_BYTE
  | sym _ => LVAL_SYM
  | str _ => LVAL_STR
  | buf _ => LVAL_BUF
  | dict _ => LVAL_DICT
  | fn _ => LVAL_FUN
  | lambda _ _ => LVAL_FUN
  | sexpr _ => LVAL_SEXPR
  | qexpr _ => LVAL_QEXPR
  | err _ _ => LVAL_ERR
  | caught_err _ _ => LVAL_CAUGHT_ERR
  | ptype _ => LVAL_TYPE
  | ctype _ _ _ => LVAL_TYPE
  | kvpair _ _ => LVAL_KEY_VALUE_PAIR
  | inst _ _ => LVAL_CUSTOM_TYPE_INSTANCE

/-- Test `v->type == LVAL_ERR`. -/
def is_err : lval → Bool
  | err _ _ => true
  | _ => false

/-- Test `v->type == LVAL_FUN`. -/
def is_fun : lval → Bool
  | fn _ => true
  | lambda _ _ => true
  | _ => false

/-- Test `v->type == LVAL_QEXPR`. -/
def is_qexpr : lval → Bool
  | qexpr _ => true
  | _ => false

/-- Test `v->type == LVAL_SYM`. -/
def is_sym : lval → Bool
  | sym _ => true
  | _ => false

/-- Test `v->type == LVAL_KEY_VALUE_PAIR`. -/
def is_kvpair : lval → Bool
  | kvpair _ _ => true
  | _ => false

/-- The children `v->val.vexp.cell` of an S- or Q-expression; `count` and `child`
assert that the value is one of the two. -/
def cells : lval → Option (List lval)
  | sexpr c => some c
  | qexpr c => some c
  | _ => none

/-- The name `v->val.vsym.name` of a symbol. -/
def sym_name : lval → Option String
  | sym s => some s
  | _ => none

end lval

open lval

/-- Constructor `lval_byte(uint8_t x)`: the argument is converted to 8 bits. -/
def lval_byte (x : Int) : lval := byte (x % 256).toNat

/-- Constructor `lval_int(long x)`: the argument is converted to 64 bits, two's
complement. -/
def lval_int (x : Int) : lval := int ((x + 2 ^ 63) % 2 ^ 64 - 2 ^ 63)

/-- Text of the call stack attached to an error by `lval_err_for_val`
(`stack_trace`); the frames are not part of the model. -/
def stack_trace : Option String := some ""

/-- Constructor `lval_err`: an uncaught error without a stack trace. -/
def lval_err (msg : String) : lval := err msg none

/-- Constructor `lval_err_for_val`: an uncaught error with the stack trace. -/
def lval_err_for_val (msg : String) : lval := err msg stack_trace

/-! ## Floating point conversions -/

namespace Flt

/-- Conversion `(double)x` of a `long`, rounding to nearest, ties to even. -/
def of_int (x : Int) : Flt :=
  let m := x.natAbs
  let s := if x < 0 then 2 ^ 63 else 0
  if m = 0 then ⟨0⟩ else
  let l := Nat.log2 m + 1
  if l ≤ 53 then ⟨s + (l - 1 + 1023) * 2 ^ 52 + (m * 2 ^ (53 - l) - 2 ^ 52)⟩
  else
    let sh := l - 53
    let q := m / 2 ^ sh
    let r := m % 2 ^ sh
    let half := 2 ^ (sh - 1)
    let q1 := if r > half ∨ (r = half ∧ q % 2 = 1) then q + 1 else q
    if q1 = 2 ^ 53 then ⟨s + (l + 1023) * 2 ^ 52⟩
    else ⟨s + (l - 1 + 1023) * 2 ^ 52 + (q1 - 2 ^ 52)⟩

/-- Truncation toward zero of the value of a double; `none` for NaN and the
infinities. -/
def trunc (f : Flt) : Option Int :=
  let neg := f.bits / 2 ^ 63 % 2 = 1
  let e := f.bits / 2 ^ 52 % 2048
  let fr := f.bits % 2 ^ 52
  if e = 2047 then none
  else if e < 1023 then some 0
  else
    let m := fr + 2 ^ 52
    let mag : Nat := if 1075 ≤ e then m * 2 ^ (e - 1075) else m / 2 ^ (1075 - e)
    some (if neg then - (mag : Int) else (mag : Int))

/-- Conversion `(long)f`. Outside the range of `long` the conversion is undefined
in C; the model returns the x86-64 result, the least `long`. -/
def to_int (f : Flt) : Int :=
  match trunc f with
  | some v => if - 2 ^ 63 ≤ v ∧ v < 2 ^ 63 then v else - 2 ^ 63
  | none => - 2 ^ 63

/-- Conversion `(uint8_t)f`. Outside `[0, 256)` the conversion is undefined in C;
the model reduces the truncated value modulo 256 and maps NaN and the infinities
to 0. -/
def to_byte (f : Flt) : Nat :=
  match trunc f with
  | some v => (v % 256).toNat
  | none => 0

/-- Test for NaN. -/
def is_nan (f : Flt) : Bool :=
  f.bits / 2 ^ 52 % 2048 = 2047 ∧ f.bits % 2 ^ 52 ≠ 0

/-- Test `f == 0` (either sign of zero). -/
def is_zero (f : Flt) : Bool := f.bits % 2 ^ 63 = 0

/-- Comparison `x == y` of two doubles. -/
def eq (x y : Flt) : Bool :=
  !x.is_nan && !y.is_nan && (x.bits == y.bits || (x.is_zero && y.is_zero))

end Flt

/-! ## Symbol tables (`benzl-hash-table.c`) -/

/-- One entry of a table (`struct lval_entry`); the `next` pointer is the tail of
the chain the entry is stored in. The key is the name of the key symbol. -/
structure lval_entry where
  key : String
  value : lval
  type : Option lval
  deriving Repr

/-- The chained hash table `lval_table`; `items` lists the buckets, each bucket
being its chain of entries. -/
structure lval_table where
  count : Nat
  min_buckets : Nat
  bucket_count : Nat
  items : List (List lval_entry)
  deriving Repr

/-- Function `lval_table_alloc`. -/
def lval_table_alloc (size : Nat) : lval_table :=
  let size := max 2 size
  { count := 0, min_buckets := max 2 size, bucket_count := size,
    items := List.replicate size [] }

/-- Function `lval_table_hash`: the sum of the bytes of the key, in `size_t`. -/
def lval_table_hash (key : String) : Nat :=
  (key.toList.map Char.toNat).sum % 2 ^ 64

/-- Function `equal_symbols`: equal hashes and equal names. -/
def equal_symbols (k1 k2 : String) : Bool :=
  lval_table_hash k1 == lval_table_hash k2 && k1 == k2

/-- Function `bucket_for_key`. -/
def bucket_for_key (table : lval_table) (key : String) : Nat :=
  lval_table_hash key % table.bucket_count

/-- The walk of `lval_table_insert_entry` along one chain: an entry with the same
key is replaced in place and hands its declared type to the new entry, otherwise
the new entry is linked at the end. The flag tells whether the chain grew. -/
def chain_insert : List lval_entry → lval_entry → List lval_entry × Bool
  | [], entry => ([entry], true)
  | existing :: next, entry =>
    if equal_symbols existing.key entry.key then
      ({ entry with type := existing.type } :: next, false)
    else
      ((existing :: (chain_insert next entry).1), (chain_insert next entry).2)

/-- Function `lval_table_insert_entry`. -/
def lval_table_insert_entry (table : lval_table) (entry : lval_entry) : lval_table :=
  let index := bucket_for_key table entry.key
  let r := chain_insert (table.items.getD index []) entry
  { table with
    items := table.items.set index r.1,
    count := if r.2 then table.count + 1 else table.count }

/-- Function `lval_table_resize`: every entry, bucket by bucket and along each
chain, is moved to a fresh array of buckets. -/
def lval_table_resize (table : lval_table) (new_bucket_count : Nat) : lval_table :=
  let new_table := table.items.flatten.foldl lval_table_insert_entry
    (lval_table_alloc new_bucket_count)
  { table with items := new_table.items, bucket_count := new_table.bucket_count }

/-- Function `lval_table_resize_if_needed`. -/
def lval_table_resize_if_needed (table : lval_table) : lval_table :=
  if table.count ≥ table.bucket_count / 2 then
    lval_table_resize table (table.count * 4)
  else if max table.min_buckets table.count < table.bucket_count / 2 then
    lval_table_resize table (table.count * 4)
  else table

/-- Function `lval_table_insert`; the new entry has no declared type of its own. -/
def lval_table_insert (table : lval_table) (key : String) (value : lval) : lval_table :=
  lval_table_resize_if_needed
    (lval_table_insert_entry table { key := key, value := value, type := none })

/-- The walk of `lval_table_remove` along the chain after its first entry: the
entry with the key is unlinked. The walk asserts that there is a next entry, so a
key that is not in the chain is a result `none`. -/
def chain_remove : List lval_entry → String → Option (List lval_entry)
  | [], _ => none
  | entry :: next, key =>
    if equal_symbols entry.key key then some next
    else (chain_remove next key).map (fun r => entry :: r)

/-- Function `lval_table_remove`. When the first entry of the bucket has the key,
the bucket itself is set to `NULL`, so the entries linked after it are no longer
in the table. The decrement of `count` is made in `size_t`. -/
def lval_table_remove (table : lval_table) (key : String) : Option lval_table :=
  match table.items.getD (bucket_for_key table key) [] with
  | [] => some table
  | entry :: next =>
    if equal_symbols entry.key key then
      some (lval_table_resize_if_needed
        { table with
          items := table.items.set (bucket_for_key table key) [],
          count := if table.count = 0 then 2 ^ 64 - 1 else table.count - 1 })
    else
      match chain_remove next key with
      | none => none
      | some r =>
        some (lval_table_resize_if_needed
          { table with
            items := table.items.set (bucket_for_key table key) (entry :: r),
            count := if table.count = 0 then 2 ^ 64 - 1 else table.count - 1 })

/-- Function `lval_table_get_entry`. -/
def lval_table_get_entry (table : lval_table) (key : String) : Option lval_entry :=
  if table.count = 0 then none
  else (table.items.getD (bucket_for_key table key) []).find?
    (fun entry => equal_symbols entry.key key)

/-- Function `lval_table_get`. -/
def lval_table_get (table : lval_table) (key : String) : Option lval :=
  (lval_table_get_entry table key).map (fun entry => entry.value)

/-- The assignment `entry->type = t` made through the pointer that
`lval_table_insert` returned for `key`. -/
def lval_entry_set_type (table : lval_table) (key : String) (t : lval) : lval_table :=
  { table with
    items := table.items.map (fun chain => chain.map (fun entry =>
      if equal_symbols entry.key key then { entry with type := some t } else entry)) }

/-- Function `lval_table_copy`: the values are shared, the declared types are not
copied. -/
def lval_table_copy (table : lval_table) : lval_table :=
  table.items.flatten.foldl (fun t entry => lval_table_insert t entry.key entry.value)
    (lval_table_alloc table.bucket_count)

/-! ## Heap and environments (`benzl-lenv.c`) -/

/-- The tables allocated so far, by address, and the number of custom types
created so far. -/
structure heap where
  tables : List lval_table
  types : Nat
  deriving Repr

namespace heap

/-- The table stored at an address. -/
def table (h : heap) (a : Nat) : Option lval_table := h.tables[a]?

/-- Overwrite the table stored at an address. -/
def set_table (h : heap) (a : Nat) (t : lval_table) : heap :=
  { h with tables := h.tables.set a t }

/-- Store a new table; its address is the next free one. -/
def alloc (h : heap) (t : lval_table) : Nat × heap :=
  (h.tables.length, { h with tables := h.tables ++ [t] })

end heap

/-- An environment `lenv`: the address of its own table `items` followed by the
chain of its parents, innermost first. The empty chain is the `NULL` parent. -/
abbrev lenv := List Nat

/-- Function `lenv_get`. -/
def lenv_get (h : heap) : lenv → String → Option lval
  | [], k => some (lval_err_for_val ("Unbound symbol '" ++ k ++ "'"))
  | items :: parent, k =>
    match h.table items with
    | none => none
    | some t =>
      match lval_table_get t k with
      | some item => some item
      | none => lenv_get h parent k

/-- Function `lenv_set`: the result holds the error, if any, and the heap. -/
def lenv_set (h : heap) : lenv → String → lval → Option (Option lval × heap)
  | [], k, _ =>
    some (some (lval_err_for_val ("'" ++ k ++ "' must be defined before it can be set")), h)
  | items :: parent, k, v =>
    match h.table items with
    | none => none
    | some t =>
      match lval_table_get t k with
      | some _ => some (none, h.set_table items (lval_table_insert t k v))
      | none => lenv_set h parent k v

/-- Function `lenv_def`. -/
def lenv_def (h : heap) (e : lenv) (k : String) (v : lval) : Option (Option lval × heap) :=
  match e with
  | [] => none
  | items :: _ =>
    match h.table items with
    | none => none
    | some t =>
      match lval_table_get t k with
      | some _ => some (some (lval_err_for_val ("'" ++ k ++ "' is already declared")), h)
      | none => some (none, h.set_table items (lval_table_insert t k v))

/-- Function `lenv_def_with_type`. -/
def lenv_def_with_type (h : heap) (e : lenv) (k : String) (v : lval) (t : lval) :
    Option (Option lval × heap) :=
  match e with
  | [] => none
  | items :: _ =>
    match h.table items with
    | none => none
    | some tbl =>
      match lval_table_get tbl k with
      | some _ => some (some (lval_err_for_val ("'" ++ k ++ "' is already declared")), h)
      | none =>
        some (none, h.set_table items (lval_entry_set_type (lval_table_insert tbl k v) k t))

/-- Function `lenv_def_or_set`. -/
def lenv_def_or_set (h : heap) (e : lenv) (k : String) (v : lval) : Option heap :=
  match e with
  | [] => none
  | items :: _ =>
    match h.table items with
    | none => none
    | some t => some (h.set_table items (lval_table_insert t k v))

/-! ## Casting (`benzl-lval.c`) -/

/-- Upper-case hexadecimal digit, as printed by `%02X`. -/
def hex_digit (n : Nat) : Char :=
  if n < 10 then Char.ofNat (48 + n) else Char.ofNat (55 + n)

/-- The text `sprintf("%f", f)`: six decimals, rounded to nearest, ties to even. -/
def sprintf_f (f : Flt) : String :=
  let sign := if f.bits / 2 ^ 63 % 2 = 1 then "-" else ""
  let e := f.bits / 2 ^ 52 % 2048
  let fr := f.bits % 2 ^ 52
  if e = 2047 then (if fr = 0 then sign ++ "inf" else sign ++ "nan")
  else
    let m := if e = 0 then fr else fr + 2 ^ 52
    let q := if e = 0 then 1 else e
    let num := m * 10 ^ 6 * 2 ^ (q - 1075)
    let den := 2 ^ (1075 - q)
    let n0 := num / den
    let r := num % den
    let n := if 2 * r > den ∨ (2 * r = den ∧ n0 % 2 = 1) then n0 + 1 else n0
    let fracs := toString (n % 10 ^ 6)
    sign ++ toString (n / 10 ^ 6) ++ "." ++
      String.mk (List.replicate (6 - fracs.length) '0') ++ fracs

/-- The trimming loop of `lval_sprint` for floats, on the reversed text: trailing
zeros are dropped, then one trailing dot. -/
def trim_float (rev : List Char) : List Char :=
  let r := rev.dropWhile (fun c => c = '0')
  match r with
  | '.' :: rest => rest
  | _ => r

/-- The text `lval_sprint` produces for a number (`%li`, trimmed `%f`, `0x%02X`). -/
def lval_sprint_number : lval → Option String
  | int x => some (toString x)
  | flt f => some (String.mk (trim_float (sprintf_f f).toList.reverse).reverse)
  | byte b => some ("0x" ++ String.mk [hex_digit (b / 16 % 16), hex_digit (b % 16)])
  | _ => none

/-- Function `lval_is_number`. -/
def lval_is_number : lval → Bool
  | int _ => true
  | flt _ => true
  | byte _ => true
  | _ => false

/-- The bytes of a 64-bit word in memory order (little endian). -/
def le_bytes (w : Nat) : List Nat :=
  (List.range 8).map (fun i => w / 2 ^ (8 * i) % 256)

/-- Function `cast_to_buffer`; `none` is the `NULL` of an invalid cast. -/
def cast_to_buffer : lval → Option lval
  | buf d => some (buf d)
  | str s => some (buf (s.toList.map (fun c => c.toNat % 256) ++ [0]))
  | byte b => some (buf [b])
  | int x => some (buf (le_bytes (x % 2 ^ 64).toNat))
  | flt f => some (buf (le_bytes f.bits))
  | _ => none

/-- Function `cast_to_string`: a buffer is cut at its first zero byte. -/
def cast_to_string : lval → Option lval
  | str s => some (str s)
  | buf d => some (str (String.mk ((d.takeWhile (fun b => b ≠ 0)).map Char.ofNat)))
  | v => (lval_sprint_number v).map str

/-- Function `cast_to_byte`. -/
def cast_to_byte : lval → Option lval
  | byte b => some (byte b)
  | int x => some (lval_byte x)
  | flt f => some (byte f.to_byte)
  | _ => none

/-- Function `cast_to_int`. -/
def cast_to_int : lval → Option lval
  | byte b => some (lval_int b)
  | int x => some (int x)
  | flt f => some (lval_int f.to_int)
  | _ => none

/-- Function `cast_to_float`. -/
def cast_to_float : lval → Option lval
  | byte b => some (flt (Flt.of_int b))
  | int x => some (flt (Flt.of_int x))
  | flt f => some (flt f)
  | _ => none

/-- Function `cast_to`; `none` is the `NULL` of an invalid cast. -/
def cast_to (v : lval) (t : lval_type) : Option lval :=
  if t = LVAL_BYTE then cast_to_byte v
  else if t = LVAL_INT then cast_to_int v
  else if t = LVAL_FLT then cast_to_float v
  else if t = LVAL_STR then cast_to_string v
  else if t = LVAL_BUF then cast_to_buffer v
  else none

/-! ## Copying (`lval_copy`) -/

/-- A fresh table holding a copy of the table at address `a`. -/
def heap_copy_table (h : heap) (a : Nat) : Option (Nat × heap) :=
  (h.table a).map (fun t => h.alloc (lval_table_copy t))

mutual
/-- Function `lval_copy`: a deep copy; the tables of dictionaries and instances
are copied to fresh addresses, types and symbols are shared. -/
def lval_copy (h : heap) : lval → Option (lval × heap)
  | dict d =>
    match heap_copy_table h d with
    | some r => some (dict r.1, r.2)
    | none => none
  | inst t p =>
    match heap_copy_table h p with
    | some r => some (inst t r.1, r.2)
    | none => none
  | lambda args body =>
    match lval_copy h args with
    | some (a, h1) =>
      match lval_copy h1 body with
      | some (b, h2) => some (lambda a b, h2)
      | none => none
    | none => none
  | kvpair k v =>
    match lval_copy h k with
    | some (k1, h1) =>
      match lval_copy h1 v with
      | some (v1, h2) => some (kvpair k1 v1, h2)
      | none => none
    | none => none
  | sexpr c =>
    match lval_copy_cells h c with
    | some (c1, h1) => some (sexpr c1, h1)
    | none => none
  | qexpr c =>
    match lval_copy_cells h c with
    | some (c1, h1) => some (qexpr c1, h1)
    | none => none
  | v => some (v, h)
/-- The loop of `lval_copy` over the children of an expression. -/
def lval_copy_cells (h : heap) : List lval → Option (List lval × heap)
  | [] => some ([], h)
  | x :: xs =>
    match lval_copy h x with
    | some (x1, h1) =>
      match lval_copy_cells h1 xs with
      | some (xs1, h2) => some (x1 :: xs1, h2)
      | none => none
    | none => none
end

/-! ## Deep equality (`lval_eq`) and type checks -/

/-- Comparison of the `stack_trace` fields of two errors by `lval_eq`: two absent
traces are the same pointer, two strings are compared, and an absent trace
against a present one reads through `NULL`. -/
def stack_trace_eq : Option String → Option String → Option Bool
  | none, none => some true
  | some a, some b => some (a == b)
  | _, _ => none

/-- The element loop of `lval_eq` over two child arrays of equal length: it stops
at the first pair that is not equal. -/
def lval_eq_cells (eq : lval → lval → Option Bool) : List lval → List lval → Option Bool
  | x :: xs, y :: ys =>
    match eq x y with
    | some true => lval_eq_cells eq xs ys
    | r => r
  | _, _ => some true

/-- Function `lval_tables_equal`: the counts are compared, then the first entry of
every bucket of `t1` is looked up in `t2` and the two values are compared. -/
def lval_tables_equal (eq : lval → lval → Option Bool) (t1 t2 : lval_table) : Option Bool :=
  if t1.count ≠ t2.count then some false
  else
    let rec go : List (List lval_entry) → Option Bool
      | [] => some true
      | [] :: buckets => go buckets
      | (t1_entry :: _) :: buckets =>
        match lval_table_get_entry t2 t1_entry.key with
        | none => some false
        | some t2_entry =>
          if !equal_symbols t1_entry.key t2_entry.key then some false
          else
            match eq t1_entry.value t2_entry.value with
            | some true => go buckets
            | r => r
    go t1.items

/-- Function `equal_types` on two type values; equal stamps stand for the same
`vtype` pointer. -/
def equal_types (eq : lval → lval → Option Bool) : lval → lval → Option Bool
  | ctype s1 n1 p1, ctype s2 n2 p2 =>
    if s1 = s2 then some true
    else if !equal_symbols n1 n2 then some false
    else if p1.length ≠ p2.length then some false
    else lval_eq_cells eq p1 p2
  | ptype a, ptype b => some (a == b)
  | ptype _, ctype _ _ _ => some false
  | ctype _ _ _, ptype _ => some false
  | _, _ => none

/-- Equality of the `type` pointers of two instances. -/
def same_type_pointer : lval → lval → Bool
  | ctype s1 _ _, ctype s2 _ _ => s1 == s2
  | _, _ => false

/-- Function `lval_eq`. The pointer shortcut `x == y` is represented where the
model has addresses (tables, type stamps, absent traces). -/
def lval_eq : Nat → heap → lval → lval → Option Bool
  | 0, _, _, _ => none
  | n + 1, h, x, y =>
    match x, y with
    | byte a, int b => some ((a : Int) == b)
    | int a, byte b => some (a == (b : Int))
    | byte a, flt b => some (Flt.eq (Flt.of_int a) b)
    | flt a, byte b => some (Flt.eq a (Flt.of_int b))
    | int a, flt b => some (Flt.eq (Flt.of_int a) b)
    | flt a, int b => some (Flt.eq a (Flt.of_int b))
    | int a, int b => some (a == b)
    | flt a, flt b => some (Flt.eq a b)
    | byte a, byte b => some (a == b)
    | err m1 t1, err m2 t2 =>
      match stack_trace_eq t1 t2 with
      | some true => some (m1 == m2)
      | r => r
    | caught_err m1 t1, caught_err m2 t2 =>
      match stack_trace_eq t1 t2 with
      | some true => some (m1 == m2)
      | r => r
    | sym a, sym b => some (equal_symbols a b)
    | str a, str b => some (a == b)
    | buf a, buf b => some (a == b)
    | dict a, dict b =>
      if a = b then some true
      else
        match h.table a, h.table b with
        | some t1, some t2 => lval_tables_equal (lval_eq n h) t1 t2
        | _, _ => none
    | fn a, fn b => some (a == b)
    | fn _, lambda _ _ => some false
    | lambda _ _, fn _ => some false
    | lambda a1 b1, lambda a2 b2 =>
      match lval_eq n h a1 a2 with
      | some true => lval_eq n h b1 b2
      | r => r
    | qexpr a, qexpr b =>
      if a.length ≠ b.length then some false else lval_eq_cells (lval_eq n h) a b
    | sexpr a, sexpr b =>
      if a.length ≠ b.length then some false else lval_eq_cells (lval_eq n h) a b
    | ptype a, t2 => if t2.type = LVAL_TYPE then equal_types (lval_eq n h) (ptype a) t2 else some false
    | ctype s nm p, t2 =>
      if t2.type = LVAL_TYPE then equal_types (lval_eq n h) (ctype s nm p) t2 else some false
    | kvpair k1 v1, kvpair k2 v2 =>
      match k1, k2 with
      | sym a, sym b => if !equal_symbols a b then some false else lval_eq n h v1 v2
      | _, _ => none
    | inst t1 p1, inst t2 p2 =>
      if p1 = p2 then some true
      else if same_type_pointer t1 t2 then some true
      else
        match h.table p1, h.table p2 with
        | some a, some b => lval_tables_equal (lval_eq n h) a b
        | _, _ => none
    | _, _ => some false

/-- Function `type_from_pair`; `none` is the `NULL` result, which every caller
reads through. -/
def type_from_pair (h : heap) (e : lenv) : lval → Option lval
  | kvpair _ (ptype t) => some (ptype t)
  | kvpair _ (ctype s n p) => some (ctype s n p)
  | kvpair _ (sym k) => lenv_get h e k
  | _ => none

/-- Function `value_matches_type`: the flag and the value stored through
`cast_value`. The argument `type` has to be a type value. -/
def value_matches_type (eq : heap → lval → lval → Option Bool) (h : heap) (v : lval)
    (type : lval) : Option (Bool × Option lval) :=
  match type with
  | ptype primitive =>
    if v.type = primitive then some (true, none)
    else if primitive = LVAL_STR then some (false, none)
    else
      match cast_to v primitive with
      | none => some (false, none)
      | some c => some (true, some c)
  | ctype _ _ _ =>
    match v with
    | inst t _ => (eq h t type).map (fun b => (b, none))
    | _ => some (false, none)
  | _ => none

/-! ## The evaluator (`benzl-lval-eval.c`) and the built-in functions -/

/-- The recursive entry points as a function body sees them: `lval_eval`,
`lval_eval_sexpr`, `lval_call`, `builtin_len` and `lval_eq`. -/
structure evaluator where
  eval : heap → lenv → lval → Option (lval × heap)
  eval_sexpr : heap → lenv → lval → Option (lval × heap)
  call : heap → lenv → lval → lval → Option (lval × heap)
  len : heap → lenv → lval → Option (lval × heap)
  eq : heap → lval → lval → Option Bool

/-- The insertion loop of `lval_custom_type_instance`. -/
def insert_props : lval_table → List lval → Option lval_table
  | t, [] => some t
  | t, kvpair (sym k) v :: rest => insert_props (lval_table_insert t k v) rest
  | _, _ :: _ => none

/-- Function `lval_custom_type_instance`. -/
def lval_custom_type_instance (h : heap) (type : lval) (props : List lval) :
    Option (lval × heap) :=
  match insert_props (lval_table_alloc (props.length * 3)) props with
  | none => none
  | some t => some (inst type (h.alloc t).1, (h.alloc t).2)

/-- The inner loop of `lval_create_custom_type_instance`: the first supplied
`key:value` whose key is the property; every child read on the way has to be a
pair with a symbol key. -/
def find_arg (prop : String) : List lval → Option (Option lval)
  | [] => some none
  | kvpair (sym k) value :: rest =>
    if equal_symbols prop k then some (some (kvpair (sym k) value)) else find_arg prop rest
  | _ :: _ => none

/-- The check of one supplied pair `v2` against the typed property `v1`:
`Sum.inl r` when the function returns `r`, `Sum.inr p` when `p` is added. -/
def typed_prop (ev : evaluator) (h : heap) (e : lenv) (v1 : lval) (v2 : lval) :
    Option (Sum lval lval × heap) :=
  match type_from_pair h e v1 with
  | none => none
  | some type =>
    if type.is_err then some (Sum.inl (lval_err_for_val "Parameter: Invalid type"), h)
    else
      match v2 with
      | kvpair key value =>
        match value_matches_type ev.eq h value type with
        | none => none
        | some (false, _) => some (Sum.inl (lval_err_for_val "Property: Type mismatch"), h)
        | some (true, some cast_val) => some (Sum.inr (kvpair key cast_val), h)
        | some (true, none) => some (Sum.inr v2, h)
      | _ => none

/-- The body of the outer loop of `lval_create_custom_type_instance` for the
declared property `v1`. -/
def instance_prop (ev : evaluator) (h : heap) (e : lenv) (v : List lval) (v1 : lval) :
    Option (Sum lval lval × heap) :=
  match (match v1 with
         | kvpair k _ => k.sym_name
         | other => other.sym_name) with
  | none => none
  | some prop =>
    match find_arg prop v with
    | none => none
    | some none => some (Sum.inl (lval_err_for_val ("Missing argument '" ++ prop ++ "'")), h)
    | some (some v2) =>
      if v1.is_kvpair then
        match v2 with
        | kvpair key (sexpr c) =>
          match ev.eval h e (sexpr c) with
          | none => none
          | some (r, h1) =>
            if r.is_err then some (Sum.inl r, h1) else typed_prop ev h1 e v1 (kvpair key r)
        | kvpair key (sym s) =>
          match lenv_get h e s with
          | none => none
          | some r =>
            if r.is_err then some (Sum.inl r, h) else typed_prop ev h e v1 (kvpair key r)
        | _ => typed_prop ev h e v1 v2
      else some (Sum.inr v2, h)

/-- The outer loop of `lval_create_custom_type_instance` over the declared
properties; `args` collects the pairs. -/
def instance_props (ev : evaluator) (e : lenv) (v : List lval) :
    List lval → List lval → heap → Option (Sum lval (List lval) × heap)
  | [], args, h => some (Sum.inr args, h)
  | v1 :: rest, args, h =>
    match instance_prop ev h e v v1 with
    | none => none
    | some (Sum.inl r, h1) => some (Sum.inl r, h1)
    | some (Sum.inr p, h1) => instance_props ev e v rest (args ++ [p]) h1

/-- Function `lval_create_custom_type_instance`; `v` holds the arguments. A
primitive type has no property list to count. -/
def lval_create_custom_type_instance (ev : evaluator) (h : heap) (e : lenv) (t : lval)
    (v : List lval) : Option (lval × heap) :=
  match t with
  | ctype _ _ props =>
    if v.length ≠ props.length then
      some (lval_err_for_val "Incorrect number of arguments to create", h)
    else
      match instance_props ev e v props [] h with
      | none => none
      | some (Sum.inl r, h1) => some (r, h1)
      | some (Sum.inr args, h1) => lval_custom_type_instance h1 t args
  | _ => none

/-- Function `builtin_list`: a copy of the arguments, retyped as a list. -/
def builtin_list (h : heap) (a : lval) : Option (lval × heap) :=
  match lval_copy h a with
  | some (sexpr c, h1) => some (qexpr c, h1)
  | some (qexpr c, h1) => some (qexpr c, h1)
  | _ => none

/-- Function `builtin_eval`. -/
def builtin_eval (ev : evaluator) (h : heap) (e : lenv) (a : lval) : Option (lval × heap) :=
  match a.cells with
  | none => none
  | some [x] => if x.is_qexpr then ev.eval_sexpr h e x else ev.eval h e x
  | some _ =>
    some (lval_err_for_val "Function 'eval' passed wrong number of arguments", h)

/-- Function `builtin_error`; the message is the argument, cut to the size of the
buffer of `lval_err` (the argument is used as the format string). -/
def builtin_error (h : heap) (a : lval) : Option (lval × heap) :=
  match a.cells with
  | none => none
  | some [str s] => some (lval_err (String.mk (s.toList.take 254)), h)
  | some [_] => some (lval_err_for_val "Function 'error' passed incorrect type for arg 0", h)
  | some _ =>
    some (lval_err_for_val "Function 'error' passed wrong number of arguments", h)

/-- Function `builtin_try`. -/
def builtin_try (ev : evaluator) (h : heap) (e : lenv) (a : lval) : Option (lval × heap) :=
  match a.cells with
  | none => none
  | some [condition, failure_exp] =>
    if !condition.is_qexpr then
      some (lval_err_for_val "Function 'try' passed incorrect type for arg 0", h)
    else
      match failure_exp.cells with
      | none => none
      | some [catch_sym, catch_err_sym, catch_body] =>
        if catch_sym.sym_name ≠ some "catch" then
          some (lval_err_for_val "Function 'try' missing catch", h)
        else if !catch_err_sym.is_sym then
          some (lval_err_for_val "function 'catch' missing error argument", h)
        else if !catch_body.is_qexpr then
          some (lval_err_for_val "catch missing function body argument", h)
        else
          match ev.eval_sexpr h e condition with
          | none => none
          | some (err m t, h1) =>
            ev.call h1 e (lambda (qexpr [catch_err_sym]) catch_body) (qexpr [caught_err m t])
          | some (r, h1) => some (r, h1)
      | some _ =>
        some (lval_err_for_val "Function 'try' passed wrong number of arguments", h)
  | some _ => some (lval_err_for_val "Function 'try' passed wrong number of arguments", h)

/-- The two actions of `builtin_var`. -/
inductive var_action
  | var_action_define
  | var_action_set
  deriving DecidableEq, Repr

open var_action

/-- The search of `builtin_var` for the entry of a name, from the innermost table
outwards. -/
def find_entry (h : heap) : lenv → String → Option (Option lval_entry)
  | [], _ => some none
  | items :: parent, k =>
    match h.table items with
    | none => none
    | some t =>
      match lval_table_get_entry t k with
      | some entry => some (some entry)
      | none => find_entry h parent k

/-- The second loop of `builtin_var`, over the names and their values; `err`
holds the result of the latest `lenv_def` or `lenv_set`. -/
def builtin_var_loop (ev : evaluator) (e : lenv) (action : var_action) :
    List lval → List lval → Option lval → heap → Option (lval × heap)
  | name :: names, val :: vals, _, h =>
    match action with
    | var_action_define =>
      match name with
      | kvpair key _ =>
        match type_from_pair h e name with
        | none => none
        | some type =>
          if type.is_err then some (lval_err_for_val "Variable: Invalid type", h)
          else
            match value_matches_type ev.eq h val type with
            | none => none
            | some (false, _) => some (lval_err_for_val "Variable: Type mismatch", h)
            | some (true, cast_val) =>
              match key.sym_name with
              | none => none
              | some k =>
                match lenv_def_with_type h e k (cast_val.getD val) type with
                | none => none
                | some (er, h1) => builtin_var_loop ev e action names vals er h1
      | sym k =>
        match lenv_def h e k val with
        | none => none
        | some (er, h1) => builtin_var_loop ev e action names vals er h1
      | _ => none
    | var_action_set =>
      match name.sym_name with
      | none => none
      | some k =>
        match find_entry h e k with
        | none => none
        | some entry =>
          match (match entry.bind (fun en => en.type) with
                 | some t => value_matches_type ev.eq h val t
                 | none => some (true, none)) with
          | none => none
          | some (false, _) => some (lval_err_for_val "Variable: Type mismatch", h)
          | some (true, cast_val) =>
            match lenv_set h e k (cast_val.getD val) with
            | none => none
            | some (er, h1) => builtin_var_loop ev e action names vals er h1
  | _, _, some er, h => some (er, h)
  | _, _, none, h => some (sexpr [], h)

/-- Function `builtin_var`. -/
def builtin_var (ev : evaluator) (h : heap) (e : lenv) (a : lval) (action : var_action) :
    Option (lval × heap) :=
  match a.cells with
  | none => none
  | some [] => none
  | some (syms :: vals) =>
    match syms.cells with
    | none => none
    | some names =>
      if names.any (fun n => !n.is_sym && !n.is_kvpair) then
        some (lval_err_for_val "cannot define non-symbol", h)
      else if names.length ≠ vals.length then
        some (lval_err_for_val "cannot define incorrect number of values to symbols", h)
      else builtin_var_loop ev e action names vals none h

/-- Function `builtin_def`. -/
def builtin_def (ev : evaluator) (h : heap) (e : lenv) (a : lval) : Option (lval × heap) :=
  builtin_var ev h e a var_action_define

/-- Function `builtin_set`. -/
def builtin_set (ev : evaluator) (h : heap) (e : lenv) (a : lval) : Option (lval × heap) :=
  builtin_var ev h e a var_action_set

/-- The search loop of `builtin_set_prop` through the declared properties of the
type of the instance. -/
def prop_declared (prop_name : String) : List lval → Option Bool
  | [] => some false
  | kvpair (sym k) _ :: rest =>
    if equal_symbols k prop_name then some true else prop_declared prop_name rest
  | sym k :: rest =>
    if equal_symbols k prop_name then some true else prop_declared prop_name rest
  | _ :: _ => none

/-- Function `builtin_set_prop`. -/
def builtin_set_prop (ev : evaluator) (h : heap) (e : lenv) (a : lval) :
    Option (lval × heap) :=
  match a.cells with
  | none => none
  | some [] => none
  | some (syms :: vals) =>
    match syms.cells with
    | none => none
    | some [obj_exp, prop_name] =>
      match vals with
      | [value] =>
        match prop_name.sym_name with
        | none => some (lval_err_for_val "set-prop cannot define non-symbol", h)
        | some p =>
          match ev.eval h e obj_exp with
          | none => none
          | some (err m t, h1) => some (err m t, h1)
          | some (dict d, h1) =>
            match h1.table d with
            | none => none
            | some tbl => some (dict d, h1.set_table d (lval_table_insert tbl p value))
          | some (inst type props, h1) =>
            match type with
            | ctype _ _ type_props =>
              match prop_declared p type_props with
              | none => none
              | some false => some (lval_err_for_val "set-prop: no such property", h1)
              | some true =>
                match h1.table props with
                | none => none
                | some tbl =>
                  some (inst type props, h1.set_table props (lval_table_insert tbl p value))
            | _ => none
          | some (_, h1) => some (lval_err_for_val "Cannot call set-prop on this value", h1)
      | _ => some (lval_err_for_val "set-prop takes arguments in the form (set-prop {obj prop} value)", h)
    | some _ =>
      some (lval_err_for_val "set-prop takes arguments in the form (set-prop {obj prop} value)", h)

/-- The loop of `builtin_lambda`, `builtin_fun` and `builtin_def_type` that looks
up the type named by each typed parameter; `some false` when a name is unbound. -/
def param_types_ok (h : heap) (e : lenv) : List lval → Option Bool
  | [] => some true
  | kvpair _ (sym t) :: rest =>
    match lenv_get h e t with
    | none => none
    | some r => if r.is_err then some false else param_types_ok h e rest
  | _ :: rest => param_types_ok h e rest

/-- Function `builtin_lambda`. -/
def builtin_lambda (h : heap) (e : lenv) (a : lval) : Option (lval × heap) :=
  match a with
  | sexpr [args, fbody] =>
    match args.cells with
    | none => none
    | some params =>
      if params.any (fun n => !n.is_sym && !n.is_kvpair) then
        some (lval_err_for_val "Bad function arguments", h)
      else if !fbody.is_qexpr || fbody.cells.all List.isEmpty then
        some (lval_err_for_val "Bad function body", h)
      else
        match param_types_ok h e params with
        | none => none
        | some false => some (lval_err_for_val "Invalid type for lambda parameter", h)
        | some true => some (lambda args fbody, h)
  | _ => some (lval_err_for_val "Lambdas must be defined in the form (\\ {args} {body})", h)

/-- Function `builtin_fun`. -/
def builtin_fun (h : heap) (e : lenv) (a : lval) : Option (lval × heap) :=
  match a with
  | sexpr [qexpr (fname :: params), fbody] =>
    if !fbody.is_qexpr then some (lval_err_for_val "Bad function body", h)
    else
      match param_types_ok h e params with
      | none => none
      | some false => some (lval_err_for_val "Invalid type for function parameter", h)
      | some true =>
        match fname.sym_name with
        | none => none
        | some k =>
          match lenv_def h e k (lambda (qexpr params) fbody) with
          | none => none
          | some (some er, h1) => some (er, h1)
          | some (none, h1) => some (sexpr [], h1)
  | sexpr [_, _] => some (lval_err_for_val "Bad function name or arguments", h)
  | _ => some (lval_err_for_val "Functions must be defined in the form (fun {name args} {body})", h)

/-- Function `builtin_len`; the argument list is evaluated first, as an
S-expression. -/
def builtin_len (ev : evaluator) (h : heap) (e : lenv) (a : lval) : Option (lval × heap) :=
  match a with
  | sexpr c =>
    if c.isEmpty then none
    else
      match ev.eval h e (sexpr c) with
      | none => none
      | some (v, h1) => ev.len h1 e v
  | qexpr c => some (lval_int c.length, h)
  | str s => some (lval_int s.length, h)
  | buf d => some (lval_int d.length, h)
  | _ => some (lval_err_for_val "len works on strings, lists and buffers", h)

/-- Function `lval_is_true`. -/
def lval_is_true : lval → Bool
  | int x => x ≠ 0
  | flt f => !f.is_zero
  | byte b => b ≠ 0
  | qexpr c => !c.isEmpty
  | _ => true

/-- Function `builtin_if`. -/
def builtin_if (ev : evaluator) (h : heap) (e : lenv) (a : lval) : Option (lval × heap) :=
  match a.cells with
  | none => none
  | some [] => none
  | some (v :: rest) =>
    if !lval_is_number v && v.type ≠ LVAL_STR && a.type ≠ LVAL_QEXPR then
      some (lval_err_for_val "Function if expects a value for the condition", h)
    else
      match rest with
      | [x, y] =>
        if !x.is_qexpr then
          some (lval_err_for_val "Function 'if' passed incorrect type for arg 1", h)
        else if !y.is_qexpr then
          some (lval_err_for_val "Function 'if' passed incorrect type for arg 2", h)
        else if lval_is_true v then ev.eval_sexpr h e x else ev.eval_sexpr h e y
      | _ => some (lval_err_for_val "Function 'if' passed wrong number of arguments", h)

/-- The insertion loop of `builtin_dictionary`: each value is evaluated and stored
under its key. -/
def dictionary_entries (ev : evaluator) (e : lenv) :
    List lval → lval_table → heap → Option (lval_table × heap)
  | [], d, h => some (d, h)
  | kvpair (sym k) value :: rest, d, h =>
    match ev.eval h e value with
    | none => none
    | some (val, h1) => dictionary_entries ev e rest (lval_table_insert d k val) h1
  | _ :: _, _, _ => none

/-- Function `builtin_dictionary`. -/
def builtin_dictionary (ev : evaluator) (h : heap) (e : lenv) (a : lval) :
    Option (lval × heap) :=
  match a.cells with
  | none => none
  | some entries =>
    if entries.any (fun v => !v.is_kvpair) then
      some (lval_err_for_val "Initial entries for a dictionary must take the form (dictionary key1:value1 key2:value2)", h)
    else
      match dictionary_entries ev e entries (lval_table_alloc (entries.length * 2)) h with
      | none => none
      | some (d, h1) => some (dict (h1.alloc d).1, (h1.alloc d).2)

/-- The loop of `builtin_def_type` over the declared properties. -/
def def_type_props_ok (h : heap) (e : lenv) : List lval → Option (Option String)
  | [] => some none
  | kvpair _ (sym t) :: rest =>
    match lenv_get h e t with
    | none => none
    | some r =>
      if r.is_err then some (some "def-type: invalid type for parameter")
      else def_type_props_ok h e rest
  | kvpair _ _ :: rest => def_type_props_ok h e rest
  | sym _ :: rest => def_type_props_ok h e rest
  | _ :: _ => some (some "Arguments for def-type must be in the form (def-type {Name prop prop2})")

/-- Function `builtin_def_type`; the result of `lenv_def` is not looked at. -/
def builtin_def_type (h : heap) (e : lenv) (a : lval) : Option (lval × heap) :=
  match a.cells with
  | none => none
  | some [qexpr (type_name :: p1 :: ps)] =>
    match type_name with
    | sym name =>
      match def_type_props_ok h e (p1 :: ps) with
      | none => none
      | some (some msg) => some (lval_err_for_val msg, h)
      | some none =>
        match lval_copy_cells h (p1 :: ps) with
        | none => none
        | some (props, h1) =>
          match lenv_def { h1 with types := h1.types + 1 } e name (ctype h1.types name props) with
          | none => none
          | some (_, h2) => some (sexpr [], h2)
    | ptype _ => some (lval_err_for_val "Cannot redefine type", h)
    | ctype _ _ _ => some (lval_err_for_val "Cannot redefine type", h)
    | _ => some (lval_err_for_val "Arguments for def-type must be in the form (def-type {Name prop prop2})", h)
  | some _ =>
    some (lval_err_for_val "Arguments for def-type must be in the form (def-type {Name prop prop2})", h)

/-- Function `builtin_type_of`. -/
def builtin_type_of (h : heap) (a : lval) : Option (lval × heap) :=
  match a.cells with
  | none => none
  | some [inst t _] => some (t, h)
  | some [v] => some (ptype v.type, h)
  | some _ => some (lval_err_for_val "Function 'type-of' passed wrong number of arguments", h)

/-- The call `f->val.vfunc.builtin(e, a)` through the function pointer. -/
def call_builtin (ev : evaluator) (b : lbuiltin) (h : heap) (e : lenv) (a : lval) :
    Option (lval × heap) :=
  match b with
  | lbuiltin.b_def => builtin_def ev h e a
  | lbuiltin.b_set => builtin_set ev h e a
  | lbuiltin.b_set_prop => builtin_set_prop ev h e a
  | lbuiltin.b_lambda => builtin_lambda h e a
  | lbuiltin.b_fun => builtin_fun h e a
  | lbuiltin.b_list => builtin_list h a
  | lbuiltin.b_len => builtin_len ev h e a
  | lbuiltin.b_eval => builtin_eval ev h e a
  | lbuiltin.b_error => builtin_error h a
  | lbuiltin.b_try => builtin_try ev h e a
  | lbuiltin.b_if => builtin_if ev h e a
  | lbuiltin.b_dict => builtin_dictionary ev h e a
  | lbuiltin.b_def_type => builtin_def_type h e a
  | lbuiltin.b_type_of => builtin_type_of h a

/-- The check of one argument of `lval_call` against a typed parameter
`name:type`: `Sum.inl r` when the call returns the error `r`, otherwise the key
symbol and the value stored through `cast_val`. -/
def typed_param (ev : evaluator) (h : heap) (e : lenv) (sym0 : lval) (arg : lval) :
    Option (Sum lval (lval × Option lval)) :=
  match sym0 with
  | kvpair key _ =>
    match type_from_pair h e sym0 with
    | none => none
    | some type =>
      if type.is_err then some (Sum.inl (lval_err_for_val "Parameter: Invalid type"))
      else
        match value_matches_type ev.eq h arg type with
        | none => none
        | some (false, _) =>
          some (Sum.inl (lval_err_for_val "Parameter for function: Type mismatch"))
        | some (true, cast_val) => some (Sum.inr (key, cast_val))
  | other => some (Sum.inr (other, none))

/-- The binding loop of `lval_call`, at index `i` with the arguments from `i` on:
`Sum.inl r` when the call returns `r` from inside the loop, otherwise the
counters `used_args` and `needed_args_count` at the end of the loop. `env` is the
table of the new environment, `formals` the parameter list. The test
`i != needed_args_count-2` is made on `i + 2`. -/
def lval_call_bind (ev : evaluator) (e : lenv) (env : Nat) (formals : List lval)
    (needed_args_count : Nat) :
    Nat → List lval → Nat → heap → Option (Sum lval (Nat × Nat) × heap)
  | _, [], used_args, h => some (Sum.inr (used_args, needed_args_count), h)
  | i, arg :: rest, used_args, h =>
    if i ≥ formals.length then
      some (Sum.inl (lval_err_for_val "Function expects fewer arguments"), h)
    else
      match formals[i]? with
      | none => none
      | some sym0 =>
        match typed_param ev h e sym0 arg with
        | none => none
        | some (Sum.inl r) => some (Sum.inl r, h)
        | some (Sum.inr (s, cast_val)) =>
          match s.sym_name with
          | none => none
          | some name =>
            if name = "&" then
              if i + 2 ≠ needed_args_count then
                some (Sum.inl (lval_err_for_val
                  "Function format: Symbol '&' not followed by single symbol."), h)
              else
                match builtin_list h (qexpr (arg :: rest)) with
                | none => none
                | some (lst, h1) =>
                  match formals[i + 1]?.bind sym_name with
                  | none => none
                  | some last =>
                    match lenv_def_or_set h1 (env :: e) last lst with
                    | none => none
                    | some h2 => some (Sum.inr (used_args + 1, needed_args_count - 1), h2)
            else
              match lenv_def_or_set h (env :: e) name (cast_val.getD arg) with
              | none => none
              | some h1 =>
                lval_call_bind ev e env formals needed_args_count (i + 1) rest
                  (used_args + 1) h1

/-- Function `lval_call`. -/
def lval_call (ev : evaluator) (h : heap) (e : lenv) (f : lval) (a : lval) :
    Option (lval × heap) :=
  match f with
  | fn b => call_builtin ev b h e a
  | lambda args body =>
    match args.cells, a.cells with
    | some formals, some actuals =>
      let env := (h.alloc (lval_table_alloc formals.length)).1
      let h0 := (h.alloc (lval_table_alloc formals.length)).2
      match lval_call_bind ev e env formals formals.length 0 actuals 0 h0 with
      | none => none
      | some (Sum.inl r, h1) => some (r, h1)
      | some (Sum.inr (used_args, needed_args_count), h1) =>
        if used_args = needed_args_count then builtin_eval ev h1 (env :: e) (sexpr [body])
        else some (lval_err_for_val "Function expects more arguments", h1)
    | _, _ => none
  | _ => none

/-- The environment in which `lval_eval_sexpr` evaluates the children after the
first: a frame on the table of the first value when that is an instance or a
dictionary. -/
def temp_env (e : lenv) : lval → lenv
  | inst _ props => props :: e
  | dict vdict => vdict :: e
  | _ => e

/-- The loop of `lval_eval_sexpr` over the children after the first. -/
def eval_children (ev : evaluator) (e : lenv) : List lval → heap → Option (List lval × heap)
  | [], h => some ([], h)
  | input :: rest, h =>
    match ev.eval h e input with
    | none => none
    | some (output, h1) =>
      match eval_children ev e rest h1 with
      | none => none
      | some (outs, h2) => some (output :: outs, h2)

/-- The whole loop "Evaluate children" of `lval_eval_sexpr`: the values `nv`. -/
def eval_sexpr_children (ev : evaluator) (h : heap) (e : lenv) :
    List lval → Option (List lval × heap)
  | [] => some ([], h)
  | input :: rest =>
    match ev.eval h e input with
    | none => none
    | some (output, h1) =>
      match eval_children ev (temp_env e output) rest h1 with
      | none => none
      | some (outs, h2) => some (output :: outs, h2)

/-- The part of `lval_eval_sexpr` after the error check: the dispatch on the
first value `f` of a list `nv` without errors. -/
def eval_sexpr_head (ev : evaluator) (h : heap) (e : lenv) : List lval → Option (lval × heap)
  | [] => some (sexpr [], h)
  | f :: nv =>
    if nv.isEmpty && !f.is_fun then some (f, h)
    else
      match f with
      | ptype _ => lval_create_custom_type_instance ev h e f nv
      | ctype _ _ _ => lval_create_custom_type_instance ev h e f nv
      | inst _ _ => ev.eval h e (sexpr nv)
      | dict _ => ev.eval h e (sexpr nv)
      | fn _ => lval_call ev h e f (sexpr nv)
      | lambda _ _ => lval_call ev h e f (sexpr nv)
      | _ => some (lval_err_for_val "Expression starts with incorrect type", h)

/-- Function `lval_eval_sexpr`. -/
def lval_eval_sexpr (ev : evaluator) (h : heap) (e : lenv) (v : lval) : Option (lval × heap) :=
  match v.cells with
  | none => none
  | some cs =>
    match eval_sexpr_children ev h e cs with
    | none => none
    | some (nv, h1) =>
      match nv.find? is_err with
      | some er => some (er, h1)
      | none => eval_sexpr_head ev h1 e nv

/-- Function `lval_eval`. -/
def lval_eval (ev : evaluator) (h : heap) (e : lenv) (v : lval) : Option (lval × heap) :=
  match v with
  | sym k =>
    match lenv_get h e k with
    | none => none
    | some r => some (r, h)
  | sexpr c => lval_eval_sexpr ev h e (sexpr c)
  | other => some (other, h)

/-- The evaluator with `fuel` nested calls left: every call of `lval_eval`,
`lval_eval_sexpr`, `lval_call`, `builtin_len` or `lval_eq` made from a function
body runs with one unit less. -/
def interp : Nat → evaluator
  | 0 =>
    { eval := fun _ _ _ => none, eval_sexpr := fun _ _ _ => none,
      call := fun _ _ _ _ => none, len := fun _ _ _ => none, eq := fun _ _ _ => none }
  | fuel + 1 =>
    { eval := lval_eval (interp fuel), eval_sexpr := lval_eval_sexpr (interp fuel),
      call := lval_call (interp fuel), len := builtin_len (interp fuel),
      eq := lval_eq (fuel + 1) }

/-- The evaluation loop of `builtin_load_str` over the parsed top-level
expressions: it stops at the first error. -/
def builtin_load_str (ev : evaluator) (e : lenv) : List lval → heap → Option (lval × heap)
  | [], h => some (sexpr [], h)
  | x :: rest, h =>
    match ev.eval h e x with
    | none => none
    | some (r, h1) => if r.is_err then some (r, h1) else builtin_load_str ev e rest h1

/-- The names under which `lenv_add_builtins` registers the covered operations. -/
def builtin_names : List (String × lbuiltin) :=
  [("def", lbuiltin.b_def), ("set", lbuiltin.b_set), ("set-prop", lbuiltin.b_set_prop),
   ("lambda", lbuiltin.b_lambda), ("fun", lbuiltin.b_fun), ("list", lbuiltin.b_list),
   ("len", lbuiltin.b_len), ("if", lbuiltin.b_if), ("error", lbuiltin.b_error),
   ("try", lbuiltin.b_try), ("eval", lbuiltin.b_eval), ("type-of", lbuiltin.b_type_of),
   ("def-type", lbuiltin.b_def_type), ("dict", lbuiltin.b_dict)]

/-- Function `lenv_add_builtins` on the table of the root environment. -/
def lenv_add_builtins (t : lval_table) : lval_table :=
  builtin_names.foldl (fun t p =>
    match lval_table_get t p.1 with
    | some _ => t
    | none => lval_table_insert t p.1 (fn p.2)) t

/-- The state in which `main` starts evaluating: one table, holding the built-in
functions, at address 0. -/
def root_heap : heap := { tables := [lenv_add_builtins (lval_table_alloc 416)], types := 0 }

/-- The root environment of `main`. -/
def root_env : lenv := [0]

/-! ## Floating point arithmetic -/

namespace Flt

/-- The sign bit of a double. -/
def sign (f : Flt) : Bool := f.bits / 2 ^ 63 % 2 = 1

/-- Test for an infinity. -/
def is_inf (f : Flt) : Bool := f.bits / 2 ^ 52 % 2048 = 2047 ∧ f.bits % 2 ^ 52 = 0

/-- The significand of a finite double, as a natural number. -/
def mant (f : Flt) : Nat :=
  if f.bits / 2 ^ 52 % 2048 = 0 then f.bits % 2 ^ 52 else f.bits % 2 ^ 52 + 2 ^ 52

/-- The exponent of a finite double: its magnitude is `mant * 2 ^ expo / 2 ^ 1075`. -/
def expo (f : Flt) : Nat :=
  if f.bits / 2 ^ 52 % 2048 = 0 then 1 else f.bits / 2 ^ 52 % 2048

/-- The quiet NaN that stands for every NaN result (sign and payload of a NaN
result are not fixed by C). -/
def nan : Flt := ⟨2047 * 2 ^ 52 + 2 ^ 51⟩

/-- The infinity of the given sign. -/
def inf (neg : Bool) : Flt := ⟨(if neg then 2 ^ 63 else 0) + 2047 * 2 ^ 52⟩

/-- The zero of the given sign. -/
def zero (neg : Bool) : Flt := ⟨if neg then 2 ^ 63 else 0⟩

/-- The double nearest to `num / den` (`den` positive) with the given sign, ties
to even; an infinity when the result is out of range. -/
def round (neg : Bool) (num den : Nat) : Flt :=
  if num = 0 then zero neg
  else
    let ln := Nat.log2 num
    let ld := Nat.log2 den
    let fl : Int := if num * 2 ^ ld ≥ den * 2 ^ ln then (ln : Int) - ld else (ln : Int) - ld - 1
    let q : Int := max (fl - 52 + 1075) 1
    let n := if q ≤ 1075 then num * 2 ^ (1075 - q).toNat else num
    let d := if q ≤ 1075 then den else den * 2 ^ (q - 1075).toNat
    let m0 := n / d
    let r := n % d
    let m1 := if 2 * r > d ∨ (2 * r = d ∧ m0 % 2 = 1) then m0 + 1 else m0
    let m := if m1 = 2 ^ 53 then 2 ^ 52 else m1
    let q1 := if m1 = 2 ^ 53 then q + 1 else q
    if q1 ≥ 2047 then inf neg
    else if m < 2 ^ 52 then ⟨(zero neg).bits + m⟩
    else ⟨(zero neg).bits + q1.toNat * 2 ^ 52 + (m - 2 ^ 52)⟩

/-- Operation `-x`. -/
def neg (x : Flt) : Flt := ⟨if x.sign then x.bits - 2 ^ 63 else x.bits + 2 ^ 63⟩

/-- Operation `x + y`, rounding to nearest. -/
def add (x y : Flt) : Flt :=
  if x.is_nan || y.is_nan then nan
  else if x.is_inf then (if y.is_inf && x.sign != y.sign then nan else x)
  else if y.is_inf then y
  else
    let a : Int := if x.sign then - ((x.mant * 2 ^ x.expo : Nat) : Int) else (x.mant * 2 ^ x.expo : Nat)
    let b : Int := if y.sign then - ((y.mant * 2 ^ y.expo : Nat) : Int) else (y.mant * 2 ^ y.expo : Nat)
    let s := a + b
    if s = 0 then zero (x.sign && y.sign)
    else round (s < 0) s.natAbs (2 ^ 1075)

/-- Operation `x - y`. -/
def sub (x y : Flt) : Flt := add x (neg y)

/-- Operation `x * y`. -/
def mul (x y : Flt) : Flt :=
  if x.is_nan || y.is_nan then nan
  else if x.is_inf then (if y.is_zero then nan else inf (x.sign != y.sign))
  else if y.is_inf then (if x.is_zero then nan else inf (x.sign != y.sign))
  else round (x.sign != y.sign) (x.mant * y.mant * 2 ^ (x.expo + y.expo)) (2 ^ 2150)

/-- Operation `x / y`. -/
def div (x y : Flt) : Flt :=
  if x.is_nan || y.is_nan then nan
  else if x.is_inf then (if y.is_inf then nan else inf (x.sign != y.sign))
  else if y.is_inf then zero (x.sign != y.sign)
  else if y.is_zero then (if x.is_zero then nan else inf (x.sign != y.sign))
  else round (x.sign != y.sign) (x.mant * 2 ^ x.expo) (y.mant * 2 ^ y.expo)

/-- Function `fmod` of the C library. -/
def fmod (x y : Flt) : Flt :=
  if x.is_nan || y.is_nan || x.is_inf || y.is_zero then nan
  else if y.is_inf then x
  else round x.sign (x.mant * 2 ^ x.expo % (y.mant * 2 ^ y.expo)) (2 ^ 1075)

/-- Comparison `x < y`. -/
def lt (x y : Flt) : Bool :=
  if x.is_nan || y.is_nan then false
  else if x.is_zero && y.is_zero then false
  else if x.sign then (if y.sign then y.bits < x.bits else true)
  else (if y.sign then false else x.bits < y.bits)

/-- Comparison `x <= y`. -/
def le (x y : Flt) : Bool := lt x y || eq x y

end Flt

/-! ## Arithmetic (`benzl-builtin-math.c`) -/

/-- The C type `builtin_math_op`. -/
inductive builtin_math_op
  | builtin_op_add | builtin_op_subtract | builtin_op_multiply | builtin_op_divide
  | builtin_op_modulo | builtin_op_shift_right | builtin_op_shift_left
  | builtin_op_bitwise_and | builtin_op_bitwise_or | builtin_op_bitwise_xor
  deriving DecidableEq, Repr

open builtin_math_op

/-- The value of a `long` after an arithmetic operation: the exact result reduced
to 64 bits, two's complement. -/
def wrap_long (x : Int) : Int := (x + 2 ^ 63) % 2 ^ 64 - 2 ^ 63

/-- The 64 bits of a `long`, as a natural number. -/
def long_bits (x : Int) : Nat := (x % 2 ^ 64).toNat

mutual
/-- The first step of `builtin_op`, `builtin_ord`, `builtin_min` and `builtin_max` on
a single argument `x`: the children of a list, read the same way, stand for the
arguments `a`. -/
def single_list_arg : lval → List lval → List lval
  | qexpr c, _ => single_list_args c
  | _, a => a
/-- The arguments that `builtin_op`, `builtin_ord`, `builtin_min` and `builtin_max`
work on: the recursive call on a single list argument. -/
def single_list_args : List lval → List lval
  | [] => []
  | x :: rest =>
    match rest with
    | [] => single_list_arg x [x]
    | _ => x :: rest
end

/-- One assignment `x op= y` of the loop of `integer_op`: `Sum.inl` holds the error
that is returned. No result where C leaves the operation on `long` undefined and
the target traps or has no single answer: the least `long` divided by -1, and a
shift count outside `0..63`. -/
def integer_step (op : builtin_math_op) (x y : Int) : Option (Sum lval Int) :=
  match op with
  | builtin_op_add => some (Sum.inr (wrap_long (x + y)))
  | builtin_op_subtract => some (Sum.inr (wrap_long (x - y)))
  | builtin_op_multiply => some (Sum.inr (wrap_long (x * y)))
  | builtin_op_divide =>
    if y = 0 then some (Sum.inl (lval_err_for_val "Division by zero!"))
    else if x = - 2 ^ 63 ∧ y = -1 then none
    else some (Sum.inr (Int.tdiv x y))
  | builtin_op_modulo =>
    if y = 0 then some (Sum.inl (lval_err_for_val "Modulo by zero"))
    else if x = - 2 ^ 63 ∧ y = -1 then none
    else some (Sum.inr (Int.tmod x y))
  | builtin_op_shift_right =>
    if 0 ≤ y ∧ y < 64 then some (Sum.inr (x / 2 ^ y.toNat)) else none
  | builtin_op_shift_left =>
    if 0 ≤ y ∧ y < 64 then some (Sum.inr (wrap_long (x * 2 ^ y.toNat))) else none
  | builtin_op_bitwise_and => some (Sum.inr (wrap_long (long_bits x &&& long_bits y : Nat)))
  | builtin_op_bitwise_or => some (Sum.inr (wrap_long (long_bits x ||| long_bits y : Nat)))
  | builtin_op_bitwise_xor => some (Sum.inr (wrap_long (long_bits x ^^^ long_bits y : Nat)))

/-- The loop of `integer_op` over the arguments after the first. -/
def integer_loop (op : builtin_math_op) : Int → List lval → Option lval
  | x, [] => some (int x)
  | x, int y :: rest =>
    match integer_step op x y with
    | none => none
    | some (Sum.inl er) => some er
    | some (Sum.inr x1) => integer_loop op x1 rest
  | _, _ :: _ => none

/-- Function `integer_op`, on a list of integers. -/
def integer_op (a : List lval) (op : builtin_math_op) : Option lval :=
  match a with
  | int x :: rest =>
    if op = builtin_op_subtract ∧ rest.isEmpty then some (lval_int (- x))
    else integer_loop op x rest
  | _ => none

/-- One assignment `x op= y` of the loop of `float_op`. The test before `fmod`
reads the divisor through the integer member of the union: it is zero for `+0.0`
only. -/
def float_step (op : builtin_math_op) (x y : Flt) : Sum lval Flt :=
  match op with
  | builtin_op_add => Sum.inr (Flt.add x y)
  | builtin_op_subtract => Sum.inr (Flt.sub x y)
  | builtin_op_multiply => Sum.inr (Flt.mul x y)
  | builtin_op_divide =>
    if y.is_zero then Sum.inl (lval_err_for_val "Division by zero")
    else Sum.inr (Flt.div x y)
  | builtin_op_modulo =>
    if y.bits = 0 then Sum.inl (lval_err_for_val "Modulo by zero")
    else Sum.inr (Flt.fmod x y)
  | _ => Sum.inl (lval_err_for_val "Unsupported operation on Float")

/-- The loop of `float_op` over the arguments after the first. -/
def float_loop (op : builtin_math_op) : Flt → List lval → Option lval
  | x, [] => some (flt x)
  | x, flt y :: rest =>
    match float_step op x y with
    | Sum.inl er => some er
    | Sum.inr x1 => float_loop op x1 rest
  | _, _ :: _ => none

/-- Function `float_op`, on a list of floats. -/
def float_op (a : List lval) (op : builtin_math_op) : Option lval :=
  match a with
  | flt x :: rest =>
    if op = builtin_op_subtract ∧ rest.isEmpty then some (flt (Flt.neg x))
    else float_loop op x rest
  | _ => none

/-- One assignment `x op= y` of the loop of `byte_op`: the operands are promoted to
`int` and the result is stored in 8 bits. No result for a shift count of 32 or
more, which C leaves undefined. -/
def byte_step (op : builtin_math_op) (x y : Nat) : Option (Sum lval Nat) :=
  match op with
  | builtin_op_add => some (Sum.inr ((x + y) % 256))
  | builtin_op_subtract => some (Sum.inr (((x : Int) - y) % 256).toNat)
  | builtin_op_multiply => some (Sum.inr (x * y % 256))
  | builtin_op_divide =>
    if y = 0 then some (Sum.inl (lval_err_for_val "Division by zero"))
    else some (Sum.inr (x / y))
  | builtin_op_modulo =>
    if y = 0 then some (Sum.inl (lval_err_for_val "Modulo by zero"))
    else some (Sum.inr (x % y))
  | builtin_op_shift_right => if y < 32 then some (Sum.inr (x / 2 ^ y % 256)) else none
  | builtin_op_shift_left => if y < 32 then some (Sum.inr (x * 2 ^ y % 256)) else none
  | builtin_op_bitwise_and => some (Sum.inr (x &&& y))
  | builtin_op_bitwise_or => some (Sum.inr (x ||| y))
  | builtin_op_bitwise_xor => some (Sum.inr (x ^^^ y))

/-- The loop of `byte_op` over the arguments after the first. -/
def byte_loop (op : builtin_math_op) : Nat → List lval → Option lval
  | x, [] => some (byte x)
  | x, byte y :: rest =>
    match byte_step op x y with
    | none => none
    | some (Sum.inl er) => some er
    | some (Sum.inr x1) => byte_loop op x1 rest
  | _, _ :: _ => none

/-- Function `byte_op`, on a list of bytes. -/
def byte_op (a : List lval) (op : builtin_math_op) : Option lval :=
  if a.length < 2 then some (lval_err_for_val "operation requires at least 2 arguments!")
  else
    match a with
    | byte x :: rest => byte_loop op x rest
    | _ => none

/-- Function `cast_list_to_type`; the assertion fails when a cast is invalid. -/
def cast_list_to_type : List lval → lval_type → Option (List lval)
  | [], _ => some []
  | x :: rest, type =>
    match cast_to x type with
    | none => none
    | some b =>
      match cast_list_to_type rest type with
      | none => none
      | some bs => some (b :: bs)

/-- The loop of `builtin_op` that finds the type of the operation, from the
current `type`; no result when an argument is not a number (the function returns
an error). -/
def op_type : lval_type → List lval → Option lval_type
  | type, [] => some type
  | _, flt _ :: rest => op_type LVAL_FLT rest
  | type, int _ :: rest => op_type (if type ≠ LVAL_FLT then LVAL_INT else type) rest
  | type, byte _ :: rest => op_type type rest
  | _, _ :: _ => none

/-- Function `builtin_op` on the arguments `a`. -/
def builtin_op (a : lval) (op : builtin_math_op) : Option lval :=
  match a.cells with
  | none => none
  | some c =>
    match op_type LVAL_BYTE (single_list_args c) with
    | none => some (lval_err_for_val "Cannot do operation on this type")
    | some type =>
      if type = LVAL_BYTE then byte_op (single_list_args c) op
      else if type = LVAL_INT then
        match cast_list_to_type (single_list_args c) LVAL_INT with
        | none => none
        | some exp => integer_op exp op
      else
        match cast_list_to_type (single_list_args c) LVAL_FLT with
        | none => none
        | some exp => float_op exp op

/-- Function `builtin_add`. The argument `join` stands for `builtin_join`
(`benzl-builtin-list.c`), which takes over when an argument is not a number. -/
def builtin_add (join : heap → lval → Option (lval × heap)) (h : heap) (a : lval) :
    Option (lval × heap) :=
  match a.cells with
  | none => none
  | some c =>
    if c.all lval_is_number then (builtin_op a builtin_op_add).map (fun r => (r, h))
    else join h a

/-- Function `builtin_subtract`. -/
def builtin_subtract (h : heap) (a : lval) : Option (lval × heap) :=
  (builtin_op a builtin_op_subtract).map (fun r => (r, h))

/-- Function `builtin_multiply`. -/
def builtin_multiply (h : heap) (a : lval) : Option (lval × heap) :=
  (builtin_op a builtin_op_multiply).map (fun r => (r, h))

/-- Function `builtin_divide`. -/
def builtin_divide (h : heap) (a : lval) : Option (lval × heap) :=
  (builtin_op a builtin_op_divide).map (fun r => (r, h))

/-- Function `builtin_modulo`. -/
def builtin_modulo (h : heap) (a : lval) : Option (lval × heap) :=
  (builtin_op a builtin_op_modulo).map (fun r => (r, h))

/-! ## Comparison (`benzl-builtin-compare.c`) -/

/-- The C type `builtin_ord_op`. -/
inductive builtin_ord_op
  | builtin_ord_op_less_than | builtin_ord_op_greater_than
  | builtin_ord_op_less_than_or_equal | builtin_ord_op_greater_than_or_equal
  deriving DecidableEq, Repr

open builtin_ord_op

/-- Function `builtin_integer_ord`, on a list of two integers. -/
def builtin_integer_ord (a : List lval) (op : builtin_ord_op) : Option lval :=
  match a with
  | int v1 :: int v2 :: _ =>
    match op with
    | builtin_ord_op_less_than => some (lval_int (if v1 < v2 then 1 else 0))
    | builtin_ord_op_greater_than => some (lval_int (if v1 > v2 then 1 else 0))
    | builtin_ord_op_less_than_or_equal => some (lval_int (if v1 ≤ v2 then 1 else 0))
    | builtin_ord_op_greater_than_or_equal => some (lval_int (if v1 ≥ v2 then 1 else 0))
  | _ => none

/-- Function `builtin_float_ord`, on a list of two floats. -/
def builtin_float_ord (a : List lval) (op : builtin_ord_op) : Option lval :=
  match a with
  | flt v1 :: flt v2 :: _ =>
    match op with
    | builtin_ord_op_less_than => some (lval_int (if Flt.lt v1 v2 then 1 else 0))
    | builtin_ord_op_greater_than => some (lval_int (if Flt.lt v2 v1 then 1 else 0))
    | builtin_ord_op_less_than_or_equal => some (lval_int (if Flt.le v1 v2 then 1 else 0))
    | builtin_ord_op_greater_than_or_equal => some (lval_int (if Flt.le v2 v1 then 1 else 0))
  | _ => none

/-- Function `builtin_byte_ord`, on a list of two bytes. -/
def builtin_byte_ord (a : List lval) (op : builtin_ord_op) : Option lval :=
  match a with
  | byte v1 :: byte v2 :: _ =>
    match op with
    | builtin_ord_op_less_than => some (lval_int (if v1 < v2 then 1 else 0))
    | builtin_ord_op_greater_than => some (lval_int (if v1 > v2 then 1 else 0))
    | builtin_ord_op_less_than_or_equal => some (lval_int (if v1 ≤ v2 then 1 else 0))
    | builtin_ord_op_greater_than_or_equal => some (lval_int (if v1 ≥ v2 then 1 else 0))
  | _ => none

/-- The bytes that `strcmp` compares: the bytes of the text up to the first zero
byte (a character stands for one byte, as in `cast_to_buffer`). -/
def c_string (s : String) : List Nat :=
  (s.toList.map (fun c => c.toNat % 256)).takeWhile (fun b => b ≠ 0)

/-- The sign of `strcmp` on two byte strings. -/
def strcmp : List Nat → List Nat → Ordering
  | [], [] => Ordering.eq
  | [], _ :: _ => Ordering.lt
  | _ :: _, [] => Ordering.gt
  | x :: xs, y :: ys => if x < y then Ordering.lt else if y < x then Ordering.gt else strcmp xs ys

/-- Function `builtin_string_ord`, on a list of two strings. -/
def builtin_string_ord (a : List lval) (op : builtin_ord_op) : Option lval :=
  match a with
  | str v1 :: str v2 :: _ =>
    match op with
    | builtin_ord_op_less_than =>
      some (lval_int (if strcmp (c_string v1) (c_string v2) = Ordering.lt then 1 else 0))
    | builtin_ord_op_greater_than =>
      some (lval_int (if strcmp (c_string v1) (c_string v2) = Ordering.gt then 1 else 0))
    | builtin_ord_op_less_than_or_equal =>
      some (lval_int (if strcmp (c_string v1) (c_string v2) ≠ Ordering.gt then 1 else 0))
    | builtin_ord_op_greater_than_or_equal =>
      some (lval_int (if strcmp (c_string v1) (c_string v2) ≠ Ordering.lt then 1 else 0))
  | _ => none

/-- The type that `builtin_ord` takes from the first argument; no result when the
function returns an error. -/
def ord_type_first : lval → Option lval_type
  | str _ => some LVAL_STR
  | flt _ => some LVAL_FLT
  | int _ => some LVAL_INT
  | byte _ => some LVAL_BYTE
  | _ => none

/-- The type of the comparison after `builtin_ord` has looked at the second
argument; no result when the function returns an error. -/
def ord_type_second (type : lval_type) : lval → Option lval_type
  | str _ => some LVAL_STR
  | flt _ => some (if type ≠ LVAL_STR then LVAL_FLT else type)
  | int _ => some (if type ≠ LVAL_STR ∧ type ≠ LVAL_FLT then LVAL_INT else type)
  | byte _ => some type
  | _ => none

/-- Function `builtin_ord` on the arguments `a`. -/
def builtin_ord (a : lval) (op : builtin_ord_op) : Option lval :=
  match a.cells with
  | none => none
  | some c =>
    match single_list_args c with
    | [v1, v2] =>
      match ord_type_first v1 with
      | none => some (lval_err_for_val "Unexpected type for arg 0 of comparison")
      | some t1 =>
        match ord_type_second t1 v2 with
        | none => some (lval_err_for_val "Unexpected type for arg 1 of comparison")
        | some type =>
          if type = LVAL_BYTE then builtin_byte_ord [v1, v2] op
          else if type = LVAL_INT then
            match cast_list_to_type [v1, v2] LVAL_INT with
            | none => none
            | some exp => builtin_integer_ord exp op
          else if type = LVAL_FLT then
            match cast_list_to_type [v1, v2] LVAL_FLT with
            | none => none
            | some exp => builtin_float_ord exp op
          else
            match cast_list_to_type [v1, v2] LVAL_STR with
            | none => none
            | some exp => builtin_string_ord exp op
    | _ => some (lval_err_for_val "Function passed wrong number of arguments")

/-- Function `builtin_less_than_or_equal`. -/
def builtin_less_than_or_equal (a : lval) : Option lval :=
  builtin_ord a builtin_ord_op_less_than_or_equal

/-- Function `builtin_greater_than_or_equal`. -/
def builtin_greater_than_or_equal (a : lval) : Option lval :=
  builtin_ord a builtin_ord_op_greater_than_or_equal

/-- The loop of `builtin_min` and `builtin_max` from the current `first`, with the
comparison `ord` that decides whether `first` stays: `Sum.inl` holds the error
that is returned, `Sum.inr` the last `first`. -/
def min_max_loop (ord : lval → Option lval) : lval → List lval → Option (Sum lval lval)
  | first, [] => some (Sum.inr first)
  | first, next :: rest =>
    match ord (qexpr [first, next]) with
    | none => none
    | some (err m t) => some (Sum.inl (err m t))
    | some (int v) => min_max_loop ord (if v = 0 then next else first) rest
    | some _ => none

/-- Function `builtin_min`. -/
def builtin_min (h : heap) (a : lval) : Option (lval × heap) :=
  match a.cells with
  | none => none
  | some c =>
    match single_list_args c with
    | first :: next :: rest =>
      match min_max_loop builtin_less_than_or_equal first (next :: rest) with
      | none => none
      | some (Sum.inl er) => some (er, h)
      | some (Sum.inr r) => lval_copy h r
    | _ => some (lval_err_for_val "min requires least two numeric arguments", h)

/-- Function `builtin_max`. -/
def builtin_max (h : heap) (a : lval) : Option (lval × heap) :=
  match a.cells with
  | none => none
  | some c =>
    match single_list_args c with
    | first :: next :: rest =>
      match min_max_loop builtin_greater_than_or_equal first (next :: rest) with
      | none => none
      | some (Sum.inl er) => some (er, h)
      | some (Sum.inr r) => lval_copy h r
    | _ => some (lval_err "max requires at least two numeric arguments", h)

/-- Function `builtin_equal`. -/
def builtin_equal (ev : evaluator) (h : heap) (a : lval) : Option (lval × heap) :=
  match a.cells with
  | none => none
  | some [x, y] =>
    match ev.eq h x y with
    | none => none
    | some r => some (lval_int (if r then 1 else 0), h)
  | some _ => some (lval_err_for_val "Function '==' passed wrong number of arguments", h)

/-- Function `builtin_not_equal`. -/
def builtin_not_equal (ev : evaluator) (h : heap) (a : lval) : Option (lval × heap) :=
  match a.cells with
  | none => none
  | some [x, y] =>
    match ev.eq h x y with
    | none => none
    | some r => some (lval_int (if r then 0 else 1), h)
  | some _ => some (lval_err_for_val "Function '!=' passed wrong number of arguments", h)

/-! ## Printing (`benzl-sprintf.c`) -/

/-- Function `builtin_func_string`, on the built-in functions of the embedding. -/
def builtin_func_string : lbuiltin → String
  | lbuiltin.b_def => "def"
  | lbuiltin.b_set => "set"
  | lbuiltin.b_set_prop => "set-prop"
  | lbuiltin.b_lambda => "lambda"
  | lbuiltin.b_fun => "fun"
  | lbuiltin.b_list => "list"
  | lbuiltin.b_len => "len"
  | lbuiltin.b_eval => "eval"
  | lbuiltin.b_error => "error"
  | lbuiltin.b_try => "try"
  | lbuiltin.b_if => "if"
  | lbuiltin.b_dict => "dict"
  | lbuiltin.b_def_type => "def-type"
  | lbuiltin.b_type_of => "type-of"

/-- Function `lval_table_entries`: the entries bucket by bucket, along each chain. -/
def lval_table_entries (table : lval_table) : List lval_entry := table.items.flatten

/-- The text `0x%02X` of one byte. -/
def sprint_byte (b : Nat) : String :=
  "0x" ++ String.mk [hex_digit (b / 16 % 16), hex_digit (b % 16)]

/-- The loop of `lval_expr_sprint` and of the other cases of `lval_sprint` over
the items of a list, with `f` printing one item. -/
def sprint_items (f : lval → Option String) : List lval → Option (List String)
  | [] => some []
  | x :: rest =>
    match f x with
    | none => none
    | some s =>
      match sprint_items f rest with
      | none => none
      | some ss => some (s :: ss)

/-- The loop of `lval_sprint` over the entries of a table: `key:value` for each. -/
def sprint_entries (f : lval → Option String) : List lval_entry → Option (List String)
  | [] => some []
  | en :: rest =>
    match f en.value with
    | none => none
    | some s =>
      match sprint_entries f rest with
      | none => none
      | some ss => some ((en.key ++ ":" ++ s) :: ss)

/-- Function `lval_expr_sprint`, given the printed children: nothing for an empty
expression. -/
def lval_expr_sprint (popen pclose : String) (items : List String) : String :=
  if items.isEmpty then "" else popen ++ " ".intercalate items ++ pclose

/-- Function `lval_sprint`: the text appended to the buffer. The fuel bounds the
nesting, which runs through the tables of dictionaries and instances. -/
def lval_sprint : Nat → heap → lval → Bool → Option String
  | 0, _, _, _ => none
  | n + 1, h, v, quote_strings =>
    match v with
    | int x => lval_sprint_number (int x)
    | flt x => lval_sprint_number (flt x)
    | byte x => lval_sprint_number (byte x)
    | sym name => some name
    | fn b => some (builtin_func_string b)
    | lambda args body =>
      match lval_sprint n h args quote_strings, lval_sprint n h body quote_strings with
      | some a, some b => some ("(\\ " ++ a ++ " " ++ b ++ ")")
      | _, _ => none
    | str s => some (if quote_strings then "\"" ++ s ++ "\"" else s)
    | buf d => some ("<" ++ " ".intercalate (d.map sprint_byte) ++ ">")
    | sexpr c =>
      (sprint_items (fun x => lval_sprint n h x true) c).map (lval_expr_sprint "(" ")")
    | qexpr c =>
      (sprint_items (fun x => lval_sprint n h x true) c).map (lval_expr_sprint "\x7b" "\x7d")
    | err m _ => some ("<Error: " ++ m ++ ">")
    | caught_err m _ => some ("<Error: " ++ m ++ ">")
    | ctype _ name props =>
      (sprint_items (fun x => lval_sprint n h x true) props).map
        (fun items => "<" ++ name ++ " " ++ " ".intercalate items ++ ">")
    | ptype t => some ("<" ++ ltype_name t ++ ">")
    | kvpair (sym k) value => (lval_sprint n h value true).map (fun s => k ++ ":" ++ s)
    | kvpair _ _ => none
    | dict d =>
      match h.table d with
      | none => none
      | some t =>
        (sprint_entries (fun x => lval_sprint n h x true) (lval_table_entries t)).map
          (fun items => "(dict " ++ " ".intercalate items ++ ")")
    | inst (ctype _ name _) props =>
      match h.table props with
      | none => none
      | some t =>
        (sprint_entries (fun x => lval_sprint n h x true) (lval_table_entries t)).map
          (fun items => "(" ++ name ++ " " ++ " ".intercalate items ++ ")")
    | inst _ _ => none

/-- Function `lval_to_string`. -/
def lval_to_string (fuel : Nat) (h : heap) (v : lval) : Option String :=
  lval_sprint fuel h v true

/-! ## Lists, strings and buffers (`benzl-builtin-list.c`) -/

/-- Function `get_element`, with `a` holding the arguments and `num` the index: a
negative index has the length added. The test `index >= len` is made on unsigned
values, so an index that is still negative is out of range. -/
def get_element (ev : evaluator) (h : heap) (e : lenv) (a : List lval) (num : Int) :
    Option (lval × heap) :=
  match a with
  | [v] =>
    match v with
    | qexpr c =>
      let index : Int := if num < 0 then (c.length : Int) + num else num
      if index < 0 ∨ index ≥ c.length then some (lval_err_for_val "out of range", h)
      else
        match c.get? index.toNat with
        | some x => ev.eval h e x
        | none => none
    | str s =>
      let index : Int := if num < 0 then (s.length : Int) + num else num
      if index < 0 ∨ index ≥ s.length then some (lval_err_for_val "out of range", h)
      else
        match s.toList.get? index.toNat with
        | some c => some (str (String.mk [c]), h)
        | none => none
    | buf d =>
      let index : Int := if num < 0 then (d.length : Int) + num else num
      if index < 0 ∨ index ≥ d.length then some (lval_err_for_val "out of range", h)
      else
        match d.get? index.toNat with
        | some b => some (lval_byte b, h)
        | none => none
    | _ => some (lval_err_for_val "expects a list, buffer or string argument", h)
  | _ => some (lval_err_for_val "Function passed wrong number of arguments", h)

/-- Function `builtin_last`. -/
def builtin_last (ev : evaluator) (h : heap) (e : lenv) (a : lval) : Option (lval × heap) :=
  match a.cells with
  | none => none
  | some c => get_element ev h e c (-1)

/-- Function `builtin_first`. -/
def builtin_first (ev : evaluator) (h : heap) (e : lenv) (a : lval) : Option (lval × heap) :=
  match a.cells with
  | none => none
  | some c => get_element ev h e c 0

/-- Function `builtin_nth`; reading an argument that is not there fails the
assertion of `child`. -/
def builtin_nth (ev : evaluator) (h : heap) (e : lenv) (a : lval) : Option (lval × heap) :=
  match a.cells with
  | some (first :: rest) =>
    match cast_to first LVAL_INT with
    | none => some (lval_err_for_val "nth expects an number for the first argument", h)
    | some (int num) =>
      match rest with
      | second :: _ => get_element ev h e [second] num
      | [] => none
    | some _ => none
  | _ => none

/-- The loop of `builtin_join` that chooses the type of the result: the first
argument that is a buffer or a byte, or a list or an S-expression, decides. -/
def join_type : List lval → lval_type
  | [] => LVAL_STR
  | buf _ :: _ => LVAL_BUF
  | byte _ :: _ => LVAL_BUF
  | qexpr _ :: _ => LVAL_QEXPR
  | sexpr _ :: _ => LVAL_QEXPR
  | _ :: rest => join_type rest

/-- The loop of `builtin_join` that makes a list: the children of a list argument
are added one by one, any other argument is added as it is. -/
def join_list : List lval → List lval
  | [] => []
  | qexpr c :: rest => c ++ join_list rest
  | y :: rest => y :: join_list rest

/-- The loop of `builtin_join` that makes a string: every argument other than an
empty S-expression is printed. -/
def join_string (fuel : Nat) (h : heap) : List lval → Option String
  | [] => some ""
  | sexpr [] :: rest => join_string fuel h rest
  | v :: rest =>
    match lval_sprint fuel h v false, join_string fuel h rest with
    | some s, some r => some (s ++ r)
    | _, _ => none

/-- The loop of `builtin_join` that makes a buffer, from the value `x` built so
far; `rec` is the nested call of `builtin_join` made for a list argument, whose
result replaces `x`. Reading `x` as a buffer when a nested call has returned
something else is undefined. -/
def join_buffer (rec : lval → Option lval) : lval → List lval → Option lval
  | x, [] => some x
  | x, qexpr c :: rest =>
    match rec (qexpr (x :: c)) with
    | none => none
    | some r => join_buffer rec r rest
  | x, v :: rest =>
    match cast_to v LVAL_BUF with
    | none => some (lval_err_for_val "Cannot perform join on this type")
    | some (buf b) =>
      match x with
      | buf xd => join_buffer rec (buf (xd ++ b)) rest
      | _ => none
    | some _ => none

/-- Function `builtin_join`; the fuel bounds the nesting of the calls. The heap is
read for printing only. -/
def builtin_join : Nat → heap → lval → Option lval
  | 0, _, _ => none
  | n + 1, h, a =>
    match a.cells with
    | none => none
    | some c =>
      if join_type c = LVAL_QEXPR then some (qexpr (join_list c))
      else if join_type c = LVAL_STR then (join_string (n + 1) h c).map str
      else join_buffer (builtin_join n h) (buf []) c

/-! ## Buffers (`benzl-builtin-buffer.c`) -/

/-- Constructor `lval_buf`: `size` zero bytes (`calloc`). -/
def lval_buf (size : Nat) : lval := buf (List.replicate size 0)

/-- Function `builtin_create_buffer`. A negative length is converted to a size of
more than `2 ^ 63` bytes, which cannot be allocated. -/
def builtin_create_buffer (a : lval) : Option lval :=
  match a.cells with
  | none => none
  | some [int n] => if n < 0 then none else some (lval_buf n.toNat)
  | some _ =>
    some (lval_err_for_val "create-buffer takes a single integer argument for the length")

/-- The integer types that `PUT_VALUE` and `GET_VALUE` are used with. -/
inductive c_type
  | uint8_t | int8_t | uint16_t | int16_t | uint32_t | int32_t | uint64_t
  deriving DecidableEq, Repr

namespace c_type

/-- Operator `sizeof`. -/
def sizeof : c_type → Nat
  | uint8_t => 1
  | int8_t => 1
  | uint16_t => 2
  | int16_t => 2
  | uint32_t => 4
  | int32_t => 4
  | uint64_t => 8

/-- Whether the type is signed. -/
def signed : c_type → Bool
  | int8_t => true
  | int16_t => true
  | int32_t => true
  | _ => false

/-- The bits of the conversion `(__type)x` of a `long`. -/
def bits (t : c_type) (x : Int) : Nat := (x % 2 ^ (8 * t.sizeof)).toNat

/-- The value of the type that has the bits `u`: two's complement for a signed
type. -/
def value (t : c_type) (u : Nat) : Int :=
  if t.signed ∧ 2 ^ (8 * t.sizeof - 1) ≤ u then (u : Int) - 2 ^ (8 * t.sizeof) else u

end c_type

/-- The `n` bytes of the bits `x` in memory order (little endian). -/
def to_bytes : Nat → Nat → List Nat
  | 0, _ => []
  | n + 1, x => x % 256 :: to_bytes n (x / 256)

/-- The bits held by bytes in memory order (little endian). -/
def of_bytes : List Nat → Nat
  | [] => 0
  | b :: bs => b + 256 * of_bytes bs

/-- The test `buffer->val.vbuf.size < offset->val.vint + n` that guards every
access: the sum is computed on unsigned 64-bit values. -/
def offset_out_of_range (size : Nat) (offset : Int) (n : Nat) : Bool :=
  size < ((offset + n) % 2 ^ 64).toNat

/-- Operation `memcpy(data + offset, src, n)` into a buffer of bytes `data`;
`none` when a byte outside the buffer would be written. -/
def buffer_write (data : List Nat) (offset : Int) (src : List Nat) : Option (List Nat) :=
  if 0 ≤ offset ∧ offset + src.length ≤ data.length then
    some (data.take offset.toNat ++ src ++ data.drop (offset.toNat + src.length))
  else none

/-- Operation `memcpy(dst, data + offset, n)` from a buffer of bytes `data`;
`none` when a byte outside the buffer would be read. -/
def buffer_read (data : List Nat) (offset : Int) (n : Nat) : Option (List Nat) :=
  if 0 ≤ offset ∧ offset + n ≤ data.length then some ((data.drop offset.toNat).take n)
  else none

/-- Function `bad_args`. -/
def bad_args : lval := lval_err_for_val "expects arguments in the form (buffer offset value)"

/-- Function `out_of_range`. -/
def out_of_range : lval := lval_err_for_val "offset out of range"

/-- The body `PUT_VALUE(a, name, type)`. -/
def PUT_VALUE (t : c_type) (a : lval) : Option lval :=
  match a.cells with
  | none => none
  | some [buf data, o, v] =>
    match cast_to o LVAL_INT with
    | none => some bad_args
    | some (int offset) =>
      match cast_to v LVAL_INT with
      | none => some bad_args
      | some (int value) =>
        if offset_out_of_range data.length offset t.sizeof then some out_of_range
        else (buffer_write data offset (to_bytes t.sizeof (t.bits value))).map buf
      | some _ => none
    | some _ => none
  | some _ => some bad_args

/-- The body `GET_VALUE(a, name, type, lval_func)`. -/
def GET_VALUE (t : c_type) (lval_func : Int → lval) (a : lval) : Option lval :=
  match a.cells with
  | none => none
  | some [buf data, o] =>
    match cast_to o LVAL_INT with
    | none => some bad_args
    | some (int offset) =>
      if offset_out_of_range data.length offset t.sizeof then some out_of_range
      else (buffer_read data offset t.sizeof).map (fun bs => lval_func (t.value (of_bytes bs)))
    | some _ => none
  | some _ => some bad_args

open c_type in
/-- Function `builtin_get_byte`. -/
def builtin_get_byte (a : lval) : Option lval := GET_VALUE uint8_t lval_byte a

open c_type in
/-- Function `builtin_put_byte`. -/
def builtin_put_byte (a : lval) : Option lval := PUT_VALUE uint8_t a

open c_type in
/-- Function `builtin_get_unsigned_char`. -/
def builtin_get_unsigned_char (a : lval) : Option lval := GET_VALUE uint8_t lval_int a

open c_type in
/-- Function `builtin_put_unsigned_char`. -/
def builtin_put_unsigned_char (a : lval) : Option lval := PUT_VALUE uint8_t a

open c_type in
/-- Function `builtin_get_signed_char`. -/
def builtin_get_signed_char (a : lval) : Option lval := GET_VALUE int8_t lval_int a

open c_type in
/-- Function `builtin_put_signed_char`. -/
def builtin_put_signed_char (a : lval) : Option lval := PUT_VALUE int8_t a

open c_type in
/-- Function `builtin_get_unsigned_short`. -/
def builtin_get_unsigned_short (a : lval) : Option lval := GET_VALUE uint16_t lval_int a

open c_type in
/-- Function `builtin_put_unsigned_short`. -/
def builtin_put_unsigned_short (a : lval) : Option lval := PUT_VALUE uint16_t a

open c_type in
/-- Function `builtin_get_signed_short`. -/
def builtin_get_signed_short (a : lval) : Option lval := GET_VALUE int16_t lval_int a

open c_type in
/-- Function `builtin_put_signed_short`. -/
def builtin_put_signed_short (a : lval) : Option lval := PUT_VALUE int16_t a

open c_type in
/-- Function `builtin_get_unsigned_integer`. -/
def builtin_get_unsigned_integer (a : lval) : Option lval := GET_VALUE uint32_t lval_int a

open c_type in
/-- Function `builtin_put_unsigned_integer`. -/
def builtin_put_unsigned_integer (a : lval) : Option lval := PUT_VALUE uint32_t a

open c_type in
/-- Function `builtin_get_signed_integer`. -/
def builtin_get_signed_integer (a : lval) : Option lval := GET_VALUE int32_t lval_int a

open c_type in
/-- Function `builtin_put_signed_integer`. -/
def builtin_put_signed_integer (a : lval) : Option lval := PUT_VALUE int32_t a

open c_type in
/-- Function `builtin_get_unsigned_long`. -/
def builtin_get_unsigned_long (a : lval) : Option lval := GET_VALUE uint64_t lval_int a

open c_type in
/-- Function `builtin_put_unsigned_long`. -/
def builtin_put_unsigned_long (a : lval) : Option lval := PUT_VALUE uint64_t a

open c_type in
/-- Function `builtin_get_signed_long`: the type of the macro is `uint64_t` here
too. -/
def builtin_get_signed_long (a : lval) : Option lval := GET_VALUE uint64_t lval_int a

open c_type in
/-- Function `builtin_put_signed_long`. -/
def builtin_put_signed_long (a : lval) : Option lval := PUT_VALUE uint64_t a

/-- Function `builtin_put_string`: the result starts from a new buffer of zero
bytes (`lval_buf`), into which `strcpy` writes the string and its terminator. -/
def builtin_put_string (a : lval) : Option lval :=
  match a.cells with
  | none => none
  | some [buf data, o, str value] =>
    match cast_to o LVAL_INT with
    | none => some (lval_err_for_val "put-string expects arguments in the form (put-string buffer:Buffer offset:Integer string:String)")
    | some (int offset) =>
      if offset_out_of_range data.length offset ((c_string value).length + 1) then
        some (lval_err_for_val "put-string: offset out of range")
      else
        (buffer_write (List.replicate data.length 0) offset (c_string value ++ [0])).map buf
    | some _ => none
  | some _ => some (lval_err_for_val "put-string expects arguments in the form (put-string buffer:Buffer offset:Integer string:String)")

/-- Function `builtin_put_bytes`: the result starts from a copy of the buffer. -/
def builtin_put_bytes (a : lval) : Option lval :=
  match a.cells with
  | none => none
  | some [buf data, o, buf value] =>
    match cast_to o LVAL_INT with
    | none => some (lval_err_for_val "put-bytes expects arguments in the form (put-bytes target:Buffer offset:Integer source:Buffer)")
    | some (int offset) =>
      if offset_out_of_range data.length offset value.length then
        some (lval_err_for_val "put-bytes: offset out of range")
      else (buffer_write data offset value).map buf
    | some _ => none
  | some _ => some (lval_err_for_val "put-bytes expects arguments in the form (put-bytes target:Buffer offset:Integer source:Buffer)")

/-! ## Formatting (`benzl-builtin-format.c`) -/

/-- The loop of `builtin_format` over the characters of the format that are left,
with the flag `escape` and the arguments not yet displayed (the loop ends when the
last one is displayed, so the list is not empty inside it); `sprint` is `lval_sprint`
without quotes. -/
def format_loop (sprint : lval → Option String) : List Char → Bool → List lval → Option (List Char)
  | [], _, _ => some []
  | c :: rest, escape, args =>
    if c = '\\' ∧ escape = false then format_loop sprint rest true args
    else
      let escape1 := if c = '\\' then false else escape
      if escape1 = false ∧ c = '%' then
        match args with
        | [] => none
        | arg :: more =>
          match sprint arg with
          | none => none
          | some s =>
            if more.isEmpty then some (s.toList ++ rest)
            else (format_loop sprint rest false more).map (fun r => s.toList ++ r)
      else (format_loop sprint rest false args).map (fun r => c :: r)

/-- Function `builtin_format`; the fuel bounds the nesting of the calls and of the
values printed. -/
def builtin_format : Nat → heap → lval → Option lval
  | 0, _, _ => none
  | n + 1, h, a =>
    match a.cells with
    | none => none
    | some [] => some (lval_err_for_val "Got no args for format!")
    | some (qexpr c :: _) => builtin_format n h (qexpr c)
    | some (str fmt :: args) =>
      if args.isEmpty then some (str fmt)
      else
        (format_loop (fun v => lval_sprint n h v false) fmt.toList false args).map
          (fun r => str (String.mk r))
    | some (_ :: _) => some (lval_err_for_val "First argument to format must be a string")

/-! ## The parser (`benzl-parse.c`) and the conversions (`benzl-builtin-type.c`)

The text of a C string is the list of its characters before the terminator; no
string of the model holds a zero byte. The flag `errno` tells whether the variable
`errno` of the C library holds `ERANGE`. -/

/-- The character `s[i]` of the C string with the characters `s`: the terminator
is read at the end. -/
def char_at (s : List Char) (i : Nat) : Char := s.getD i (Char.ofNat 0)

/-- The value of a character as a digit of `strtol`. -/
def digit_value (c : Char) : Option Nat :=
  if 48 ≤ c.toNat ∧ c.toNat ≤ 57 then some (c.toNat - 48)
  else if 97 ≤ c.toNat ∧ c.toNat ≤ 122 then some (c.toNat - 87)
  else if 65 ≤ c.toNat ∧ c.toNat ≤ 90 then some (c.toNat - 55)
  else none

/-- The digit loop of `strtol`: the digits of the base are accumulated up to the
first other character. -/
def strtol_digits (base : Nat) : List Char → Nat → Nat
  | [], acc => acc
  | c :: cs, acc =>
    match digit_value c with
    | some d => if d < base then strtol_digits base cs (acc * base + d) else acc
    | none => acc

/-- Function `isspace` of the C library. -/
def isspace (c : Char) : Bool := c.toNat = 32 ∨ (9 ≤ c.toNat ∧ c.toNat ≤ 13)

/-- Function `strtol` of the C library (no end pointer): white space, a sign, the
prefix `0x` of base 16 when a digit follows, then the digits. The flag tells
whether `ERANGE` is stored in `errno`. -/
def strtol (s : List Char) (base : Nat) : Int × Bool :=
  let s1 := s.dropWhile isspace
  let s2 := if s1.head? = some '-' ∨ s1.head? = some '+' then s1.tail else s1
  let s3 :=
    if base = 16 ∧ s2.head? = some '0' ∧ (s2.get? 1 = some 'x' ∨ s2.get? 1 = some 'X') ∧
        ((s2.get? 2).bind digit_value).any (fun d => d < 16) then s2.drop 2
    else s2
  let m := strtol_digits base s3 0
  let v : Int := if s1.head? = some '-' then - (m : Int) else m
  if v < - 2 ^ 63 then (- 2 ^ 63, true)
  else if v ≥ 2 ^ 63 then (2 ^ 63 - 1, true)
  else (v, false)

/-- Function `strtod` of the C library on the texts that `string_to_number` passes
to it, made of an optional minus sign, digits and dots: the nearest double of the
decimal number read up to a second dot. The flag tells whether `ERANGE` is stored
in `errno`: the value is out of range, or not zero and below the normal range. -/
def strtod (s : List Char) : Flt × Bool :=
  let s1 := if s.head? = some '-' then s.tail else s
  let ip := s1.takeWhile Char.isDigit
  let r := s1.drop ip.length
  let fp := if r.head? = some '.' then r.tail.takeWhile Char.isDigit else []
  if ip.isEmpty ∧ fp.isEmpty then (Flt.zero false, false)
  else
    let num := strtol_digits 10 (ip ++ fp) 0
    let f := Flt.round (s.head? = some '-') num (10 ^ fp.length)
    (f, f.is_inf || (num ≠ 0 && f.bits % 2 ^ 63 < 2 ^ 52))

/-- The scan of `string_to_number` over the characters after the first one:
whether all of them are digits or dots (`is_number`), and whether one is a dot
(`is_float`). -/
def number_scan : List Char → Bool → Bool × Bool
  | [], is_float => (true, is_float)
  | c :: cs, is_float =>
    if c = '.' then number_scan cs true
    else if c.isDigit then number_scan cs is_float
    else (false, is_float)

/-- Function `string_to_number`: the result (`none` for `NULL`) and the flag left
in `errno`. The hexadecimal branch tests `errno` without clearing it first. -/
def string_to_number (errno : Bool) (string : String) : Option lval × Bool :=
  let s := string.toList
  if s.length = 0 then (none, errno)
  else if 3 < s.length ∧ s.length < 11 ∧ char_at s 0 = '0' ∧ char_at s 1 = 'x' then
    let r := strtol (s.drop 2) 16
    if errno || r.2 then (some (lval_err "Invalid number"), true)
    else if r.1 < 256 then (some (lval_byte r.1), false)
    else (some (lval_int r.1), false)
  else if char_at s 0 = '-' ∨ (char_at s 0).isDigit then
    let scan := if char_at s 0 = '-' ∧ s.length = 1 then (false, false) else number_scan s.tail false
    if scan.1 then
      if scan.2 then
        if (strtod s).2 then (some (lval_err "Invalid float"), true)
        else (some (flt (strtod s).1), false)
      else
        if (strtol s 10).2 then (some (lval_err "Invalid integer"), true)
        else (some (lval_int (strtol s 10).1), false)
    else (none, errno)
  else (none, errno)

/-- The characters of a symbol. -/
def symbol_char (c : Char) : Bool :=
  c.isAlphanum || ['.', '_', '+', '-', '*', '\\', '/', '=', '<', '>', '!', '&', '%', '^', '|'].contains c

/-- The values of `lval_type` in the order of the enumeration. -/
def all_types : List lval_type :=
  [LVAL_INT, LVAL_FLT, LVAL_BYTE, LVAL_SYM, LVAL_STR, LVAL_BUF, LVAL_DICT, LVAL_FUN, LVAL_SEXPR,
    LVAL_QEXPR, LVAL_ERR, LVAL_CAUGHT_ERR, LVAL_TYPE, LVAL_CUSTOM_TYPE_INSTANCE,
    LVAL_KEY_VALUE_PAIR]

/-- Function `read_sym`: the value read at position `i`, the position after it, and
the flag left in `errno`. -/
def read_sym (errno : Bool) (s : List Char) (i : Nat) : lval × Nat × Bool :=
  let part := String.mk ((s.drop i).takeWhile symbol_char)
  let n :=
    match (string_to_number errno part).1 with
    | some n => n
    | none =>
      match all_types.find? (fun t => ltype_name t = part) with
      | some t => ptype t
      | none => sym part
  (n, i + part.length, (string_to_number errno part).2)

/-- The characters that follow a backslash in an escape (`lval_str_unescapable`). -/
def unescapable (c : Char) : Bool :=
  ['a', 'b', 'f', 'n', 'r', 't', 'v', '\\', Char.ofNat 39, Char.ofNat 34].contains c

/-- Function `lval_str_unescape`. -/
def lval_str_unescape (x : Char) : Char :=
  if x = 'a' then Char.ofNat 7
  else if x = 'b' then Char.ofNat 8
  else if x = 'f' then Char.ofNat 12
  else if x = 'n' then Char.ofNat 10
  else if x = 'r' then Char.ofNat 13
  else if x = 't' then Char.ofNat 9
  else if x = 'v' then Char.ofNat 11
  else if x = '\\' then '\\'
  else if x = Char.ofNat 39 then Char.ofNat 39
  else if x = Char.ofNat 34 then Char.ofNat 34
  else Char.ofNat 0

/-- The loop of `read_str` at position `i` with the text `part` read so far. A
backslash before the terminator makes the loop read past the end of the text. -/
def read_str_loop (s : List Char) (close : Char) : Nat → Nat → List Char → Option (lval × Nat)
  | 0, _, _ => none
  | fuel + 1, i, part =>
    if char_at s i = close then some (str (String.mk part), i + 1)
    else if char_at s i = Char.ofNat 0 then
      some (lval_err "Unexpected end of input in string literal", s.length)
    else if char_at s i = '\\' then
      if char_at s (i + 1) = Char.ofNat 0 then none
      else if unescapable (char_at s (i + 1)) then
        read_str_loop s close fuel (i + 2) (part ++ [lval_str_unescape (char_at s (i + 1))])
      else read_str_loop s close fuel (i + 1) (part ++ ['\\'])
    else read_str_loop s close fuel (i + 1) (part ++ [char_at s i])

/-- Function `read_str`: the value read from position `i` on and the position
after it. -/
def read_str (s : List Char) (i : Nat) (close : Char) : Option (lval × Nat) :=
  read_str_loop s close (s.length + 1) i []

/-- The loop that skips a comment: the position of the end of the line. -/
def skip_comment (s : List Char) (i : Nat) : Nat :=
  i + ((s.drop i).takeWhile (fun c => c ≠ '\n')).length

/-- The loop that skips the first line after `#!`; without an end of line it reads
past the end of the text. -/
def skip_shebang (s : List Char) : Option Nat :=
  if (s.drop 2).contains '\n' then some (skip_comment s 2) else none

/-- Function `read_expr`: the children of `v` after the call, the position
returned, and the flag left in `errno`. `close` is the character that ends the
expression, the terminator at the top. The fuel bounds the number of steps along
one chain of calls, which is at most the length of the text plus two. -/
def read_expr : Nat → List Char → List lval → Nat → Char → Bool →
    Option (List lval × Nat × Bool)
  | 0, _, _, _, _, _ => none
  | fuel + 1, s, v, i, close, errno =>
    if i < s.length ∧ char_at s i ≠ close then
      if char_at s i = '\n' then read_expr fuel s v (i + 1) close errno
      else if [' ', '\t', Char.ofNat 11, '\r'].contains (char_at s i) then
        read_expr fuel s v (i + 1) close errno
      else if char_at s i = ';' then read_expr fuel s v (skip_comment s i) close errno
      else if char_at s i = '(' then
        match read_expr fuel s [] (i + 1) ')' errno with
        | none => none
        | some (x, j, errno1) => read_expr fuel s (v ++ [sexpr x]) j close errno1
      else if char_at s i = Char.ofNat 123 then
        match read_expr fuel s [] (i + 1) (Char.ofNat 125) errno with
        | none => none
        | some (x, j, errno1) => read_expr fuel s (v ++ [qexpr x]) j close errno1
      else if char_at s i = ':' then
        match read_expr fuel s [] (i + 1) close errno with
        | none => none
        | some (tmp, j, errno1) =>
          match v.getLast?, tmp with
          | some (sym key), val :: rest =>
            read_expr fuel s (v.dropLast ++ [kvpair (sym key) val] ++ rest) (j - 1) close errno1
          | some _, _ :: _ =>
            some (v.dropLast ++ [lval_err "Encountered unexpected key:value pair"],
              s.length + 1, errno1)
          | _, _ => none
      else if symbol_char (char_at s i) then
        read_expr fuel s (v ++ [(read_sym errno s i).1]) (read_sym errno s i).2.1 close
          (read_sym errno s i).2.2
      else if char_at s i = Char.ofNat 34 ∨ char_at s i = Char.ofNat 39 then
        match read_str s (i + 1) (char_at s i) with
        | none => none
        | some (n, j) => read_expr fuel s (v ++ [n]) j close errno
      else if i = 0 ∧ char_at s i = Char.ofNat 35 ∧ char_at s (i + 1) = '!' then
        match skip_shebang s with
        | none => none
        | some j => read_expr fuel s v j close errno
      else some (v ++ [lval_err "Unknown character"], s.length + 1, errno)
    else if i = s.length ∧ close ≠ Char.ofNat 0 then
      some (v ++ [lval_err "Missing closing character at end of input"], i + 1, errno)
    else some (v, i + 1, errno)

/-- Function `lval_read_expr` from position `i`: the S-expression that holds the
expressions read, and the flag left in `errno`. -/
def lval_read_expr (errno : Bool) (s : String) (i : Nat) (close : Char) : Option (lval × Bool) :=
  (read_expr (s.length + 2) s.toList [] i close errno).map (fun r => (sexpr r.1, r.2.2))

/-- The loop of `builtin_eval_string`: the expressions are evaluated in order up
to the first uncaught error; the result is the last value. -/
def eval_each (ev : evaluator) (e : lenv) : heap → lval → List lval → Option (lval × heap)
  | h, result, [] => some (result, h)
  | h, _, x :: rest =>
    match ev.eval h e x with
    | none => none
    | some (r, h1) => if r.is_err then some (r, h1) else eval_each ev e h1 r rest

/-- Function `builtin_eval_string`, with the flag found in `errno`. -/
def builtin_eval_string (ev : evaluator) (errno : Bool) (h : heap) (e : lenv) (a : lval) :
    Option (lval × heap) :=
  match a.cells with
  | none => none
  | some [str s] =>
    match lval_read_expr errno s 0 (Char.ofNat 0) with
    | some (sexpr [], _) => some (lval_err "Invalid expression", h)
    | some (sexpr (x :: rest), _) => eval_each ev e h (sexpr []) (x :: rest)
    | _ => none
  | some [_] => some (lval_err_for_val "Function 'eval' passed incorrect type for arg 0", h)
  | some _ => some (lval_err_for_val "Function 'eval' passed wrong number of arguments", h)

/-- Function `builtin_to_string`; the fuel bounds the nesting of the value. -/
def builtin_to_string (fuel : Nat) (h : heap) (a : lval) : Option lval :=
  match a.cells with
  | none => none
  | some [v] =>
    match cast_to v LVAL_STR with
    | some s => some s
    | none => (lval_to_string fuel h v).map str
  | some _ => some (lval_err_for_val "Function 'to-string' passed wrong number of arguments")

/-- Function `builtin_to_number`, with the flag found in `errno`. -/
def builtin_to_number (errno : Bool) (a : lval) : Option lval :=
  match a.cells with
  | none => none
  | some [str s] =>
    match (string_to_number errno s).1 with
    | none => some (lval_err_for_val "Failed to convert string to number")
    | some r => some r
  | some [v] =>
    if lval_is_number v then some v
    else some (lval_err_for_val "Cannot convert to number")
  | some _ => some (lval_err_for_val "Function 'to-number' passed wrong number of arguments")

/-! ## Well-formed tables and heaps -/

/-- The entries of a table, bucket by bucket and along each chain (the order of
`lval_table_entries`). -/
def lval_table.entries (t : lval_table) : List lval_entry := t.items.flatten

/-- The representation invariant of a table: one list per bucket, every entry in
the bucket of its key, no key twice, and `count` the number of entries. -/
structure table_wf (t : lval_table) : Prop where
  len : t.items.length = t.bucket_count
  pos : 0 < t.bucket_count
  bucket : ∀ i chain, t.items[i]? = some chain →
    ∀ en ∈ chain, lval_table_hash en.key % t.bucket_count = i
  nodup : (t.entries.map (fun en => en.key)).Nodup
  count_eq : t.count = t.entries.length

/-- Every table of the heap satisfies the representation invariant. -/
def heap_wf (h : heap) : Prop := ∀ t ∈ h.tables, table_wf t

/-! ## Auxiliary notions used in the statements -/

/-- The table that the calls `lenv_def_or_set` of `lval_call` leave for the plain
parameters `names` and their arguments `values`, bound in order. -/
def bound_table (t : lval_table) (names : List String) (values : List lval) : lval_table :=
  (names.zip values).foldl (fun t p => lval_table_insert t p.1 p.2) t

/-- Seen from the environment `e`, the name `x` resolves to an entry that carries
the declared primitive type `T` and whose value has type `T`. -/
def typed_binding (h : heap) (e : lenv) (x : String) (T : lval_type) : Prop :=
  ∃ en, find_entry h e x = some (some en) ∧ en.type = some (ptype T) ∧ en.value.type = T

/-- The start state with one more table, an empty dictionary at address 1, bound to
the name `d` in the root environment. -/
def dict_state : heap :=
  (root_heap.alloc (lval_table_alloc 4)).2.set_table 0
    (lval_table_insert (lenv_add_builtins (lval_table_alloc 416)) "d" (dict 1))

/-- A custom type `P` with the properties `x` and `y:Integer`. -/
def point_type : lval := ctype 0 "P" [sym "x", kvpair (sym "y") (ptype LVAL_INT)]

/-- The start state with one more table, the properties of an instance of
`point_type` at address 1, bound to the name `i` in the root environment. -/
def instance_state : heap :=
  (root_heap.alloc
    (lval_table_insert (lval_table_insert (lval_table_alloc 6) "x" (int 1)) "y" (int 2))).2.set_table
    0 (lval_table_insert (lenv_add_builtins (lval_table_alloc 416)) "i" (inst point_type 1))

/-- The name of a declared property of a custom type: the symbol itself, or the key
of `name:type`. -/
def declared_name : lval → Option String
  | sym k => some k
  | kvpair (sym k) _ => some k
  | _ => none

/-- The names of the properties that a custom type declares, in order. -/
def declared_names (props : List lval) : List String := props.filterMap declared_name

/-- The key of a supplied argument `key:value`. -/
def supplied_key : lval → Option String
  | kvpair (sym k) _ => some k
  | _ => none

/-- The keys of the supplied arguments, in order. -/
def supplied_keys (args : List lval) : List String := args.filterMap supplied_key

/-- A declared property that is a plain symbol or `name:T` with `T` a primitive
type. -/
def simple_prop : lval → Bool
  | sym _ => true
  | kvpair (sym _) (ptype _) => true
  | _ => false

/-- A value written as a literal: a number, a string or a list `{...}`. -/
def literal_value : lval → Bool
  | int _ => true
  | flt _ => true
  | byte _ => true
  | str _ => true
  | qexpr _ => true
  | _ => false

/-- An argument `key:value` whose value is a literal. -/
def literal_arg : lval → Bool
  | kvpair (sym _) v => literal_value v
  | _ => false

/-- The start state after `(def-type {P x y:Integer})`: `P` names `point_type`. -/
def type_state : heap :=
  { tables := [lval_table_insert (lenv_add_builtins (lval_table_alloc 416)) "P" point_type],
    types := 1 }

/-- The invariant of a record instance in the state `h`: its type declares
properties with names, and its table is a well-formed table that holds exactly the
declared names. -/
def instance_ok (h : heap) : lval → Prop
  | inst (ctype _ _ props) a =>
    (∀ x ∈ props, (declared_name x).isSome = true) ∧
    ∃ tbl, h.table a = some tbl ∧ table_wf tbl ∧
      ∀ k, (lval_table_get tbl k).isSome = true ↔ k ∈ declared_names props
  | _ => False

/-- The integer that a Byte or an Integer stands for. -/
def int_value : lval → Int
  | byte b => b
  | int x => x
  | _ => 0

/-- A Byte within 8 bits or an Integer within 64 bits, two's complement. -/
def byte_or_int : lval → Prop
  | byte b => b < 256
  | int x => - 2 ^ 63 ≤ x ∧ x < 2 ^ 63
  | _ => False

/-- The exact result of `+`, `-` and `*` on integers. -/
def exact_op : builtin_math_op → Int → Int → Int
  | builtin_op_add, x, y => x + y
  | builtin_op_subtract, x, y => x - y
  | builtin_op_multiply, x, y => x * y
  | _, _, _ => 0

/-- The value of `(get (put (create-buffer size) 0 n) 0)` for a pair of buffer
accessors `put` and `get`. -/
def put_then_get (put get : lval → Option lval) (size n : Int) : Option lval :=
  match builtin_create_buffer (sexpr [int size]) with
  | none => none
  | some b =>
    match put (sexpr [b, int 0, int n]) with
    | none => none
    | some b1 => get (sexpr [b1, int 0])

/-- The first argument that is a buffer, a byte, a list or an S-expression. -/
def first_decisive (c : List lval) : Option lval :=
  c.find? (fun v =>
    v.type = LVAL_BUF ∨ v.type = LVAL_BYTE ∨ v.type = LVAL_QEXPR ∨ v.type = LVAL_SEXPR)

/-- The arguments with the children of every list argument in its place. -/
def splice (c : List lval) : List lval :=
  c.flatMap (fun v => match v with
    | qexpr k => k
    | other => [other])

/-- The texts put one after the other. -/
def concat (ts : List String) : String := ts.foldr (fun t r => t ++ r) ""

/-- A function value as `builtin_lambda` makes it: the formals and the body are
expressions. -/
def function_form : lval → Bool
  | lambda args body => args.cells.isSome && body.cells.isSome
  | _ => true

mutual
/-- A value that `join` can turn into bytes: a buffer, a byte, an integer, a float,
a string, or a list of such values. -/
def joinable : lval → Bool
  | buf _ => true
  | byte _ => true
  | int _ => true
  | flt _ => true
  | str _ => true
  | qexpr c => joinables c
  | _ => false
/-- Every value of the list is `joinable`. -/
def joinables : List lval → Bool
  | [] => true
  | v :: rest => joinable v && joinables rest
end

mutual
/-- The bytes of a `joinable` value: those of its cast to Buffer, and for a list
the bytes of its members in order. -/
def joined_bytes : lval → List Nat
  | qexpr c => joined_bytes_list c
  | v =>
    match cast_to v LVAL_BUF with
    | some (buf d) => d
    | _ => []
/-- The bytes of the values of a list in order. -/
def joined_bytes_list : List lval → List Nat
  | [] => []
  | v :: rest => joined_bytes v ++ joined_bytes_list rest
end

mutual
/-- The nesting of the lists in a value. -/
def list_depth : lval → Nat
  | qexpr c => list_depths c + 1
  | _ => 0
/-- The deepest nesting of the lists in the values of a list. -/
def list_depths : List lval → Nat
  | [] => 0
  | v :: rest => max (list_depth v) (list_depths rest)
end

/-- The text before the first unescaped `%` of a format, with the escapes
resolved (a backslash is dropped and the character after it is kept as it is),
and the text after that `%`, if there is one. -/
def next_hole : List Char → List Char × Option (List Char)
  | [] => ([], none)
  | ['\\'] => ([], none)
  | '\\' :: c :: rest => (c :: (next_hole rest).1, (next_hole rest).2)
  | '%' :: rest => ([], some rest)
  | c :: rest => (c :: (next_hole rest).1, (next_hole rest).2)

/-- The format with the texts `ts` in the place of its first unescaped `%`s: the
text up to each of them has its escapes resolved, and the text after the last one
that is filled is left as it is; so is the whole format when there is no text to
fill in. -/
def fill : List Char → List String → List Char
  | fmt, [] => fmt
  | fmt, t :: ts =>
    match next_hole fmt with
    | (pre, none) => pre
    | (pre, some rest) => pre ++ t.toList ++ fill rest ts

/-- The hexadecimal digits, upper and lower case. -/
def hex_digits : List Char := "0123456789abcdefABCDEF".toList

/-- The value of a hexadecimal digit. -/
def hex_digit_value (c : Char) : Nat :=
  if c.isDigit then c.toNat - '0'.toNat
  else if c.isLower then c.toNat - 'a'.toNat + 10
  else c.toNat - 'A'.toNat + 10

/-- The number that a list of hexadecimal digits writes, most significant digit
first. -/
def hex_value (ds : List Char) : Nat := ds.foldl (fun acc c => 16 * acc + hex_digit_value c) 0

/-- The value that a hexadecimal token of value `x` stands for: a Byte below 256,
an Integer otherwise. -/
def byte_or_integer (x : Nat) : lval := if x < 256 then byte x else int x

/-- The value that `read_sym` makes of the text of a token. -/
def token_value (errno : Bool) (part : String) : lval :=
  match (string_to_number errno part).1 with
  | some n => n
  | none =>
    match all_types.find? (fun t => ltype_name t = part) with
    | some t => ptype t
    | none => sym part

mutual
/-- A value made of Integers, Bytes and non-empty lists of such values. -/
def number_tree : lval → Bool
  | int n => decide (- 2 ^ 63 ≤ n ∧ n < 2 ^ 63)
  | byte b => decide (b < 256)
  | qexpr c => !c.isEmpty && number_trees c
  | _ => false
/-- Every value of the list is a `number_tree`. -/
def number_trees : List lval → Bool
  | [] => true
  | v :: rest => number_tree v && number_trees rest
end

mutual
/-- The text of a `number_tree`: the decimal digits of an Integer, `0x` and two
hexadecimal digits for a Byte, and the texts of the members of a list between
braces, with one blank between two members. -/
def tree_text : lval → List Char
  | int n => (toString n).toList
  | byte b => '0' :: 'x' :: [hex_digit (b / 16 % 16), hex_digit (b % 16)]
  | qexpr c => Char.ofNat 123 :: (trees_text c ++ [Char.ofNat 125])
  | _ => []
/-- The texts of the members of a list, with one blank between two members. -/
def trees_text : List lval → List Char
  | [] => []
  | v :: rest =>
    match rest with
    | [] => tree_text v
    | _ :: _ => tree_text v ++ ' ' :: trees_text rest
end

/-- One call on a table: `lval_table_insert` or `lval_table_remove`. -/
inductive table_op
  | insert (key : String) (value : lval)
  | remove (key : String)

/-- The table after one call; `none` when `lval_table_remove` fails its assertion. -/
def apply_op (t : lval_table) : table_op → Option lval_table
  | table_op.insert key value => some (lval_table_insert t key value)
  | table_op.remove key => lval_table_remove t key

/-- The tables that a sequence of calls goes through, the first one left out. -/
def run_ops : lval_table → List table_op → Option (List lval_table)
  | _, [] => some []
  | t, op :: rest =>
    match apply_op t op with
    | none => none
    | some t1 => (run_ops t1 rest).map (fun ts => t1 :: ts)

/-- Every `lval_table_remove` of the sequence is called with a key that the table
holds at that time. -/
def removes_present : lval_table → List table_op → Prop
  | _, [] => True
  | t, op :: rest =>
    (match op with
      | table_op.remove key => lval_table_get_entry t key ≠ none
      | table_op.insert _ _ => True) ∧
    ∀ t1, apply_op t op = some t1 → removes_present t1 rest

/-- The table of the dictionary `(dict ab:1 ba:2)`: the two keys have the same
hash. -/
def ab_ba_table : lval_table :=
  lval_table_insert (lval_table_insert (lval_table_alloc 4) "ab" (int 1)) "ba" (int 2)

/-- The bounds that `lval_table_resize_if_needed` keeps between two calls: the floor
is at least 2, the bucket count is at least the floor, and either half the bucket
count is at most the floor or the bucket count is the one chosen by the last
resize for the present count. -/
def bucket_inv (t : lval_table) : Prop :=
  2 ≤ t.min_buckets ∧ t.min_buckets ≤ t.bucket_count ∧
    (t.bucket_count / 2 ≤ t.min_buckets ∨ t.bucket_count = max 2 (t.count * 4))

/-- The environment in which `lval_eval_sexpr` evaluates the next child when the
children before it gave the values `vs`: the frame of `temp_env` for the first
value, once there is one. -/
def children_env (e : lenv) : List lval → lenv
  | [] => e
  | f :: _ => temp_env e f

/-- The text of one expression as it is written in a source: a token made of symbol
characters, a string between double quotes, or a list of expressions between round
or curly brackets. -/
inductive form
  | token (text : List Char)
  | string (text : List Char)
  | round (items : List form)
  | curly (items : List form)

mutual
/-- The characters of an expression. -/
def form.text : form → List Char
  | form.token t => t
  | form.string t => Char.ofNat 34 :: (t ++ [Char.ofNat 34])
  | form.round c => '(' :: (forms_text c ++ [')'])
  | form.curly c => Char.ofNat 123 :: (forms_text c ++ [Char.ofNat 125])
/-- The characters of the members of a list, with one blank between two members. -/
def forms_text : List form → List Char
  | [] => []
  | v :: rest =>
    match rest with
    | [] => v.text
    | _ :: _ => v.text ++ ' ' :: forms_text rest
end

mutual
/-- The tokens of the expression are not empty and consist of symbol characters,
and its strings hold no double quote, no backslash and no zero byte. -/
def form.well_formed : form → Bool
  | form.token t => !t.isEmpty && t.all symbol_char
  | form.string t =>
    t.all (fun c => c != Char.ofNat 34 && c != '\\' && c != Char.ofNat 0)
  | form.round c => forms_well_formed c
  | form.curly c => forms_well_formed c
/-- Every member of the list is well formed. -/
def forms_well_formed : List form → Bool
  | [] => true
  | v :: rest => v.well_formed && forms_well_formed rest
end

mutual
/-- The value of an expression read while `errno` holds the given flag, and the flag
afterwards: a token has the value that `read_sym` makes of it, a string is a String,
and the brackets make an S-expression or a list of the values of the members, read
from left to right. -/
def form.read : form → Bool → lval × Bool
  | form.token t, errno =>
    (token_value errno (String.mk t), (string_to_number errno (String.mk t)).2)
  | form.string t, errno => (str (String.mk t), errno)
  | form.round c, errno => (sexpr (forms_read c errno).1, (forms_read c errno).2)
  | form.curly c, errno => (qexpr (forms_read c errno).1, (forms_read c errno).2)
/-- The values of the members of a list, read from left to right. -/
def forms_read : List form → Bool → List lval × Bool
  | [], errno => ([], errno)
  | v :: rest, errno =>
    ((v.read errno).1 :: (forms_read rest (v.read errno).2).1,
      (forms_read rest (v.read errno).2).2)
end

mutual
/-- The depth of the brackets of an expression. -/
def form.depth : form → Nat
  | form.token _ => 0
  | form.string _ => 0
  | form.round c => forms_depth c + 1
  | form.curly c => forms_depth c + 1
/-- The deepest nesting among the members of a list. -/
def forms_depth : List form → Nat
  | [] => 0
  | v :: rest => max v.depth (forms_depth rest)
end

/-- A token that is read as a Symbol: not a number and not the name of a type. -/
def symbol_token (t : List Char) : Bool :=
  !t.isEmpty && t.all symbol_char && (string_to_number false (String.mk t)).1.isNone &&
    (all_types.find? (fun ty => ltype_name ty = String.mk t)).isNone

/-- The text ` k1:v1 k2:v2 ...` of a sequence of keys and expressions, with one
blank before each key. -/
def pairs_text : List (List Char × form) → List Char
  | [] => []
  | p :: rest => ' ' :: (p.1 ++ ':' :: (p.2.text ++ pairs_text rest))

/-- The pairs `KVPair{k1, v1}, KVPair{k2, v2}, ...` of a sequence of keys and
expressions, each value read from its expression from left to right, and the flag
left in `errno`. -/
def pairs_read : List (List Char × form) → Bool → List lval × Bool
  | [], errno => ([], errno)
  | p :: rest, errno =>
    (kvpair (sym (String.mk p.1)) (p.2.read errno).1 :: (pairs_read rest (p.2.read errno).2).1,
      (pairs_read rest (p.2.read errno).2).2)

/-- A String that holds no double quote, no backslash and no zero byte: the text that
`lval_sprint` puts between quotes is read back by `read_str` as the same String. -/
def plain_string (s : String) : Bool :=
  s.toList.all (fun c => c != Char.ofNat 34 && c != '\\' && c != Char.ofNat 0)

mutual
/-- A value as it may stand in a list, where nothing is evaluated: an Integer, a
Byte (when `bytes` allows it), a plain String, a Symbol, or a non-empty list or
S-expression of such values. -/
def quoted (bytes : Bool) : lval → Bool
  | int n => decide (- 2 ^ 63 ≤ n ∧ n < 2 ^ 63)
  | byte b => bytes && decide (b < 256)
  | str s => plain_string s
  | sym k => symbol_token k.toList
  | qexpr c => !c.isEmpty && quoteds bytes c
  | sexpr c => !c.isEmpty && quoteds bytes c
  | _ => false
/-- Every value of the list is `quoted`. -/
def quoteds (bytes : Bool) : List lval → Bool
  | [] => true
  | v :: rest => quoted bytes v && quoteds bytes rest
end

mutual
/-- The depth of the lists and S-expressions of a value. -/
def nesting : lval → Nat
  | qexpr c => nestings c + 1
  | sexpr c => nestings c + 1
  | _ => 0
/-- The deepest nesting in the values of a list. -/
def nestings : List lval → Nat
  | [] => 0
  | v :: rest => max (nesting v) (nestings rest)
end

mutual
/-- The expression that `lval_sprint` writes for a `quoted` value. -/
def quoted_form : lval → form
  | int n => form.token (toString n).toList
  | byte b => form.token ('0' :: 'x' :: [hex_digit (b / 16 % 16), hex_digit (b % 16)])
  | str s => form.string s.toList
  | sym k => form.token k.toList
  | qexpr c => form.curly (quoted_forms c)
  | sexpr c => form.round (quoted_forms c)
  | _ => form.token []
/-- The expressions of the values of a list. -/
def quoted_forms : List lval → List form
  | [] => []
  | v :: rest => quoted_form v :: quoted_forms rest
end

theorem equal_symbols_iff (a b : String) : equal_symbols a b = true ↔ a = b := by
  unfold equal_symbols
  constructor
  · intro h
    simp only [Bool.and_eq_true, beq_iff_eq] at h
    exact h.2
  · rintro rfl
    simp

/-! ### Symbol tables: lookup after insertion -/

/-- The lookup of `lval_table_get_entry` along one chain. -/
theorem chain_find_insert (c : List lval_entry) (en : lval_entry) (k : String) :
    (chain_insert c en).1.find? (fun x => equal_symbols x.key k) =
      if en.key = k then
        some { en with type :=
          match c.find? (fun x => equal_symbols x.key en.key) with
          | some o => o.type
          | none => en.type }
      else c.find? (fun x => equal_symbols x.key k) := by
  induction c with
  | nil =>
    simp only [chain_insert, List.find?_cons, List.find?_nil]
    by_cases hk : en.key = k
    · subst hk
      simp [(equal_symbols_iff _ _).2]
    · have : equal_symbols en.key k = false := by
        rw [← Bool.not_eq_true, equal_symbols_iff]; exact hk
      simp [hk, this]
  | cons x xs ih =>
    unfold chain_insert
    by_cases hx : equal_symbols x.key en.key = true
    · have hxk := (equal_symbols_iff _ _).1 hx
      simp only [hx, if_true, List.find?_cons]
      by_cases hk : en.key = k
      · subst hk
        simp [(equal_symbols_iff _ _).2 rfl, hx]
      · have h1 : equal_symbols en.key k = false := by
          rw [← Bool.not_eq_true, equal_symbols_iff]; exact hk
        have h2 : equal_symbols x.key k = false := by
          rw [← Bool.not_eq_true, equal_symbols_iff, hxk]; exact hk
        simp [hk, h1, h2]
    · have hx' : equal_symbols x.key en.key = false := by simpa using hx
      simp only [hx', Bool.false_eq_true, if_false, List.find?_cons]
      by_cases hxk : equal_symbols x.key k = true
      · have e1 := (equal_symbols_iff _ _).1 hxk
        have hne : ¬ en.key = k := by
          intro h; apply hx; rw [equal_symbols_iff, e1, h]
        simp [hxk, hne]
      · have hxk' : equal_symbols x.key k = false := by simpa using hxk
        simp only [hxk']
        rw [ih]

theorem chain_insert_keys (c : List lval_entry) (en : lval_entry) :
    (chain_insert c en).1.map (fun x => x.key) =
      if (chain_insert c en).2 then c.map (fun x => x.key) ++ [en.key]
      else c.map (fun x => x.key) := by
  induction c with
  | nil => simp [chain_insert]
  | cons x xs ih =>
    unfold chain_insert
    by_cases hx : equal_symbols x.key en.key = true
    · have hxk := (equal_symbols_iff _ _).1 hx
      rw [if_pos hx]
      simp [hxk]
    · have hx' : equal_symbols x.key en.key = false := by simpa using hx
      simp only [hx', Bool.false_eq_true, if_false, List.map_cons, ih]
      split <;> simp

theorem chain_insert_added (c : List lval_entry) (en : lval_entry) :
    (chain_insert c en).2 = true ↔ ∀ x ∈ c, x.key ≠ en.key := by
  induction c with
  | nil => simp [chain_insert]
  | cons x xs ih =>
    unfold chain_insert
    by_cases hx : equal_symbols x.key en.key = true
    · have hxk := (equal_symbols_iff _ _).1 hx
      rw [if_pos hx]
      simp [hxk]
    · have hx' : equal_symbols x.key en.key = false := by simpa using hx
      have hne : x.key ≠ en.key := fun h => hx ((equal_symbols_iff _ _).2 h)
      simp [hx', ih, hne]

theorem flatten_set {α : Type} (L : List (List α)) (i : Nat) (hi : i < L.length)
    (c' : List α) :
    L.flatten = (L.take i).flatten ++ L[i] ++ (L.drop (i + 1)).flatten ∧
    (L.set i c').flatten = (L.take i).flatten ++ c' ++ (L.drop (i + 1)).flatten := by
  induction L generalizing i with
  | nil => simp at hi
  | cons x xs ih =>
    cases i with
    | zero => simp
    | succ j =>
      have hj : j < xs.length := by simpa using hi
      obtain ⟨h1, h2⟩ := ih j hj
      constructor
      · simp only [List.flatten_cons, List.take_succ_cons, List.getElem_cons_succ,
          List.drop_succ_cons, List.append_assoc]
        rw [h1]; simp
      · simp only [List.set_cons_succ, List.flatten_cons, List.take_succ_cons,
          List.drop_succ_cons, List.append_assoc]
        rw [h2]; simp

theorem bucket_lt (t : lval_table) (wf : table_wf t) (k : String) :
    bucket_for_key t k < t.items.length := by
  rw [wf.len]; exact Nat.mod_lt _ wf.pos

theorem getElem_bucket (t : lval_table) (wf : table_wf t) (k : String) :
    t.items[bucket_for_key t k]? = some (t.items.getD (bucket_for_key t k) []) := by
  rw [List.getD_eq_getElem?_getD, List.getElem?_eq_getElem (bucket_lt t wf k)]
  rfl

/-- Under the invariant the lookup is the search of the chain of the bucket. -/
theorem get_entry_eq_chain (t : lval_table) (wf : table_wf t) (k : String) :
    lval_table_get_entry t k =
      (t.items.getD (bucket_for_key t k) []).find? (fun x => equal_symbols x.key k) := by
  unfold lval_table_get_entry
  split
  · rename_i h0
    have hn : t.entries = [] := by
      have := wf.count_eq
      rw [h0] at this
      exact List.length_eq_zero.1 this.symm
    symm
    rw [List.find?_eq_none]
    intro x hx
    exfalso
    have : x ∈ t.entries := by
      unfold lval_table.entries
      rw [List.mem_flatten]
      refine ⟨_, ?_, hx⟩
      exact List.getElem?_mem (getElem_bucket t wf k)
    rw [hn] at this
    simp at this
  · rfl

/-- An entry with key `k` can only sit in the chain of the bucket of `k`. -/
theorem mem_entries_chain (t : lval_table) (wf : table_wf t) (x : lval_entry)
    (hx : x ∈ t.entries) : x ∈ t.items.getD (bucket_for_key t x.key) [] := by
  unfold lval_table.entries at hx
  rw [List.mem_flatten] at hx
  obtain ⟨c, hc, hxc⟩ := hx
  obtain ⟨i, hi⟩ := List.mem_iff_getElem?.1 hc
  have := wf.bucket i c hi x hxc
  unfold bucket_for_key
  rw [this, List.getD_eq_getElem?_getD, hi]
  exact hxc

theorem get_entry_some_iff (t : lval_table) (wf : table_wf t) (k : String) (en : lval_entry) :
    lval_table_get_entry t k = some en ↔ en ∈ t.entries ∧ en.key = k := by
  rw [get_entry_eq_chain t wf]
  constructor
  · intro h
    have hm := List.mem_of_find?_eq_some h
    have hp : equal_symbols en.key k = true :=
      List.find?_some (p := fun x : lval_entry => equal_symbols x.key k) h
    refine ⟨?_, (equal_symbols_iff _ _).1 hp⟩
    unfold lval_table.entries
    rw [List.mem_flatten]
    refine ⟨_, ?_, hm⟩
    exact List.getElem?_mem (getElem_bucket t wf k)
  · rintro ⟨hm, rfl⟩
    have hc := mem_entries_chain t wf en hm
    cases hf : (t.items.getD (bucket_for_key t en.key) []).find?
        (fun x => equal_symbols x.key en.key) with
    | none =>
      rw [List.find?_eq_none] at hf
      exact absurd ((equal_symbols_iff _ _).2 rfl) (hf en hc)
    | some y =>
      have hym := List.mem_of_find?_eq_some hf
      have hyp : equal_symbols y.key en.key = true :=
        List.find?_some (p := fun x : lval_entry => equal_symbols x.key en.key) hf
      have hyk := (equal_symbols_iff _ _).1 hyp
      have hy : y ∈ t.entries := by
        unfold lval_table.entries
        rw [List.mem_flatten]
        refine ⟨_, ?_, hym⟩
        exact List.getElem?_mem (getElem_bucket t wf en.key)
      have := List.inj_on_of_nodup_map wf.nodup hy hm hyk
      rw [this]

theorem get_entry_none_iff (t : lval_table) (wf : table_wf t) (k : String) :
    lval_table_get_entry t k = none ↔ ∀ en ∈ t.entries, en.key ≠ k := by
  constructor
  · intro h en hm hk
    have := (get_entry_some_iff t wf k en).2 ⟨hm, hk⟩
    rw [h] at this
    cases this
  · intro h
    cases hg : lval_table_get_entry t k with
    | none => rfl
    | some en =>
      have := (get_entry_some_iff t wf k en).1 hg
      exact absurd this.2 (h en this.1)


theorem insert_entry_entries (t : lval_table) (wf : table_wf t) (en : lval_entry) :
    ∃ A B : List lval_entry, ∃ c : List lval_entry,
      c = t.items.getD (bucket_for_key t en.key) [] ∧
      t.entries = A ++ c ++ B ∧
      (lval_table_insert_entry t en).entries = A ++ (chain_insert c en).1 ++ B := by
  have hi := bucket_lt t wf en.key
  obtain ⟨h1, h2⟩ := flatten_set t.items (bucket_for_key t en.key) hi
    (chain_insert (t.items.getD (bucket_for_key t en.key) []) en).1
  refine ⟨(List.take (bucket_for_key t en.key) t.items).flatten,
    (List.drop (bucket_for_key t en.key + 1) t.items).flatten,
    t.items.getD (bucket_for_key t en.key) [], rfl, ?_, ?_⟩
  · unfold lval_table.entries
    have hg : t.items.getD (bucket_for_key t en.key) [] = t.items[bucket_for_key t en.key] := by
      rw [List.getD_eq_getElem?_getD, List.getElem?_eq_getElem hi]
      rfl
    rw [hg]
    exact h1
  · unfold lval_table.entries lval_table_insert_entry
    exact h2

theorem key_not_mem_of_added (t : lval_table) (wf : table_wf t) (en : lval_entry)
    (h : (chain_insert (t.items.getD (bucket_for_key t en.key) []) en).2 = true) :
    en.key ∉ t.entries.map (fun x => x.key) := by
  intro hm
  rw [List.mem_map] at hm
  obtain ⟨x, hx, hk⟩ := hm
  have hc := mem_entries_chain t wf x hx
  rw [hk] at hc
  exact (chain_insert_added _ _).1 h x hc hk

theorem insert_entry_wf (t : lval_table) (wf : table_wf t) (en : lval_entry) :
    table_wf (lval_table_insert_entry t en) := by
  obtain ⟨A, B, c, hc, hE, hE'⟩ := insert_entry_entries t wf en
  have hkeys := chain_insert_keys c en
  have hi := bucket_lt t wf en.key
  refine ⟨?_, ?_, ?_, ?_, ?_⟩
  · simp only [lval_table_insert_entry, List.length_set]; exact wf.len
  · exact wf.pos
  · intro i chain hch x hx
    simp only [lval_table_insert_entry] at hch ⊢
    by_cases hii : bucket_for_key t en.key = i
    · subst hii
      rw [List.getElem?_set_self hi] at hch
      cases hch
      have hxk : x.key ∈ (chain_insert (t.items.getD (bucket_for_key t en.key) []) en).1.map
          (fun x => x.key) := List.mem_map_of_mem _ hx
      rw [chain_insert_keys] at hxk
      have key_in : x.key ∈ (t.items.getD (bucket_for_key t en.key) []).map (fun x => x.key)
          ∨ x.key = en.key := by
        split at hxk
        · rw [List.mem_append] at hxk
          rcases hxk with h | h
          · exact Or.inl h
          · right; simpa using h
        · exact Or.inl hxk
      rcases key_in with h | h
      · rw [List.mem_map] at h
        obtain ⟨y, hy, hyk⟩ := h
        have := wf.bucket (bucket_for_key t en.key) _ (getElem_bucket t wf en.key) y hy
        rw [← hyk]; exact this
      · rw [h]; rfl
    · rw [List.getElem?_set_ne hii] at hch
      exact wf.bucket i chain hch x hx
  · rw [hE', List.map_append, List.map_append, hkeys]
    have hnd := wf.nodup
    rw [hE, List.map_append, List.map_append] at hnd
    split
    · rename_i hadd
      have hnot := key_not_mem_of_added t wf en (hc ▸ hadd)
      rw [hE, List.map_append, List.map_append] at hnot
      have hperm : (List.map (fun x => x.key) A ++ (List.map (fun x => x.key) c ++ [en.key]) ++
          List.map (fun x => x.key) B).Perm
          (en.key :: (List.map (fun x => x.key) A ++ List.map (fun x => x.key) c ++
          List.map (fun x => x.key) B)) := by
        rw [← List.append_assoc, List.append_assoc _ [en.key]]
        exact List.perm_middle
      rw [hperm.nodup_iff]
      exact List.nodup_cons.2 ⟨hnot, hnd⟩
    · exact hnd
  · rw [hE']
    have hlen : (chain_insert c en).1.length =
        if (chain_insert c en).2 then c.length + 1 else c.length := by
      have := congrArg List.length hkeys
      rw [List.length_map] at this
      rw [this]
      split <;> simp
    have hcnt := wf.count_eq
    rw [hE] at hcnt
    simp only [lval_table_insert_entry, List.length_append, hlen]
    rw [← hc]
    split
    · rw [hcnt]; simp only [List.length_append]; omega
    · rw [hcnt]; simp only [List.length_append]

theorem get_entry_insert_entry (t : lval_table) (wf : table_wf t) (en : lval_entry)
    (k : String) :
    lval_table_get_entry (lval_table_insert_entry t en) k =
      if en.key = k then
        some { en with type :=
          match lval_table_get_entry t en.key with
          | some o => o.type
          | none => en.type }
      else lval_table_get_entry t k := by
  rw [get_entry_eq_chain _ (insert_entry_wf t wf en), get_entry_eq_chain t wf,
    get_entry_eq_chain t wf]
  have hi := bucket_lt t wf en.key
  have hb : bucket_for_key (lval_table_insert_entry t en) k = bucket_for_key t k := rfl
  rw [hb]
  by_cases hk : en.key = k
  · subst hk
    simp only [lval_table_insert_entry, if_true]
    rw [List.getD_eq_getElem?_getD, List.getElem?_set_self hi, Option.getD_some,
      chain_find_insert]
    simp
  · simp only [hk, if_false]
    by_cases hbk : bucket_for_key t en.key = bucket_for_key t k
    · simp only [lval_table_insert_entry]
      rw [List.getD_eq_getElem?_getD, ← hbk, List.getElem?_set_self hi, Option.getD_some,
        chain_find_insert]
      simp only [hk, if_false]
    · simp only [lval_table_insert_entry]
      rw [List.getD_eq_getElem?_getD, List.getElem?_set_ne hbk, ← List.getD_eq_getElem?_getD]


theorem alloc_entries (n : Nat) : (lval_table_alloc n).entries = [] := by
  simp [lval_table.entries, lval_table_alloc]

theorem alloc_wf (n : Nat) : table_wf (lval_table_alloc n) := by
  refine ⟨?_, ?_, ?_, ?_, ?_⟩
  · simp [lval_table_alloc]
  · simp [lval_table_alloc]
  · intro i chain hch x hx
    simp only [lval_table_alloc] at hch
    rw [List.getElem?_replicate] at hch
    split at hch
    · cases hch; simp at hx
    · cases hch
  · rw [alloc_entries]; simp
  · rw [alloc_entries]; rfl

theorem get_entry_alloc (n : Nat) (k : String) :
    lval_table_get_entry (lval_table_alloc n) k = none := by
  simp [lval_table_get_entry, lval_table_alloc]

theorem insert_entry_count (t : lval_table) (wf : table_wf t) (en : lval_entry)
    (h : lval_table_get_entry t en.key = none) :
    (lval_table_insert_entry t en).count = t.count + 1 := by
  rw [get_entry_eq_chain t wf, List.find?_eq_none] at h
  have : (chain_insert (t.items.getD (bucket_for_key t en.key) []) en).2 = true := by
    rw [chain_insert_added]
    intro x hx hk
    exact h x hx ((equal_symbols_iff _ _).2 hk)
  simp only [lval_table_insert_entry, this, if_true]

theorem insert_entry_count_of_some (t : lval_table) (wf : table_wf t) (en o : lval_entry)
    (h : lval_table_get_entry t en.key = some o) :
    (lval_table_insert_entry t en).count = t.count := by
  rw [get_entry_eq_chain t wf] at h
  have hm := List.mem_of_find?_eq_some h
  have hp : equal_symbols o.key en.key = true :=
    List.find?_some (p := fun x : lval_entry => equal_symbols x.key en.key) h
  have : (chain_insert (t.items.getD (bucket_for_key t en.key) []) en).2 = false := by
    rw [← Bool.not_eq_true, chain_insert_added]
    intro hall
    exact hall o hm ((equal_symbols_iff _ _).1 hp)
  simp only [lval_table_insert_entry, this, Bool.false_eq_true, if_false]

/-- Moving a list of entries with distinct, new keys into a table. -/
theorem foldl_insert_entry (l : List lval_entry) :
    ∀ (t0 : lval_table), table_wf t0 →
      (l.map (fun x => x.key)).Nodup →
      (∀ x ∈ l, lval_table_get_entry t0 x.key = none) →
      table_wf (l.foldl lval_table_insert_entry t0) ∧
      (l.foldl lval_table_insert_entry t0).count = t0.count + l.length ∧
      (l.foldl lval_table_insert_entry t0).bucket_count = t0.bucket_count ∧
      ∀ k, lval_table_get_entry (l.foldl lval_table_insert_entry t0) k =
        match l.find? (fun x => equal_symbols x.key k) with
        | some en => some en
        | none => lval_table_get_entry t0 k := by
  induction l with
  | nil => intro t0 wf _ _; simp [wf]
  | cons en rest ih =>
    intro t0 wf hnd hnew
    rw [List.map_cons, List.nodup_cons] at hnd
    have hen : lval_table_get_entry t0 en.key = none := hnew en (List.mem_cons_self _ _)
    have wf1 := insert_entry_wf t0 wf en
    have hnew1 : ∀ x ∈ rest, lval_table_get_entry (lval_table_insert_entry t0 en) x.key = none := by
      intro x hx
      rw [get_entry_insert_entry t0 wf]
      have hne : ¬ en.key = x.key := by
        intro h
        apply hnd.1
        rw [h]
        exact List.mem_map_of_mem _ hx
      simp only [hne, if_false]
      exact hnew x (List.mem_cons_of_mem _ hx)
    obtain ⟨h1, h2, h3, h4⟩ := ih (lval_table_insert_entry t0 en) wf1 hnd.2 hnew1
    refine ⟨h1, ?_, ?_, ?_⟩
    · simp only [List.foldl_cons, h2, insert_entry_count t0 wf en hen, List.length_cons]
      omega
    · simp only [List.foldl_cons, h3]; rfl
    · intro k
      simp only [List.foldl_cons, h4, List.find?_cons]
      by_cases hk : equal_symbols en.key k = true
      · have hk' := (equal_symbols_iff _ _).1 hk
        have hnone : rest.find? (fun x => equal_symbols x.key k) = none := by
          rw [List.find?_eq_none]
          intro x hx hp
          have := (equal_symbols_iff _ _).1 hp
          apply hnd.1
          rw [hk', ← this]
          exact List.mem_map_of_mem _ hx
        simp only [hk, hnone]
        rw [get_entry_insert_entry t0 wf, if_pos hk', hen]
      · have hk' : equal_symbols en.key k = false := by simpa using hk
        have hne : ¬ en.key = k := fun h => hk ((equal_symbols_iff _ _).2 h)
        simp only [hk']
        rw [get_entry_insert_entry t0 wf, if_neg hne]

theorem find_entries_eq_get_entry (t : lval_table) (wf : table_wf t) (k : String) :
    t.entries.find? (fun x => equal_symbols x.key k) = lval_table_get_entry t k := by
  cases hf : t.entries.find? (fun x => equal_symbols x.key k) with
  | none =>
    symm
    rw [get_entry_none_iff t wf]
    rw [List.find?_eq_none] at hf
    intro en hm hk
    exact hf en hm ((equal_symbols_iff _ _).2 hk)
  | some en =>
    symm
    rw [get_entry_some_iff t wf]
    have hm := List.mem_of_find?_eq_some hf
    have hp : equal_symbols en.key k = true :=
      List.find?_some (p := fun x : lval_entry => equal_symbols x.key k) hf
    exact ⟨hm, (equal_symbols_iff _ _).1 hp⟩

theorem resize_spec (t : lval_table) (wf : table_wf t) (n : Nat) :
    table_wf (lval_table_resize t n) ∧
    (lval_table_resize t n).count = t.count ∧
    ∀ k, lval_table_get_entry (lval_table_resize t n) k = lval_table_get_entry t k := by
  obtain ⟨h1, h2, h3, h4⟩ := foldl_insert_entry t.entries (lval_table_alloc n) (alloc_wf n)
    wf.nodup (fun x _ => get_entry_alloc n x.key)
  have hcount : (t.entries.foldl lval_table_insert_entry (lval_table_alloc n)).count
      = t.count := by
    rw [h2, wf.count_eq]; simp [lval_table_alloc]
  have heq : lval_table_resize t n =
      { t.entries.foldl lval_table_insert_entry (lval_table_alloc n) with
        min_buckets := t.min_buckets } := by
    simp only [lval_table_resize, lval_table.entries] at hcount ⊢
    rw [hcount]
  refine ⟨?_, rfl, ?_⟩
  · rw [heq]
    exact ⟨h1.len, h1.pos, h1.bucket, h1.nodup, h1.count_eq⟩
  · intro k
    have : lval_table_get_entry (lval_table_resize t n) k =
        lval_table_get_entry (t.entries.foldl lval_table_insert_entry (lval_table_alloc n)) k := by
      rw [heq]; rfl
    rw [this, h4 k, find_entries_eq_get_entry t wf k, get_entry_alloc]
    cases lval_table_get_entry t k <;> rfl

theorem resize_if_needed_spec (t : lval_table) (wf : table_wf t) :
    table_wf (lval_table_resize_if_needed t) ∧
    (lval_table_resize_if_needed t).count = t.count ∧
    ∀ k, lval_table_get_entry (lval_table_resize_if_needed t) k = lval_table_get_entry t k := by
  unfold lval_table_resize_if_needed
  split
  · exact resize_spec t wf _
  · split
    · exact resize_spec t wf _
    · exact ⟨wf, rfl, fun _ => rfl⟩

theorem insert_wf (t : lval_table) (wf : table_wf t) (k : String) (v : lval) :
    table_wf (lval_table_insert t k v) :=
  (resize_if_needed_spec _ (insert_entry_wf t wf _)).1

theorem get_entry_insert (t : lval_table) (wf : table_wf t) (k : String) (v : lval)
    (k' : String) :
    lval_table_get_entry (lval_table_insert t k v) k' =
      if k = k' then
        some { key := k, value := v, type := (lval_table_get_entry t k).bind (fun o => o.type) }
      else lval_table_get_entry t k' := by
  unfold lval_table_insert
  rw [(resize_if_needed_spec _ (insert_entry_wf t wf _)).2.2, get_entry_insert_entry t wf]
  by_cases h : k = k'
  · simp only [h, if_true]
    cases lval_table_get_entry t k' <;> rfl
  · simp only [h, if_false]

theorem get_insert (t : lval_table) (wf : table_wf t) (k : String) (v : lval) (k' : String) :
    lval_table_get (lval_table_insert t k v) k' =
      if k = k' then some v else lval_table_get t k' := by
  unfold lval_table_get
  rw [get_entry_insert t wf]
  by_cases h : k = k'
  · simp [h]
  · simp [h]

theorem find_is_err_split (nv : List lval) (er : lval) (hf : nv.find? is_err = some er) :
    ∃ pre post, nv = pre ++ er :: post ∧ (∀ x ∈ pre, x.is_err = false) ∧ er.is_err = true := by
  rw [List.find?_eq_some] at hf
  obtain ⟨hp, pre, post, hnv, hpre⟩ := hf
  refine ⟨pre, post, hnv, ?_, hp⟩
  intro x hx
  have := hpre x hx
  simpa using this

theorem eval_children_congr (ev ev2 : evaluator) (hev : ev2.eval = ev.eval) (e : lenv)
    (cs : List lval) : ∀ h, eval_children ev2 e cs h = eval_children ev e cs h := by
  induction cs with
  | nil => intro h; rfl
  | cons c rest ih =>
    intro h
    simp only [eval_children, hev]
    cases ev.eval h e c with
    | none => rfl
    | some r => simp only [ih]

theorem eval_sexpr_children_congr (ev ev2 : evaluator) (hev : ev2.eval = ev.eval) (h : heap)
    (e : lenv) (cs : List lval) :
    eval_sexpr_children ev2 h e cs = eval_sexpr_children ev h e cs := by
  cases cs with
  | nil => rfl
  | cons c rest =>
    simp only [eval_sexpr_children, hev]
    cases ev.eval h e c with
    | none => rfl
    | some r => simp only [eval_children_congr ev ev2 hev]

/-- C1. When the loop of `lval_eval_sexpr` over the children of `v` yields the values
`nv` and at least one of them is an uncaught error, `lval_eval_sexpr` returns the
first error of `nv` in child order, in the state `h1` left by the evaluation of the
children. The head of `nv` is not dispatched on: the result is the same whatever
`lval_call`, `lval_eval_sexpr`, `builtin_len` and `lval_eq` would do. -/
theorem C1_first_error_is_returned (ev : evaluator) (h : heap) (e : lenv) (v : lval)
    (cs nv : List lval) (h1 : heap) (hv : v.cells = some cs)
    (hch : eval_sexpr_children ev h e cs = some (nv, h1))
    (herr : ∃ x ∈ nv, x.is_err = true) :
    ∃ pre er post, nv = pre ++ er :: post ∧ (∀ x ∈ pre, x.is_err = false) ∧
      er.is_err = true ∧ lval_eval_sexpr ev h e v = some (er, h1) ∧
      ∀ ev2 : evaluator, ev2.eval = ev.eval → lval_eval_sexpr ev2 h e v = some (er, h1) := by
  cases hf : nv.find? is_err with
  | none =>
    rw [List.find?_eq_none] at hf
    obtain ⟨x, hx, hxe⟩ := herr
    exact absurd hxe (hf x hx)
  | some er =>
    obtain ⟨pre, post, hnv, hpre, her⟩ := find_is_err_split nv er hf
    have key : ∀ ev2 : evaluator, ev2.eval = ev.eval →
        lval_eval_sexpr ev2 h e v = some (er, h1) := by
      intro ev2 h2
      have hch2 : eval_sexpr_children ev2 h e cs = some (nv, h1) := by
        rw [← hch]
        exact eval_sexpr_children_congr ev ev2 h2 h e cs
      simp only [lval_eval_sexpr, hv, hch2, hf]
    exact ⟨pre, er, post, hnv, hpre, her, key ev rfl, key⟩


theorem C1_first_error_is_returned_witness :
    ∃ pre er post,
      [fn lbuiltin.b_list, err "a" none, int 1, err "b" none] = pre ++ er :: post ∧
      (∀ x ∈ pre, x.is_err = false) ∧ er.is_err = true ∧
      lval_eval_sexpr (interp 2) { tables := [], types := 0 } []
        (sexpr [fn lbuiltin.b_list, sexpr [fn lbuiltin.b_error, str "a"], int 1,
          sexpr [fn lbuiltin.b_error, str "b"]]) =
        some (er, { tables := [], types := 0 }) ∧
      ∀ ev2 : evaluator, ev2.eval = (interp 2).eval →
        lval_eval_sexpr ev2 { tables := [], types := 0 } []
          (sexpr [fn lbuiltin.b_list, sexpr [fn lbuiltin.b_error, str "a"], int 1,
            sexpr [fn lbuiltin.b_error, str "b"]]) =
          some (er, { tables := [], types := 0 }) :=
  C1_first_error_is_returned (interp 2) { tables := [], types := 0 } [] _ _ _ _ rfl rfl
    ⟨err "a" none, by simp, rfl⟩

/-! ### Heap addresses -/

theorem table_alloc_new (h : heap) (t : lval_table) :
    (h.alloc t).2.table h.tables.length = some t := by
  simp [heap.alloc, heap.table]

theorem table_alloc_old (h : heap) (t : lval_table) (a : Nat) (x : lval_table)
    (ha : h.table a = some x) : (h.alloc t).2.table a = some x := by
  simp only [heap.alloc, heap.table] at ha ⊢
  have hlt : a < h.tables.length := by
    rw [List.getElem?_eq_some_iff] at ha
    exact ha.1
  rw [List.getElem?_append_left hlt]
  exact ha

theorem table_fresh (h : heap) : h.table h.tables.length = none := by
  simp [heap.table]

theorem table_set_same (h : heap) (a : Nat) (t x : lval_table) (ha : h.table a = some x) :
    (h.set_table a t).table a = some t := by
  simp only [heap.set_table, heap.table] at ha ⊢
  have hlt : a < h.tables.length := by
    rw [List.getElem?_eq_some_iff] at ha
    exact ha.1
  rw [List.getElem?_set_self hlt]

theorem table_set_other (h : heap) (a b : Nat) (t : lval_table) (hab : a ≠ b) :
    (h.set_table a t).table b = h.table b := by
  simp only [heap.set_table, heap.table]
  rw [List.getElem?_set_ne hab]

/-! ### try and catch -/

/-- The state in which the body of a `catch` runs: a fresh table at the next free
address, holding the caught error under the name of the catch variable. -/
theorem lval_call_catch (ev : evaluator) (h : heap) (e : lenv) (c : String) (body : List lval)
    (x : lval) (hc : c ≠ "&") :
    lval_call ev h e (lambda (qexpr [sym c]) (qexpr body)) (qexpr [x]) =
      ev.eval_sexpr
        ((h.alloc (lval_table_alloc 1)).2.set_table h.tables.length
          (lval_table_insert (lval_table_alloc 1) c x))
        (h.tables.length :: e) (qexpr body) := by
  have hnew := table_alloc_new h (lval_table_alloc 1)
  simp only [lval_call, lval.cells, List.length_cons, List.length_nil, heap.alloc] at hnew ⊢
  simp only [lval_call_bind, List.length_cons, List.length_nil, ge_iff_le, Nat.le_zero_eq,
    Nat.add_one_ne_zero, if_false, List.getElem?_cons_zero, typed_param, lval.sym_name, hc,
    lenv_def_or_set, hnew, Option.getD_none, Nat.zero_add, builtin_eval, lval.cells,
    lval.is_qexpr, if_true]

theorem builtin_try_value (ev : evaluator) (h : heap) (e : lenv) (expr body : List lval)
    (c : String) (r : lval) (h1 : heap)
    (hr : ev.eval_sexpr h e (qexpr expr) = some (r, h1)) (hne : r.is_err = false) :
    builtin_try ev h e (sexpr [qexpr expr, qexpr [sym "catch", sym c, qexpr body]]) =
      some (r, h1) := by
  simp only [builtin_try, lval.cells, lval.is_qexpr, lval.sym_name, lval.is_sym, hr]
  cases r <;> simp_all [lval.is_err]

theorem builtin_try_error (ev : evaluator) (h : heap) (e : lenv) (expr body : List lval)
    (c : String) (m : String) (t : Option String) (h1 : heap)
    (hr : ev.eval_sexpr h e (qexpr expr) = some (err m t, h1)) :
    builtin_try ev h e (sexpr [qexpr expr, qexpr [sym "catch", sym c, qexpr body]]) =
      ev.call h1 e (lambda (qexpr [sym c]) (qexpr body)) (qexpr [caught_err m t]) := by
  simp [builtin_try, lval.cells, lval.is_qexpr, lval.sym_name, lval.is_sym, hr]


/-- C2. Let the first list `{expr}` of `(try {expr} {catch e {body}})` evaluate, as an
S-expression, to `r` in state `h1`. When `r` is not an uncaught error, `try` returns
exactly `r` in `h1` (nothing of `body` has run). When `r` is the uncaught error with
message `m`, `try` returns what the evaluation of `body` returns in a fresh child
scope of the current environment (a table at an address unused in `h1`), in which
`e` is bound to the caught error with the same message `m`. -/
theorem C2_try_catch (n : Nat) (h : heap) (e : lenv) (expr body : List lval) (r : lval)
    (h1 : heap) (hr : lval_eval_sexpr (interp n) h e (qexpr expr) = some (r, h1)) :
    (r.is_err = false →
      builtin_try (interp (n + 1)) h e
        (sexpr [qexpr expr, qexpr [sym "catch", sym "e", qexpr body]]) = some (r, h1)) ∧
    (∀ m t, r = err m t →
      builtin_try (interp (n + 1)) h e
        (sexpr [qexpr expr, qexpr [sym "catch", sym "e", qexpr body]]) =
        (interp n).eval_sexpr
          ((h1.alloc (lval_table_alloc 1)).2.set_table h1.tables.length
            (lval_table_insert (lval_table_alloc 1) "e" (caught_err m t)))
          (h1.tables.length :: e) (qexpr body) ∧
      h1.table h1.tables.length = none ∧
      lenv_get
          ((h1.alloc (lval_table_alloc 1)).2.set_table h1.tables.length
            (lval_table_insert (lval_table_alloc 1) "e" (caught_err m t)))
          (h1.tables.length :: e) "e" = some (caught_err m t)) := by
  constructor
  · intro hne
    exact builtin_try_value (interp (n + 1)) h e expr body "e" r h1 hr hne
  · intro m t hrt
    subst hrt
    refine ⟨?_, table_fresh h1, ?_⟩
    · rw [builtin_try_error (interp (n + 1)) h e expr body "e" m t h1 hr]
      exact lval_call_catch (interp n) h1 e "e" body (caught_err m t) (by decide)
    · have hs := table_set_same (h1.alloc (lval_table_alloc 1)).2 h1.tables.length
        (lval_table_insert (lval_table_alloc 1) "e" (caught_err m t)) (lval_table_alloc 1)
        (table_alloc_new h1 _)
      simp only [lenv_get, hs, get_insert _ (alloc_wf 1), if_true]

theorem C2_try_catch_witness :
    builtin_try (interp 3) { tables := [], types := 0 } []
      (sexpr [qexpr [sexpr [fn lbuiltin.b_error, str "boom"]],
        qexpr [sym "catch", sym "e", qexpr [fn lbuiltin.b_list, sym "e", int 7]]]) =
      some (qexpr [caught_err "boom" none, int 7],
        { tables := [lval_table_insert (lval_table_alloc 1) "e" (caught_err "boom" none)],
          types := 0 }) := by
  have H := (C2_try_catch 2 { tables := [], types := 0 } []
    [sexpr [fn lbuiltin.b_error, str "boom"]] [fn lbuiltin.b_list, sym "e", int 7]
    (err "boom" none) { tables := [], types := 0 } rfl).2 "boom" none rfl
  rw [H.1]
  rfl

set_option maxRecDepth 100000

theorem interp_eval (n : Nat) : (interp (n + 1)).eval = lval_eval (interp n) := rfl

theorem interp_eval_sexpr (n : Nat) :
    (interp (n + 1)).eval_sexpr = lval_eval_sexpr (interp n) := rfl

theorem interp_call (n : Nat) : (interp (n + 1)).call = lval_call (interp n) := rfl

theorem interp_len (n : Nat) : (interp (n + 1)).len = builtin_len (interp n) := rfl

theorem interp_eq (n : Nat) : (interp (n + 1)).eq = lval_eq (n + 1) := rfl

theorem lval_eval_catch_var (n : Nat) (h : heap) (e : lenv) (x : lval) (hx : x.is_err = false)
    (hf : x.is_fun = false) (hg : lenv_get h e "e" = some x) :
    lval_eval_sexpr (interp (n + 1)) h e (qexpr [sym "e"]) = some (x, h) := by
  simp only [lval_eval_sexpr, lval.cells, eval_sexpr_children, interp, lval_eval, hg,
    eval_children, List.find?_cons, hx, List.find?_nil, eval_sexpr_head, List.isEmpty_nil,
    hf, Bool.not_false, Bool.and_self, if_true]

/-- C3 (amended). Let `try` be bound to the built-in and let the block `{E}` evaluate to
`r`. Then `(try {E} {catch e {e}})`, with the catch body written as a list, returns
a value that is not an uncaught error: `r` itself when `r` is not an uncaught error,
and otherwise the caught error with the message and trace of `r`. -/
theorem C3_try_catch_total (n : Nat) (h : heap) (e : lenv) (expr : List lval) (r : lval)
    (h1 : heap) (htry : lenv_get h e "try" = some (fn lbuiltin.b_try))
    (hr : lval_eval_sexpr (interp (n + 2)) h e (qexpr expr) = some (r, h1)) :
    ∃ r2 h2,
      lval_eval (interp (n + 3)) h e
        (sexpr [sym "try", qexpr expr, qexpr [sym "catch", sym "e", qexpr [sym "e"]]]) =
        some (r2, h2) ∧
      r2.is_err = false ∧
      ((r.is_err = false ∧ r2 = r ∧ h2 = h1) ∨ (∃ m t, r = err m t ∧ r2 = caught_err m t)) := by
  have hform : lval_eval (interp (n + 3)) h e
      (sexpr [sym "try", qexpr expr, qexpr [sym "catch", sym "e", qexpr [sym "e"]]]) =
      builtin_try (interp (n + 3)) h e
        (sexpr [qexpr expr, qexpr [sym "catch", sym "e", qexpr [sym "e"]]]) := by
    simp [lval_eval, lval_eval_sexpr, lval.cells, eval_sexpr_children, interp, htry,
      eval_children, temp_env, lval.is_err, eval_sexpr_head, lval.is_fun, lval_call,
      call_builtin]
  rw [hform]
  by_cases hre : r.is_err = true
  · cases r with
    | err m t =>
      refine ⟨caught_err m t, (h1.alloc (lval_table_alloc 1)).2.set_table h1.tables.length
        (lval_table_insert (lval_table_alloc 1) "e" (caught_err m t)), ?_, rfl,
        Or.inr ⟨m, t, rfl, rfl⟩⟩
      rw [builtin_try_error (interp (n + 3)) h e expr [sym "e"] "e" m t h1 hr]
      rw [interp_call]
      rw [lval_call_catch (interp (n + 2)) h1 e "e" [sym "e"] (caught_err m t) (by decide)]
      apply lval_eval_catch_var n _ _ (caught_err m t) rfl rfl
      have hs := table_set_same (h1.alloc (lval_table_alloc 1)).2 h1.tables.length
        (lval_table_insert (lval_table_alloc 1) "e" (caught_err m t)) (lval_table_alloc 1)
        (table_alloc_new h1 _)
      simp only [lenv_get, hs, get_insert _ (alloc_wf 1), if_true]
    | _ => simp [lval.is_err] at hre
  · have hre2 : r.is_err = false := by simpa using hre
    exact ⟨r, h1, builtin_try_value (interp (n + 3)) h e expr [sym "e"] "e" r h1 hr hre2,
      hre2, Or.inl ⟨hre2, rfl, rfl⟩⟩

theorem C3_try_catch_total_witness :
    ∃ r2 h2,
      lval_eval (interp 3) root_heap root_env
        (sexpr [sym "try", qexpr [sexpr [sym "error", str "boom"]],
          qexpr [sym "catch", sym "e", qexpr [sym "e"]]]) = some (r2, h2) ∧
      r2.is_err = false ∧
      (((err "boom" none).is_err = false ∧ r2 = err "boom" none ∧ h2 = root_heap) ∨
        (∃ m t, err "boom" none = err m t ∧ r2 = caught_err m t)) :=
  C3_try_catch_total 0 root_heap root_env [sexpr [sym "error", str "boom"]]
    (err "boom" none) root_heap (by rfl) (by rfl)

/-- C3 (counterexample). With the catch body written as the bare symbol `e`, as in
`(try {1} {catch e e})`, the form yields an uncaught error although the block `{1}`
evaluates to 1; so does `(try 1 {catch e e})`, whose first argument is no list. -/
theorem C3_counterexample :
    lval_eval_sexpr (interp 2) root_heap root_env (qexpr [int 1]) = some (int 1, root_heap) ∧
    lval_eval (interp 3) root_heap root_env
      (sexpr [sym "try", qexpr [int 1], qexpr [sym "catch", sym "e", sym "e"]]) =
      some (err "catch missing function body argument" stack_trace, root_heap) ∧
    lval_eval (interp 3) root_heap root_env
      (sexpr [sym "try", int 1, qexpr [sym "catch", sym "e", sym "e"]]) =
      some (err "Function 'try' passed incorrect type for arg 0" stack_trace, root_heap) := by
  refine ⟨by rfl, by rfl, by rfl⟩

theorem lenv_get_alloc (h : heap) (t : lval_table) (k : String) (v : lval) :
    ∀ e : lenv, lenv_get h e k = some v → lenv_get (h.alloc t).2 e k = some v := by
  intro e
  induction e with
  | nil => intro hg; exact hg
  | cons a rest ih =>
    intro hg
    simp only [lenv_get] at hg ⊢
    cases ha : h.table a with
    | none => simp [ha] at hg
    | some tbl =>
      rw [table_alloc_old h t a tbl ha]
      simp only [ha] at hg
      cases hk : lval_table_get tbl k with
      | none =>
        simp only [hk] at hg ⊢
        exact ih hg
      | some item =>
        simp only [hk] at hg ⊢
        exact hg

/-- C4 (amended). A lambda value holds its parameter list and its body and nothing
of the environment it was created in: `builtin_lambda` returns the same value in
every environment `e0`. Applying it evaluates the body in a child of the
environment `e` of the call: the free symbol `x` of the body `{x}` resolves to the
value `v` that `x` is bound to where the lambda is applied. -/
theorem C4_lambda_uses_caller_scope (n : Nat) (h : heap) (e : lenv) (x : String) (v : lval)
    (hg : lenv_get h e x = some v) (hv : v.is_err = false) (hf : v.is_fun = false) :
    (∀ (h0 : heap) (e0 : lenv),
      builtin_lambda h0 e0 (sexpr [qexpr [], qexpr [sym x]]) =
        some (lambda (qexpr []) (qexpr [sym x]), h0)) ∧
    lval_call (interp (n + 2)) h e (lambda (qexpr []) (qexpr [sym x])) (sexpr []) =
      some (v, (h.alloc (lval_table_alloc 0)).2) := by
  constructor
  · intro h0 e0
    simp [builtin_lambda, lval.cells, lval.is_qexpr, param_types_ok]
  · have hnew := table_alloc_new h (lval_table_alloc 0)
    have hg2 : lenv_get (h.alloc (lval_table_alloc 0)).2 (h.tables.length :: e) x = some v := by
      simp only [lenv_get, hnew]
      have : lval_table_get (lval_table_alloc 0) x = none := by
        simp [lval_table_get, get_entry_alloc]
      rw [this]
      exact lenv_get_alloc h _ x v e hg
    simp only [lval_call, lval.cells, List.length_nil, lval_call_bind, if_true, builtin_eval,
      lval.is_qexpr, interp_eval_sexpr, lval_eval_sexpr, eval_sexpr_children, interp_eval,
      lval_eval, heap.alloc] at hg2 ⊢
    simp only [hg2, eval_children, List.find?_cons, hv, List.find?_nil, eval_sexpr_head,
      List.isEmpty_nil, hf, Bool.not_false, Bool.and_self, if_true]

theorem C4_lambda_uses_caller_scope_witness :
    lval_call (interp 2)
      { tables := [lval_table_insert (lval_table_alloc 2) "x" (int 2)], types := 0 } [0]
      (lambda (qexpr []) (qexpr [sym "x"])) (sexpr []) =
      some (int 2,
        { tables := [lval_table_insert (lval_table_alloc 2) "x" (int 2), lval_table_alloc 0],
          types := 0 }) :=
  (C4_lambda_uses_caller_scope 0
    { tables := [lval_table_insert (lval_table_alloc 2) "x" (int 2)], types := 0 } [0] "x"
    (int 2) (by rfl) rfl rfl).2

/-- C4 (counterexample). After `(def {x} 1)`, `(def {f} (lambda {} {x}))` and
`(fun {g x} {f})`, the root environment binds `x` to 1, the binding visible where
`f` was created, yet `(g 2)`, which applies `f` in a scope that binds `x` to 2,
evaluates to 2. And a lambda returned by `(fun {mk y} {lambda {} {y}})` and
applied after `mk` has returned finds `y` unbound. -/
theorem C4_counterexample :
    ((builtin_load_str (interp 6) root_env
        [sexpr [sym "def", qexpr [sym "x"], int 1],
         sexpr [sym "def", qexpr [sym "f"], sexpr [sym "lambda", qexpr [], qexpr [sym "x"]]],
         sexpr [sym "fun", qexpr [sym "g", sym "x"], qexpr [sym "f"]]] root_heap).bind
      (fun r => (lenv_get r.2 root_env "x", (lval_eval (interp 6) r.2 root_env
        (sexpr [sym "g", int 2])).map Prod.fst))) = some (some (int 1), some (int 2)) ∧
    ((builtin_load_str (interp 6) root_env
        [sexpr [sym "fun", qexpr [sym "mk", sym "y"], qexpr [sym "lambda", qexpr [], qexpr [sym "y"]]],
         sexpr [sym "def", qexpr [sym "k"], sexpr [sym "mk", int 5]]] root_heap).bind
      (fun r => (lval_eval (interp 6) r.2 root_env (sexpr [sym "k"])).map Prod.fst)) =
      some (err "Unbound symbol 'y'" stack_trace) := by
  refine ⟨by rfl, by rfl⟩

/-- Copying a value only adds tables: every table of the heap stays where it is. -/
theorem lval_copy_keeps_tables (v : lval) :
    ∀ (h : heap) (v2 : lval) (h2 : heap), lval_copy h v = some (v2, h2) →
      ∀ a t, h.table a = some t → h2.table a = some t := by
  refine @lval.rec
    (fun v => ∀ (h : heap) (v2 : lval) (h2 : heap), lval_copy h v = some (v2, h2) →
      ∀ a t, h.table a = some t → h2.table a = some t)
    (fun l => ∀ (h : heap) (l2 : List lval) (h2 : heap), lval_copy_cells h l = some (l2, h2) →
      ∀ a t, h.table a = some t → h2.table a = some t)
    ?_ ?_ ?_ ?_ ?_ ?_ ?_ ?_ ?_ ?_ ?_ ?_ ?_ ?_ ?_ ?_ ?_ ?_ ?_ v
  case refine_7 =>
    intro d h v2 h2 hc a t ha
    simp only [lval_copy, heap_copy_table] at hc
    cases hd : h.table d with
    | none => simp [hd] at hc
    | some tbl =>
      simp only [hd, Option.map_some', Option.some.injEq, Prod.mk.injEq] at hc
      rw [← hc.2]
      exact table_alloc_old h _ a t ha
  case refine_17 =>
    intro ty p _ h v2 h2 hc a t ha
    simp only [lval_copy, heap_copy_table] at hc
    cases hd : h.table p with
    | none => simp [hd] at hc
    | some tbl =>
      simp only [hd, Option.map_some', Option.some.injEq, Prod.mk.injEq] at hc
      rw [← hc.2]
      exact table_alloc_old h _ a t ha
  case refine_9 =>
    intro args body ih1 ih2 h v2 h2 hc a t ha
    simp only [lval_copy] at hc
    cases h1 : lval_copy h args with
    | none => simp [h1] at hc
    | some r1 =>
      obtain ⟨a1, ha1⟩ := r1
      simp only [h1] at hc
      cases h3 : lval_copy ha1 body with
      | none => simp [h3] at hc
      | some r2 =>
        obtain ⟨b1, hb1⟩ := r2
        simp only [h3, Option.some.injEq, Prod.mk.injEq] at hc
        rw [← hc.2]
        exact ih2 ha1 b1 hb1 h3 a t (ih1 h a1 ha1 h1 a t ha)
  case refine_16 =>
    intro args body ih1 ih2 h v2 h2 hc a t ha
    simp only [lval_copy] at hc
    cases h1 : lval_copy h args with
    | none => simp [h1] at hc
    | some r1 =>
      obtain ⟨a1, ha1⟩ := r1
      simp only [h1] at hc
      cases h3 : lval_copy ha1 body with
      | none => simp [h3] at hc
      | some r2 =>
        obtain ⟨b1, hb1⟩ := r2
        simp only [h3, Option.some.injEq, Prod.mk.injEq] at hc
        rw [← hc.2]
        exact ih2 ha1 b1 hb1 h3 a t (ih1 h a1 ha1 h1 a t ha)
  case refine_10 =>
    intro c ih h v2 h2 hc a t ha
    simp only [lval_copy] at hc
    cases h1 : lval_copy_cells h c with
    | none => simp [h1] at hc
    | some r1 =>
      obtain ⟨c1, hc1⟩ := r1
      simp only [h1, Option.some.injEq, Prod.mk.injEq] at hc
      rw [← hc.2]
      exact ih h c1 hc1 h1 a t ha
  case refine_11 =>
    intro c ih h v2 h2 hc a t ha
    simp only [lval_copy] at hc
    cases h1 : lval_copy_cells h c with
    | none => simp [h1] at hc
    | some r1 =>
      obtain ⟨c1, hc1⟩ := r1
      simp only [h1, Option.some.injEq, Prod.mk.injEq] at hc
      rw [← hc.2]
      exact ih h c1 hc1 h1 a t ha
  case refine_18 =>
    intro h l2 h2 hc a t ha
    simp only [lval_copy_cells, Option.some.injEq, Prod.mk.injEq] at hc
    rw [← hc.2]; exact ha
  case refine_19 =>
    intro x xs ih1 ih2 h l2 h2 hc a t ha
    simp only [lval_copy_cells] at hc
    cases h1 : lval_copy h x with
    | none => simp [h1] at hc
    | some r1 =>
      obtain ⟨a1, ha1⟩ := r1
      simp only [h1] at hc
      cases h3 : lval_copy_cells ha1 xs with
      | none => simp [h3] at hc
      | some r2 =>
        obtain ⟨b1, hb1⟩ := r2
        simp only [h3, Option.some.injEq, Prod.mk.injEq] at hc
        rw [← hc.2]
        exact ih2 ha1 b1 hb1 h3 a t (ih1 h a1 ha1 h1 a t ha)
  all_goals
    first
    | (intro _ h v2 h2 hc a t ha
       simp only [lval_copy, Option.some.injEq, Prod.mk.injEq] at hc
       rw [← hc.2]; exact ha)
    | (intro _ _ h v2 h2 hc a t ha
       simp only [lval_copy, Option.some.injEq, Prod.mk.injEq] at hc
       rw [← hc.2]; exact ha)
    | (intro _ _ _ _ h v2 h2 hc a t ha
       simp only [lval_copy, Option.some.injEq, Prod.mk.injEq] at hc
       rw [← hc.2]; exact ha)

theorem lval_copy_cells_keeps_tables (l l2 : List lval) (h h2 : heap)
    (hc : lval_copy_cells h l = some (l2, h2)) (a : Nat) (t : lval_table)
    (ha : h.table a = some t) : h2.table a = some t := by
  have : lval_copy h (qexpr l) = some (qexpr l2, h2) := by simp [lval_copy, hc]
  exact lval_copy_keeps_tables (qexpr l) h (qexpr l2) h2 this a t ha

theorem lval_copy_cells_numbers (l : List lval) (h : heap)
    (hn : ∀ x ∈ l, lval_is_number x = true) : lval_copy_cells h l = some (l, h) := by
  induction l with
  | nil => rfl
  | cons x xs ih =>
    have hx := hn x (List.mem_cons_self _ _)
    have hxs := ih (fun y hy => hn y (List.mem_cons_of_mem _ hy))
    cases x <;> simp_all [lval_is_number, lval_copy_cells, lval_copy]

theorem set_table_set_table (h : heap) (a : Nat) (t t2 : lval_table) :
    (h.set_table a t).set_table a t2 = h.set_table a t2 := by
  simp [heap.set_table]

theorem set_table_self (h : heap) (a : Nat) (t : lval_table) (ha : h.table a = some t) :
    h.set_table a t = h := by
  cases h with
  | mk tables types =>
    simp only [heap.set_table, heap.table] at ha ⊢
    congr 1
    apply List.ext_getElem?
    intro i
    by_cases hi : a = i
    · subst hi
      have hlt : a < tables.length := by
        rw [List.getElem?_eq_some_iff] at ha
        exact ha.1
      rw [List.getElem?_set_self hlt, ha]
    · rw [List.getElem?_set_ne hi]

theorem bound_table_cons (t : lval_table) (p : String) (ps : List String) (a : lval)
    (as : List lval) :
    bound_table t (p :: ps) (a :: as) = bound_table (lval_table_insert t p a) ps as := rfl

theorem bound_table_wf (ps : List String) :
    ∀ (t : lval_table) (args : List lval), table_wf t → table_wf (bound_table t ps args) := by
  induction ps with
  | nil => intro t args wf; simpa [bound_table] using wf
  | cons p ps ih =>
    intro t args wf
    cases args with
    | nil => simpa [bound_table] using wf
    | cons a as =>
      rw [bound_table_cons]
      exact ih _ _ (insert_wf t wf p a)

theorem get_bound_table_other (ps : List String) (q : String) (hq : q ∉ ps) :
    ∀ (t : lval_table) (args : List lval), table_wf t →
      lval_table_get (bound_table t ps args) q = lval_table_get t q := by
  induction ps with
  | nil => intro t args wf; simp [bound_table]
  | cons p ps ih =>
    intro t args wf
    cases args with
    | nil => simp [bound_table]
    | cons a as =>
      rw [bound_table_cons, ih (fun h => hq (List.mem_cons_of_mem _ h)) _ _ (insert_wf t wf p a),
        get_insert t wf]
      have : ¬ p = q := fun h => hq (h ▸ List.mem_cons_self _ _)
      simp [this]

theorem get_bound_table (ps : List String) (hnd : ps.Nodup) :
    ∀ (t : lval_table) (args : List lval), table_wf t →
      ∀ (i : Nat) (p : String) (a : lval), ps[i]? = some p → args[i]? = some a →
        lval_table_get (bound_table t ps args) p = some a := by
  induction ps with
  | nil => intro t args wf i p a hp; simp at hp
  | cons p0 ps ih =>
    intro t args wf i p a hp ha
    rw [List.nodup_cons] at hnd
    cases args with
    | nil => simp at ha
    | cons a0 as =>
      rw [bound_table_cons]
      cases i with
      | zero =>
        simp only [List.getElem?_cons_zero, Option.some.injEq] at hp ha
        subst hp; subst ha
        rw [get_bound_table_other ps p0 hnd.1 _ _ (insert_wf t wf p0 a0), get_insert t wf]
        simp
      | succ j =>
        simp only [List.getElem?_cons_succ] at hp ha
        exact ih hnd.2 _ _ (insert_wf t wf p0 a0) j p a hp ha

/-- The binding loop of `lval_call` over plain parameters other than `&`. -/
theorem lval_call_bind_plain (ev : evaluator) (e : lenv) (env : Nat) (needed : Nat)
    (post : List lval) (rest_args : List lval) (ps : List String) :
    ∀ (pre : List lval) (args : List lval) (used : Nat) (h : heap) (t : lval_table),
      args.length = ps.length → (∀ p ∈ ps, p ≠ "&") → h.table env = some t →
      lval_call_bind ev e env (pre ++ ps.map sym ++ post) needed pre.length
          (args ++ rest_args) used h =
        lval_call_bind ev e env (pre ++ ps.map sym ++ post) needed (pre.length + ps.length)
          rest_args (used + ps.length) (h.set_table env (bound_table t ps args)) := by
  induction ps with
  | nil =>
    intro pre args used h t hlen _ ht
    have : args = [] := List.length_eq_zero.1 hlen
    subst this
    simp only [List.map_nil, List.append_nil, List.nil_append, List.length_nil, Nat.add_zero,
      bound_table, List.zip_nil_left, List.foldl_nil]
    rw [set_table_self h env t ht]
  | cons p ps ih =>
    intro pre args used h t hlen hamp ht
    cases args with
    | nil => simp at hlen
    | cons a as =>
      have hlen2 : as.length = ps.length := by simpa using hlen
      have hp : p ≠ "&" := hamp p (List.mem_cons_self _ _)
      have hamp2 : ∀ q ∈ ps, q ≠ "&" := fun q hq => hamp q (List.mem_cons_of_mem _ hq)
      have hform : pre ++ List.map sym (p :: ps) ++ post =
          (pre ++ [sym p]) ++ List.map sym ps ++ post := by simp
      have hidx : (pre ++ List.map sym (p :: ps) ++ post)[pre.length]? = some (sym p) := by
        rw [List.append_assoc, List.getElem?_append_right (Nat.le_refl _)]
        simp
      have hlt : ¬ pre.length ≥ (pre ++ List.map sym (p :: ps) ++ post).length := by
        simp only [List.length_append, List.length_map, List.length_cons]
        omega
      have hstep : lval_call_bind ev e env (pre ++ List.map sym (p :: ps) ++ post) needed
          pre.length ((a :: as) ++ rest_args) used h =
          lval_call_bind ev e env (pre ++ List.map sym (p :: ps) ++ post) needed
            (pre.length + 1) (as ++ rest_args) (used + 1)
            (h.set_table env (lval_table_insert t p a)) := by
        rw [List.cons_append, lval_call_bind]
        simp only [hlt, if_false, hidx, typed_param, lval.sym_name, hp, lenv_def_or_set, ht,
          Option.getD_none]
      rw [hstep, hform]
      have hpl : pre.length + 1 = (pre ++ [sym p]).length := by simp
      rw [hpl, ih (pre ++ [sym p]) as (used + 1) _ (lval_table_insert t p a) hlen2 hamp2
        (table_set_same h env _ t ht), set_table_set_table, bound_table_cons]
      simp only [List.length_append, List.length_cons, List.length_nil, Nat.zero_add]
      have e1 : pre.length + 1 + ps.length = pre.length + (ps.length + 1) := by omega
      have e2 : used + 1 + ps.length = used + (ps.length + 1) := by omega
      rw [e1, e2]

/-- C5 (amended). A lambda with the parameter list `p1 ... pk & rest` (the `pi` symbols
other than `&`) is called with the arguments `args ++ extra`, `k` arguments `args`
followed by at least one more. The call runs `builtin_eval` on the body in a new
environment whose table binds `p1..pk` to `args`, in order, and then `rest` to the
list `cs` that `builtin_list` makes of `extra` (a copy, element by element). When
the names are distinct, looking up `pi` there yields the i-th argument and looking
up `rest` yields the list `cs`; for numeric arguments `cs` is `extra` itself. -/
theorem C5_variadic_binding (ev : evaluator) (h : heap) (e : lenv) (ps : List String)
    (rest : String) (body : lval) (args extra cs : List lval) (hc : heap)
    (hlen : args.length = ps.length) (hamp : ∀ p ∈ ps, p ≠ "&") (hne : extra ≠ [])
    (hcopy : lval_copy_cells
      ((h.alloc (lval_table_alloc (ps.length + 2))).2.set_table h.tables.length
        (bound_table (lval_table_alloc (ps.length + 2)) ps args)) extra = some (cs, hc)) :
    lval_call ev h e (lambda (qexpr (ps.map sym ++ [sym "&", sym rest])) body)
        (sexpr (args ++ extra)) =
      builtin_eval ev
        (hc.set_table h.tables.length
          (lval_table_insert (bound_table (lval_table_alloc (ps.length + 2)) ps args) rest
            (qexpr cs)))
        (h.tables.length :: e) (sexpr [body]) ∧
    ((ps ++ [rest]).Nodup →
      lenv_get
          (hc.set_table h.tables.length
            (lval_table_insert (bound_table (lval_table_alloc (ps.length + 2)) ps args) rest
              (qexpr cs)))
          (h.tables.length :: e) rest = some (qexpr cs) ∧
      ∀ (i : Nat) (p : String) (a : lval), ps[i]? = some p → args[i]? = some a →
        lenv_get
          (hc.set_table h.tables.length
            (lval_table_insert (bound_table (lval_table_alloc (ps.length + 2)) ps args) rest
              (qexpr cs)))
          (h.tables.length :: e) p = some a) ∧
    ((∀ x ∈ extra, lval_is_number x = true) → cs = extra) := by
  have hnew := table_alloc_new h (lval_table_alloc (ps.length + 2))
  have hk := table_set_same (h.alloc (lval_table_alloc (ps.length + 2))).2 h.tables.length
    (bound_table (lval_table_alloc (ps.length + 2)) ps args) _ hnew
  have hck := lval_copy_cells_keeps_tables extra cs _ hc hcopy _ _ hk
  have hf := table_set_same hc h.tables.length
    (lval_table_insert (bound_table (lval_table_alloc (ps.length + 2)) ps args) rest (qexpr cs))
    _ hck
  have wfk := bound_table_wf ps (lval_table_alloc (ps.length + 2)) args (alloc_wf _)
  refine ⟨?_, ?_, ?_⟩
  · have hfl : (ps.map sym ++ [sym "&", sym rest]).length = ps.length + 2 := by simp
    have hbind := lval_call_bind_plain ev e h.tables.length (ps.length + 2)
      [sym "&", sym rest] extra ps [] args 0 (h.alloc (lval_table_alloc (ps.length + 2))).2
      (lval_table_alloc (ps.length + 2)) hlen hamp hnew
    simp only [List.nil_append, List.length_nil, Nat.zero_add] at hbind
    obtain ⟨x, xs, hx⟩ := List.exists_cons_of_ne_nil hne
    subst hx
    have hi1 : (ps.map sym ++ [sym "&", sym rest])[ps.length]? = some (sym "&") := by
      rw [List.getElem?_append_right (by simp)]
      simp
    have hi2 : (ps.map sym ++ [sym "&", sym rest])[ps.length + 1]? = some (sym rest) := by
      rw [List.getElem?_append_right (by simp)]
      simp
    have hlist : builtin_list
        ((h.alloc (lval_table_alloc (ps.length + 2))).2.set_table h.tables.length
          (bound_table (lval_table_alloc (ps.length + 2)) ps args)) (qexpr (x :: xs)) =
        some (qexpr cs, hc) := by
      simp only [builtin_list, lval_copy, hcopy]
    have hlt : ¬ ps.length ≥ (ps.map sym ++ [sym "&", sym rest]).length := by
      rw [hfl]; omega
    simp only [lval_call, lval.cells, hfl]
    rw [show (h.alloc (lval_table_alloc (ps.length + 2))).1 = h.tables.length from rfl, hbind,
      lval_call_bind]
    simp only [hlt, if_false, hi1, typed_param, lval.sym_name, if_true, ne_eq, not_true,
      hlist, hi2, Option.bind_some, lenv_def_or_set, hck]
    simp
  · intro hnd
    have hnd2 : ps.Nodup := (List.nodup_append.1 hnd).1
    have hrest : rest ∉ ps := by
      intro hm
      exact (List.nodup_append.1 hnd).2.2 hm (List.mem_singleton_self _)
    refine ⟨?_, ?_⟩
    · simp only [lenv_get, hf, get_insert _ wfk, if_true]
    · intro i p a hp ha
      have hpm : p ∈ ps := List.getElem?_mem hp
      have hne2 : ¬ rest = p := fun hh => hrest (hh ▸ hpm)
      simp only [lenv_get, hf, get_insert _ wfk, hne2, if_false]
      rw [get_bound_table ps hnd2 _ args (alloc_wf _) i p a hp ha]
  · intro hnum
    have := lval_copy_cells_numbers extra
      ((h.alloc (lval_table_alloc (ps.length + 2))).2.set_table h.tables.length
        (bound_table (lval_table_alloc (ps.length + 2)) ps args)) hnum
    rw [this] at hcopy
    simp only [Option.some.injEq, Prod.mk.injEq] at hcopy
    exact hcopy.1.symm


theorem C5_variadic_binding_witness :
    (lval_call (interp 4) root_heap root_env
      (lambda (qexpr [sym "&", sym "xs"]) (qexpr [sym "len", sym "xs"]))
      (sexpr [int 1, int 2, int 3, int 4])).map Prod.fst = some (int 4) ∧
    ((builtin_load_str (interp 5) root_env
        [sexpr [sym "fun", qexpr [sym "f", sym "&", sym "xs"], qexpr [sym "len", sym "xs"]]]
        root_heap).bind
      (fun r => (lval_eval (interp 5) r.2 root_env
        (sexpr [sym "f", int 1, int 2, int 3, int 4])).map Prod.fst)) = some (int 4) := by
  have H := (C5_variadic_binding (interp 4) root_heap root_env [] "xs"
    (qexpr [sym "len", sym "xs"]) [] [int 1, int 2, int 3, int 4]
    [int 1, int 2, int 3, int 4]
    ((root_heap.alloc (lval_table_alloc 2)).2.set_table root_heap.tables.length
      (bound_table (lval_table_alloc 2) [] []))
    rfl (by simp) (by simp) (by rfl)).1
  exact ⟨(congrArg (Option.map Prod.fst) H).trans (by rfl), by rfl⟩

/-- C5 (counterexample). With exactly as many arguments as parameters before `&`, the
call is an error and `rest` is not bound to the empty list: after
`(fun {f x & xs} {len xs})` the call `(f 1)` returns an error, and after
`(fun {g & xs} {len xs})` so does `(g)`. -/
theorem C5_counterexample :
    ((builtin_load_str (interp 5) root_env
        [sexpr [sym "fun", qexpr [sym "f", sym "x", sym "&", sym "xs"],
          qexpr [sym "len", sym "xs"]]] root_heap).bind
      (fun r => (lval_eval (interp 5) r.2 root_env (sexpr [sym "f", int 1])).map Prod.fst)) =
      some (err "Function expects more arguments" stack_trace) ∧
    ((builtin_load_str (interp 5) root_env
        [sexpr [sym "fun", qexpr [sym "g", sym "&", sym "xs"],
          qexpr [sym "len", sym "xs"]]] root_heap).bind
      (fun r => (lval_eval (interp 5) r.2 root_env (sexpr [sym "g"])).map Prod.fst)) =
      some (err "Function expects more arguments" stack_trace) := by
  refine ⟨by rfl, by rfl⟩

theorem cast_number_rank (v : lval) (T : lval_type)
    (hT : T = LVAL_INT ∨ T = LVAL_FLT ∨ T = LVAL_BYTE) (hv : lval_is_number v = true) :
    ∃ c, cast_to v T = some c ∧ c.type = T := by
  rcases hT with rfl | rfl | rfl <;> cases v <;>
    simp_all [lval_is_number, cast_to, cast_to_int, cast_to_float, cast_to_byte, lval_int,
      lval_byte, lval.type]

/-- The binding loop of `lval_call` at the last parameter, declared `x:T`. -/
theorem lval_call_bind_typed_last (ev : evaluator) (e : lenv) (env : Nat) (pre : List lval)
    (x : String) (T : lval_type) (v : lval) (used : Nat) (h : heap) (t : lval_table)
    (hx : x ≠ "&") (ht : h.table env = some t) :
    lval_call_bind ev e env (pre ++ [kvpair (sym x) (ptype T)]) (pre.length + 1) pre.length
        [v] used h =
      match value_matches_type ev.eq h v (ptype T) with
      | none => none
      | some (false, _) =>
        some (Sum.inl (lval_err_for_val "Parameter for function: Type mismatch"), h)
      | some (true, cast_val) =>
        some (Sum.inr (used + 1, pre.length + 1),
          h.set_table env (lval_table_insert t x (cast_val.getD v))) := by
  have hidx : (pre ++ [kvpair (sym x) (ptype T)])[pre.length]? =
      some (kvpair (sym x) (ptype T)) := by
    rw [List.getElem?_append_right (Nat.le_refl _)]
    simp
  have hlt : ¬ pre.length ≥ (pre ++ [kvpair (sym x) (ptype T)]).length := by
    simp
  rw [lval_call_bind]
  simp only [hlt, if_false, hidx, typed_param, type_from_pair, lval.is_err]
  cases hm : value_matches_type ev.eq h v (ptype T) with
  | none => simp
  | some r =>
    obtain ⟨b, c⟩ := r
    cases b with
    | false => simp
    | true =>
      simp [lval.sym_name, hx, lenv_def_or_set, ht, lval_call_bind]


theorem lval_call_typed_last (ev : evaluator) (h : heap) (e : lenv) (ps : List String)
    (x : String) (T : lval_type) (body : lval) (args : List lval) (v : lval)
    (hlen : args.length = ps.length) (hamp : ∀ p ∈ ps, p ≠ "&") (hx : x ≠ "&") :
    lval_call ev h e (lambda (qexpr (ps.map sym ++ [kvpair (sym x) (ptype T)])) body)
        (sexpr (args ++ [v])) =
      match value_matches_type ev.eq h v (ptype T) with
      | none => none
      | some (false, _) =>
        some (lval_err_for_val "Parameter for function: Type mismatch",
          (h.alloc (lval_table_alloc (ps.length + 1))).2.set_table h.tables.length
            (bound_table (lval_table_alloc (ps.length + 1)) ps args))
      | some (true, cast_val) =>
        builtin_eval ev
          ((h.alloc (lval_table_alloc (ps.length + 1))).2.set_table h.tables.length
            (lval_table_insert (bound_table (lval_table_alloc (ps.length + 1)) ps args) x
              (cast_val.getD v)))
          (h.tables.length :: e) (sexpr [body]) := by
  have hnew := table_alloc_new h (lval_table_alloc (ps.length + 1))
  have hk := table_set_same (h.alloc (lval_table_alloc (ps.length + 1))).2 h.tables.length
    (bound_table (lval_table_alloc (ps.length + 1)) ps args) _ hnew
  have hfl : (ps.map sym ++ [kvpair (sym x) (ptype T)]).length = ps.length + 1 := by simp
  have hbind := lval_call_bind_plain ev e h.tables.length (ps.length + 1)
    [kvpair (sym x) (ptype T)] [v] ps [] args 0 (h.alloc (lval_table_alloc (ps.length + 1))).2
    (lval_table_alloc (ps.length + 1)) hlen hamp hnew
  simp only [List.nil_append, List.length_nil, Nat.zero_add] at hbind
  have hlast := lval_call_bind_typed_last ev e h.tables.length (ps.map sym) x T v ps.length
    ((h.alloc (lval_table_alloc (ps.length + 1))).2.set_table h.tables.length
      (bound_table (lval_table_alloc (ps.length + 1)) ps args))
    (bound_table (lval_table_alloc (ps.length + 1)) ps args) hx hk
  simp only [List.length_map] at hlast
  have hvm : ∀ h2 : heap, value_matches_type ev.eq h2 v (ptype T) =
      value_matches_type ev.eq h v (ptype T) := fun _ => rfl
  simp only [lval_call, lval.cells, hfl]
  rw [show (h.alloc (lval_table_alloc (ps.length + 1))).1 = h.tables.length from rfl, hbind,
    hlast, hvm]
  cases hm : value_matches_type ev.eq h v (ptype T) with
  | none => rfl
  | some r =>
    obtain ⟨b, c⟩ := r
    cases b with
    | false => rfl
    | true => simp [set_table_set_table]

/-- C6. A lambda whose last parameter is declared `x:T`, `T` a primitive type, after
plain parameters `p1..pk`, is called with `k + 1` arguments, the last one `v`. If
the type of `v` is `T`, the body is evaluated with `x` bound to `v` itself. If `T`
is Integer, Float or Byte and `v` is a number of another rank, the body is
evaluated with `x` bound to `cast_to v T`, a value of type `T`. If `v` neither has
type `T` nor can be cast to it (`T` is String, or `cast_to` fails), the call returns
an error in the state that holds only the bindings of `p1..pk`: the body is not
evaluated. -/
theorem C6_typed_parameter (ev : evaluator) (h : heap) (e : lenv) (ps : List String)
    (x : String) (T : lval_type) (body : lval) (args : List lval) (v : lval)
    (hlen : args.length = ps.length) (hamp : ∀ p ∈ ps, p ≠ "&") (hx : x ≠ "&") :
    (v.type = T →
      lval_call ev h e (lambda (qexpr (ps.map sym ++ [kvpair (sym x) (ptype T)])) body)
          (sexpr (args ++ [v])) =
        builtin_eval ev
          ((h.alloc (lval_table_alloc (ps.length + 1))).2.set_table h.tables.length
            (lval_table_insert (bound_table (lval_table_alloc (ps.length + 1)) ps args) x v))
          (h.tables.length :: e) (sexpr [body]) ∧
      lenv_get
          ((h.alloc (lval_table_alloc (ps.length + 1))).2.set_table h.tables.length
            (lval_table_insert (bound_table (lval_table_alloc (ps.length + 1)) ps args) x v))
          (h.tables.length :: e) x = some v) ∧
    (v.type ≠ T → (T = LVAL_INT ∨ T = LVAL_FLT ∨ T = LVAL_BYTE) → lval_is_number v = true →
      ∃ c, cast_to v T = some c ∧ c.type = T ∧
        lval_call ev h e (lambda (qexpr (ps.map sym ++ [kvpair (sym x) (ptype T)])) body)
            (sexpr (args ++ [v])) =
          builtin_eval ev
            ((h.alloc (lval_table_alloc (ps.length + 1))).2.set_table h.tables.length
              (lval_table_insert (bound_table (lval_table_alloc (ps.length + 1)) ps args) x c))
            (h.tables.length :: e) (sexpr [body]) ∧
        lenv_get
            ((h.alloc (lval_table_alloc (ps.length + 1))).2.set_table h.tables.length
              (lval_table_insert (bound_table (lval_table_alloc (ps.length + 1)) ps args) x c))
            (h.tables.length :: e) x = some c) ∧
    (v.type ≠ T → (T = LVAL_STR ∨ cast_to v T = none) →
      lval_call ev h e (lambda (qexpr (ps.map sym ++ [kvpair (sym x) (ptype T)])) body)
          (sexpr (args ++ [v])) =
        some (lval_err_for_val "Parameter for function: Type mismatch",
          (h.alloc (lval_table_alloc (ps.length + 1))).2.set_table h.tables.length
            (bound_table (lval_table_alloc (ps.length + 1)) ps args))) := by
  have hcall := lval_call_typed_last ev h e ps x T body args v hlen hamp hx
  have hnew := table_alloc_new h (lval_table_alloc (ps.length + 1))
  have wfk := bound_table_wf ps (lval_table_alloc (ps.length + 1)) args (alloc_wf _)
  have hget : ∀ w : lval, lenv_get
      ((h.alloc (lval_table_alloc (ps.length + 1))).2.set_table h.tables.length
        (lval_table_insert (bound_table (lval_table_alloc (ps.length + 1)) ps args) x w))
      (h.tables.length :: e) x = some w := by
    intro w
    have hs := table_set_same (h.alloc (lval_table_alloc (ps.length + 1))).2 h.tables.length
      (lval_table_insert (bound_table (lval_table_alloc (ps.length + 1)) ps args) x w) _ hnew
    simp only [lenv_get, hs, get_insert _ wfk, if_true]
  refine ⟨?_, ?_, ?_⟩
  · intro hty
    refine ⟨?_, hget v⟩
    rw [hcall]
    simp [value_matches_type, hty]
  · intro hty hT hnum
    obtain ⟨c, hc, hct⟩ := cast_number_rank v T hT hnum
    refine ⟨c, hc, hct, ?_, hget c⟩
    have hns : T ≠ LVAL_STR := by
      rcases hT with rfl | rfl | rfl <;> decide
    rw [hcall]
    simp [value_matches_type, hty, hns, hc]
  · intro hty hno
    rw [hcall]
    rcases hno with hs | hn
    · subst hs
      simp [value_matches_type, hty]
    · by_cases hs : T = LVAL_STR
      · subst hs
        simp [value_matches_type, hty]
      · simp [value_matches_type, hty, hs, hn]

theorem C6_typed_parameter_witness :
    (lval_call (interp 3) root_heap root_env
        (lambda (qexpr [sym "p", kvpair (sym "x") (ptype LVAL_INT)]) (qexpr [sym "x"]))
        (sexpr [int 0, str "oops"])).map Prod.fst =
      some (lval_err_for_val "Parameter for function: Type mismatch") ∧
    ∃ c, cast_to (byte 7) LVAL_INT = some c ∧ c.type = LVAL_INT ∧
      lval_call (interp 3) root_heap root_env
          (lambda (qexpr [sym "p", kvpair (sym "x") (ptype LVAL_INT)]) (qexpr [sym "x"]))
          (sexpr [int 0, byte 7]) =
        builtin_eval (interp 3)
          ((root_heap.alloc (lval_table_alloc 2)).2.set_table root_heap.tables.length
            (lval_table_insert (bound_table (lval_table_alloc 2) ["p"] [int 0]) "x" c))
          (root_heap.tables.length :: root_env) (sexpr [qexpr [sym "x"]]) ∧
      lenv_get
          ((root_heap.alloc (lval_table_alloc 2)).2.set_table root_heap.tables.length
            (lval_table_insert (bound_table (lval_table_alloc 2) ["p"] [int 0]) "x" c))
          (root_heap.tables.length :: root_env) "x" = some c := by
  have H1 := (C6_typed_parameter (interp 3) root_heap root_env ["p"] "x" LVAL_INT
    (qexpr [sym "x"]) [int 0] (str "oops") rfl (by decide) (by decide)).2.2
    (by decide) (Or.inr rfl)
  have H2 := (C6_typed_parameter (interp 3) root_heap root_env ["p"] "x" LVAL_INT
    (qexpr [sym "x"]) [int 0] (byte 7) rfl (by decide) (by decide)).2.1
    (by decide) (Or.inl rfl) rfl
  exact ⟨congrArg (Option.map Prod.fst) H1, H2⟩

theorem lenv_get_new_frame (h : heap) (t t2 : lval_table) (k : String) (v : lval) :
    ∀ e : lenv, lenv_get h e k = some v →
      lenv_get ((h.alloc t).2.set_table h.tables.length t2) e k = some v := by
  intro e
  induction e with
  | nil => intro hg; exact hg
  | cons a rest ih =>
    intro hg
    simp only [lenv_get] at hg ⊢
    cases ha : h.table a with
    | none => simp [ha] at hg
    | some tbl =>
      have hne : h.tables.length ≠ a := by
        intro heq
        rw [← heq, table_fresh] at ha
        cases ha
      rw [table_set_other _ _ _ _ hne, table_alloc_old h t a tbl ha]
      simp only [ha] at hg
      cases hk : lval_table_get tbl k with
      | none =>
        simp only [hk] at hg ⊢
        exact ih hg
      | some item =>
        simp only [hk] at hg ⊢
        exact hg

theorem lval_eval_number (ev : evaluator) (h : heap) (e : lenv) (v : lval)
    (hv : lval_is_number v = true) : lval_eval ev h e v = some (v, h) := by
  cases v <;> simp_all [lval_is_number, lval_eval]

theorem lval_copy_number (h : heap) (v : lval) (hv : lval_is_number v = true) :
    lval_copy h v = some (v, h) := by
  cases v <;> simp_all [lval_is_number, lval_copy]

theorem is_err_number (v : lval) (hv : lval_is_number v = true) : v.is_err = false := by
  cases v <;> simp_all [lval_is_number, lval.is_err]

/-- An untyped `(def {x} v)` in an environment whose innermost table does not hold `x`:
only that table is consulted and changed. -/
theorem builtin_def_new (ev : evaluator) (h : heap) (env : Nat) (e : lenv) (x : String)
    (v : lval) (t : lval_table) (ht : h.table env = some t)
    (hx : lval_table_get t x = none) :
    builtin_def ev h (env :: e) (sexpr [qexpr [sym x], v]) =
      some (sexpr [], h.set_table env (lval_table_insert t x v)) := by
  simp [builtin_def, builtin_var, lval.cells, lval.is_sym, builtin_var_loop, lenv_def, ht, hx]


theorem is_err_fn (b : lbuiltin) : (fn b).is_err = false := rfl

theorem is_err_qexpr (c : List lval) : (qexpr c).is_err = false := rfl

theorem is_err_sexpr (c : List lval) : (sexpr c).is_err = false := rfl

theorem is_fun_fn (b : lbuiltin) : (fn b).is_fun = true := rfl

theorem lval_eval_of_sexpr (ev : evaluator) (h : heap) (e : lenv) (c : List lval) :
    lval_eval ev h e (sexpr c) = lval_eval_sexpr ev h e (sexpr c) := rfl

theorem lval_eval_of_qexpr (ev : evaluator) (h : heap) (e : lenv) (c : List lval) :
    lval_eval ev h e (qexpr c) = some (qexpr c, h) := rfl

theorem lval_eval_of_sym (ev : evaluator) (h : heap) (e : lenv) (k : String) (r : lval)
    (hk : lenv_get h e k = some r) : lval_eval ev h e (sym k) = some (r, h) := by
  simp only [lval_eval, hk]

/-- C7. Let `x` be bound to `orig` in the environment `e`, and let `def` and `list`
name the built-ins there. Calling, from `e`, the lambda with the body
`{list (def {x} v) x}` returns the list `{() v}`: the `def` inside the body succeeds
(result `()`), although `x` is bound outside, and the lookup of `x` that follows
it in the body yields `v`. In the state after the call, `x` looked up in `e` is
still `orig`; the new binding lives in the table of the frame of the call only. -/
theorem C7_def_in_lambda_shadows (n : Nat) (h : heap) (e : lenv) (x : String)
    (orig v : lval)
    (hdef : lenv_get h e "def" = some (fn lbuiltin.b_def))
    (hlist : lenv_get h e "list" = some (fn lbuiltin.b_list))
    (hx : lenv_get h e x = some orig) (hv : lval_is_number v = true) :
    lval_call (interp (n + 3)) h e
        (lambda (qexpr [])
          (qexpr [sym "list", sexpr [sym "def", qexpr [sym x], v], sym x])) (sexpr []) =
      some (qexpr [sexpr [], v],
        (h.alloc (lval_table_alloc 0)).2.set_table h.tables.length
          (lval_table_insert (lval_table_alloc 0) x v)) ∧
    lenv_get
        ((h.alloc (lval_table_alloc 0)).2.set_table h.tables.length
          (lval_table_insert (lval_table_alloc 0) x v)) e x = some orig ∧
    lenv_get
        ((h.alloc (lval_table_alloc 0)).2.set_table h.tables.length
          (lval_table_insert (lval_table_alloc 0) x v)) (h.tables.length :: e) x = some v := by
  have hnew := table_alloc_new h (lval_table_alloc 0)
  have hnone : ∀ k, lval_table_get (lval_table_alloc 0) k = none := by
    intro k; simp [lval_table_get, get_entry_alloc]
  have g0 : ∀ k r, lenv_get h e k = some r →
      lenv_get (h.alloc (lval_table_alloc 0)).2 (h.tables.length :: e) k = some r := by
    intro k r hk
    simp only [lenv_get, hnew, hnone]
    exact lenv_get_alloc h _ k r e hk
  have hs := table_set_same (h.alloc (lval_table_alloc 0)).2 h.tables.length
    (lval_table_insert (lval_table_alloc 0) x v) _ hnew
  have gx : lenv_get ((h.alloc (lval_table_alloc 0)).2.set_table h.tables.length
      (lval_table_insert (lval_table_alloc 0) x v)) (h.tables.length :: e) x = some v := by
    simp only [lenv_get, hs, get_insert _ (alloc_wf 0), if_true]
  have hd := builtin_def_new (interp (n + 1)) (h.alloc (lval_table_alloc 0)).2 h.tables.length
    e x v _ hnew (hnone x)
  have hve := is_err_number v hv
  refine ⟨?_, lenv_get_new_frame h _ _ x orig e hx, gx⟩
  have e_def : lval_eval (interp (n + 1)) (h.alloc (lval_table_alloc 0)).2 (h.tables.length :: e)
      (sexpr [sym "def", qexpr [sym x], v]) =
      some (sexpr [], (h.alloc (lval_table_alloc 0)).2.set_table h.tables.length
        (lval_table_insert (lval_table_alloc 0) x v)) := by
    rw [lval_eval_of_sexpr]
    simp only [lval_eval_sexpr, lval.cells, eval_sexpr_children, interp_eval,
      lval_eval_of_sym _ _ _ _ _ (g0 _ _ hdef), temp_env, eval_children, lval_eval_of_qexpr,
      lval_eval_number _ _ _ v hv, List.find?_cons, is_err_fn, is_err_qexpr, hve,
      List.find?_nil, eval_sexpr_head, List.isEmpty_cons, Bool.false_and, Bool.false_eq_true,
      if_false, lval_call, call_builtin, hd]
  simp only [lval_call, lval.cells, List.length_nil, lval_call_bind, if_true, builtin_eval,
    lval.is_qexpr, interp_eval_sexpr, lval_eval_sexpr, eval_sexpr_children, interp_eval]
  rw [show (h.alloc (lval_table_alloc 0)).1 = h.tables.length from rfl]
  simp only [interp_eval, lval_eval_of_sym _ _ _ _ _ (g0 _ _ hlist), temp_env, eval_children,
    e_def,
    lval_eval_of_sym _ _ _ _ _ gx, List.find?_cons, is_err_fn, is_err_sexpr, hve,
    List.find?_nil, eval_sexpr_head, List.isEmpty_cons, Bool.false_and, Bool.false_eq_true,
    if_false, lval_call, call_builtin, builtin_list, lval_copy, lval_copy_cells,
    lval_copy_number _ v hv]


theorem C7_def_in_lambda_shadows_witness :
    (lval_call (interp 3)
        (root_heap.set_table 0 (lval_table_insert (lenv_add_builtins (lval_table_alloc 416))
          "x" (int 1))) root_env
        (lambda (qexpr [])
          (qexpr [sym "list", sexpr [sym "def", qexpr [sym "x"], int 2], sym "x"]))
        (sexpr [])).map Prod.fst = some (qexpr [sexpr [], int 2]) ∧
    lenv_get
        (((root_heap.set_table 0 (lval_table_insert (lenv_add_builtins (lval_table_alloc 416))
          "x" (int 1))).alloc (lval_table_alloc 0)).2.set_table 1
          (lval_table_insert (lval_table_alloc 0) "x" (int 2))) root_env "x" = some (int 1) := by
  have H := C7_def_in_lambda_shadows 0
    (root_heap.set_table 0 (lval_table_insert (lenv_add_builtins (lval_table_alloc 416))
      "x" (int 1))) root_env "x" (int 1) (int 2) (by rfl) (by rfl) (by rfl) rfl
  exact ⟨congrArg (Option.map Prod.fst) H.1, H.2.1⟩

/-- C8 (evaluation at the failing input). With `x` already defined by `(def {x} 1)`,
the form `(def {x y} 5 2)` returns `()` and no error, because the result of
`lenv_def` for `x` is overwritten by the result for `y`; `x` keeps the value 1 and
`y` is defined. The same redefinition of `x` is reported when `x` comes last,
`(def {y x} 2 5)`, or alone, `(def {x} 5)`. -/
theorem C8_def_error_overwritten :
    ((builtin_load_str (interp 4) root_env [sexpr [sym "def", qexpr [sym "x"], int 1]]
        root_heap).bind
      (fun r => (lval_eval (interp 4) r.2 root_env
          (sexpr [sym "def", qexpr [sym "x", sym "y"], int 5, int 2])).map
        (fun s => (s.1, lenv_get s.2 root_env "x", lenv_get s.2 root_env "y")))) =
      some (sexpr [], some (int 1), some (int 2)) ∧
    ((builtin_load_str (interp 4) root_env [sexpr [sym "def", qexpr [sym "x"], int 1]]
        root_heap).bind
      (fun r => (lval_eval (interp 4) r.2 root_env
          (sexpr [sym "def", qexpr [sym "y", sym "x"], int 2, int 5])).map Prod.fst)) =
      some (err "'x' is already declared" stack_trace) ∧
    ((builtin_load_str (interp 4) root_env [sexpr [sym "def", qexpr [sym "x"], int 1]]
        root_heap).bind
      (fun r => (lval_eval (interp 4) r.2 root_env
          (sexpr [sym "def", qexpr [sym "x"], int 5])).map Prod.fst)) =
      some (err "'x' is already declared" stack_trace) := by
  refine ⟨by rfl, by rfl, by rfl⟩

theorem table_wf_of_heap (h : heap) (hwf : heap_wf h) (a : Nat) (t : lval_table)
    (ha : h.table a = some t) : table_wf t :=
  hwf t (List.getElem?_mem ha)

theorem heap_wf_set_table (h : heap) (hwf : heap_wf h) (a : Nat) (t : lval_table)
    (wt : table_wf t) : heap_wf (h.set_table a t) := by
  intro t2 ht2
  simp only [heap.set_table] at ht2
  rcases List.mem_or_eq_of_mem_set ht2 with hm | he
  · exact hwf t2 hm
  · rw [he]; exact wt

theorem heap_wf_alloc (h : heap) (hwf : heap_wf h) (t : lval_table) (wt : table_wf t) :
    heap_wf (h.alloc t).2 := by
  intro t2 ht2
  simp only [heap.alloc, List.mem_append, List.mem_singleton] at ht2
  rcases ht2 with hm | he
  · exact hwf t2 hm
  · rw [he]; exact wt

theorem find_entry_lenv_get (h : heap) (k : String) (en : lval_entry) :
    ∀ e : lenv, find_entry h e k = some (some en) → lenv_get h e k = some en.value := by
  intro e
  induction e with
  | nil => intro hf; simp [find_entry] at hf
  | cons a rest ih =>
    intro hf
    simp only [find_entry, lenv_get] at hf ⊢
    cases ha : h.table a with
    | none => simp [ha] at hf
    | some t =>
      simp only [ha] at hf ⊢
      cases hg : lval_table_get_entry t k with
      | none =>
        simp only [hg, lval_table_get, Option.map_none'] at hf ⊢
        exact ih hf
      | some en2 =>
        simp only [hg, Option.some.injEq, lval_table_get, Option.map_some'] at hf ⊢
        rw [hf]

theorem cast_to_type (v : lval) (T : lval_type) (c : lval) (hc : cast_to v T = some c) :
    c.type = T := by
  cases T <;> simp [cast_to] at hc <;> cases v <;> first
    | (simp [cast_to_byte, cast_to_int, cast_to_float, cast_to_string, cast_to_buffer,
        lval_sprint_number, lval_byte, lval_int] at hc; done)
    | (simp [cast_to_byte, cast_to_int, cast_to_float, cast_to_string, cast_to_buffer,
        lval_sprint_number, lval_byte, lval_int] at hc; subst hc; rfl)

/-- The effect of `lenv_set` on a name that resolves to the entry `en`: the table
that holds the entry, and only that table, gets the new value under the declared
type of `en`. -/
theorem lenv_set_spec (h : heap) (hwf : heap_wf h) (k : String) (w : lval) (en : lval_entry) :
    ∀ e : lenv, find_entry h e k = some (some en) →
      ∃ a t, h.table a = some t ∧ lval_table_get_entry t k = some en ∧
        lenv_set h e k w = some (none, h.set_table a (lval_table_insert t k w)) ∧
        find_entry (h.set_table a (lval_table_insert t k w)) e k =
          some (some { key := k, value := w, type := en.type }) := by
  intro e
  induction e with
  | nil => intro hf; simp [find_entry] at hf
  | cons a rest ih =>
    intro hf
    simp only [find_entry] at hf
    cases ha : h.table a with
    | none => simp [ha] at hf
    | some t =>
      simp only [ha] at hf
      have wt := table_wf_of_heap h hwf a t ha
      cases hg : lval_table_get_entry t k with
      | none =>
        simp only [hg] at hf
        obtain ⟨a2, t2, ha2, hg2, hset, hfind⟩ := ih hf
        have hne : a2 ≠ a := by
          intro heq
          rw [heq, ha] at ha2
          cases ha2
          rw [hg] at hg2
          cases hg2
        refine ⟨a2, t2, ha2, hg2, ?_, ?_⟩
        · simp only [lenv_set, ha, lval_table_get, hg, Option.map_none']
          exact hset
        · simp only [find_entry, table_set_other h a2 a _ hne, ha, hg]
          exact hfind
      | some en2 =>
        simp only [hg, Option.some.injEq] at hf
        subst hf
        refine ⟨a, t, ha, hg, ?_, ?_⟩
        · simp only [lenv_set, ha, lval_table_get, hg, Option.map_some']
        · simp only [find_entry, table_set_same h a _ t ha, get_entry_insert t wt, if_true, hg]
          rfl

theorem set_type_entries (t : lval_table) (k : String) (ty : lval) :
    (lval_entry_set_type t k ty).entries =
      t.entries.map (fun entry =>
        if equal_symbols entry.key k then { entry with type := some ty } else entry) := by
  simp only [lval_table.entries, lval_entry_set_type, List.map_flatten]

theorem set_type_key (k : String) (ty : lval) (entry : lval_entry) :
    (if equal_symbols entry.key k then { entry with type := some ty } else entry).key =
      entry.key := by
  split <;> rfl

theorem set_type_wf (t : lval_table) (wf : table_wf t) (k : String) (ty : lval) :
    table_wf (lval_entry_set_type t k ty) := by
  refine ⟨?_, wf.pos, ?_, ?_, ?_⟩
  · simp only [lval_entry_set_type, List.length_map]; exact wf.len
  · intro i chain hch x hx
    simp only [lval_entry_set_type, List.getElem?_map, Option.map_eq_some'] at hch
    obtain ⟨c0, hc0, rfl⟩ := hch
    rw [List.mem_map] at hx
    obtain ⟨y, hy, rfl⟩ := hx
    rw [set_type_key]
    exact wf.bucket i c0 hc0 y hy
  · rw [set_type_entries, List.map_map]
    have : ((fun en : lval_entry => en.key) ∘ fun entry : lval_entry =>
        if equal_symbols entry.key k then { entry with type := some ty } else entry) =
        fun en => en.key := by
      funext en
      exact set_type_key k ty en
    rw [this]
    exact wf.nodup
  · rw [set_type_entries, List.length_map]
    exact wf.count_eq

theorem get_entry_set_type (t : lval_table) (wf : table_wf t) (k : String) (ty : lval)
    (k2 : String) :
    lval_table_get_entry (lval_entry_set_type t k ty) k2 =
      (lval_table_get_entry t k2).map (fun entry =>
        if equal_symbols entry.key k then { entry with type := some ty } else entry) := by
  rw [← find_entries_eq_get_entry _ (set_type_wf t wf k ty), ← find_entries_eq_get_entry t wf,
    set_type_entries, List.find?_map]
  have : ((fun x : lval_entry => equal_symbols x.key k2) ∘ fun entry : lval_entry =>
      if equal_symbols entry.key k then { entry with type := some ty } else entry) =
      fun x => equal_symbols x.key k2 := by
    funext en
    simp only [Function.comp, set_type_key]
  rw [this]

theorem value_matches_primitive (eq : heap → lval → lval → Option Bool) (h : heap) (v : lval)
    (T : lval_type) :
    value_matches_type eq h v (ptype T) =
      if v.type = T then some (true, none)
      else if T = LVAL_STR then some (false, none)
      else
        match cast_to v T with
        | none => some (false, none)
        | some c => some (true, some c) := rfl

theorem builtin_set_single (ev : evaluator) (h : heap) (e : lenv) (x : String) (T : lval_type)
    (w : lval) (en : lval_entry) (hf : find_entry h e x = some (some en))
    (hty : en.type = some (ptype T)) :
    builtin_set ev h e (sexpr [qexpr [sym x], w]) =
      match value_matches_type ev.eq h w (ptype T) with
      | none => none
      | some (false, _) => some (lval_err_for_val "Variable: Type mismatch", h)
      | some (true, cast_val) =>
        match lenv_set h e x (cast_val.getD w) with
        | none => none
        | some (some er, h1) => some (er, h1)
        | some (none, h1) => some (sexpr [], h1) := by
  simp only [builtin_set, builtin_var, lval.cells, List.any_cons, lval.is_sym, Bool.not_true,
    Bool.false_and, List.any_nil, Bool.or_self, Bool.false_eq_true, if_false, List.length_cons,
    List.length_nil, ne_eq, not_true, builtin_var_loop, lval.sym_name, hf, Option.some_bind, hty]
  cases hm : value_matches_type ev.eq h w (ptype T) with
  | none => rfl
  | some r =>
    obtain ⟨b, c⟩ := r
    cases b with
    | false => rfl
    | true =>
      simp only
      cases hs : lenv_set h e x (c.getD w) with
      | none => rfl
      | some r2 =>
        obtain ⟨er, h1⟩ := r2
        cases er <;> simp only [builtin_var_loop]

/-- A `set` of a name that resolves to a typed entry, with a value that is stored. -/
theorem builtin_set_stores (ev : evaluator) (h : heap) (hwf : heap_wf h) (e : lenv)
    (x : String) (T : lval_type) (w u : lval) (hb : typed_binding h e x T)
    (hm : value_matches_type ev.eq h w (ptype T) = some (true, some u) ∨
      (value_matches_type ev.eq h w (ptype T) = some (true, none) ∧ u = w))
    (hu : u.type = T) :
    ∃ h2, builtin_set ev h e (sexpr [qexpr [sym x], w]) = some (sexpr [], h2) ∧
      lenv_get h2 e x = some u ∧ heap_wf h2 ∧ typed_binding h2 e x T := by
  obtain ⟨en, hf, hty, _⟩ := hb
  obtain ⟨a, t, ha, hg, hset, hfind⟩ := lenv_set_spec h hwf x u en e hf
  have wt := table_wf_of_heap h hwf a t ha
  refine ⟨h.set_table a (lval_table_insert t x u), ?_, ?_, ?_, ?_⟩
  · rw [builtin_set_single ev h e x T w en hf hty]
    rcases hm with hm | ⟨hm, rfl⟩
    · simp only [hm, Option.getD_some, hset]
    · simp only [hm, Option.getD_none, hset]
  · exact find_entry_lenv_get _ x _ e hfind
  · exact heap_wf_set_table h hwf a _ (insert_wf t wt x u)
  · exact ⟨_, hfind, hty, hu⟩

theorem typed_binding_nested (h : heap) (x : String) (T : lval_type) (e : lenv) :
    ∀ frames : lenv, (∀ f ∈ frames, ∃ t, h.table f = some t ∧ lval_table_get_entry t x = none) →
      typed_binding h e x T → typed_binding h (frames ++ e) x T := by
  intro frames
  induction frames with
  | nil => intro _ hb; exact hb
  | cons f rest ih =>
    intro hfr hb
    obtain ⟨t, ht, hg⟩ := hfr f (List.mem_cons_self _ _)
    obtain ⟨en, hf, hty, hv⟩ := ih (fun g hg2 => hfr g (List.mem_cons_of_mem _ hg2)) hb
    refine ⟨en, ?_, hty, hv⟩
    simp only [List.cons_append, find_entry, ht, hg]
    exact hf

theorem builtin_def_typed_inv (ev : evaluator) (h0 : heap) (hwf : heap_wf h0) (a : Nat)
    (rest : lenv) (x : String) (T : lval_type) (v r : lval) (h1 : heap)
    (hd : builtin_def ev h0 (a :: rest) (sexpr [qexpr [kvpair (sym x) (ptype T)], v]) =
      some (r, h1)) (hr : r.is_err = false) :
    heap_wf h1 ∧ typed_binding h1 (a :: rest) x T := by
  simp only [builtin_def, builtin_var, lval.cells, List.any_cons, lval.is_sym, lval.is_kvpair,
    Bool.not_true, Bool.and_false, List.any_nil, Bool.or_self, Bool.false_eq_true, if_false,
    List.length_cons, List.length_nil, ne_eq, not_true, builtin_var_loop, type_from_pair,
    lval.is_err, lval.sym_name, lenv_def_with_type] at hd
  cases hm : value_matches_type ev.eq h0 v (ptype T) with
  | none => simp [hm] at hd
  | some m =>
    obtain ⟨b, c⟩ := m
    cases b with
    | false =>
      simp only [hm, Option.some.injEq, Prod.mk.injEq] at hd
      rw [← hd.1] at hr
      cases hr
    | true =>
      simp only [hm] at hd
      cases ha : h0.table a with
      | none => simp [ha] at hd
      | some t =>
        have wt := table_wf_of_heap h0 hwf a t ha
        simp only [ha] at hd
        cases hg : lval_table_get t x with
        | some item =>
          simp only [hg, builtin_var_loop, Option.some.injEq, Prod.mk.injEq] at hd
          rw [← hd.1] at hr
          cases hr
        | none =>
          simp only [hg, builtin_var_loop, Option.some.injEq, Prod.mk.injEq] at hd
          have hge : lval_table_get_entry t x = none := by
            cases hge : lval_table_get_entry t x with
            | none => rfl
            | some en => simp [lval_table_get, hge] at hg
          have wt2 := set_type_wf _ (insert_wf t wt x (c.getD v)) x (ptype T)
          have hu : (c.getD v).type = T := by
            rw [value_matches_primitive] at hm
            split at hm
            · rename_i hvt
              simp only [Option.some.injEq, Prod.mk.injEq, true_and] at hm
              rw [← hm]; exact hvt
            · split at hm
              · simp at hm
              · cases hc : cast_to v T with
                | none => simp [hc] at hm
                | some c2 =>
                  simp only [hc, Option.some.injEq, Prod.mk.injEq, true_and] at hm
                  rw [← hm]
                  exact cast_to_type v T c2 hc
          rw [← hd.2]
          refine ⟨heap_wf_set_table h0 hwf a _ wt2, ?_⟩
          refine ⟨{ key := x, value := c.getD v, type := some (ptype T) }, ?_, rfl, hu⟩
          simp only [find_entry, table_set_same h0 a _ t ha,
            get_entry_set_type _ (insert_wf t wt x (c.getD v)), get_entry_insert t wt, if_true,
            Option.map_some', (equal_symbols_iff x x).2 rfl]

theorem lenv_add_builtins_wf (t : lval_table) (wf : table_wf t) :
    table_wf (lenv_add_builtins t) := by
  unfold lenv_add_builtins
  generalize builtin_names = l
  induction l generalizing t with
  | nil => exact wf
  | cons p rest ih =>
    simp only [List.foldl_cons]
    apply ih
    split
    · exact wf
    · exact insert_wf t wf _ _

theorem root_heap_wf : heap_wf root_heap := by
  intro t ht
  simp only [root_heap, List.mem_singleton] at ht
  rw [ht]
  exact lenv_add_builtins_wf _ (alloc_wf 416)

/-- C9 (amended). (1) A typed definition `(def {x:T} v)` that succeeds leaves `x`
resolving to an entry with declared type `T` whose value has type `T`. (2) In every
later state in
which `x`, seen from the environment `e` of the `set`, resolves to such an entry:
`(set {x} w)` with `w` of type `T` rebinds `x` to `w`; with `w` of another type
that `cast_to` converts to `T` (`T` not String) it rebinds `x` to the cast value;
in both cases the entry keeps its declared type and a value of type `T`; and with
`w` that neither has type `T` nor can be cast, it returns an error and leaves the
state unchanged. (3) A nested scope whose frames do not bind `x` themselves sees the
same typed entry. -/
theorem C9_typed_set (ev : evaluator) (x : String) (T : lval_type) :
    (∀ (h0 : heap) (a : Nat) (rest : lenv) (v r : lval) (h1 : heap), heap_wf h0 →
      builtin_def ev h0 (a :: rest) (sexpr [qexpr [kvpair (sym x) (ptype T)], v]) =
        some (r, h1) →
      r.is_err = false → heap_wf h1 ∧ typed_binding h1 (a :: rest) x T) ∧
    (∀ (h : heap) (e : lenv) (w : lval), heap_wf h → typed_binding h e x T →
      (w.type = T →
        ∃ h2, builtin_set ev h e (sexpr [qexpr [sym x], w]) = some (sexpr [], h2) ∧
          lenv_get h2 e x = some w ∧ heap_wf h2 ∧ typed_binding h2 e x T) ∧
      (w.type ≠ T → T ≠ LVAL_STR → ∀ c, cast_to w T = some c →
        ∃ h2, builtin_set ev h e (sexpr [qexpr [sym x], w]) = some (sexpr [], h2) ∧
          lenv_get h2 e x = some c ∧ heap_wf h2 ∧ typed_binding h2 e x T) ∧
      (w.type ≠ T → (T = LVAL_STR ∨ cast_to w T = none) →
        builtin_set ev h e (sexpr [qexpr [sym x], w]) =
          some (lval_err_for_val "Variable: Type mismatch", h))) ∧
    (∀ (h : heap) (e frames : lenv),
      (∀ f ∈ frames, ∃ t, h.table f = some t ∧ lval_table_get_entry t x = none) →
      typed_binding h e x T → typed_binding h (frames ++ e) x T) := by
  refine ⟨?_, ?_, ?_⟩
  · intro h0 a rest v r h1 hwf hd hr
    exact builtin_def_typed_inv ev h0 hwf a rest x T v r h1 hd hr
  · intro h e w hwf hb
    refine ⟨?_, ?_, ?_⟩
    · intro hty
      apply builtin_set_stores ev h hwf e x T w w hb _ hty
      right
      rw [value_matches_primitive]
      simp [hty]
    · intro hty hns c hc
      apply builtin_set_stores ev h hwf e x T w c hb _ (cast_to_type w T c hc)
      left
      rw [value_matches_primitive]
      simp [hty, hns, hc]
    · intro hty hno
      obtain ⟨en, hf, hent, _⟩ := hb
      rw [builtin_set_single ev h e x T w en hf hent, value_matches_primitive]
      rcases hno with hs | hn
      · subst hs
        simp [hty]
      · by_cases hs : T = LVAL_STR
        · subst hs
          simp [hty]
        · simp [hty, hs, hn]
  · intro h e frames hfr hb
    exact typed_binding_nested h x T e frames hfr hb

theorem C9_typed_set_witness :
    ∃ h1, builtin_def (interp 1) root_heap root_env
        (sexpr [qexpr [kvpair (sym "x") (ptype LVAL_INT)], int 1]) = some (sexpr [], h1) ∧
      builtin_set (interp 1) h1 root_env (sexpr [qexpr [sym "x"], str "oops"]) =
        some (lval_err_for_val "Variable: Type mismatch", h1) ∧
      ∃ h2, builtin_set (interp 1) h1 root_env (sexpr [qexpr [sym "x"], byte 5]) =
          some (sexpr [], h2) ∧
        lenv_get h2 root_env "x" = some (int 5) := by
  have hd : builtin_def (interp 1) root_heap root_env
      (sexpr [qexpr [kvpair (sym "x") (ptype LVAL_INT)], int 1]) =
      some (sexpr [], root_heap.set_table 0 (lval_entry_set_type
        (lval_table_insert (lenv_add_builtins (lval_table_alloc 416)) "x" (int 1)) "x"
        (ptype LVAL_INT))) := by rfl
  have H := C9_typed_set (interp 1) "x" LVAL_INT
  obtain ⟨hwf1, hb1⟩ := H.1 root_heap 0 [] (int 1) _ _ root_heap_wf hd rfl
  have H2 := H.2.1 _ root_env (str "oops") hwf1 hb1
  have H3 := H.2.1 _ root_env (byte 5) hwf1 hb1
  refine ⟨_, hd, H2.2.2 (by decide) (Or.inr rfl), ?_⟩
  obtain ⟨h2, hs, hg, _, _⟩ := H3.2.1 (by decide) (by decide) (int 5) rfl
  exact ⟨h2, hs, hg⟩

/-- C9 (counterexample). After `(def {s:String} "a")`, the value `5` can be
cast to String (`cast_to` gives `"5"`), yet `(set {s} 5)` returns an error and `s`
stays bound to `"a"`: the type check of a declared String never casts. -/
theorem C9_counterexample :
    ∃ h1, lval_eval (interp 3) root_heap root_env
        (sexpr [sym "def", qexpr [kvpair (sym "s") (ptype LVAL_STR)], str "a"]) =
          some (sexpr [], h1) ∧
      cast_to (int 5) LVAL_STR = some (str "5") ∧
      lval_eval (interp 3) h1 root_env (sexpr [sym "set", qexpr [sym "s"], int 5]) =
        some (lval_err_for_val "Variable: Type mismatch", h1) ∧
      lenv_get h1 root_env "s" = some (str "a") :=
  ⟨_, rfl, rfl, rfl, rfl⟩

theorem prop_declared_spec (p : String) (props : List lval)
    (hp : ∀ x ∈ props, ∃ k, x = sym k ∨ ∃ t, x = kvpair (sym k) t) :
    ∃ b, prop_declared p props = some b ∧
      (b = true ↔ ∃ x ∈ props, x = sym p ∨ ∃ t, x = kvpair (sym p) t) := by
  induction props with
  | nil => exact ⟨false, rfl, by simp⟩
  | cons x rest ih =>
    obtain ⟨b, hb, hiff⟩ := ih (fun y hy => hp y (List.mem_cons_of_mem _ hy))
    obtain ⟨k, hk⟩ := hp x (List.mem_cons_self _ _)
    by_cases hkp : k = p
    · refine ⟨true, ?_, ?_⟩
      · rcases hk with hk | ⟨t, hk⟩
        · subst hk
          simp [prop_declared, (equal_symbols_iff k p).2 hkp]
        · subst hk
          simp [prop_declared, (equal_symbols_iff k p).2 hkp]
      · simp only [true_iff]
        refine ⟨x, List.mem_cons_self _ _, ?_⟩
        rcases hk with hk | ⟨t, hk⟩
        · left; rw [hk, hkp]
        · right; exact ⟨t, by rw [hk, hkp]⟩
    · have hne : equal_symbols k p = false := by
        cases he : equal_symbols k p with
        | false => rfl
        | true => exact absurd ((equal_symbols_iff k p).1 he) hkp
      refine ⟨b, ?_, ?_⟩
      · rcases hk with hk | ⟨t, hk⟩
        · subst hk
          simp [prop_declared, hne, hb]
        · subst hk
          simp [prop_declared, hne, hb]
      · rw [hiff]
        constructor
        · rintro ⟨y, hy, hd⟩
          exact ⟨y, List.mem_cons_of_mem _ hy, hd⟩
        · rintro ⟨y, hy, hd⟩
          rcases List.mem_cons.1 hy with hyx | hy
          · subst hyx
            exfalso
            rcases hk with hk | ⟨t, hk⟩
            · rcases hd with hd | ⟨t2, hd⟩
              · rw [hk] at hd; injection hd with hd; exact hkp hd
              · rw [hk] at hd; cases hd
            · rcases hd with hd | ⟨t2, hd⟩
              · rw [hk] at hd; cases hd
              · rw [hk] at hd; injection hd with hd _; injection hd with hd; exact hkp hd
          · exact ⟨y, hy, hd⟩

/-- C10. In `(set-prop {obj prop} v)`, let `obj` evaluate to `o`. If `o` is a
dictionary, the call returns it and its table afterwards maps `prop` to `v`,
whatever it held before. If `o` is an instance of a custom type whose declared
properties are symbols or `name:type` pairs: when `prop` is the name of one of them,
the call returns the instance and its table afterwards maps `prop` to `v`; when it is
not, the call returns an error and leaves the state as the evaluation of `obj` left
it. If `o` is neither a dictionary nor an instance, the call returns an error. -/
theorem C10_set_prop (ev : evaluator) (h : heap) (e : lenv) (obj_exp : lval) (p : String)
    (v o : lval) (h1 : heap) (hev : ev.eval h e obj_exp = some (o, h1)) (hwf : heap_wf h1) :
    (∀ d tbl, o = dict d → h1.table d = some tbl →
      ∃ h2, builtin_set_prop ev h e (sexpr [qexpr [obj_exp, sym p], v]) = some (dict d, h2) ∧
        (h2.table d).bind (fun t => lval_table_get t p) = some v) ∧
    (∀ s n props a tbl, o = inst (ctype s n props) a → h1.table a = some tbl →
      (∀ x ∈ props, ∃ k, x = sym k ∨ ∃ t, x = kvpair (sym k) t) →
      ((∃ x ∈ props, x = sym p ∨ ∃ t, x = kvpair (sym p) t) →
        ∃ h2, builtin_set_prop ev h e (sexpr [qexpr [obj_exp, sym p], v]) = some (o, h2) ∧
          (h2.table a).bind (fun t => lval_table_get t p) = some v) ∧
      ((¬ ∃ x ∈ props, x = sym p ∨ ∃ t, x = kvpair (sym p) t) →
        ∃ r, builtin_set_prop ev h e (sexpr [qexpr [obj_exp, sym p], v]) = some (r, h1) ∧
          r.is_err = true)) ∧
    (o.type ≠ LVAL_DICT → o.type ≠ LVAL_CUSTOM_TYPE_INSTANCE →
      ∃ r, builtin_set_prop ev h e (sexpr [qexpr [obj_exp, sym p], v]) = some (r, h1) ∧
        r.is_err = true) := by
  refine ⟨?_, ?_, ?_⟩
  · intro d tbl ho ht
    subst ho
    refine ⟨h1.set_table d (lval_table_insert tbl p v), ?_, ?_⟩
    · simp [builtin_set_prop, lval.cells, lval.sym_name, hev, ht]
    · rw [table_set_same h1 d _ tbl ht]
      simp [get_insert tbl (table_wf_of_heap h1 hwf d tbl ht)]
  · intro s n props a tbl ho ht hp
    subst ho
    obtain ⟨b, hb, hiff⟩ := prop_declared_spec p props hp
    refine ⟨?_, ?_⟩
    · intro hd
      have hbt : b = true := hiff.2 hd
      subst hbt
      refine ⟨h1.set_table a (lval_table_insert tbl p v), ?_, ?_⟩
      · simp [builtin_set_prop, lval.cells, lval.sym_name, hev, ht, hb]
      · rw [table_set_same h1 a _ tbl ht]
        simp [get_insert tbl (table_wf_of_heap h1 hwf a tbl ht)]
    · intro hd
      have hbf : b = false := by
        cases b with
        | false => rfl
        | true => exact absurd (hiff.1 rfl) hd
      subst hbf
      refine ⟨lval_err_for_val "set-prop: no such property", ?_, rfl⟩
      simp [builtin_set_prop, lval.cells, lval.sym_name, hev, hb]
  · intro hnd hni
    cases o with
    | dict d => exact absurd rfl hnd
    | inst t a => exact absurd rfl hni
    | err m t =>
      exact ⟨err m t, by simp [builtin_set_prop, lval.cells, lval.sym_name, hev], rfl⟩
    | _ =>
      exact ⟨lval_err_for_val "Cannot call set-prop on this value",
        by simp [builtin_set_prop, lval.cells, lval.sym_name, hev], rfl⟩

theorem dict_state_wf : heap_wf dict_state :=
  heap_wf_set_table _ (heap_wf_alloc _ root_heap_wf _ (alloc_wf 4)) 0 _
    (insert_wf _ (lenv_add_builtins_wf _ (alloc_wf 416)) _ _)

theorem instance_state_wf : heap_wf instance_state :=
  heap_wf_set_table _
    (heap_wf_alloc _ root_heap_wf _ (insert_wf _ (insert_wf _ (alloc_wf 6) _ _) _ _)) 0 _
    (insert_wf _ (lenv_add_builtins_wf _ (alloc_wf 416)) _ _)

theorem point_type_props :
    ∀ x ∈ [sym "x", kvpair (sym "y") (ptype LVAL_INT)],
      ∃ k, x = sym k ∨ ∃ t, x = kvpair (sym k) t := by
  intro x hx
  simp only [List.mem_cons, List.mem_singleton, List.not_mem_nil, or_false] at hx
  rcases hx with rfl | rfl
  · exact ⟨"x", Or.inl rfl⟩
  · exact ⟨"y", Or.inr ⟨_, rfl⟩⟩

theorem C10_set_prop_witness :
    (∃ h2, builtin_set_prop (interp 1) dict_state root_env
        (sexpr [qexpr [sym "d", sym "k"], int 7]) = some (dict 1, h2) ∧
      (h2.table 1).bind (fun t => lval_table_get t "k") = some (int 7)) ∧
    (∃ h2, builtin_set_prop (interp 1) instance_state root_env
        (sexpr [qexpr [sym "i", sym "y"], int 7]) = some (inst point_type 1, h2) ∧
      (h2.table 1).bind (fun t => lval_table_get t "y") = some (int 7)) ∧
    (∃ r, builtin_set_prop (interp 1) instance_state root_env
        (sexpr [qexpr [sym "i", sym "z"], int 7]) = some (r, instance_state) ∧
      r.is_err = true) := by
  refine ⟨?_, ?_, ?_⟩
  · exact (C10_set_prop (interp 1) dict_state root_env (sym "d") "k" (int 7) (dict 1)
      dict_state rfl dict_state_wf).1 1 (lval_table_alloc 4) rfl rfl
  · exact ((C10_set_prop (interp 1) instance_state root_env (sym "i") "y" (int 7)
      (inst point_type 1) instance_state rfl instance_state_wf).2.1
      0 "P" _ 1 _ rfl rfl point_type_props).1
      ⟨_, List.mem_cons_of_mem _ (List.mem_cons_self _ _), Or.inr ⟨_, rfl⟩⟩
  · exact ((C10_set_prop (interp 1) instance_state root_env (sym "i") "z" (int 7)
      (inst point_type 1) instance_state rfl instance_state_wf).2.1
      0 "P" _ 1 _ rfl rfl point_type_props).2 (by
        rintro ⟨x, hx, hd⟩
        simp only [List.mem_cons, List.mem_singleton, List.not_mem_nil, or_false] at hx
        rcases hx with rfl | rfl
        · rcases hd with hd | ⟨t, hd⟩
          · injection hd with hd; exact absurd hd (by decide)
          · cases hd
        · rcases hd with hd | ⟨t, hd⟩
          · cases hd
          · injection hd with hd _; injection hd with hd; exact absurd hd (by decide))

/-! ### Construction of record instances -/

theorem supplied_key_some (a : lval) (k : String) (hk : supplied_key a = some k) :
    ∃ v, a = kvpair (sym k) v := by
  cases a with
  | kvpair key v =>
    cases key with
    | sym k2 =>
      simp only [supplied_key, Option.some.injEq] at hk
      subst hk
      exact ⟨v, rfl⟩
    | _ => simp [supplied_key] at hk
  | _ => simp [supplied_key] at hk

theorem supplied_key_isSome (a : lval) (ha : (supplied_key a).isSome = true) :
    ∃ k v, a = kvpair (sym k) v := by
  cases hk : supplied_key a with
  | none => simp [hk] at ha
  | some k =>
    obtain ⟨v, hv⟩ := supplied_key_some a k hk
    exact ⟨k, v, hv⟩

theorem eval_children_pairs (n : Nat) (e : lenv) (h : heap) (args : List lval)
    (hargs : ∀ a ∈ args, (supplied_key a).isSome = true) :
    eval_children (interp (n + 1)) e args h = some (args, h) := by
  induction args with
  | nil => rfl
  | cons a rest ih =>
    obtain ⟨k, v, rfl⟩ := supplied_key_isSome a (hargs a (List.mem_cons_self _ _))
    have hr := ih (fun x hx => hargs x (List.mem_cons_of_mem _ hx))
    simp only [eval_children, interp_eval, lval_eval, hr]

theorem find_is_err_pairs (args : List lval)
    (hargs : ∀ a ∈ args, (supplied_key a).isSome = true) : args.find? is_err = none := by
  rw [List.find?_eq_none]
  intro a ha
  obtain ⟨k, v, rfl⟩ := supplied_key_isSome a (hargs a ha)
  simp [lval.is_err]

/-- The form `(T args...)` with `T` bound to a custom type and at least one
argument, all of them `key:value`, is the call of
`lval_create_custom_type_instance` on the arguments as written. -/
theorem eval_type_form (n : Nat) (h : heap) (e : lenv) (T : String) (s : Nat) (nm : String)
    (props args : List lval) (hT : lenv_get h e T = some (ctype s nm props))
    (hne : args ≠ []) (hargs : ∀ a ∈ args, (supplied_key a).isSome = true) :
    lval_eval_sexpr (interp (n + 1)) h e (sexpr (sym T :: args)) =
      lval_create_custom_type_instance (interp (n + 1)) h e (ctype s nm props) args := by
  have hc : eval_sexpr_children (interp (n + 1)) h e (sym T :: args) =
      some (ctype s nm props :: args, h) := by
    simp only [eval_sexpr_children, interp_eval, lval_eval, hT, temp_env,
      eval_children_pairs n e h args hargs]
  have hf : (ctype s nm props :: args).find? is_err = none := by
    rw [List.find?_cons]
    simp only [lval.is_err]
    exact find_is_err_pairs args hargs
  cases args with
  | nil => exact absurd rfl hne
  | cons a rest =>
    simp only [lval_eval_sexpr, lval.cells, hc, hf, eval_sexpr_head, List.isEmpty_cons,
      Bool.false_and, Bool.false_eq_true, if_false]

theorem find_arg_none (prop : String) (v : List lval)
    (hv : ∀ a ∈ v, (supplied_key a).isSome = true) (hp : prop ∉ supplied_keys v) :
    find_arg prop v = some none := by
  induction v with
  | nil => rfl
  | cons a rest ih =>
    obtain ⟨k, w, rfl⟩ := supplied_key_isSome a (hv a (List.mem_cons_self _ _))
    have hk : prop ≠ k := by
      intro hk
      apply hp
      simp [supplied_keys, supplied_key, hk]
    have hne : equal_symbols prop k = false := by
      cases he : equal_symbols prop k with
      | false => rfl
      | true => exact absurd ((equal_symbols_iff prop k).1 he) hk
    have hr : prop ∉ supplied_keys rest := by
      intro hm
      apply hp
      simp only [supplied_keys, List.filterMap_cons, supplied_key, List.mem_cons]
      exact Or.inr hm
    simp only [find_arg, hne, Bool.false_eq_true, if_false]
    exact ih (fun x hx => hv x (List.mem_cons_of_mem _ hx)) hr

theorem find_arg_some (prop : String) (v : List lval)
    (hv : ∀ a ∈ v, (supplied_key a).isSome = true) (hp : prop ∈ supplied_keys v) :
    ∃ w, find_arg prop v = some (some (kvpair (sym prop) w)) ∧ kvpair (sym prop) w ∈ v := by
  induction v with
  | nil => simp [supplied_keys] at hp
  | cons a rest ih =>
    obtain ⟨k, w, rfl⟩ := supplied_key_isSome a (hv a (List.mem_cons_self _ _))
    by_cases hk : prop = k
    · subst hk
      exact ⟨w, by simp [find_arg, (equal_symbols_iff prop prop).2 rfl], List.mem_cons_self _ _⟩
    · have hne : equal_symbols prop k = false := by
        cases he : equal_symbols prop k with
        | false => rfl
        | true => exact absurd ((equal_symbols_iff prop k).1 he) hk
      have hr : prop ∈ supplied_keys rest := by
        simp only [supplied_keys, List.filterMap_cons, supplied_key, List.mem_cons] at hp
        rcases hp with hp | hp
        · exact absurd hp hk
        · exact hp
      obtain ⟨w2, hf, hm⟩ := ih (fun x hx => hv x (List.mem_cons_of_mem _ hx)) hr
      exact ⟨w2, by simp only [find_arg, hne, Bool.false_eq_true, if_false]; exact hf,
        List.mem_cons_of_mem _ hm⟩

theorem declared_name_some (v1 : lval) (k : String) (hk : declared_name v1 = some k) :
    v1 = sym k ∨ ∃ ty, v1 = kvpair (sym k) ty := by
  cases v1 with
  | sym k2 =>
    simp only [declared_name, Option.some.injEq] at hk
    subst hk
    exact Or.inl rfl
  | kvpair key ty =>
    cases key with
    | sym k2 =>
      simp only [declared_name, Option.some.injEq] at hk
      subst hk
      exact Or.inr ⟨ty, rfl⟩
    | _ => simp [declared_name] at hk
  | _ => simp [declared_name] at hk

theorem typed_prop_inl (ev : evaluator) (h : heap) (e : lenv) (v1 v2 r : lval) (h1 : heap)
    (hr : typed_prop ev h e v1 v2 = some (Sum.inl r, h1)) : r.is_err = true := by
  unfold typed_prop at hr
  cases ht : type_from_pair h e v1 with
  | none => simp [ht] at hr
  | some type =>
    simp only [ht] at hr
    cases hte : type.is_err with
    | true =>
      simp only [hte, if_true, Option.some.injEq, Prod.mk.injEq, Sum.inl.injEq] at hr
      rw [← hr.1]; rfl
    | false =>
      simp only [hte, Bool.false_eq_true, if_false] at hr
      cases v2 with
      | kvpair key value =>
        simp only [] at hr
        cases hm : value_matches_type ev.eq h value type with
        | none => simp [hm] at hr
        | some m =>
          obtain ⟨b, c⟩ := m
          cases b with
          | false =>
            simp only [hm, Option.some.injEq, Prod.mk.injEq, Sum.inl.injEq] at hr
            rw [← hr.1]; rfl
          | true =>
            cases c with
            | none => simp [hm] at hr
            | some cv => simp [hm] at hr
      | _ => simp at hr

theorem instance_prop_inl (ev : evaluator) (h : heap) (e : lenv) (v : List lval) (v1 r : lval)
    (h1 : heap) (hr : instance_prop ev h e v v1 = some (Sum.inl r, h1)) : r.is_err = true := by
  unfold instance_prop at hr
  split at hr
  · simp at hr
  · rename_i prop hprop
    split at hr
    · simp at hr
    · simp only [Option.some.injEq, Prod.mk.injEq, Sum.inl.injEq] at hr
      rw [← hr.1]; rfl
    · rename_i v2 hv2
      split at hr
      · split at hr
        · rename_i key c
          cases hev : ev.eval h e (sexpr c) with
          | none => simp [hev] at hr
          | some p =>
            obtain ⟨r1, h2⟩ := p
            simp only [hev] at hr
            cases hre : r1.is_err with
            | true =>
              simp only [hre, if_true, Option.some.injEq, Prod.mk.injEq, Sum.inl.injEq] at hr
              rw [← hr.1]; exact hre
            | false =>
              simp only [hre, Bool.false_eq_true, if_false] at hr
              exact typed_prop_inl ev h2 e v1 _ r h1 hr
        · rename_i key s
          cases hg : lenv_get h e s with
          | none => simp [hg] at hr
          | some r1 =>
            simp only [hg] at hr
            cases hre : r1.is_err with
            | true =>
              simp only [hre, if_true, Option.some.injEq, Prod.mk.injEq, Sum.inl.injEq] at hr
              rw [← hr.1]; exact hre
            | false =>
              simp only [hre, Bool.false_eq_true, if_false] at hr
              exact typed_prop_inl ev h e v1 _ r h1 hr
        · exact typed_prop_inl ev h e v1 _ r h1 hr
      · simp at hr

theorem instance_props_inl (ev : evaluator) (e : lenv) (v : List lval) (props : List lval) :
    ∀ (args : List lval) (h : heap) (r : lval) (h1 : heap),
      instance_props ev e v props args h = some (Sum.inl r, h1) → r.is_err = true := by
  induction props with
  | nil => intro args h r h1 hr; simp [instance_props] at hr
  | cons v1 rest ih =>
    intro args h r h1 hr
    simp only [instance_props] at hr
    cases hp : instance_prop ev h e v v1 with
    | none => simp [hp] at hr
    | some p =>
      obtain ⟨res, h2⟩ := p
      cases res with
      | inl r1 =>
        simp only [hp, Option.some.injEq, Prod.mk.injEq, Sum.inl.injEq] at hr
        rw [← hr.1]
        exact instance_prop_inl ev h e v v1 r1 h2 hp
      | inr p1 =>
        simp only [hp] at hr
        exact ih _ _ _ _ hr

theorem instance_prop_missing (ev : evaluator) (h : heap) (e : lenv) (v : List lval) (v1 : lval)
    (k : String) (hv : ∀ a ∈ v, (supplied_key a).isSome = true)
    (hk : declared_name v1 = some k) (hm : k ∉ supplied_keys v) :
    instance_prop ev h e v v1 = some (Sum.inl (lval_err_for_val ("Missing argument '" ++ k ++ "'")), h) := by
  rcases declared_name_some v1 k hk with rfl | ⟨ty, rfl⟩
  · simp only [instance_prop, lval.sym_name, find_arg_none k v hv hm]
  · simp only [instance_prop, lval.sym_name, find_arg_none k v hv hm]

/-- When some declared property has no supplied argument, the loop over the
declared properties never completes. -/
theorem instance_props_missing (ev : evaluator) (e : lenv) (v : List lval)
    (hv : ∀ a ∈ v, (supplied_key a).isSome = true) (props : List lval)
    (hp : ∀ x ∈ props, (declared_name x).isSome = true) :
    ∀ (args : List lval) (h : heap) (k : String), k ∈ declared_names props →
      k ∉ supplied_keys v →
      ∀ (out : List lval) (h1 : heap),
        instance_props ev e v props args h ≠ some (Sum.inr out, h1) := by
  induction props with
  | nil => intro args h k hk; simp [declared_names] at hk
  | cons v1 rest ih =>
    intro args h k hk hm out h1 hr
    simp only [instance_props] at hr
    cases hd : declared_name v1 with
    | none =>
      have := hp v1 (List.mem_cons_self _ _)
      simp [hd] at this
    | some k1 =>
      by_cases hk1 : k1 ∈ supplied_keys v
      · have hkr : k ∈ declared_names rest := by
          simp only [declared_names, List.filterMap_cons, hd, List.mem_cons] at hk
          rcases hk with hk | hk
          · subst hk; exact absurd hk1 hm
          · exact hk
        cases hq : instance_prop ev h e v v1 with
        | none => simp [hq] at hr
        | some p =>
          obtain ⟨res, h2⟩ := p
          cases res with
          | inl r1 => simp [hq] at hr
          | inr p1 =>
            simp only [hq] at hr
            exact ih (fun x hx => hp x (List.mem_cons_of_mem _ hx)) _ _ k hkr hm out h1 hr
      · rw [instance_prop_missing ev h e v v1 k1 hv hd hk1] at hr
        simp at hr

theorem find_arg_result (prop : String) (v : List lval) (v2 : lval)
    (hf : find_arg prop v = some (some v2)) : ∃ w, v2 = kvpair (sym prop) w ∧ v2 ∈ v := by
  induction v with
  | nil => simp [find_arg] at hf
  | cons a rest ih =>
    cases a with
    | kvpair key value =>
      cases key with
      | sym k =>
        simp only [find_arg] at hf
        cases he : equal_symbols prop k with
        | true =>
          simp only [he, if_true, Option.some.injEq] at hf
          have hk := (equal_symbols_iff prop k).1 he
          subst hk
          exact ⟨value, hf.symm, by rw [← hf]; exact List.mem_cons_self _ _⟩
        | false =>
          simp only [he, Bool.false_eq_true, if_false] at hf
          obtain ⟨w, hw, hm⟩ := ih hf
          exact ⟨w, hw, List.mem_cons_of_mem _ hm⟩
      | _ => simp [find_arg] at hf
    | _ => simp [find_arg] at hf

theorem typed_prop_inr (ev : evaluator) (h : heap) (e : lenv) (v1 key value p : lval)
    (h1 : heap) (hr : typed_prop ev h e v1 (kvpair key value) = some (Sum.inr p, h1)) :
    h1 = h ∧ ∃ w, p = kvpair key w := by
  unfold typed_prop at hr
  cases ht : type_from_pair h e v1 with
  | none => simp [ht] at hr
  | some type =>
    simp only [ht] at hr
    cases hte : type.is_err with
    | true => simp [hte] at hr
    | false =>
      simp only [hte, Bool.false_eq_true, if_false] at hr
      cases hm : value_matches_type ev.eq h value type with
      | none => simp [hm] at hr
      | some m =>
        obtain ⟨b, c⟩ := m
        cases b with
        | false => simp [hm] at hr
        | true =>
          cases c with
          | none =>
            simp only [hm, Option.some.injEq, Prod.mk.injEq, Sum.inr.injEq] at hr
            exact ⟨hr.2.symm, value, hr.1.symm⟩
          | some cv =>
            simp only [hm, Option.some.injEq, Prod.mk.injEq, Sum.inr.injEq] at hr
            exact ⟨hr.2.symm, cv, hr.1.symm⟩

theorem instance_prop_inr (ev : evaluator) (h : heap) (e : lenv) (v : List lval) (v1 p : lval)
    (h1 : heap) (hr : instance_prop ev h e v v1 = some (Sum.inr p, h1)) :
    ∃ k w, declared_name v1 = some k ∧ p = kvpair (sym k) w := by
  unfold instance_prop at hr
  split at hr
  · simp at hr
  · rename_i prop hprop
    have hd : declared_name v1 = some prop := by
      cases v1 with
      | sym k => simpa [lval.sym_name, declared_name] using hprop
      | kvpair key ty =>
        cases key with
        | sym k => simpa [lval.sym_name, declared_name] using hprop
        | _ => simp [lval.sym_name] at hprop
      | _ => simp [lval.sym_name] at hprop
    split at hr
    · simp at hr
    · simp at hr
    · rename_i v2 hv2
      obtain ⟨w, hw, _⟩ := find_arg_result prop v v2 hv2
      subst hw
      split at hr
      · split at hr
        · rename_i key c heq
          cases hev : ev.eval h e (sexpr c) with
          | none => simp [hev] at hr
          | some q =>
            obtain ⟨r1, h2⟩ := q
            simp only [hev] at hr
            cases hre : r1.is_err with
            | true => simp [hre] at hr
            | false =>
              simp only [hre, Bool.false_eq_true, if_false] at hr
              obtain ⟨_, w2, hw2⟩ := typed_prop_inr ev h2 e v1 key r1 p h1 hr
              injection heq with hk _
              exact ⟨prop, w2, hd, by rw [hw2, ← hk]⟩
        · rename_i key s heq
          cases hg : lenv_get h e s with
          | none => simp [hg] at hr
          | some r1 =>
            simp only [hg] at hr
            cases hre : r1.is_err with
            | true => simp [hre] at hr
            | false =>
              simp only [hre, Bool.false_eq_true, if_false] at hr
              obtain ⟨_, w2, hw2⟩ := typed_prop_inr ev h e v1 key r1 p h1 hr
              injection heq with hk _
              exact ⟨prop, w2, hd, by rw [hw2, ← hk]⟩
        · obtain ⟨_, w2, hw2⟩ := typed_prop_inr ev h e v1 (sym prop) w p h1 hr
          exact ⟨prop, w2, hd, hw2⟩
      · simp only [Option.some.injEq, Prod.mk.injEq, Sum.inr.injEq] at hr
        exact ⟨prop, w, hd, hr.1.symm⟩

theorem instance_props_inr (ev : evaluator) (e : lenv) (v : List lval) (props : List lval) :
    ∀ (args : List lval) (h : heap) (out : List lval) (h1 : heap),
      instance_props ev e v props args h = some (Sum.inr out, h1) →
      ∃ new, out = args ++ new ∧ supplied_keys new = declared_names props ∧
        ∀ x ∈ new, (supplied_key x).isSome = true := by
  induction props with
  | nil =>
    intro args h out h1 hr
    simp only [instance_props, Option.some.injEq, Prod.mk.injEq, Sum.inr.injEq] at hr
    exact ⟨[], by simp [hr.1], rfl, by simp⟩
  | cons v1 rest ih =>
    intro args h out h1 hr
    simp only [instance_props] at hr
    cases hp : instance_prop ev h e v v1 with
    | none => simp [hp] at hr
    | some q =>
      obtain ⟨res, h2⟩ := q
      cases res with
      | inl r1 => simp [hp] at hr
      | inr p1 =>
        simp only [hp] at hr
        obtain ⟨k, w, hd, hp1⟩ := instance_prop_inr ev h e v v1 p1 h2 hp
        obtain ⟨new, hout, hkeys, hall⟩ := ih _ _ _ _ hr
        refine ⟨p1 :: new, by simp [hout], ?_, ?_⟩
        · simp only [supplied_keys, declared_names, List.filterMap_cons, hd, hp1, supplied_key]
          simp only [supplied_keys, declared_names] at hkeys
          rw [hkeys]
        · intro x hx
          rcases List.mem_cons.1 hx with hx | hx
          · rw [hx, hp1]; rfl
          · exact hall x hx

/-! ### The table built by `lval_custom_type_instance` -/

theorem insert_props_spec (out : List lval) (hout : ∀ x ∈ out, (supplied_key x).isSome = true) :
    ∀ (t0 : lval_table), table_wf t0 →
      ∃ tbl, insert_props t0 out = some tbl ∧ table_wf tbl ∧
        (∀ k, k ∉ supplied_keys out → lval_table_get tbl k = lval_table_get t0 k) ∧
        (∀ k, k ∈ supplied_keys out → (lval_table_get tbl k).isSome = true) ∧
        ((supplied_keys out).Nodup → ∀ k w, kvpair (sym k) w ∈ out →
          lval_table_get tbl k = some w) := by
  induction out with
  | nil =>
    intro t0 wf
    exact ⟨t0, rfl, wf, fun _ _ => rfl, by simp [supplied_keys], by simp⟩
  | cons a rest ih =>
    intro t0 wf
    obtain ⟨k1, w1, rfl⟩ := supplied_key_isSome a (hout a (List.mem_cons_self _ _))
    obtain ⟨tbl, hins, wft, hother, hin, hval⟩ :=
      ih (fun x hx => hout x (List.mem_cons_of_mem _ hx)) (lval_table_insert t0 k1 w1)
        (insert_wf t0 wf k1 w1)
    have hkeys : supplied_keys (kvpair (sym k1) w1 :: rest) = k1 :: supplied_keys rest := by
      simp [supplied_keys, supplied_key]
    refine ⟨tbl, by simp only [insert_props]; exact hins, wft, ?_, ?_, ?_⟩
    · intro k hk
      rw [hkeys, List.mem_cons, not_or] at hk
      rw [hother k hk.2, get_insert t0 wf]
      simp [Ne.symm hk.1]
    · intro k hk
      rw [hkeys, List.mem_cons] at hk
      by_cases hkr : k ∈ supplied_keys rest
      · exact hin k hkr
      · rcases hk with hk | hk
        · rw [hother k hkr, get_insert t0 wf]
          simp [hk]
        · exact absurd hk hkr
    · intro hnd k w hm
      rw [hkeys, List.nodup_cons] at hnd
      rcases List.mem_cons.1 hm with hm | hm
      · injection hm with hk hw
        injection hk with hk
        subst hk; subst hw
        rw [hother k hnd.1, get_insert t0 wf]
        simp
      · exact hval hnd.2 k w hm

theorem literal_arg_key (a : lval) (ha : literal_arg a = true) :
    (supplied_key a).isSome = true := by
  cases a with
  | kvpair key v =>
    cases key with
    | sym k => rfl
    | _ => simp [literal_arg] at ha
  | _ => simp [literal_arg] at ha

theorem mem_supplied_keys (k : String) (w : lval) (v : List lval)
    (hm : kvpair (sym k) w ∈ v) : k ∈ supplied_keys v := by
  simp only [supplied_keys, List.mem_filterMap]
  exact ⟨_, hm, rfl⟩

theorem supplied_unique (v : List lval) (hnd : (supplied_keys v).Nodup) (k : String)
    (w w2 : lval) (h1 : kvpair (sym k) w ∈ v) (h2 : kvpair (sym k) w2 ∈ v) : w = w2 := by
  induction v with
  | nil => simp at h1
  | cons a rest ih =>
    rcases List.mem_cons.1 h1 with ha | ha
    · rcases List.mem_cons.1 h2 with hb | hb
      · rw [← ha] at hb
        injection hb with _ hw
        exact hw.symm
      · subst ha
        simp only [supplied_keys, List.filterMap_cons, supplied_key, List.nodup_cons] at hnd
        exact absurd (mem_supplied_keys k w2 rest hb) hnd.1
    · rcases List.mem_cons.1 h2 with hb | hb
      · subst hb
        simp only [supplied_keys, List.filterMap_cons, supplied_key, List.nodup_cons] at hnd
        exact absurd (mem_supplied_keys k w rest ha) hnd.1
      · have hnd2 : (supplied_keys rest).Nodup := by
          cases hk : supplied_key a with
          | none => simpa [supplied_keys, List.filterMap_cons, hk] using hnd
          | some k1 =>
            simp only [supplied_keys, List.filterMap_cons, hk, List.nodup_cons] at hnd
            exact hnd.2
        exact ih hnd2 ha hb

theorem typed_prop_literal (ev : evaluator) (h : heap) (e : lenv) (k : String) (P : lval_type)
    (w : lval) :
    ∃ res, typed_prop ev h e (kvpair (sym k) (ptype P)) (kvpair (sym k) w) = some (res, h) ∧
      (w.type = P → res = Sum.inr (kvpair (sym k) w)) := by
  simp only [typed_prop, type_from_pair, lval.is_err, Bool.false_eq_true, if_false,
    value_matches_primitive]
  by_cases hty : w.type = P
  · simp [hty]
  · by_cases hs : P = LVAL_STR
    · subst hs
      simp [hty]
    · cases hc : cast_to w P with
      | none => simp [hty, hs, hc]
      | some c => simp [hty, hs, hc]

theorem instance_prop_literal (ev : evaluator) (h : heap) (e : lenv) (v : List lval) (v1 : lval)
    (hv : ∀ a ∈ v, literal_arg a = true) (hs : simple_prop v1 = true) :
    ∃ res, instance_prop ev h e v v1 = some (res, h) ∧
      ∀ k w, declared_name v1 = some k → kvpair (sym k) w ∈ v → (supplied_keys v).Nodup →
        (∀ P, v1 = kvpair (sym k) (ptype P) → w.type = P) → res = Sum.inr (kvpair (sym k) w) := by
  have hkeys : ∀ a ∈ v, (supplied_key a).isSome = true := fun a ha => literal_arg_key a (hv a ha)
  have key : ∀ k, declared_name v1 = some k →
      (∀ w2, kvpair (sym k) w2 ∈ v → literal_value w2 = true →
        ∃ res, (if v1.is_kvpair = true then
            (match kvpair (sym k) w2 with
              | kvpair key (sexpr c) =>
                match ev.eval h e (sexpr c) with
                | none => none
                | some (r, h1) =>
                  if r.is_err = true then some (Sum.inl r, h1)
                  else typed_prop ev h1 e v1 (kvpair key r)
              | kvpair key (sym s) =>
                match lenv_get h e s with
                | none => none
                | some r =>
                  if r.is_err = true then some (Sum.inl r, h)
                  else typed_prop ev h e v1 (kvpair key r)
              | _ => typed_prop ev h e v1 (kvpair (sym k) w2))
          else some (Sum.inr (kvpair (sym k) w2), h)) = some (res, h) ∧
          ((∀ P, v1 = kvpair (sym k) (ptype P) → w2.type = P) →
            res = Sum.inr (kvpair (sym k) w2))) := by
    intro k hk w2 hm hlit
    cases v1 with
    | sym k0 => exact ⟨_, by simp [lval.is_kvpair], fun _ => rfl⟩
    | kvpair key0 ty =>
      cases key0 with
      | sym k0 =>
        cases ty with
        | ptype P =>
          simp only [declared_name, Option.some.injEq] at hk
          subst hk
          obtain ⟨res, hres, hok⟩ := typed_prop_literal ev h e k0 P w2
          refine ⟨res, ?_, fun hP => hok (hP P rfl)⟩
          cases w2 <;> simp [literal_value] at hlit <;> simp [lval.is_kvpair, hres]
        | _ => simp [simple_prop] at hs
      | _ => simp [simple_prop] at hs
    | _ => simp [simple_prop] at hs
  cases hd : declared_name v1 with
  | none =>
    cases v1 with
    | sym k0 => simp [declared_name] at hd
    | kvpair key0 ty =>
      cases key0 with
      | sym k0 => simp [declared_name] at hd
      | _ => simp [simple_prop] at hs
    | _ => simp [simple_prop] at hs
  | some k =>
    by_cases hk : k ∈ supplied_keys v
    · obtain ⟨w2, hf, hm⟩ := find_arg_some k v hkeys hk
      have hlit : literal_value w2 = true := by
        have := hv _ hm
        simpa [literal_arg] using this
      obtain ⟨res, hres, hok⟩ := key k hd w2 hm hlit
      refine ⟨res, ?_, ?_⟩
      · rcases declared_name_some v1 k hd with rfl | ⟨ty, rfl⟩
        · simp only [instance_prop, lval.sym_name, hf]
          exact hres
        · simp only [instance_prop, lval.sym_name, hf]
          exact hres
      · intro k' w hk' hmw hnd hP
        injection hk' with hk'
        subst hk'
        have hw : w = w2 := supplied_unique v hnd k w w2 hmw hm
        subst hw
        exact hok hP
    · refine ⟨_, instance_prop_missing ev h e v v1 k hkeys hd hk, ?_⟩
      intro k' w hk' hmw
      injection hk' with hk'
      subst hk'
      exact absurd (mem_supplied_keys k w v hmw) hk

theorem instance_props_literal_total (ev : evaluator) (e : lenv) (v : List lval)
    (hv : ∀ a ∈ v, literal_arg a = true) (props : List lval)
    (hs : ∀ x ∈ props, simple_prop x = true) :
    ∀ (args : List lval) (h : heap), ∃ res, instance_props ev e v props args h = some (res, h) := by
  induction props with
  | nil => intro args h; exact ⟨_, rfl⟩
  | cons v1 rest ih =>
    intro args h
    obtain ⟨res, hres, _⟩ :=
      instance_prop_literal ev h e v v1 hv (hs v1 (List.mem_cons_self _ _))
    cases res with
    | inl r => exact ⟨Sum.inl r, by simp only [instance_props, hres]⟩
    | inr p =>
      obtain ⟨res2, hres2⟩ := ih (fun x hx => hs x (List.mem_cons_of_mem _ hx)) (args ++ [p]) h
      exact ⟨res2, by simp only [instance_props, hres]; exact hres2⟩

theorem instance_props_literal (ev : evaluator) (e : lenv) (v : List lval)
    (hv : ∀ a ∈ v, literal_arg a = true) (hnd : (supplied_keys v).Nodup) (props : List lval)
    (hs : ∀ x ∈ props, simple_prop x = true)
    (hcov : ∀ k ∈ declared_names props, k ∈ supplied_keys v)
    (hty : ∀ k P w, kvpair (sym k) (ptype P) ∈ props → kvpair (sym k) w ∈ v → w.type = P) :
    ∀ (args : List lval) (h : heap), ∃ new,
      instance_props ev e v props args h = some (Sum.inr (args ++ new), h) ∧
      ∀ k w, k ∈ declared_names props → kvpair (sym k) w ∈ v → kvpair (sym k) w ∈ new := by
  induction props with
  | nil =>
    intro args h
    exact ⟨[], by simp [instance_props], by simp [declared_names]⟩
  | cons v1 rest ih =>
    intro args h
    have hs1 := hs v1 (List.mem_cons_self _ _)
    obtain ⟨res, hres, hok⟩ := instance_prop_literal ev h e v v1 hv hs1
    cases hd : declared_name v1 with
    | none =>
      exfalso
      cases v1 with
      | sym k0 => simp [declared_name] at hd
      | kvpair key0 ty =>
        cases key0 with
        | sym k0 => simp [declared_name] at hd
        | _ => simp [simple_prop] at hs1
      | _ => simp [simple_prop] at hs1
    | some k1 =>
      have hk1 : k1 ∈ supplied_keys v :=
        hcov k1 (by simp [declared_names, List.filterMap_cons, hd])
      have hkeys : ∀ a ∈ v, (supplied_key a).isSome = true :=
        fun a ha => literal_arg_key a (hv a ha)
      obtain ⟨w1, _, hm1⟩ := find_arg_some k1 v hkeys hk1
      have hres1 : res = Sum.inr (kvpair (sym k1) w1) := by
        apply hok k1 w1 hd hm1 hnd
        intro P hP
        exact hty k1 P w1 (by rw [← hP]; exact List.mem_cons_self _ _) hm1
      subst hres1
      obtain ⟨new, hnew, hmem⟩ := ih (fun x hx => hs x (List.mem_cons_of_mem _ hx))
        (fun k hk => hcov k (by
          simp only [declared_names, List.filterMap_cons, hd, List.mem_cons]
          exact Or.inr hk))
        (fun k P w hp hw => hty k P w (List.mem_cons_of_mem _ hp) hw)
        (args ++ [kvpair (sym k1) w1]) h
      refine ⟨kvpair (sym k1) w1 :: new, ?_, ?_⟩
      · simp only [instance_props, hres]
        rw [hnew]
        simp
      · intro k w hk hw
        simp only [declared_names, List.filterMap_cons, hd, List.mem_cons] at hk
        rcases hk with hk | hk
        · subst hk
          have : w = w1 := supplied_unique v hnd k w w1 hw hm1
          subst this
          exact List.mem_cons_self _ _
        · exact List.mem_cons_of_mem _ (hmem k w hk hw)

theorem create_instance_error (ev : evaluator) (h : heap) (e : lenv) (s : Nat) (nm : String)
    (props v : List lval) (hv : ∀ a ∈ v, (supplied_key a).isSome = true)
    (hp : ∀ x ∈ props, (declared_name x).isSome = true) (k : String)
    (hk : k ∈ declared_names props) (hm : k ∉ supplied_keys v) (r : lval) (h1 : heap)
    (hr : lval_create_custom_type_instance ev h e (ctype s nm props) v = some (r, h1)) :
    r.is_err = true := by
  simp only [lval_create_custom_type_instance] at hr
  split at hr
  · simp only [Option.some.injEq, Prod.mk.injEq] at hr
    rw [← hr.1]; rfl
  · cases hq : instance_props ev e v props [] h with
    | none => simp [hq] at hr
    | some q =>
      obtain ⟨res, h2⟩ := q
      cases res with
      | inl r1 =>
        simp only [hq, Option.some.injEq, Prod.mk.injEq] at hr
        rw [← hr.1]
        exact instance_props_inl ev e v props [] h r1 h2 hq
      | inr out => exact absurd hq (instance_props_missing ev e v hv props hp [] h k hk hm out h2)

theorem declared_names_length (props : List lval)
    (hp : ∀ x ∈ props, (declared_name x).isSome = true) :
    (declared_names props).length = props.length := by
  induction props with
  | nil => rfl
  | cons x rest ih =>
    cases hx : declared_name x with
    | none =>
      have := hp x (List.mem_cons_self _ _)
      simp [hx] at this
    | some k =>
      simp only [declared_names, List.filterMap_cons, hx, List.length_cons]
      have := ih (fun y hy => hp y (List.mem_cons_of_mem _ hy))
      simp only [declared_names] at this
      rw [this]

theorem supplied_keys_length (v : List lval)
    (hv : ∀ a ∈ v, (supplied_key a).isSome = true) :
    (supplied_keys v).length = v.length := by
  induction v with
  | nil => rfl
  | cons x rest ih =>
    cases hx : supplied_key x with
    | none =>
      have := hv x (List.mem_cons_self _ _)
      simp [hx] at this
    | some k =>
      simp only [supplied_keys, List.filterMap_cons, hx, List.length_cons]
      have := ih (fun y hy => hv y (List.mem_cons_of_mem _ hy))
      simp only [supplied_keys] at this
      rw [this]

/-- Equal length, distinct declared names and a different key set leave a declared
name without argument. -/
theorem exists_missing (props v : List lval) (hv : ∀ a ∈ v, (supplied_key a).isSome = true)
    (hp : ∀ x ∈ props, (declared_name x).isSome = true) (hnd : (declared_names props).Nodup)
    (hlen : v.length = props.length)
    (hmis : ¬ ∀ k, k ∈ supplied_keys v ↔ k ∈ declared_names props) :
    ∃ k, k ∈ declared_names props ∧ k ∉ supplied_keys v := by
  by_contra hcon
  push_neg at hcon
  have hsub : declared_names props ⊆ supplied_keys v := fun k hk => hcon k hk
  have hperm : (declared_names props).Perm (supplied_keys v) :=
    (List.subperm_of_subset hnd hsub).perm_of_length_le (by
      rw [declared_names_length props hp, supplied_keys_length v hv, hlen])
  exact hmis (fun k => (hperm.mem_iff).symm)

/-- C11 (amended). Let `T` name a custom type whose declared properties have
pairwise distinct names, and let `(T args...)` have at least one argument, all of
the form `key:value`, whose key set is not the set of declared names. Then
(1) whatever the evaluation of the form returns is an error, so no instance is
produced; (2) when the number of arguments differs from the number of declared
properties it returns an error at once, in the same state; (3) when the arguments
are literals and the declared types are primitive types, it returns an error in
the same state. -/
theorem C11_wrong_keys_error (n : Nat) (h : heap) (e : lenv) (T : String) (s : Nat)
    (nm : String) (props args : List lval)
    (hT : lenv_get h e T = some (ctype s nm props))
    (hp : ∀ x ∈ props, (declared_name x).isSome = true)
    (hnd : (declared_names props).Nodup)
    (hne : args ≠ [])
    (hargs : ∀ a ∈ args, (supplied_key a).isSome = true)
    (hmis : ¬ ∀ k, k ∈ supplied_keys args ↔ k ∈ declared_names props) :
    (∀ r h1, lval_eval_sexpr (interp (n + 1)) h e (sexpr (sym T :: args)) = some (r, h1) →
      r.is_err = true) ∧
    (args.length ≠ props.length →
      ∃ r, lval_eval_sexpr (interp (n + 1)) h e (sexpr (sym T :: args)) = some (r, h) ∧
        r.is_err = true) ∧
    ((∀ x ∈ props, simple_prop x = true) → (∀ a ∈ args, literal_arg a = true) →
      ∃ r, lval_eval_sexpr (interp (n + 1)) h e (sexpr (sym T :: args)) = some (r, h) ∧
        r.is_err = true) := by
  rw [eval_type_form n h e T s nm props args hT hne hargs]
  have part1 : ∀ r h1,
      lval_create_custom_type_instance (interp (n + 1)) h e (ctype s nm props) args =
        some (r, h1) → r.is_err = true := by
    intro r h1 hr
    by_cases hlen : args.length = props.length
    · obtain ⟨k, hk, hm⟩ := exists_missing props args hargs hp hnd hlen hmis
      exact create_instance_error (interp (n + 1)) h e s nm props args hargs hp k hk hm r h1 hr
    · simp only [lval_create_custom_type_instance, ne_eq, hlen, not_false_eq_true, if_true,
        Option.some.injEq, Prod.mk.injEq] at hr
      rw [← hr.1]; rfl
  refine ⟨part1, ?_, ?_⟩
  · intro hlen
    exact ⟨lval_err_for_val "Incorrect number of arguments to create",
      by simp only [lval_create_custom_type_instance, ne_eq, hlen, not_false_eq_true, if_true],
      rfl⟩
  · intro hs hlit
    by_cases hlen : args.length = props.length
    · obtain ⟨res, hres⟩ :=
        instance_props_literal_total (interp (n + 1)) e args hlit props hs [] h
      obtain ⟨k, hk, hm⟩ := exists_missing props args hargs hp hnd hlen hmis
      cases res with
      | inl r =>
        have hr : lval_create_custom_type_instance (interp (n + 1)) h e (ctype s nm props)
            args = some (r, h) := by
          simp only [lval_create_custom_type_instance, ne_eq, hlen, not_true, if_false, hres]
        exact ⟨r, hr, part1 r h hr⟩
      | inr out =>
        exact absurd hres
          (instance_props_missing (interp (n + 1)) e args hargs props hp [] h k hk hm out h)
    · exact ⟨lval_err_for_val "Incorrect number of arguments to create",
        by simp only [lval_create_custom_type_instance, ne_eq, hlen, not_false_eq_true,
          if_true], rfl⟩

theorem C11_wrong_keys_error_witness :
    lval_eval (interp 3) root_heap root_env
        (sexpr [sym "def-type", qexpr [sym "P", sym "x", kvpair (sym "y") (ptype LVAL_INT)]]) =
      some (sexpr [], type_state) ∧
    ∃ r, lval_eval_sexpr (interp 1) type_state root_env
        (sexpr [sym "P", kvpair (sym "x") (int 1), kvpair (sym "z") (int 2)]) =
          some (r, type_state) ∧ r.is_err = true :=
  ⟨rfl,
    (C11_wrong_keys_error 0 type_state root_env "P" 0 "P"
      [sym "x", kvpair (sym "y") (ptype LVAL_INT)]
      [kvpair (sym "x") (int 1), kvpair (sym "z") (int 2)] rfl
      (by simp [declared_name]) (by simp [declared_names, declared_name]) (by simp)
      (by simp [supplied_key])
      (by
        intro H
        have := (H "z").1 (by simp [supplied_keys, supplied_key])
        simp [declared_names, declared_name] at this)).2.2
      (by simp [simple_prop]) (by simp [literal_arg, literal_value])⟩

/-- C11 (counterexample). After `(def-type {P x})` the form `(P)`, without
arguments, evaluates to the type `P` itself, not to an error; and after
`(def-type {Q x x})` the form `(Q x:1 y:2)`, whose keys are not the declared ones,
produces an instance. -/
theorem C11_counterexample :
    (∃ h1, lval_eval (interp 3) root_heap root_env
        (sexpr [sym "def-type", qexpr [sym "P", sym "x"]]) = some (sexpr [], h1) ∧
      lval_eval (interp 3) h1 root_env (sexpr [sym "P"]) =
        some (ctype 0 "P" [sym "x"], h1)) ∧
    (∃ h2 h3, lval_eval (interp 3) root_heap root_env
        (sexpr [sym "def-type", qexpr [sym "Q", sym "x", sym "x"]]) = some (sexpr [], h2) ∧
      lval_eval (interp 3) h2 root_env
        (sexpr [sym "Q", kvpair (sym "x") (int 1), kvpair (sym "y") (int 2)]) =
          some (inst (ctype 0 "Q" [sym "x", sym "x"]) 1, h3)) :=
  ⟨⟨_, rfl, rfl⟩, ⟨_, _, rfl, rfl⟩⟩

/-! ### Reading a property of an instance -/

/-- The form `(p k)`, with `p` bound to an instance or a dictionary whose table maps
`k` to the literal `w`, evaluates to `w`. -/
theorem property_access (m : Nat) (h2 : heap) (e2 : lenv) (p k : String) (o w : lval)
    (a : Nat) (tbl : lval_table) (ho : (∃ t, o = inst t a) ∨ o = dict a)
    (hp : lenv_get h2 e2 p = some o) (ht : h2.table a = some tbl)
    (hk : lval_table_get tbl k = some w) (hw : literal_value w = true) :
    lval_eval_sexpr (interp (m + 2)) h2 e2 (sexpr [sym p, sym k]) = some (w, h2) := by
  have hget : lenv_get h2 (a :: e2) k = some w := by
    simp only [lenv_get, ht, hk]
  have hwe : ∀ n, lval_eval (interp n) h2 e2 w = some (w, h2) := by
    intro n
    cases w <;> simp [literal_value] at hw <;> rfl
  have herr : w.is_err = false := by
    cases w <;> simp [literal_value] at hw <;> rfl
  have hfun : w.is_fun = false := by
    cases w <;> simp [literal_value] at hw <;> rfl
  have htmp : temp_env e2 w = e2 := by
    cases w <;> simp [literal_value] at hw <;> rfl
  have single : ∀ n (x : lval), lval_eval (interp n) h2 e2 x = some (w, h2) →
      eval_sexpr_children (interp (n + 1)) h2 e2 [x] = some ([w], h2) := by
    intro n x hx
    simp only [eval_sexpr_children, interp_eval, hx, htmp, eval_children]
  have inner : lval_eval (interp (m + 1)) h2 e2 (sexpr [w]) = some (w, h2) := by
    rw [lval_eval_of_sexpr]
    simp only [lval_eval_sexpr, lval.cells]
    rw [single m w (hwe m)]
    simp only [List.find?_cons, herr, List.find?_nil, eval_sexpr_head, List.isEmpty_nil, hfun,
      Bool.not_false, Bool.and_self, if_true]
  have children : ∀ (o : lval), lenv_get h2 e2 p = some o → temp_env e2 o = a :: e2 →
      eval_sexpr_children (interp (m + 2)) h2 e2 [sym p, sym k] = some ([o, w], h2) := by
    intro o hpo hto
    simp only [eval_sexpr_children, interp_eval, lval_eval_of_sym _ h2 e2 p o hpo, hto,
      eval_children, lval_eval_of_sym _ h2 (a :: e2) k w hget]
  rcases ho with ⟨t, rfl⟩ | rfl
  · have hie : (inst t a).is_err = false := rfl
    simp only [lval_eval_sexpr, lval.cells]
    rw [children _ hp rfl]
    simp only [List.find?_cons, hie, herr, List.find?_nil, eval_sexpr_head,
      List.isEmpty_cons, Bool.false_and, Bool.false_eq_true, if_false, interp_eval]
    exact inner
  · have hie : (dict a).is_err = false := rfl
    simp only [lval_eval_sexpr, lval.cells]
    rw [children _ hp rfl]
    simp only [List.find?_cons, hie, herr, List.find?_nil, eval_sexpr_head,
      List.isEmpty_cons, Bool.false_and, Bool.false_eq_true, if_false, interp_eval]
    exact inner

/-- Construction from literals that cover the declared properties. -/
theorem create_instance_literal (ev : evaluator) (h : heap) (e : lenv) (s : Nat) (nm : String)
    (props args : List lval)
    (hs : ∀ x ∈ props, simple_prop x = true)
    (hnd : (declared_names props).Nodup)
    (hargs : ∀ a ∈ args, literal_arg a = true)
    (hperm : (supplied_keys args).Perm (declared_names props))
    (hty : ∀ k P w, kvpair (sym k) (ptype P) ∈ props → kvpair (sym k) w ∈ args → w.type = P) :
    ∃ tbl, lval_create_custom_type_instance ev h e (ctype s nm props) args =
        some (inst (ctype s nm props) h.tables.length, (h.alloc tbl).2) ∧
      table_wf tbl ∧
      (∀ k w, kvpair (sym k) w ∈ args → lval_table_get tbl k = some w) ∧
      (∀ k, (lval_table_get tbl k).isSome = true ↔ k ∈ declared_names props) := by
  have hkeys : ∀ a ∈ args, (supplied_key a).isSome = true :=
    fun a ha => literal_arg_key a (hargs a ha)
  have hp : ∀ x ∈ props, (declared_name x).isSome = true := by
    intro x hx
    have := hs x hx
    cases x with
    | sym k => rfl
    | kvpair key ty =>
      cases key with
      | sym k => rfl
      | _ => simp [simple_prop] at this
    | _ => simp [simple_prop] at this
  have hlen : args.length = props.length := by
    rw [← supplied_keys_length args hkeys, ← declared_names_length props hp]
    exact hperm.length_eq
  obtain ⟨new, hnew, hmem⟩ := instance_props_literal ev e args hargs
    (hperm.nodup_iff.2 hnd) props hs (fun k hk => hperm.mem_iff.2 hk) hty [] h
  obtain ⟨new2, hn2, hk2, hall2⟩ := instance_props_inr ev e args props [] h _ h hnew
  simp only [List.nil_append] at hn2
  subst hn2
  obtain ⟨tbl, hins, wft, hother, hin, hval⟩ :=
    insert_props_spec new hall2 (lval_table_alloc (new.length * 3)) (alloc_wf _)
  refine ⟨tbl, ?_, wft, ?_, ?_⟩
  · simp only [lval_create_custom_type_instance, ne_eq, hlen, not_true, if_false, hnew,
      List.nil_append, lval_custom_type_instance, hins]
    rfl
  · intro k w hm
    apply hval (by rw [hk2]; exact hnd) k w
    exact hmem k w (hperm.mem_iff.1 (mem_supplied_keys k w args hm)) hm
  · intro k
    constructor
    · intro hsome
      by_contra hk
      rw [← hk2] at hk
      rw [hother k hk] at hsome
      simp [lval_table_get, get_entry_alloc] at hsome
    · intro hk
      rw [← hk2] at hk
      exact hin k hk

/-- C12 (amended). Let `T` name a custom type whose declared properties are symbols
or `name:P` with `P` a primitive type and have pairwise distinct names, and let the
arguments of `(T k1:v1 ... kn:vn)` be literals whose keys are the declared names in
some order, the value for a property declared `name:P` being of type `P`. Then the
form evaluates to an instance of `T` with a fresh table, and in every later state in
which that table is unchanged and a name `p` is bound to the instance, `(p ki)`
evaluates to `vi` itself, for every `i`. -/
theorem C12_construct_then_read (n : Nat) (h : heap) (e : lenv) (T : String) (s : Nat)
    (nm : String) (props args : List lval)
    (hT : lenv_get h e T = some (ctype s nm props))
    (hs : ∀ x ∈ props, simple_prop x = true)
    (hnd : (declared_names props).Nodup)
    (hne : args ≠ [])
    (hargs : ∀ a ∈ args, literal_arg a = true)
    (hperm : (supplied_keys args).Perm (declared_names props))
    (hty : ∀ k P w, kvpair (sym k) (ptype P) ∈ props → kvpair (sym k) w ∈ args → w.type = P) :
    ∃ tbl, lval_eval_sexpr (interp (n + 1)) h e (sexpr (sym T :: args)) =
        some (inst (ctype s nm props) h.tables.length, (h.alloc tbl).2) ∧
      ∀ k w, kvpair (sym k) w ∈ args →
        ∀ (m : Nat) (h2 : heap) (e2 : lenv) (p : String),
          lenv_get h2 e2 p = some (inst (ctype s nm props) h.tables.length) →
          h2.table h.tables.length = some tbl →
          lval_eval_sexpr (interp (m + 2)) h2 e2 (sexpr [sym p, sym k]) = some (w, h2) := by
  obtain ⟨tbl, hc, _, hval, _⟩ :=
    create_instance_literal (interp (n + 1)) h e s nm props args hs hnd hargs hperm hty
  refine ⟨tbl, ?_, ?_⟩
  · rw [eval_type_form n h e T s nm props args hT hne
      (fun a ha => literal_arg_key a (hargs a ha))]
    exact hc
  · intro k w hm m h2 e2 p hp ht
    have hlit : literal_value w = true := by
      have := hargs _ hm
      simpa [literal_arg] using this
    exact property_access m h2 e2 p k _ w h.tables.length tbl (Or.inl ⟨_, rfl⟩) hp ht
      (hval k w hm) hlit

theorem C12_construct_then_read_witness :
    (∃ tbl, lval_eval_sexpr (interp 1) type_state root_env
        (sexpr [sym "P", kvpair (sym "y") (int 2), kvpair (sym "x") (int 1)]) =
          some (inst point_type 1, (type_state.alloc tbl).2) ∧
      lval_eval_sexpr (interp 2)
        (heap.mk [lval_table_insert (lval_table_insert
            (lenv_add_builtins (lval_table_alloc 416)) "P" point_type) "p" (inst point_type 1),
            tbl] 1)
        root_env (sexpr [sym "p", sym "y"]) =
        some (int 2, heap.mk [lval_table_insert (lval_table_insert
            (lenv_add_builtins (lval_table_alloc 416)) "P" point_type) "p" (inst point_type 1),
            tbl] 1)) ∧
    (∃ h1 h2, lval_eval (interp 4) root_heap root_env
        (sexpr [sym "def-type", qexpr [sym "Point", kvpair (sym "x") (ptype LVAL_FLT),
          kvpair (sym "y") (ptype LVAL_FLT)]]) = some (sexpr [], h1) ∧
      lval_eval (interp 4) h1 root_env
        (sexpr [sym "def", qexpr [sym "p"], sexpr [sym "Point",
          kvpair (sym "x") (flt ⟨4607182418800017408⟩),
          kvpair (sym "y") (flt ⟨4611686018427387904⟩)]]) = some (sexpr [], h2) ∧
      lval_eval (interp 4) h2 root_env (sexpr [sym "p", sym "y"]) =
        some (flt ⟨4611686018427387904⟩, h2)) := by
  refine ⟨?_, ⟨_, _, rfl, rfl, rfl⟩⟩
  obtain ⟨tbl, hc, hread⟩ := C12_construct_then_read 0 type_state root_env "P" 0 "P"
    [sym "x", kvpair (sym "y") (ptype LVAL_INT)]
    [kvpair (sym "y") (int 2), kvpair (sym "x") (int 1)] rfl
    (by simp [simple_prop]) (by simp [declared_names, declared_name]) (by simp)
    (by simp [literal_arg, literal_value])
    (by
      simp only [supplied_keys, supplied_key, declared_names, declared_name,
        List.filterMap_cons, List.filterMap_nil]
      exact List.Perm.swap _ _ _)
    (by
      intro k P w hp hw
      simp only [List.mem_cons, List.mem_singleton, List.not_mem_nil, or_false] at hp hw
      rcases hp with hp | hp
      · cases hp
      · injection hp with hk hP
        injection hk with hk
        injection hP with hP
        subst hk; subst hP
        rcases hw with hw | hw
        · injection hw with _ hw
          rw [hw]; rfl
        · injection hw with hk2 _
          injection hk2 with hk2
          exact absurd hk2 (by decide))
  exact ⟨tbl, hc, hread "y" (int 2) (List.mem_cons_self _ _) 0 _ root_env "p" rfl rfl⟩

/-- C12 (counterexample). After `(def-type {Q x x})`, the construction `(Q x:1 x:2)`
supplies the declared properties and succeeds, and `(q x)` on the instance is `1`:
for the second argument, `x:2`, the value read is not equal to the value supplied. -/
theorem C12_counterexample :
    ∃ h1 h2, lval_eval (interp 4) root_heap root_env
        (sexpr [sym "def-type", qexpr [sym "Q", sym "x", sym "x"]]) = some (sexpr [], h1) ∧
      lval_eval (interp 4) h1 root_env
        (sexpr [sym "def", qexpr [sym "q"],
          sexpr [sym "Q", kvpair (sym "x") (int 1), kvpair (sym "x") (int 2)]]) =
        some (sexpr [], h2) ∧
      lval_eval (interp 4) h2 root_env (sexpr [sym "q", sym "x"]) = some (int 1, h2) ∧
      lval_eq 1 h2 (int 1) (int 2) = some false :=
  ⟨_, _, rfl, rfl, rfl, rfl⟩

/-- C13 (evaluation at the failing input). After `(def {y} 5)` and
`(def-type {P x})`, the construction in `(def {p} (P x:y))` stores for the untyped
property `x` the symbol `y`, not the value `5` bound to it; after `(set {y} 6)`,
`(p x)` is `6`. For the typed property of `(def-type {R x:Integer})` the same
argument is evaluated first: `(R x:y)` stores `5`. -/
theorem C13_untyped_value_not_evaluated :
    ∃ h1 h2 h3 h4 tbl, lval_eval (interp 4) root_heap root_env
        (sexpr [sym "def", qexpr [sym "y"], int 5]) = some (sexpr [], h1) ∧
      lval_eval (interp 4) h1 root_env
        (sexpr [sym "def-type", qexpr [sym "P", sym "x"]]) = some (sexpr [], h2) ∧
      lval_eval (interp 4) h2 root_env
        (sexpr [sym "def", qexpr [sym "p"], sexpr [sym "P", kvpair (sym "x") (sym "y")]]) =
        some (sexpr [], h3) ∧
      lenv_get h3 root_env "p" = some (inst (ctype 0 "P" [sym "x"]) 1) ∧
      h3.table 1 = some tbl ∧ lval_table_get tbl "x" = some (sym "y") ∧
      lval_eval (interp 4) h3 root_env (sexpr [sym "set", qexpr [sym "y"], int 6]) =
        some (sexpr [], h4) ∧
      lval_eval (interp 4) h4 root_env (sexpr [sym "p", sym "x"]) = some (int 6, h4) ∧
      ∃ h5 h6 tbl2, lval_eval (interp 4) h1 root_env
          (sexpr [sym "def-type", qexpr [sym "R", kvpair (sym "x") (ptype LVAL_INT)]]) =
          some (sexpr [], h5) ∧
        lval_eval (interp 4) h5 root_env (sexpr [sym "R", kvpair (sym "x") (sym "y")]) =
          some (inst (ctype 0 "R" [kvpair (sym "x") (ptype LVAL_INT)]) 1, h6) ∧
        h6.table 1 = some tbl2 ∧ lval_table_get tbl2 "x" = some (int 5) :=
  ⟨_, _, _, _, _, rfl, rfl, rfl, rfl, rfl, rfl, rfl, rfl, _, _, _, rfl, rfl, rfl, rfl⟩

/-- C15 (evaluation at the failing input). After `(def-type {P x})`, the second
declaration `(def-type {P y z})` returns `()`, not an error; `P` stays bound to the
first type. The sibling `(def {P} 1)` in the same state returns an error. -/
theorem C15_def_type_redeclaration :
    ∃ h1 h2, lval_eval (interp 4) root_heap root_env
        (sexpr [sym "def-type", qexpr [sym "P", sym "x"]]) = some (sexpr [], h1) ∧
      lval_eval (interp 4) h1 root_env
        (sexpr [sym "def-type", qexpr [sym "P", sym "y", sym "z"]]) = some (sexpr [], h2) ∧
      lenv_get h1 root_env "P" = some (ctype 0 "P" [sym "x"]) ∧
      lenv_get h2 root_env "P" = some (ctype 0 "P" [sym "x"]) ∧
      ∃ r, lval_eval (interp 4) h1 root_env (sexpr [sym "def", qexpr [sym "P"], int 1]) =
          some (r, h1) ∧ r.is_err = true :=
  ⟨_, _, rfl, rfl, rfl, rfl, _, rfl, rfl⟩

/-! ### The key set of an instance -/

theorem instance_props_named (ev : evaluator) (e : lenv) (v : List lval) (props : List lval) :
    ∀ (args : List lval) (h : heap) (out : List lval) (h1 : heap),
      instance_props ev e v props args h = some (Sum.inr out, h1) →
      ∀ x ∈ props, (declared_name x).isSome = true := by
  induction props with
  | nil => intro args h out h1 _ x hx; simp at hx
  | cons v1 rest ih =>
    intro args h out h1 hr x hx
    simp only [instance_props] at hr
    cases hp : instance_prop ev h e v v1 with
    | none => simp [hp] at hr
    | some q =>
      obtain ⟨res, h2⟩ := q
      cases res with
      | inl r1 => simp [hp] at hr
      | inr p1 =>
        simp only [hp] at hr
        rcases List.mem_cons.1 hx with hx | hx
        · obtain ⟨k, w, hd, _⟩ := instance_prop_inr ev h e v v1 p1 h2 hp
          rw [hx, hd]; rfl
        · exact ih _ _ _ _ hr x hx

theorem mem_declared_names (p : String) (props : List lval) :
    p ∈ declared_names props ↔ ∃ x ∈ props, x = sym p ∨ ∃ t, x = kvpair (sym p) t := by
  simp only [declared_names, List.mem_filterMap]
  constructor
  · rintro ⟨x, hx, hd⟩
    exact ⟨x, hx, declared_name_some x p hd⟩
  · rintro ⟨x, hx, hd⟩
    refine ⟨x, hx, ?_⟩
    rcases hd with rfl | ⟨t, rfl⟩ <;> rfl

theorem declared_name_isSome (x : lval) (hx : (declared_name x).isSome = true) :
    ∃ k, x = sym k ∨ ∃ t, x = kvpair (sym k) t := by
  cases hk : declared_name x with
  | none => simp [hk] at hx
  | some k => exact ⟨k, declared_name_some x k hk⟩

/-- C14. (1) Every instance returned by `lval_create_custom_type_instance` satisfies
the invariant `instance_ok`: its table is a fresh well-formed table whose keys are
exactly the names of the properties declared by its type. (2) For an instance `o`
bound to a name `p` that satisfies the invariant, every call `(set-prop {p prop} v)`,
with any `prop` and `v`, returns and leaves `o` satisfying the invariant, whether
the call succeeds or returns an error. -/
theorem C14_instance_keys (n : Nat) :
    (∀ (ev : evaluator) (h : heap) (e : lenv) (s : Nat) (nm : String) (props v : List lval)
        (r : lval) (h1 : heap),
      lval_create_custom_type_instance ev h e (ctype s nm props) v = some (r, h1) →
      r.is_err = false →
      (∃ a, r = inst (ctype s nm props) a) ∧ instance_ok h1 r) ∧
    (∀ (h : heap) (e : lenv) (p : String) (prop v o : lval),
      lenv_get h e p = some o → instance_ok h o →
      ∃ r h2, builtin_set_prop (interp (n + 1)) h e (sexpr [qexpr [sym p, prop], v]) =
          some (r, h2) ∧ instance_ok h2 o) := by
  refine ⟨?_, ?_⟩
  · intro ev h e s nm props v r h1 hr hne
    simp only [lval_create_custom_type_instance] at hr
    split at hr
    · simp only [Option.some.injEq, Prod.mk.injEq] at hr
      rw [← hr.1] at hne
      simp [lval_err_for_val, lval.is_err] at hne
    · cases hq : instance_props ev e v props [] h with
      | none => simp [hq] at hr
      | some q =>
        obtain ⟨res, h2⟩ := q
        cases res with
        | inl r1 =>
          simp only [hq, Option.some.injEq, Prod.mk.injEq] at hr
          rw [← hr.1, instance_props_inl ev e v props [] h r1 h2 hq] at hne
          simp at hne
        | inr out =>
          simp only [hq] at hr
          obtain ⟨new, hout, hkeys, hall⟩ := instance_props_inr ev e v props [] h out h2 hq
          simp only [List.nil_append] at hout
          subst hout
          obtain ⟨tbl, hins, wft, hother, hin, _⟩ :=
            insert_props_spec out hall (lval_table_alloc (out.length * 3)) (alloc_wf _)
          simp only [lval_custom_type_instance, hins, Option.some.injEq, Prod.mk.injEq] at hr
          obtain ⟨hr1, hr2⟩ := hr
          subst hr1; subst hr2
          refine ⟨⟨_, rfl⟩, instance_props_named ev e v props [] h out h2 hq, tbl,
            table_alloc_new h2 tbl, wft, ?_⟩
          intro k
          constructor
          · intro hsome
            by_contra hk
            rw [← hkeys] at hk
            rw [hother k hk] at hsome
            simp [lval_table_get, get_entry_alloc] at hsome
          · intro hk
            rw [← hkeys] at hk
            exact hin k hk
  · intro h e p prop v o hp hok
    cases o with
    | inst t a =>
      cases t with
      | ctype s nm props =>
        obtain ⟨hnamed, tbl, ht, wft, hkeys⟩ := hok
        have hev : (interp (n + 1)).eval h e (sym p) = some (inst (ctype s nm props) a, h) := by
          rw [interp_eval]
          exact lval_eval_of_sym _ h e p _ hp
        cases hs : prop.sym_name with
        | none =>
          refine ⟨lval_err_for_val "set-prop cannot define non-symbol", h, ?_, hnamed, tbl, ht,
            wft, hkeys⟩
          simp only [builtin_set_prop, lval.cells, hs]
        | some k =>
          obtain ⟨b, hb, hiff⟩ :=
            prop_declared_spec k props (fun x hx => declared_name_isSome x (hnamed x hx))
          cases b with
          | false =>
            refine ⟨lval_err_for_val "set-prop: no such property", h, ?_, hnamed, tbl, ht, wft,
              hkeys⟩
            simp only [builtin_set_prop, lval.cells, hs, hev, hb]
          | true =>
            have hk : k ∈ declared_names props := (mem_declared_names k props).2 (hiff.1 rfl)
            refine ⟨inst (ctype s nm props) a, h.set_table a (lval_table_insert tbl k v), ?_,
              hnamed,
              lval_table_insert tbl k v, table_set_same h a _ tbl ht, insert_wf tbl wft k v, ?_⟩
            · simp only [builtin_set_prop, lval.cells, hs, hev, hb, ht]
            · intro k2
              rw [get_insert tbl wft]
              by_cases hkk : k = k2
              · subst hkk
                simp [hk]
              · simp only [hkk, if_false]
                exact hkeys k2
      | _ => exact absurd hok (by simp [instance_ok])
    | _ => exact absurd hok (by simp [instance_ok])

theorem instance_state_ok : instance_ok instance_state (inst point_type 1) := by
  refine ⟨by simp [declared_name],
    lval_table_insert (lval_table_insert (lval_table_alloc 6) "x" (int 1)) "y" (int 2), rfl,
    insert_wf _ (insert_wf _ (alloc_wf 6) _ _) _ _, ?_⟩
  intro k
  rw [get_insert _ (insert_wf _ (alloc_wf 6) _ _), get_insert _ (alloc_wf 6)]
  simp only [declared_names, declared_name, List.filterMap_cons, List.filterMap_nil,
    List.mem_cons, List.mem_singleton, List.not_mem_nil, or_false]
  by_cases hy : "y" = k
  · simp [hy]
  · by_cases hx : "x" = k
    · simp [hx, hy]
    · simp [hx, hy, Ne.symm hx, Ne.symm hy, lval_table_get, get_entry_alloc]

theorem C14_instance_keys_witness :
    (∃ h1, lval_create_custom_type_instance (interp 1) type_state root_env point_type
        [kvpair (sym "x") (int 1), kvpair (sym "y") (int 2)] = some (inst point_type 1, h1) ∧
      instance_ok h1 (inst point_type 1)) ∧
    (∃ r h2, builtin_set_prop (interp 1) instance_state root_env
        (sexpr [qexpr [sym "i", sym "z"], int 7]) = some (r, h2) ∧
      instance_ok h2 (inst point_type 1)) ∧
    (∃ r h2, builtin_set_prop (interp 1) instance_state root_env
        (sexpr [qexpr [sym "i", sym "y"], str "s"]) = some (r, h2) ∧
      instance_ok h2 (inst point_type 1)) :=
  ⟨⟨_, rfl, ((C14_instance_keys 0).1 (interp 1) type_state root_env 0 "P"
      [sym "x", kvpair (sym "y") (ptype LVAL_INT)]
      [kvpair (sym "x") (int 1), kvpair (sym "y") (int 2)] (inst point_type 1) _ rfl rfl).2⟩,
    (C14_instance_keys 0).2 instance_state root_env "i" (sym "z") (int 7) (inst point_type 1)
      rfl instance_state_ok,
    (C14_instance_keys 0).2 instance_state root_env "i" (sym "y") (str "s") (inst point_type 1)
      rfl instance_state_ok⟩

/-! ### Arithmetic on Bytes and Integers -/

theorem wrap_long_small (x : Int) (h1 : - 2 ^ 63 ≤ x) (h2 : x < 2 ^ 63) : wrap_long x = x := by
  unfold wrap_long
  norm_num at h1 h2 ⊢
  omega

theorem byte_or_int_cases (v : lval) (hv : byte_or_int v) :
    (∃ b, v = byte b ∧ b < 256) ∨ (∃ x, v = int x ∧ - 2 ^ 63 ≤ x ∧ x < 2 ^ 63) := by
  cases v with
  | byte b => exact Or.inl ⟨b, rfl, hv⟩
  | int x => exact Or.inr ⟨x, rfl, hv⟩
  | _ => exact absurd hv (by simp [byte_or_int])

theorem single_list_args_two (x y : lval) (rest : List lval) :
    single_list_args (x :: y :: rest) = x :: y :: rest := by
  simp [single_list_args]

theorem op_type_bytes (l : List lval) (hl : ∀ v ∈ l, v.type = LVAL_BYTE) :
    op_type LVAL_BYTE l = some LVAL_BYTE := by
  induction l with
  | nil => rfl
  | cons v rest ih =>
    have hv := hl v (List.mem_cons_self _ _)
    cases v <;> simp [lval.type] at hv
    simp only [op_type]
    exact ih (fun w hw => hl w (List.mem_cons_of_mem _ hw))

theorem op_type_int (l : List lval) (hl : ∀ v ∈ l, byte_or_int v) :
    op_type LVAL_INT l = some LVAL_INT := by
  induction l with
  | nil => rfl
  | cons v rest ih =>
    have ihr := ih (fun w hw => hl w (List.mem_cons_of_mem _ hw))
    rcases byte_or_int_cases v (hl v (List.mem_cons_self _ _)) with ⟨b, rfl, _⟩ | ⟨x, rfl, _⟩
    · simp only [op_type]
      exact ihr
    · simp only [op_type, ne_eq, reduceCtorEq, not_false_eq_true, if_true]
      exact ihr

theorem op_type_mixed (l : List lval) (hl : ∀ v ∈ l, byte_or_int v)
    (hi : ¬ ∀ v ∈ l, v.type = LVAL_BYTE) : op_type LVAL_BYTE l = some LVAL_INT := by
  induction l with
  | nil => exact absurd (fun v hv => absurd hv (List.not_mem_nil v)) hi
  | cons v rest ih =>
    have hr : ∀ w ∈ rest, byte_or_int w := fun w hw => hl w (List.mem_cons_of_mem _ hw)
    rcases byte_or_int_cases v (hl v (List.mem_cons_self _ _)) with ⟨b, rfl, _⟩ | ⟨x, rfl, _⟩
    · simp only [op_type]
      apply ih hr
      intro hall
      apply hi
      intro w hw
      rcases List.mem_cons.1 hw with hw | hw
      · rw [hw]; rfl
      · exact hall w hw
    · simp only [op_type, ne_eq, reduceCtorEq, not_false_eq_true, if_true]
      exact op_type_int rest hr

theorem cast_list_to_int (l : List lval) (hl : ∀ v ∈ l, byte_or_int v) :
    cast_list_to_type l LVAL_INT = some (l.map (fun v => int (int_value v))) := by
  induction l with
  | nil => rfl
  | cons v rest ih =>
    have ihr := ih (fun w hw => hl w (List.mem_cons_of_mem _ hw))
    rcases byte_or_int_cases v (hl v (List.mem_cons_self _ _)) with ⟨b, rfl, hb⟩ | ⟨x, rfl, _⟩
    · have hc : cast_to (byte b) LVAL_INT = some (int (b : Int)) := by
        have hw : wrap_long (b : Int) = b := wrap_long_small _ (by norm_num; omega)
          (by norm_num; omega)
        simp only [cast_to, reduceCtorEq, if_false, if_true, cast_to_int, lval_int]
        unfold wrap_long at hw
        rw [hw]
      simp only [cast_list_to_type, hc, ihr, List.map_cons, int_value]
    · have hc : cast_to (int x) LVAL_INT = some (int x) := by
        simp only [cast_to, reduceCtorEq, if_false, if_true, cast_to_int]
      simp only [cast_list_to_type, hc, ihr, List.map_cons, int_value]

theorem integer_step_exact (op : builtin_math_op)
    (hop : op = builtin_op_add ∨ op = builtin_op_subtract ∨ op = builtin_op_multiply)
    (x y : Int) : integer_step op x y = some (Sum.inr (wrap_long (exact_op op x y))) := by
  rcases hop with rfl | rfl | rfl <;> rfl

theorem integer_loop_fold (op : builtin_math_op)
    (hop : op = builtin_op_add ∨ op = builtin_op_subtract ∨ op = builtin_op_multiply)
    (l : List lval) : ∀ x : Int,
    integer_loop op x (l.map (fun v => int (int_value v))) =
      some (int (l.foldl (fun acc v => wrap_long (exact_op op acc (int_value v))) x)) := by
  induction l with
  | nil => intro x; rfl
  | cons v rest ih =>
    intro x
    simp only [List.map_cons, integer_loop, integer_step_exact op hop, List.foldl_cons]
    exact ih _

theorem byte_step_exact (op : builtin_math_op)
    (hop : op = builtin_op_add ∨ op = builtin_op_subtract ∨ op = builtin_op_multiply)
    (x y : Nat) :
    byte_step op x y = some (Sum.inr (exact_op op x y % 256).toNat) := by
  rcases hop with rfl | rfl | rfl
  · rfl
  · rfl
  · rfl

theorem byte_loop_fold (op : builtin_math_op)
    (hop : op = builtin_op_add ∨ op = builtin_op_subtract ∨ op = builtin_op_multiply)
    (l : List lval) (hl : ∀ v ∈ l, v.type = LVAL_BYTE) : ∀ x : Nat,
    byte_loop op x l =
      some (byte (l.foldl (fun acc v => exact_op op acc (int_value v) % 256) (x : Int)).toNat) := by
  induction l with
  | nil => intro x; simp [byte_loop]
  | cons v rest ih =>
    intro x
    have hv := hl v (List.mem_cons_self _ _)
    cases v <;> simp [lval.type] at hv
    rename_i b
    simp only [byte_loop, byte_step_exact op hop, List.foldl_cons, int_value]
    rw [ih (fun w hw => hl w (List.mem_cons_of_mem _ hw))]
    congr 4
    exact Int.toNat_of_nonneg (Int.emod_nonneg _ (by norm_num))

/-- C16. Let `op` be `+`, `-` or `*` and let the arguments `x y rest...` (two or
more) be Bytes and Integers. If all of them are Bytes, `builtin_op` returns the
Byte obtained by folding the exact operation from the left and reducing modulo
`2 ^ 8` at every step. Otherwise it returns the Integer obtained by folding from the
left, over the arguments cast to Integer, the exact operation reduced to 64 bits,
two's complement, at every step. For two operands this is `op a b` at the higher
of the two ranks. `builtin_add` hands arguments that are all numbers to
`builtin_op`. -/
theorem C16_byte_int_arithmetic (op : builtin_math_op)
    (hop : op = builtin_op_add ∨ op = builtin_op_subtract ∨ op = builtin_op_multiply)
    (x y : lval) (rest : List lval) (hwf : ∀ v ∈ x :: y :: rest, byte_or_int v) :
    ((∀ v ∈ x :: y :: rest, v.type = LVAL_BYTE) →
      builtin_op (sexpr (x :: y :: rest)) op =
        some (byte ((y :: rest).foldl
          (fun acc v => exact_op op acc (int_value v) % 256) (int_value x)).toNat)) ∧
    ((¬ ∀ v ∈ x :: y :: rest, v.type = LVAL_BYTE) →
      builtin_op (sexpr (x :: y :: rest)) op =
        some (int ((y :: rest).foldl
          (fun acc v => wrap_long (exact_op op acc (int_value v))) (int_value x)))) ∧
    (∀ (join : heap → lval → Option (lval × heap)) (h : heap),
      builtin_add join h (sexpr (x :: y :: rest)) =
        (builtin_op (sexpr (x :: y :: rest)) builtin_op_add).map (fun r => (r, h))) := by
  refine ⟨?_, ?_, ?_⟩
  · intro hb
    have hx := hb x (List.mem_cons_self _ _)
    cases x <;> simp [lval.type] at hx
    rename_i b
    simp only [builtin_op, lval.cells, single_list_args_two, op_type_bytes _ hb, if_true,
      byte_op, List.length_cons]
    rw [if_neg (by omega)]
    simp only [int_value]
    exact byte_loop_fold op hop (y :: rest)
      (fun w hw => hb w (List.mem_cons_of_mem _ hw)) b
  · intro hi
    simp only [builtin_op, lval.cells, single_list_args_two, op_type_mixed _ hwf hi,
      reduceCtorEq, if_false, if_true, cast_list_to_int _ hwf, List.map_cons, integer_op,
      List.isEmpty_cons, Bool.false_eq_true, and_false]
    exact integer_loop_fold op hop (y :: rest) (int_value x)
  · intro join h
    have hnum : (x :: y :: rest).all lval_is_number = true := by
      rw [List.all_eq_true]
      intro v hv
      rcases byte_or_int_cases v (hwf v hv) with ⟨b, rfl, _⟩ | ⟨i, rfl, _⟩ <;> rfl
    simp only [builtin_add, lval.cells, hnum, if_true]

theorem C16_byte_int_arithmetic_witness :
    builtin_op (sexpr [int 1, int 2, int 3]) builtin_op_add = some (int 6) ∧
    builtin_op (sexpr [byte 255, byte 2]) builtin_op_add = some (byte 1) ∧
    builtin_op (sexpr [byte 2, int 3]) builtin_op_subtract = some (int (-1)) ∧
    builtin_op (sexpr [int (2 ^ 62), byte 4]) builtin_op_multiply = some (int 0) :=
  ⟨(C16_byte_int_arithmetic builtin_op_add (Or.inl rfl) (int 1) (int 2) [int 3]
      (by simp [byte_or_int])).2.1 (by
        intro hall
        have := hall (int 1) (List.mem_cons_self _ _)
        simp [lval.type] at this),
    (C16_byte_int_arithmetic builtin_op_add (Or.inl rfl) (byte 255) (byte 2) []
      (by simp [byte_or_int])).1 (by simp [lval.type]),
    (C16_byte_int_arithmetic builtin_op_subtract (Or.inr (Or.inl rfl)) (byte 2) (int 3) []
      (by simp [byte_or_int])).2.1 (by
        intro hall
        have := hall (int 3) (List.mem_cons_of_mem _ (List.mem_cons_self _ _))
        simp [lval.type] at this),
    (C16_byte_int_arithmetic builtin_op_multiply (Or.inr (Or.inr rfl)) (int (2 ^ 62)) (byte 4) []
      (by simp [byte_or_int])).2.1 (by
        intro hall
        have := hall (int (2 ^ 62)) (List.mem_cons_self _ _)
        simp [lval.type] at this)⟩

theorem builtin_op_two_bytes (op : builtin_math_op) (x y : Nat) :
    builtin_op (sexpr [byte x, byte y]) op = byte_loop op x [byte y] := by
  simp [builtin_op, lval.cells, single_list_args, single_list_arg, op_type, byte_op]

theorem builtin_op_two_ints (op : builtin_math_op) (a b : lval) (ha : byte_or_int a)
    (hb : byte_or_int b) (hi : ¬ (a.type = LVAL_BYTE ∧ b.type = LVAL_BYTE)) :
    builtin_op (sexpr [a, b]) op = integer_loop op (int_value a) [int (int_value b)] := by
  have hwf : ∀ v ∈ [a, b], byte_or_int v := by
    intro v hv
    simp only [List.mem_cons, List.mem_singleton, List.not_mem_nil, or_false] at hv
    rcases hv with rfl | rfl
    · exact ha
    · exact hb
  have hmix : ¬ ∀ v ∈ [a, b], v.type = LVAL_BYTE := by
    intro hall
    exact hi ⟨hall a (List.mem_cons_self _ _),
      hall b (List.mem_cons_of_mem _ (List.mem_cons_self _ _))⟩
  simp only [builtin_op, lval.cells, single_list_args_two, op_type_mixed _ hwf hmix,
    reduceCtorEq, if_false, if_true, cast_list_to_int _ hwf, List.map_cons, List.map_nil,
    integer_op, List.isEmpty_cons, Bool.false_eq_true, and_false]

/-- C17. Let `a` and `b` be Bytes or Integers. If `b` is zero, `(/ a b)` and
`(% a b)` return an error. If `b` is not zero: for two Bytes they return the Byte
quotient and the Byte remainder; otherwise, unless `a` is the least Integer and `b`
is -1, they return the Integers `a / b` truncated toward zero and the remainder of
that division, on the operands cast to Integer. In neither of these cases is the
result an error. -/
theorem C17_division (a b : lval) (ha : byte_or_int a) (hb : byte_or_int b) :
    (int_value b = 0 →
      (∃ r, builtin_op (sexpr [a, b]) builtin_op_divide = some r ∧ r.is_err = true) ∧
      (∃ r, builtin_op (sexpr [a, b]) builtin_op_modulo = some r ∧ r.is_err = true)) ∧
    (int_value b ≠ 0 → a.type = LVAL_BYTE → b.type = LVAL_BYTE →
      builtin_op (sexpr [a, b]) builtin_op_divide =
        some (byte (Int.tdiv (int_value a) (int_value b)).toNat) ∧
      builtin_op (sexpr [a, b]) builtin_op_modulo =
        some (byte (Int.tmod (int_value a) (int_value b)).toNat)) ∧
    (int_value b ≠ 0 → ¬ (a.type = LVAL_BYTE ∧ b.type = LVAL_BYTE) →
      ¬ (int_value a = - 2 ^ 63 ∧ int_value b = -1) →
      builtin_op (sexpr [a, b]) builtin_op_divide =
        some (int (Int.tdiv (int_value a) (int_value b))) ∧
      builtin_op (sexpr [a, b]) builtin_op_modulo =
        some (int (Int.tmod (int_value a) (int_value b)))) := by
  refine ⟨?_, ?_, ?_⟩
  · intro hz
    by_cases hbb : a.type = LVAL_BYTE ∧ b.type = LVAL_BYTE
    · obtain ⟨h1, h2⟩ := hbb
      cases a <;> simp [lval.type] at h1
      cases b <;> simp [lval.type] at h2
      rename_i x y
      simp only [int_value, Int.natCast_eq_zero] at hz
      subst hz
      rw [builtin_op_two_bytes, builtin_op_two_bytes]
      exact ⟨⟨_, rfl, rfl⟩, ⟨_, rfl, rfl⟩⟩
    · rw [builtin_op_two_ints _ a b ha hb hbb, builtin_op_two_ints _ a b ha hb hbb, hz]
      exact ⟨⟨_, rfl, rfl⟩, ⟨_, rfl, rfl⟩⟩
  · intro hnz h1 h2
    cases a <;> simp [lval.type] at h1
    cases b <;> simp [lval.type] at h2
    rename_i x y
    simp only [int_value, ne_eq, Int.natCast_eq_zero] at hnz
    rw [builtin_op_two_bytes, builtin_op_two_bytes]
    simp only [byte_loop, byte_step, hnz, if_false, int_value]
    exact ⟨rfl, rfl⟩
  · intro hnz hbb hex
    rw [builtin_op_two_ints _ a b ha hb hbb, builtin_op_two_ints _ a b ha hb hbb]
    constructor
    · simp only [integer_loop, integer_step, hnz, hex, if_false]
    · simp only [integer_loop, integer_step, hnz, hex, if_false]

theorem C17_division_witness :
    (∃ r, builtin_op (sexpr [int 10, byte 0]) builtin_op_divide = some r ∧ r.is_err = true) ∧
    builtin_op (sexpr [byte 7, byte 2]) builtin_op_modulo = some (byte 1) ∧
    builtin_op (sexpr [int (-7), byte 2]) builtin_op_divide = some (int (-3)) ∧
    builtin_op (sexpr [int (-7), byte 2]) builtin_op_modulo = some (int (-1)) :=
  ⟨((C17_division (int 10) (byte 0) (by simp [byte_or_int]) (by simp [byte_or_int])).1 rfl).1,
    ((C17_division (byte 7) (byte 2) (by simp [byte_or_int]) (by simp [byte_or_int])).2.1
      (by simp [int_value]) rfl rfl).2,
    ((C17_division (int (-7)) (byte 2) (by simp [byte_or_int]) (by simp [byte_or_int])).2.2
      (by simp [int_value]) (by simp [lval.type]) (by simp [int_value])).1,
    ((C17_division (int (-7)) (byte 2) (by simp [byte_or_int]) (by simp [byte_or_int])).2.2
      (by simp [int_value]) (by simp [lval.type]) (by simp [int_value])).2⟩

/-! ### Minimum and maximum -/

theorem builtin_ord_byte_int (op : builtin_ord_op) (a b : lval) (ha : byte_or_int a)
    (hb : byte_or_int b) :
    builtin_ord (qexpr [a, b]) op =
      some (int (match op with
        | builtin_ord_op_less_than => if int_value a < int_value b then 1 else 0
        | builtin_ord_op_greater_than => if int_value a > int_value b then 1 else 0
        | builtin_ord_op_less_than_or_equal => if int_value a ≤ int_value b then 1 else 0
        | builtin_ord_op_greater_than_or_equal => if int_value a ≥ int_value b then 1 else 0)) := by
  have h1 : lval_int 1 = int 1 := rfl
  have h0 : lval_int 0 = int 0 := rfl
  have hi : ∀ c : Prop, [Decidable c] → lval_int (if c then 1 else 0) = int (if c then 1 else 0) := by
    intro c _
    by_cases hc : c
    · simp [hc, h1]
    · simp [hc, h0]
  rcases byte_or_int_cases a ha with ⟨x, rfl, hx⟩ | ⟨x, rfl, hx1, hx2⟩
  · rcases byte_or_int_cases b hb with ⟨y, rfl, hy⟩ | ⟨y, rfl, hy1, hy2⟩
    · simp only [builtin_ord, lval.cells, single_list_args_two, ord_type_first, ord_type_second,
        if_true, builtin_byte_ord, int_value]
      cases op <;> simp only [hi, Nat.cast_lt, Nat.cast_le, gt_iff_lt, ge_iff_le]
    · have hc := cast_list_to_int [byte x, int y] (by
        intro v hv
        simp only [List.mem_cons, List.mem_singleton, List.not_mem_nil, or_false] at hv
        rcases hv with rfl | rfl
        · exact ha
        · exact hb)
      simp only [builtin_ord, lval.cells, single_list_args_two, ord_type_first, ord_type_second,
        ne_eq, reduceCtorEq, not_false_eq_true, and_self, if_true, if_false, hc, List.map_cons,
        List.map_nil, builtin_integer_ord, int_value]
      cases op <;> simp only [hi]
  · have hc : ∀ b, byte_or_int b →
        cast_list_to_type [int x, b] LVAL_INT = some [int x, int (int_value b)] := by
      intro b hb
      have := cast_list_to_int [int x, b] (by
        intro v hv
        simp only [List.mem_cons, List.mem_singleton, List.not_mem_nil, or_false] at hv
        rcases hv with rfl | rfl
        · exact ha
        · exact hb)
      simpa [int_value] using this
    rcases byte_or_int_cases b hb with ⟨y, rfl, hy⟩ | ⟨y, rfl, hy1, hy2⟩
    · simp only [builtin_ord, lval.cells, single_list_args_two, ord_type_first, ord_type_second,
        ne_eq, reduceCtorEq, not_false_eq_true, and_self, if_true, if_false, hc _ hb,
        builtin_integer_ord, int_value]
      cases op <;> simp only [hi]
    · simp only [builtin_ord, lval.cells, single_list_args_two, ord_type_first, ord_type_second,
        ne_eq, reduceCtorEq, not_false_eq_true, and_self, if_true, if_false, hc _ hb,
        builtin_integer_ord, int_value]
      cases op <;> simp only [hi]

/-- The loop of `builtin_min` and `builtin_max` for a comparison that answers a
total, transitive relation `R`: the result is the first element that is related to
all elements. -/
theorem min_max_loop_spec (ord : lval → Option lval) (R : lval → lval → Prop)
    [DecidableRel R] (P : lval → Prop)
    (hord : ∀ a b, P a → P b → ord (qexpr [a, b]) = some (int (if R a b then 1 else 0)))
    (htot : ∀ a b, R a b ∨ R b a) (htrans : ∀ a b c, R a b → R b c → R a c)
    (l : List lval) : ∀ first, P first → (∀ v ∈ l, P v) →
    ∃ r, min_max_loop ord first l = some (Sum.inr r) ∧ R r first ∧
      ∃ pre post, first :: l = pre ++ r :: post ∧ (∀ v ∈ pre, ¬ R v r) ∧ (∀ v ∈ post, R r v) := by
  induction l with
  | nil =>
    intro first _ _
    exact ⟨first, rfl, (htot first first).elim id id, [], [], rfl, by simp, by simp⟩
  | cons next rest ih =>
    intro first hf hl
    have hn := hl next (List.mem_cons_self _ _)
    have hr : ∀ v ∈ rest, P v := fun v hv => hl v (List.mem_cons_of_mem _ hv)
    by_cases hc : R first next
    · obtain ⟨r, hloop, hrf, pre, post, hsplit, hpre, hpost⟩ := ih first hf hr
      refine ⟨r, ?_, hrf, ?_⟩
      · simp only [min_max_loop, hord first next hf hn, hc, if_true]
        simpa using hloop
      · cases pre with
        | nil =>
          simp only [List.nil_append, List.cons.injEq] at hsplit
          obtain ⟨h1, h2⟩ := hsplit
          subst h1; subst h2
          refine ⟨[], next :: rest, rfl, by simp, ?_⟩
          intro v hv
          rcases List.mem_cons.1 hv with hv | hv
          · rw [hv]; exact hc
          · exact hpost v hv
        | cons p pre2 =>
          simp only [List.cons_append, List.cons.injEq] at hsplit
          obtain ⟨h1, h2⟩ := hsplit
          subst h1
          refine ⟨first :: next :: pre2, post, by simp [h2], ?_, hpost⟩
          intro v hv
          rcases List.mem_cons.1 hv with hv | hv
          · rw [hv]; exact hpre first (List.mem_cons_self _ _)
          · rcases List.mem_cons.1 hv with hv | hv
            · rw [hv]
              intro hnr
              exact hpre first (List.mem_cons_self _ _) (htrans _ _ _ hc hnr)
            · exact hpre v (List.mem_cons_of_mem _ hv)
    · obtain ⟨r, hloop, hrn, pre, post, hsplit, hpre, hpost⟩ := ih next hn hr
      have hnf : R next first := (htot first next).elim (fun h => absurd h hc) id
      refine ⟨r, ?_, htrans _ _ _ hrn hnf, first :: pre, post, by simp [hsplit], ?_, hpost⟩
      · simp only [min_max_loop, hord first next hf hn, hc, if_false]
        simpa using hloop
      · intro v hv
        rcases List.mem_cons.1 hv with hv | hv
        · rw [hv]
          intro hfr
          exact hc (htrans _ _ _ hfr hrn)
        · exact hpre v hv

/-- C18. Let the arguments `x y rest...` (two or more) be Bytes and Integers.
`builtin_min` returns, in the same state, one of the arguments, unchanged: the one
that is strictly below every argument before it and at most equal to every
argument after it, compared as integers; `builtin_max` returns the argument that is
strictly above every argument before it and at least equal to every argument after
it. Given the same arguments as one list, both functions return the same result. -/
theorem C18_min_max (h : heap) (x y : lval) (rest : List lval)
    (hwf : ∀ v ∈ x :: y :: rest, byte_or_int v) :
    (∃ r pre post, builtin_min h (sexpr (x :: y :: rest)) = some (r, h) ∧
      x :: y :: rest = pre ++ r :: post ∧
      (∀ v ∈ pre, int_value r < int_value v) ∧ (∀ v ∈ post, int_value r ≤ int_value v)) ∧
    (∃ r pre post, builtin_max h (sexpr (x :: y :: rest)) = some (r, h) ∧
      x :: y :: rest = pre ++ r :: post ∧
      (∀ v ∈ pre, int_value v < int_value r) ∧ (∀ v ∈ post, int_value v ≤ int_value r)) ∧
    builtin_min h (sexpr [qexpr (x :: y :: rest)]) = builtin_min h (sexpr (x :: y :: rest)) ∧
    builtin_max h (sexpr [qexpr (x :: y :: rest)]) = builtin_max h (sexpr (x :: y :: rest)) := by
  have hcopy : ∀ r, byte_or_int r → lval_copy h r = some (r, h) := by
    intro r hr
    rcases byte_or_int_cases r hr with ⟨b, rfl, _⟩ | ⟨i, rfl, _⟩ <;> rfl
  have hmem : ∀ (r : lval) (pre post : List lval), x :: y :: rest = pre ++ r :: post →
      byte_or_int r := by
    intro r pre post hs
    apply hwf
    rw [hs]
    simp
  refine ⟨?_, ?_, ?_, ?_⟩
  · obtain ⟨r, hloop, _, pre, post, hsplit, hpre, hpost⟩ :=
      min_max_loop_spec builtin_less_than_or_equal
        (fun a b => int_value a ≤ int_value b) byte_or_int
        (fun a b ha hb => by
          simp only [builtin_less_than_or_equal, builtin_ord_byte_int _ a b ha hb])
        (fun a b => le_total _ _) (fun a b c => le_trans) (y :: rest) x
        (hwf x (List.mem_cons_self _ _)) (fun v hv => hwf v (List.mem_cons_of_mem _ hv))
    refine ⟨r, pre, post, ?_, hsplit, fun v hv => lt_of_not_le (hpre v hv), hpost⟩
    simp only [builtin_min, lval.cells, single_list_args_two, hloop]
    exact hcopy r (hmem r pre post hsplit)
  · obtain ⟨r, hloop, _, pre, post, hsplit, hpre, hpost⟩ :=
      min_max_loop_spec builtin_greater_than_or_equal
        (fun a b => int_value a ≥ int_value b) byte_or_int
        (fun a b ha hb => by
          simp only [builtin_greater_than_or_equal, builtin_ord_byte_int _ a b ha hb])
        (fun a b => le_total _ _) (fun a b c hab hbc => le_trans hbc hab) (y :: rest) x
        (hwf x (List.mem_cons_self _ _)) (fun v hv => hwf v (List.mem_cons_of_mem _ hv))
    refine ⟨r, pre, post, ?_, hsplit, fun v hv => lt_of_not_le (hpre v hv), hpost⟩
    simp only [builtin_max, lval.cells, single_list_args_two, hloop]
    exact hcopy r (hmem r pre post hsplit)
  · simp only [builtin_min, lval.cells, single_list_args, single_list_arg]
  · simp only [builtin_max, lval.cells, single_list_args, single_list_arg]

theorem C18_min_max_witness :
    builtin_min root_heap (sexpr [int 3, byte 2, int 2]) = some (byte 2, root_heap) ∧
    builtin_max root_heap (sexpr [int 5, byte 5]) = some (int 5, root_heap) ∧
    ∃ r pre post, builtin_min root_heap (sexpr [int 3, byte 2, int 2]) = some (r, root_heap) ∧
      [int 3, byte 2, int 2] = pre ++ r :: post ∧
      (∀ v ∈ pre, int_value r < int_value v) ∧ (∀ v ∈ post, int_value r ≤ int_value v) :=
  ⟨rfl, rfl, (C18_min_max root_heap (int 3) (byte 2) [int 2] (by simp [byte_or_int])).1⟩

/-- C19 (evaluation at the failing input). After `(def-type {P x})`,
`(def {a} (P x:1))` and `(def {b} (P x:2))`, the two instances are of the same type
and hold different values for `x`, and `(== a b)` is `1`: `lval_eq` answers true. -/
theorem C19_instances_of_one_type_equal :
    ∃ h1 h2 h3 va vb ta tb, lval_eval (interp 4) root_heap root_env
        (sexpr [sym "def-type", qexpr [sym "P", sym "x"]]) = some (sexpr [], h1) ∧
      lval_eval (interp 4) h1 root_env
        (sexpr [sym "def", qexpr [sym "a"], sexpr [sym "P", kvpair (sym "x") (int 1)]]) =
        some (sexpr [], h2) ∧
      lval_eval (interp 4) h2 root_env
        (sexpr [sym "def", qexpr [sym "b"], sexpr [sym "P", kvpair (sym "x") (int 2)]]) =
        some (sexpr [], h3) ∧
      lenv_get h3 root_env "a" = some va ∧ lenv_get h3 root_env "b" = some vb ∧
      va = inst (ctype 0 "P" [sym "x"]) 1 ∧ vb = inst (ctype 0 "P" [sym "x"]) 2 ∧
      h3.table 1 = some ta ∧ h3.table 2 = some tb ∧
      lval_table_get ta "x" = some (int 1) ∧ lval_table_get tb "x" = some (int 2) ∧
      lval_eq 3 h3 va vb = some true ∧
      builtin_equal (interp 3) h3 (sexpr [va, vb]) = some (int 1, h3) :=
  ⟨_, _, _, _, _, _, _, rfl, rfl, rfl, rfl, rfl, rfl, rfl, rfl, rfl, rfl, rfl, rfl, rfl⟩

/-- C20 (evaluation at the failing input). The keys `ab` and `ba` have the same
hash. After `(def {d1} (dict ab:1 ba:2))` and `(def {d2} (dict ab:1 ba:3))` the two
dictionaries hold the same keys and different values for `ba`, and `(== d1 d2)` is
`1`: `lval_tables_equal` answers true. -/
theorem C20_tables_equal_heads_only :
    ∃ h1 h2 t1 t2, lval_table_hash "ab" = lval_table_hash "ba" ∧
      lval_eval (interp 4) root_heap root_env
        (sexpr [sym "def", qexpr [sym "d1"],
          sexpr [sym "dict", kvpair (sym "ab") (int 1), kvpair (sym "ba") (int 2)]]) =
        some (sexpr [], h1) ∧
      lval_eval (interp 4) h1 root_env
        (sexpr [sym "def", qexpr [sym "d2"],
          sexpr [sym "dict", kvpair (sym "ab") (int 1), kvpair (sym "ba") (int 3)]]) =
        some (sexpr [], h2) ∧
      lenv_get h2 root_env "d1" = some (dict 1) ∧ lenv_get h2 root_env "d2" = some (dict 2) ∧
      h2.table 1 = some t1 ∧ h2.table 2 = some t2 ∧
      lval_table_get t1 "ba" = some (int 2) ∧ lval_table_get t2 "ba" = some (int 3) ∧
      lval_tables_equal (lval_eq 2 h2) t1 t2 = some true ∧
      builtin_equal (interp 3) h2 (sexpr [dict 1, dict 2]) = some (int 1, h2) :=
  ⟨_, _, _, _, rfl, rfl, rfl, rfl, rfl, rfl, rfl, rfl, rfl, rfl, rfl⟩

/-- C21 (evaluation at the failing input). For every message `m` and trace `t`,
`lval_eq` on the uncaught error and the caught error with that message and trace
answers false in both orders, also with the uncaught error on the left, while the
uncaught error is equal to itself. An example is the error of `(error "boom")`
against the value that `(try {(error "boom")} {catch e {e}})` yields for it. -/
theorem C21_error_against_caught_error (n : Nat) (h : heap) (m : String) (t : Option String) :
    lval_eq (n + 1) h (err m t) (caught_err m t) = some false ∧
    lval_eq (n + 1) h (caught_err m t) (err m t) = some false ∧
    lval_eq (n + 1) h (err m none) (err m none) = some true ∧
    ∃ h1, lval_eval (interp 3) root_heap root_env
        (sexpr [sym "try", qexpr [sexpr [sym "error", str "boom"]],
          qexpr [sym "catch", sym "e", qexpr [sym "e"]]]) =
        some (caught_err "boom" none, h1) ∧
      builtin_error root_heap (sexpr [str "boom"]) = some (err "boom" none, root_heap) ∧
      lval_eq 2 h1 (err "boom" none) (caught_err "boom" none) = some false :=
  ⟨rfl, rfl,
    (show lval_eq (n + 1) h (err m none) (err m none) = some (m == m) from rfl).trans
      (by rw [beq_self_eq_true]),
    _, rfl, rfl, rfl⟩

theorem first_decisive_cons (v : lval) (rest : List lval) :
    first_decisive (v :: rest) =
      if v.type = LVAL_BUF ∨ v.type = LVAL_BYTE ∨ v.type = LVAL_QEXPR ∨ v.type = LVAL_SEXPR
      then some v else first_decisive rest := by
  unfold first_decisive
  rw [List.find?_cons]
  by_cases hv : v.type = LVAL_BUF ∨ v.type = LVAL_BYTE ∨ v.type = LVAL_QEXPR ∨ v.type = LVAL_SEXPR
  · rw [if_pos hv]; simp only [hv, decide_True]
  · rw [if_neg hv]; simp only [hv, decide_False]

theorem join_type_spec (c : List lval) :
    join_type c =
      match first_decisive c with
      | none => LVAL_STR
      | some f => if f.type = LVAL_BUF ∨ f.type = LVAL_BYTE then LVAL_BUF else LVAL_QEXPR := by
  induction c with
  | nil => rfl
  | cons v rest ih =>
    cases v <;> simp only [join_type, first_decisive_cons, lval.type, reduceCtorEq, or_self,
      or_false, false_or, if_false, if_true, true_or, or_true] <;> exact ih

theorem join_list_splice (c : List lval) : join_list c = splice c := by
  induction c with
  | nil => rfl
  | cons v rest ih =>
    have hs : ∀ (w : lval) (r : List lval), splice (w :: r) = splice [w] ++ splice r := by
      intro w r
      simp only [splice, List.flatMap_cons, List.flatMap_nil, List.append_nil]
    rw [hs]
    cases v <;> simp only [join_list, ih] <;> simp [splice]

theorem sprint_expr_quote (n : Nat) (h : heap) (v : lval) (hv : v.cells.isSome) (q1 q2 : Bool) :
    lval_sprint n h v q1 = lval_sprint n h v q2 := by
  cases n with
  | zero => rfl
  | succ n =>
    cases v <;> first | rfl | simp [lval.cells] at hv

theorem sprint_quote (n : Nat) (h : heap) (v : lval) (hs : v.type ≠ LVAL_STR)
    (hf : function_form v = true) :
    lval_sprint n h v true = lval_sprint n h v false := by
  cases n with
  | zero => rfl
  | succ n =>
    cases v with
    | str s => exact absurd rfl hs
    | lambda a b =>
      simp only [function_form, Bool.and_eq_true] at hf
      simp only [lval_sprint]
      rw [sprint_expr_quote n h a hf.1 true false, sprint_expr_quote n h b hf.2 true false]
    | kvpair k v => cases k <;> rfl
    | inst t p => cases t <;> rfl
    | _ => rfl

theorem to_string_form (n : Nat) (h : heap) (v : lval) (hb : v.type ≠ LVAL_BUF)
    (hf : function_form v = true) :
    builtin_to_string (n + 1) h (sexpr [v]) = (lval_sprint (n + 1) h v false).map str := by
  by_cases hs : v.type = LVAL_STR
  · cases v <;> first | rfl | simp [lval.type] at hs
  · have hq := sprint_quote (n + 1) h v hs hf
    cases v with
    | str s => exact absurd rfl hs
    | buf d => exact absurd rfl hb
    | int x => rfl
    | flt x => rfl
    | byte x => rfl
    | _ =>
      simp only [builtin_to_string, lval.cells, lval_to_string]
      rw [hq]
      rfl

theorem join_string_cons (f : Nat) (h : heap) (v : lval) (rest : List lval)
    (hv : v.type ≠ LVAL_SEXPR) :
    join_string f h (v :: rest) =
      match lval_sprint f h v false, join_string f h rest with
      | some s, some r => some (s ++ r)
      | _, _ => none := by
  cases v <;> first | rfl | exact absurd rfl hv

theorem join_string_spec (n : Nat) (h : heap) (c : List lval) (ts : List String)
    (hd : first_decisive c = none) (hf : ∀ v ∈ c, function_form v = true)
    (hts : List.Forall₂ (fun v t => builtin_to_string (n + 1) h (sexpr [v]) = some (str t)) c ts) :
    join_string (n + 1) h c = some (concat ts) := by
  induction hts with
  | nil => rfl
  | @cons v t c ts hvt _ ih =>
    rw [first_decisive_cons] at hd
    by_cases hty : v.type = LVAL_BUF ∨ v.type = LVAL_BYTE ∨ v.type = LVAL_QEXPR ∨
        v.type = LVAL_SEXPR
    · rw [if_pos hty] at hd; exact absurd hd (by simp)
    · rw [if_neg hty] at hd
      have hb : v.type ≠ LVAL_BUF := fun hh => hty (Or.inl hh)
      have hsx : v.type ≠ LVAL_SEXPR := fun hh => hty (Or.inr (Or.inr (Or.inr hh)))
      have hform := to_string_form n h v hb (hf v (List.mem_cons_self _ _))
      rw [hvt] at hform
      have hsp : lval_sprint (n + 1) h v false = some t := by
        cases hsv : lval_sprint (n + 1) h v false with
        | none => rw [hsv] at hform; simp at hform
        | some t1 =>
          rw [hsv] at hform
          simp only [Option.map_some', Option.some.injEq, lval.str.injEq] at hform
          rw [hform]
      rw [join_string_cons _ _ _ _ hsx, hsp, ih hd (fun w hw => hf w (List.mem_cons_of_mem _ hw))]
      rfl

theorem join_buffer_scalar (rec : lval → Option lval) (x v : lval) (rest : List lval)
    (hv : v.type ≠ LVAL_QEXPR) :
    join_buffer rec x (v :: rest) =
      match cast_to v LVAL_BUF with
      | none => some (lval_err_for_val "Cannot perform join on this type")
      | some (buf b) =>
        match x with
        | buf xd => join_buffer rec (buf (xd ++ b)) rest
        | _ => none
      | some _ => none := by
  cases v <;> first | rfl | exact absurd rfl hv

theorem joinable_scalar (v : lval) (hj : joinable v = true) (hv : v.type ≠ LVAL_QEXPR) :
    cast_to v LVAL_BUF = some (buf (joined_bytes v)) := by
  cases v <;> first | rfl | exact absurd rfl hv | simp [joinable] at hj

theorem join_buffer_spec (h : heap) (n : Nat) :
    ∀ (c : List lval) (xd : List Nat), joinables c = true → list_depths c ≤ n →
      join_buffer (builtin_join n h) (buf xd) c = some (buf (xd ++ joined_bytes_list c)) := by
  induction n with
  | zero =>
    intro c
    induction c with
    | nil => intro xd _ _; simp [join_buffer, joined_bytes_list]
    | cons v rest ih =>
      intro xd hj hdep
      simp only [joinables, Bool.and_eq_true] at hj
      simp only [list_depths] at hdep
      have hq : v.type ≠ LVAL_QEXPR := by
        intro hq
        cases v <;> first | (simp [lval.type] at hq; done) | skip
        simp only [list_depth] at hdep
        omega
      rw [join_buffer_scalar _ _ _ _ hq, joinable_scalar v hj.1 hq]
      simp only
      rw [ih _ hj.2 (by omega)]
      simp [joined_bytes_list]
  | succ m ihm =>
    intro c
    induction c with
    | nil => intro xd _ _; simp [join_buffer, joined_bytes_list]
    | cons v rest ih =>
      intro xd hj hdep
      simp only [joinables, Bool.and_eq_true] at hj
      simp only [list_depths] at hdep
      by_cases hq : v.type = LVAL_QEXPR
      · cases v <;> simp [lval.type] at hq
        rename_i k
        have hjk : joinables k = true := by simpa [joinable] using hj.1
        have hdk : list_depths k ≤ m := by
          simp only [list_depth] at hdep
          omega
        have hrec : builtin_join (m + 1) h (qexpr (buf xd :: k)) =
            some (buf (xd ++ joined_bytes_list k)) := by
          have h1 : builtin_join (m + 1) h (qexpr (buf xd :: k)) =
              join_buffer (builtin_join m h) (buf []) (buf xd :: k) := rfl
          rw [h1, join_buffer_scalar _ _ _ _ (by simp [lval.type])]
          have h2 : cast_to (buf xd) LVAL_BUF = some (buf xd) := rfl
          rw [h2]
          simp only [List.nil_append]
          exact ihm k xd hjk hdk
        have hstep : join_buffer (builtin_join (m + 1) h) (buf xd) (qexpr k :: rest) =
            match builtin_join (m + 1) h (qexpr (buf xd :: k)) with
            | none => none
            | some r => join_buffer (builtin_join (m + 1) h) r rest := rfl
        rw [hstep, hrec]
        simp only
        rw [ih _ hj.2 (by omega)]
        simp [joined_bytes_list, joined_bytes]
      · rw [join_buffer_scalar _ _ _ _ hq, joinable_scalar v hj.1 hq]
        simp only
        rw [ih _ hj.2 (by omega)]
        simp [joined_bytes_list]

/-- C22 (amended). For every argument list, the first argument that is a Buffer, a
Byte, a list or an S-expression decides. If it is a list or an S-expression, `join`
returns the list of the arguments with the children of every list argument spliced
in, one level deep. If it is a Buffer or a Byte and every argument is a Buffer, a
Byte, an Integer, a Float, a String or a list of such values, `join` returns the
Buffer of their bytes (those of the cast to Buffer) in order. If there is none,
`join` returns the String that concatenates the to-string forms of the arguments in
order; `(join "a" "b" "c")` is `"abc"`. -/
theorem C22_join_result (n : Nat) (h : heap) (c : List lval) :
    (∀ f, first_decisive c = some f → (f.type = LVAL_QEXPR ∨ f.type = LVAL_SEXPR) →
      builtin_join (n + 1) h (sexpr c) = some (qexpr (splice c))) ∧
    (∀ f, first_decisive c = some f → (f.type = LVAL_BUF ∨ f.type = LVAL_BYTE) →
      joinables c = true → list_depths c ≤ n →
      builtin_join (n + 1) h (sexpr c) = some (buf (joined_bytes_list c))) ∧
    (∀ ts : List String, first_decisive c = none → (∀ v ∈ c, function_form v = true) →
      List.Forall₂ (fun v t => builtin_to_string (n + 1) h (sexpr [v]) = some (str t)) c ts →
      builtin_join (n + 1) h (sexpr c) = some (str (concat ts))) ∧
    builtin_join 1 root_heap (sexpr [str "a", str "b", str "c"]) = some (str "abc") ∧
    builtin_join 1 root_heap (sexpr [int 1, qexpr [int 2, qexpr [int 3]], sexpr []]) =
      some (qexpr [int 1, int 2, qexpr [int 3], sexpr []]) ∧
    builtin_join 2 root_heap (sexpr [str "a", byte 1, qexpr [byte 2, buf [3, 4]]]) =
      some (buf [97, 0, 1, 2, 3, 4]) := by
  have hjt := join_type_spec c
  have hb : builtin_join (n + 1) h (sexpr c) =
      if join_type c = LVAL_QEXPR then some (qexpr (join_list c))
      else if join_type c = LVAL_STR then (join_string (n + 1) h c).map str
      else join_buffer (builtin_join n h) (buf []) c := rfl
  refine ⟨?_, ?_, ?_, rfl, rfl, rfl⟩
  · intro f hf hty
    rw [hf] at hjt
    have hnb : ¬ (f.type = LVAL_BUF ∨ f.type = LVAL_BYTE) := by
      rcases hty with hty | hty <;> rw [hty] <;> simp
    simp only [hnb, if_false] at hjt
    rw [hb, hjt, if_pos rfl, join_list_splice]
  · intro f hf hty hj hdep
    rw [hf] at hjt
    simp only [hty, if_true] at hjt
    rw [hb, hjt, if_neg (by simp), if_neg (by simp), join_buffer_spec h n c [] hj hdep]
    rfl
  · intro ts hf hfn hts
    rw [hf] at hjt
    simp only at hjt
    rw [hb, hjt, if_neg (by simp), if_pos rfl, join_string_spec n h c ts hf hfn hts]
    rfl

/-- C22 (counterexample). `(join {1} 0x01)` has a Byte argument and is the list
`{1 0x01}`, not a Buffer; `(join 0x01 Integer)` has a Byte argument and is an
Error. -/
theorem C22_counterexample :
    builtin_join 1 root_heap (sexpr [qexpr [int 1], byte 1]) = some (qexpr [int 1, byte 1]) ∧
    (qexpr [int 1, byte 1]).type ≠ LVAL_BUF ∧
    builtin_join 1 root_heap (sexpr [byte 1, ptype LVAL_INT]) =
      some (lval_err_for_val "Cannot perform join on this type") ∧
    (lval_err_for_val "Cannot perform join on this type").type ≠ LVAL_BUF :=
  ⟨rfl, by decide, rfl, by decide⟩

theorem builtin_nth_int (ev : evaluator) (h : heap) (e : lenv) (i : Int) (v : lval) :
    builtin_nth ev h e (sexpr [int i, v]) = get_element ev h e [v] i := rfl

theorem get_element_qexpr (ev : evaluator) (h : heap) (e : lenv) (c : List lval) (i : Int) :
    (∀ k : Nat, k < c.length → (i = k ∨ i = (k : Int) - c.length) →
      ∃ x, c.get? k = some x ∧ get_element ev h e [qexpr c] i = ev.eval h e x) ∧
    ((i < - (c.length : Int) ∨ (c.length : Int) ≤ i) →
      get_element ev h e [qexpr c] i = some (lval_err_for_val "out of range", h)) := by
  constructor
  · intro k hk hi
    obtain ⟨x, hx⟩ : ∃ x, c.get? k = some x := ⟨c.get ⟨k, hk⟩, List.get?_eq_get hk⟩
    refine ⟨x, hx, ?_⟩
    have hidx : (if i < 0 then (c.length : Int) + i else i) = k := by
      rcases hi with hi | hi
      · rw [if_neg (by omega)]; exact hi
      · rw [if_pos (by omega)]; omega
    simp only [get_element, hidx, Int.toNat_ofNat, hx]
    rw [if_neg (by omega)]
  · intro hi
    simp only [get_element]
    rw [if_pos]
    rcases hi with hi | hi
    · left; rw [if_pos (by omega)]; omega
    · by_cases h0 : i < 0
      · omega
      · right; rw [if_neg h0]; omega

theorem get_element_str (ev : evaluator) (h : heap) (e : lenv) (s : String) (i : Int) :
    (∀ k : Nat, k < s.length → (i = k ∨ i = (k : Int) - s.length) →
      ∃ x, s.toList.get? k = some x ∧
        get_element ev h e [str s] i = some (str (String.mk [x]), h)) ∧
    ((i < - (s.length : Int) ∨ (s.length : Int) ≤ i) →
      get_element ev h e [str s] i = some (lval_err_for_val "out of range", h)) := by
  constructor
  · intro k hk hi
    obtain ⟨x, hx⟩ : ∃ x, s.toList.get? k = some x :=
      ⟨s.toList.get ⟨k, hk⟩, List.get?_eq_get (l := s.toList) hk⟩
    refine ⟨x, hx, ?_⟩
    have hidx : (if i < 0 then (s.length : Int) + i else i) = k := by
      rcases hi with hi | hi
      · rw [if_neg (by omega)]; exact hi
      · rw [if_pos (by omega)]; omega
    simp only [get_element, hidx, Int.toNat_ofNat, hx]
    rw [if_neg (by omega)]
  · intro hi
    simp only [get_element]
    rw [if_pos]
    rcases hi with hi | hi
    · left; rw [if_pos (by omega)]; omega
    · by_cases h0 : i < 0
      · omega
      · right; rw [if_neg h0]; omega

theorem get_element_buf (ev : evaluator) (h : heap) (e : lenv) (d : List Nat) (i : Int) :
    (∀ k : Nat, k < d.length → (i = k ∨ i = (k : Int) - d.length) →
      ∃ x, d.get? k = some x ∧ get_element ev h e [buf d] i = some (lval_byte x, h)) ∧
    ((i < - (d.length : Int) ∨ (d.length : Int) ≤ i) →
      get_element ev h e [buf d] i = some (lval_err_for_val "out of range", h)) := by
  constructor
  · intro k hk hi
    obtain ⟨x, hx⟩ : ∃ x, d.get? k = some x := ⟨d.get ⟨k, hk⟩, List.get?_eq_get hk⟩
    refine ⟨x, hx, ?_⟩
    have hidx : (if i < 0 then (d.length : Int) + i else i) = k := by
      rcases hi with hi | hi
      · rw [if_neg (by omega)]; exact hi
      · rw [if_pos (by omega)]; omega
    simp only [get_element, hidx, Int.toNat_ofNat, hx]
    rw [if_neg (by omega)]
  · intro hi
    simp only [get_element]
    rw [if_pos]
    rcases hi with hi | hi
    · left; rw [if_pos (by omega)]; omega
    · by_cases h0 : i < 0
      · omega
      · right; rw [if_neg h0]; omega

/-- C24 (amended). For every list, string or buffer `s` of length `n` and every
Integer index `i`: if `i < -n` or `i >= n` then `(nth i s)` returns an Error; if
`0 <= i < n` it returns the element at position `i`, and if `-n <= i < 0` the
element at position `n + i`: the evaluated child of a list, the string of one
character of a string, the Byte of a buffer. `(nth 2 {1 2 3 5})` is 3 and
`(nth 2 "hello")` is `"l"`. -/
theorem C24_nth_index (ev : evaluator) (h : heap) (e : lenv) (i : Int) (c : List lval)
    (s : String) (d : List Nat) :
    ((i < - (c.length : Int) ∨ (c.length : Int) ≤ i) →
      builtin_nth ev h e (sexpr [int i, qexpr c]) = some (lval_err_for_val "out of range", h)) ∧
    ((i < - (s.length : Int) ∨ (s.length : Int) ≤ i) →
      builtin_nth ev h e (sexpr [int i, str s]) = some (lval_err_for_val "out of range", h)) ∧
    ((i < - (d.length : Int) ∨ (d.length : Int) ≤ i) →
      builtin_nth ev h e (sexpr [int i, buf d]) = some (lval_err_for_val "out of range", h)) ∧
    (∀ k : Nat, k < c.length → (i = k ∨ i = (k : Int) - c.length) →
      ∃ x, c.get? k = some x ∧ builtin_nth ev h e (sexpr [int i, qexpr c]) = ev.eval h e x) ∧
    (∀ k : Nat, k < s.length → (i = k ∨ i = (k : Int) - s.length) →
      ∃ x, s.toList.get? k = some x ∧
        builtin_nth ev h e (sexpr [int i, str s]) = some (str (String.mk [x]), h)) ∧
    (∀ k : Nat, k < d.length → (i = k ∨ i = (k : Int) - d.length) →
      ∃ x, d.get? k = some x ∧
        builtin_nth ev h e (sexpr [int i, buf d]) = some (lval_byte x, h)) ∧
    builtin_nth (interp 1) root_heap root_env (sexpr [int 2, qexpr [int 1, int 2, int 3, int 5]]) =
      some (int 3, root_heap) ∧
    builtin_nth (interp 1) root_heap root_env (sexpr [int 2, str "hello"]) =
      some (str "l", root_heap) := by
  simp only [builtin_nth_int]
  exact ⟨(get_element_qexpr ev h e c i).2, (get_element_str ev h e s i).2,
    (get_element_buf ev h e d i).2, (get_element_qexpr ev h e c i).1,
    (get_element_str ev h e s i).1, (get_element_buf ev h e d i).1, rfl, rfl⟩

/-- C24 (counterexample). `(nth -1 {1 2 3 5})` is 5 and `(nth -2 "hello")` is `"l"`:
a negative index is not an Error. -/
theorem C24_counterexample :
    builtin_nth (interp 1) root_heap root_env
      (sexpr [int (-1), qexpr [int 1, int 2, int 3, int 5]]) = some (int 5, root_heap) ∧
    builtin_nth (interp 1) root_heap root_env (sexpr [int (-2), str "hello"]) =
      some (str "l", root_heap) ∧
    (int 5).is_err = false ∧ (str "l").is_err = false :=
  ⟨rfl, rfl, rfl, rfl⟩

theorem to_bytes_length (n x : Nat) : (to_bytes n x).length = n := by
  induction n generalizing x with
  | zero => rfl
  | succ n ih => simp [to_bytes, ih]

theorem of_bytes_to_bytes (n x : Nat) : of_bytes (to_bytes n x) = x % 256 ^ n := by
  induction n generalizing x with
  | zero => simp [to_bytes, of_bytes, Nat.mod_one]
  | succ n ih =>
    simp only [to_bytes, of_bytes, ih]
    rw [pow_succ, Nat.mul_comm (256 ^ n) 256, Nat.mod_mul]

theorem sizeof_pos (t : c_type) : 1 ≤ t.sizeof ∧ t.sizeof ≤ 8 := by
  cases t <;> simp [c_type.sizeof]

theorem offset_in_range (size : Nat) (offset : Int) (n : Nat) (h0 : 0 ≤ offset)
    (h1 : offset + n ≤ size) (h2 : offset + n < 2 ^ 64) :
    offset_out_of_range size offset n = false := by
  unfold offset_out_of_range
  rw [Int.emod_eq_of_lt (by omega) h2]
  simp only [decide_eq_false_iff_not, not_lt]
  omega

theorem PUT_VALUE_spec (t : c_type) (data : List Nat) (offset value : Int) (h0 : 0 ≤ offset)
    (h1 : offset + t.sizeof ≤ data.length) (h2 : offset < 2 ^ 63) :
    PUT_VALUE t (sexpr [buf data, int offset, int value]) =
      some (buf (data.take offset.toNat ++ to_bytes t.sizeof (t.bits value) ++
        data.drop (offset.toNat + t.sizeof))) := by
  have hs := sizeof_pos t
  have hr := offset_in_range data.length offset t.sizeof h0 h1 (by omega)
  have hc : ∀ x : Int, cast_to (int x) LVAL_INT = some (int x) := fun x => rfl
  simp only [PUT_VALUE, lval.cells, hc, hr, Bool.false_eq_true, if_false, buffer_write,
    to_bytes_length, h0, h1, and_self, if_true, Option.map_some']

theorem GET_VALUE_spec (t : c_type) (f : Int → lval) (data : List Nat) (offset : Int)
    (h0 : 0 ≤ offset) (h1 : offset + t.sizeof ≤ data.length) (h2 : offset < 2 ^ 63) :
    GET_VALUE t f (sexpr [buf data, int offset]) =
      some (f (t.value (of_bytes ((data.drop offset.toNat).take t.sizeof)))) := by
  have hs := sizeof_pos t
  have hr := offset_in_range data.length offset t.sizeof h0 h1 (by omega)
  have hc : ∀ x : Int, cast_to (int x) LVAL_INT = some (int x) := fun x => rfl
  simp only [GET_VALUE, lval.cells, hc, hr, Bool.false_eq_true, if_false, buffer_read,
    h0, h1, and_self, if_true, Option.map_some']

theorem bits_lt (t : c_type) (n : Int) : t.bits n < 256 ^ t.sizeof := by
  unfold c_type.bits
  have h : (0 : Int) < 2 ^ (8 * t.sizeof) := by positivity
  have h1 := Int.emod_lt_of_pos n h
  have h2 := Int.emod_nonneg n (ne_of_gt h)
  have h3 : (256 : Nat) ^ t.sizeof = 2 ^ (8 * t.sizeof) := by
    rw [pow_mul]; norm_num
  rw [h3]
  zify
  rw [Int.toNat_of_nonneg h2]
  exact_mod_cast h1

theorem put_then_get_spec (t : c_type) (extra : Nat) (n : Int) :
    put_then_get (PUT_VALUE t) (GET_VALUE t lval_int) ((t.sizeof + extra : Nat) : Int) n =
      some (lval_int (t.value (t.bits n))) := by
  have hs := sizeof_pos t
  have hcb : builtin_create_buffer (sexpr [int ((t.sizeof + extra : Nat) : Int)]) =
      some (buf (List.replicate (t.sizeof + extra) 0)) := by
    simp only [builtin_create_buffer, lval.cells, lval_buf, Int.toNat_ofNat]
    rw [if_neg (by omega)]
  have hp := PUT_VALUE_spec t (List.replicate (t.sizeof + extra) 0) 0 n (le_refl _)
    (by simp) (by norm_num)
  have hg := GET_VALUE_spec t lval_int
    (to_bytes t.sizeof (t.bits n) ++ List.replicate extra 0) 0 (le_refl _)
    (by simp [to_bytes_length]) (by norm_num)
  simp only [put_then_get, hcb, hp, Int.toNat_zero, List.take_zero, List.nil_append,
    zero_add, List.drop_replicate, Nat.add_sub_cancel_left, hg, List.drop_zero]
  rw [List.take_append_of_le_length (by simp [to_bytes_length]),
    List.take_of_length_le (by simp [to_bytes_length]), of_bytes_to_bytes,
    Nat.mod_eq_of_lt (bits_lt t n)]

/-- C25 (amended). For every Int `n` and every buffer of at least `w` bytes made by
`create-buffer`: putting `n` at offset 0 and getting it back at offset 0 returns `n`
reduced modulo `2^(8w)` into the unsigned range with the unsigned accessors of
width 1, 2 and 4, into the two's complement signed range with the signed accessors
of width 1, 2 and 4, and `n` itself with both accessors of width 8. So in
particular every `n` in the range of the accessor comes back unchanged. -/
theorem C25_put_get_round_trip (extra : Nat) (n : Int) (hn : - 2 ^ 63 ≤ n ∧ n < 2 ^ 63) :
    put_then_get builtin_put_unsigned_char builtin_get_unsigned_char ((1 + extra : Nat) : Int) n =
      some (int (n % 2 ^ 8)) ∧
    put_then_get builtin_put_signed_char builtin_get_signed_char ((1 + extra : Nat) : Int) n =
      some (int ((n + 2 ^ 7) % 2 ^ 8 - 2 ^ 7)) ∧
    put_then_get builtin_put_unsigned_short builtin_get_unsigned_short ((2 + extra : Nat) : Int) n =
      some (int (n % 2 ^ 16)) ∧
    put_then_get builtin_put_signed_short builtin_get_signed_short ((2 + extra : Nat) : Int) n =
      some (int ((n + 2 ^ 15) % 2 ^ 16 - 2 ^ 15)) ∧
    put_then_get builtin_put_unsigned_integer builtin_get_unsigned_integer
      ((4 + extra : Nat) : Int) n = some (int (n % 2 ^ 32)) ∧
    put_then_get builtin_put_signed_integer builtin_get_signed_integer
      ((4 + extra : Nat) : Int) n = some (int ((n + 2 ^ 31) % 2 ^ 32 - 2 ^ 31)) ∧
    put_then_get builtin_put_unsigned_long builtin_get_unsigned_long ((8 + extra : Nat) : Int) n =
      some (int n) ∧
    put_then_get builtin_put_signed_long builtin_get_signed_long ((8 + extra : Nat) : Int) n =
      some (int n) ∧
    (0 ≤ n → n < 2 ^ 16 →
      put_then_get builtin_put_unsigned_short builtin_get_unsigned_short ((2 + extra : Nat) : Int)
        n = some (int n)) := by
  obtain ⟨hn1, hn2⟩ := hn
  have key : ∀ (t : c_type) (r : Int), lval_int (t.value (t.bits n)) = int r →
      put_then_get (PUT_VALUE t) (GET_VALUE t lval_int) ((t.sizeof + extra : Nat) : Int) n =
        some (int r) := by
    intro t r hr
    rw [put_then_get_spec, hr]
  have hv : ∀ (t : c_type) (r : Int), t.value (t.bits n) = r → - 2 ^ 63 ≤ r → r < 2 ^ 63 →
      lval_int (t.value (t.bits n)) = int r := by
    intro t r h1 h2 h3
    rw [h1]
    unfold lval_int
    congr 1
    omega
  have hb : ∀ k : Nat, 0 < k → (((n % 2 ^ k).toNat : Nat) : Int) = n % 2 ^ k := by
    intro k _
    exact Int.toNat_of_nonneg (Int.emod_nonneg n (by positivity))
  refine ⟨key c_type.uint8_t _ ?_, key c_type.int8_t _ ?_, key c_type.uint16_t _ ?_,
    key c_type.int16_t _ ?_, key c_type.uint32_t _ ?_, key c_type.int32_t _ ?_,
    key c_type.uint64_t _ ?_, key c_type.uint64_t _ ?_, ?_⟩
  · apply hv
    · simp only [c_type.value, c_type.signed, c_type.bits, c_type.sizeof, Bool.false_eq_true,
        false_and, if_false]
      exact hb 8 (by norm_num)
    · omega
    · omega
  · apply hv
    · simp only [c_type.value, c_type.signed, c_type.bits, c_type.sizeof, true_and]
      have := hb 8 (by norm_num)
      norm_num at this ⊢
      split <;> omega
    · omega
    · omega
  · apply hv
    · simp only [c_type.value, c_type.signed, c_type.bits, c_type.sizeof, Bool.false_eq_true,
        false_and, if_false]
      exact hb 16 (by norm_num)
    · omega
    · omega
  · apply hv
    · simp only [c_type.value, c_type.signed, c_type.bits, c_type.sizeof, true_and]
      have := hb 16 (by norm_num)
      norm_num at this ⊢
      split <;> omega
    · omega
    · omega
  · apply hv
    · simp only [c_type.value, c_type.signed, c_type.bits, c_type.sizeof, Bool.false_eq_true,
        false_and, if_false]
      exact hb 32 (by norm_num)
    · omega
    · omega
  · apply hv
    · simp only [c_type.value, c_type.signed, c_type.bits, c_type.sizeof, true_and]
      have := hb 32 (by norm_num)
      norm_num at this ⊢
      split <;> omega
    · omega
    · omega
  · have h1 : c_type.uint64_t.value (c_type.uint64_t.bits n) = n % 2 ^ 64 := by
      simp only [c_type.value, c_type.signed, c_type.bits, c_type.sizeof, Bool.false_eq_true,
        false_and, if_false]
      exact hb 64 (by norm_num)
    rw [h1]
    unfold lval_int
    congr 1
    omega
  · have h1 : c_type.uint64_t.value (c_type.uint64_t.bits n) = n % 2 ^ 64 := by
      simp only [c_type.value, c_type.signed, c_type.bits, c_type.sizeof, Bool.false_eq_true,
        false_and, if_false]
      exact hb 64 (by norm_num)
    rw [h1]
    unfold lval_int
    congr 1
    omega
  · intro h0 h16
    have h := key c_type.uint16_t (n % 2 ^ 16) (by
      apply hv
      · simp only [c_type.value, c_type.signed, c_type.bits, c_type.sizeof, Bool.false_eq_true,
          false_and, if_false]
        exact hb 16 (by norm_num)
      · omega
      · omega)
    rw [Int.emod_eq_of_lt h0 h16] at h
    exact h

/-- Witness for C25: the example of the specification, and a value out of range. -/
theorem C25_put_get_round_trip_witness :
    put_then_get builtin_put_unsigned_short builtin_get_unsigned_short 4 65535 =
      some (int 65535) ∧
    put_then_get builtin_put_signed_char builtin_get_signed_char 1 200 = some (int (-56)) :=
  ⟨(C25_put_get_round_trip 2 65535 (by decide)).2.2.2.2.2.2.2.2 (by decide) (by decide),
    (C25_put_get_round_trip 0 200 (by decide)).2.1⟩

/-- C25 (counterexample). With the unsigned accessors of width 8 the value -1 comes
back as -1, which is not -1 reduced modulo `2^64` into the unsigned range. -/
theorem C25_counterexample :
    put_then_get builtin_put_unsigned_long builtin_get_unsigned_long 8 (-1) = some (int (-1)) ∧
    ((-1 : Int) % 2 ^ 64 = 18446744073709551615) ∧
    put_then_get builtin_put_unsigned_long builtin_get_unsigned_long 8 (-1) ≠
      some (int ((-1) % 2 ^ 64)) := by
  refine ⟨rfl, by decide, ?_⟩
  rw [show put_then_get builtin_put_unsigned_long builtin_get_unsigned_long 8 (-1) =
    some (int (-1)) from rfl]
  intro h
  have h1 := lval.int.inj (Option.some.inj h)
  revert h1
  decide

theorem offset_beyond (size : Nat) (offset : Int) (n : Nat) (h0 : 0 ≤ offset)
    (h1 : (size : Int) < offset + n) (h2 : offset + n < 2 ^ 64) :
    offset_out_of_range size offset n = true := by
  unfold offset_out_of_range
  rw [Int.emod_eq_of_lt (by omega) h2]
  simp only [decide_eq_true_eq]
  omega

theorem cast_int_to_int (x : Int) : cast_to (int x) LVAL_INT = some (int x) := rfl

/-- C26 (at the failing inputs). For an accessor of width `w` and an offset `o` with
`-w <= o < 0` and `o + w <= s`, the range test passes, because the sum `o + w` is
compared after conversion to unsigned, and the accessor reads, respectively writes,
at the negative index `o`, outside the buffer: no Error is returned. For an offset
`o >= 0` with `o + w > s` the Error is returned as claimed. -/
theorem C26_negative_offset_passes_the_check (t : c_type) (f : Int → lval) (data : List Nat)
    (offset value : Int) (h1 : - (t.sizeof : Int) ≤ offset) (h2 : offset < 0)
    (h3 : offset + t.sizeof ≤ data.length) :
    offset_out_of_range data.length offset t.sizeof = false ∧
    buffer_read data offset t.sizeof = none ∧
    GET_VALUE t f (sexpr [buf data, int offset]) = none ∧
    PUT_VALUE t (sexpr [buf data, int offset, int value]) = none ∧
    ∀ o : Int, 0 ≤ o → o < 2 ^ 63 → (data.length : Int) < o + t.sizeof →
      GET_VALUE t f (sexpr [buf data, int o]) = some out_of_range ∧
      PUT_VALUE t (sexpr [buf data, int o, int value]) = some out_of_range := by
  have hs := sizeof_pos t
  have hr : offset_out_of_range data.length offset t.sizeof = false := by
    unfold offset_out_of_range
    rw [Int.emod_eq_of_lt (by omega) (by omega)]
    simp only [decide_eq_false_iff_not, not_lt]
    omega
  have hneg : ¬ (0 ≤ offset) := by omega
  refine ⟨hr, ?_, ?_, ?_, ?_⟩
  · simp only [buffer_read, hneg, false_and, if_false]
  · simp only [GET_VALUE, lval.cells, cast_int_to_int, hr, Bool.false_eq_true, if_false,
      buffer_read, hneg, false_and, Option.map_none']
  · simp only [PUT_VALUE, lval.cells, cast_int_to_int, hr, Bool.false_eq_true, if_false,
      buffer_write, hneg, false_and, Option.map_none']
  · intro o ho ho2 ho3
    have hb := offset_beyond data.length o t.sizeof ho ho3 (by omega)
    constructor
    · simp only [GET_VALUE, lval.cells, cast_int_to_int, hb, if_true]
    · simp only [PUT_VALUE, lval.cells, cast_int_to_int, hb, if_true]

/-- Witness for C26: `(get-byte b -1)` and `(put-byte b -1 1)` on a buffer `b` of
one byte. -/
theorem C26_negative_offset_passes_the_check_witness :
    offset_out_of_range 1 (-1) 1 = false ∧
    builtin_get_byte (sexpr [buf [7], int (-1)]) = none ∧
    builtin_put_byte (sexpr [buf [7], int (-1), int 1]) = none ∧
    builtin_get_byte (sexpr [buf [7], int 1]) = some out_of_range :=
  have h := C26_negative_offset_passes_the_check c_type.uint8_t lval_byte [7] (-1) 1
    (by decide) (by decide) (by decide)
  ⟨h.1, h.2.2.1, h.2.2.2.1, (h.2.2.2.2 1 (by decide) (by decide) (by decide)).1⟩

/-- C27 (at the failing inputs). For every buffer `b`, string `s` and offset `o`
with `0 <= o` and `o + len(s) + 1 <= size(b)`, `put-string` returns a buffer of the
size of `b` that holds the bytes of `s` and one zero byte from offset `o` on, and
zero bytes at every other offset, whatever `b` holds there. The sibling `put-bytes`
with the same bytes keeps the bytes of `b` at the other offsets. -/
theorem C27_put_string_starts_from_zeros (data : List Nat) (s : String) (offset : Int)
    (h0 : 0 ≤ offset) (h1 : offset + (c_string s).length + 1 ≤ data.length)
    (h2 : data.length < 2 ^ 64) :
    builtin_put_string (sexpr [buf data, int offset, str s]) =
      some (buf (List.replicate offset.toNat 0 ++ (c_string s ++ [0]) ++
        List.replicate (data.length - (offset.toNat + ((c_string s).length + 1))) 0)) ∧
    builtin_put_bytes (sexpr [buf data, int offset, buf (c_string s ++ [0])]) =
      some (buf (data.take offset.toNat ++ (c_string s ++ [0]) ++
        data.drop (offset.toNat + ((c_string s).length + 1)))) := by
  have hr : offset_out_of_range data.length offset ((c_string s).length + 1) = false :=
    offset_in_range _ _ _ h0 (by push_cast; omega) (by push_cast; omega)
  have hl : (c_string s ++ [0]).length = (c_string s).length + 1 := by simp
  have hc : 0 ≤ offset ∧ offset + ((c_string s ++ [0]).length : Nat) ≤ (data.length : Nat) := by
    rw [hl]; push_cast; omega
  have hc2 : 0 ≤ offset ∧ offset + ((c_string s ++ [0]).length : Nat) ≤
      ((List.replicate data.length 0).length : Nat) := by
    rw [List.length_replicate]; exact hc
  constructor
  · simp only [builtin_put_string, lval.cells, cast_int_to_int, hr, Bool.false_eq_true, if_false,
      buffer_write, hc2, and_self, if_true, Option.map_some']
    rw [hl, List.take_replicate, List.drop_replicate, min_eq_left (by omega)]
  · rw [← hl] at hr
    simp only [builtin_put_bytes, lval.cells, cast_int_to_int, hr, Bool.false_eq_true, if_false,
      buffer_write, hc, and_self, if_true, Option.map_some']
    rw [hl]

/-- Witness for C27: `(put-string b 0 "a")` on the buffer `b` of the bytes 1, 2, 3
gives the bytes 97, 0, 0, and not 97, 0, 3 as `put-bytes` does. -/
theorem C27_put_string_starts_from_zeros_witness :
    builtin_put_string (sexpr [buf [1, 2, 3], int 0, str "a"]) = some (buf [97, 0, 0]) ∧
    builtin_put_bytes (sexpr [buf [1, 2, 3], int 0, buf [97, 0]]) = some (buf [97, 0, 3]) :=
  C27_put_string_starts_from_zeros [1, 2, 3] "a" 0 (by decide) (by decide) (by decide)

theorem format_loop_escaped (sprint : lval → Option String) (c : Char) (rest : List Char)
    (args : List lval) :
    format_loop sprint (c :: rest) true args =
      (format_loop sprint rest false args).map (fun r => c :: r) := by
  by_cases hc : c = '\\'
  · subst hc
    simp [format_loop]
  · by_cases hp : c = '%'
    · subst hp
      simp [format_loop]
    · simp [format_loop, hc, hp]

theorem fill_cons_literal (c : Char) (rest : List Char) (t : String) (ts : List String)
    (h1 : c ≠ '\\') (h2 : c ≠ '%') :
    fill (c :: rest) (t :: ts) = c :: fill rest (t :: ts) := by
  have hn : next_hole (c :: rest) = (c :: (next_hole rest).1, (next_hole rest).2) := by
    rw [next_hole]
    · intro h; exact absurd h h1
    · intro c1 r1 h; exact absurd h h1
    · intro h; exact absurd h h2
  simp only [fill, hn]
  rcases hr : next_hole rest with ⟨pre, _ | r⟩ <;> simp

theorem fill_escaped (c : Char) (rest : List Char) (t : String) (ts : List String) :
    fill ('\\' :: c :: rest) (t :: ts) = c :: fill rest (t :: ts) := by
  have hn : next_hole ('\\' :: c :: rest) = (c :: (next_hole rest).1, (next_hole rest).2) := by
    simp [next_hole]
  simp only [fill, hn]
  rcases hr : next_hole rest with ⟨pre, _ | r⟩ <;> simp

theorem format_loop_fill (sprint : lval → Option String) (k : Nat) :
    ∀ (fmt : List Char) (args : List lval) (ts : List String), fmt.length ≤ k → args ≠ [] →
      List.Forall₂ (fun a t => sprint a = some t) args ts →
      format_loop sprint fmt false args = some (fill fmt ts) := by
  induction k with
  | zero =>
    intro fmt args ts hk hne hts
    have : fmt = [] := List.length_eq_zero.1 (Nat.le_zero.1 hk)
    subst this
    cases hts with
    | nil => exact absurd rfl hne
    | cons _ _ => rfl
  | succ k ih =>
    intro fmt args ts hk hne hts
    cases hts with
    | nil => exact absurd rfl hne
    | @cons a t more ts1 hat hrest =>
      match fmt, hk with
      | [], _ => rfl
      | c :: rest, hk =>
        have hk1 : rest.length ≤ k := by simpa using hk
        by_cases hc : c = '\\'
        · subst hc
          have h1 : format_loop sprint ('\\' :: rest) false (a :: more) =
              format_loop sprint rest true (a :: more) := by
            simp [format_loop]
          rw [h1]
          match rest, hk1 with
          | [], _ => rfl
          | d :: rest2, hk2 =>
            rw [format_loop_escaped, fill_escaped,
              ih rest2 (a :: more) (t :: ts1) (by simp at hk2; omega) (by simp)
                (List.Forall₂.cons hat hrest)]
            rfl
        · by_cases hp : c = '%'
          · subst hp
            have hf : fill ('%' :: rest) (t :: ts1) = t.toList ++ fill rest ts1 := by
              simp [fill, next_hole]
            rw [hf]
            cases hrest with
            | nil => simp [format_loop, hat, fill]
            | @cons a2 t2 more2 ts2 hat2 hrest2 =>
              have := ih rest (a2 :: more2) (t2 :: ts2) hk1 (by simp)
                (List.Forall₂.cons hat2 hrest2)
              simp [format_loop, hat, this]
          · rw [fill_cons_literal c rest t ts1 hc hp]
            have := ih rest (a :: more) (t :: ts1) hk1 (by simp) (List.Forall₂.cons hat hrest)
            simp [format_loop, hc, hp, this]

/-- C28 (amended). For every format string `fmt` and all arguments `a1 .. ak`, none
of them a Buffer, with the to-string forms `t1 .. tk`: `(format fmt a1 ... ak)` is
`fmt` itself when `k = 0`; otherwise it is `fmt` read from the left, in which a
backslash is dropped and the character after it is copied as it is (so that `\%`
gives `%`), the `i`-th unescaped `%` is replaced by `ti`, other text is copied, and
the text after the `k`-th unescaped `%` is copied unchanged, with its backslashes
and its `%`s. -/
theorem C28_format_fills_holes (n : Nat) (h : heap) (fmt : String) (args : List lval)
    (ts : List String) (hb : ∀ a ∈ args, a.type ≠ LVAL_BUF ∧ function_form a = true)
    (hts : List.Forall₂ (fun a t => builtin_to_string (n + 1) h (sexpr [a]) = some (str t))
      args ts) :
    builtin_format (n + 2) h (sexpr (str fmt :: args)) =
      some (str (String.mk (fill fmt.toList ts))) := by
  have hsp : List.Forall₂ (fun a t => (fun v => lval_sprint (n + 1) h v false) a = some t)
      args ts := by
    clear fmt
    induction hts with
    | nil => exact List.Forall₂.nil
    | @cons a t args1 ts1 hat _ ih =>
      refine List.Forall₂.cons ?_ (ih (fun b hb1 => hb b (List.mem_cons_of_mem _ hb1)))
      have hform := to_string_form n h a (hb a (List.mem_cons_self _ _)).1
        (hb a (List.mem_cons_self _ _)).2
      rw [hat] at hform
      cases hsv : lval_sprint (n + 1) h a false with
      | none => rw [hsv] at hform; simp at hform
      | some t1 =>
        rw [hsv] at hform
        simp only [Option.map_some', Option.some.injEq, lval.str.injEq] at hform
        subst hform
        exact hsv
  have hdef : builtin_format (n + 2) h (sexpr (str fmt :: args)) =
      if args.isEmpty then some (str fmt)
      else (format_loop (fun v => lval_sprint (n + 1) h v false) fmt.toList false args).map
        (fun r => str (String.mk r)) := rfl
  rw [hdef]
  cases args with
  | nil =>
    cases hts
    rfl
  | cons a more =>
    rw [if_neg (by simp), format_loop_fill _ fmt.toList.length fmt.toList (a :: more) ts
      (le_refl _) (by simp) hsp]
    rfl

/-- Witness for C28: `(format "Hello, %." "Ben")` is `"Hello, Ben."`. -/
theorem C28_format_fills_holes_witness :
    builtin_format 2 root_heap (sexpr [str "Hello, %.", str "Ben"]) =
      some (str "Hello, Ben.") :=
  C28_format_fills_holes 0 root_heap "Hello, %." [str "Ben"] ["Ben"]
    (fun a ha => by
      rw [List.mem_singleton] at ha
      subst ha
      exact ⟨by decide, rfl⟩)
    (List.Forall₂.cons rfl List.Forall₂.nil)

/-- C28 (counterexample). Without arguments `\%` is left as it is; after the last
argument is displayed `\%` is left as it is; a backslash before another character
is dropped, not copied; and a Buffer argument is displayed byte by byte, while its
to-string form is its text. -/
theorem C28_counterexample :
    builtin_format 1 root_heap (sexpr [str "\\%"]) = some (str "\\%") ∧
    builtin_format 2 root_heap (sexpr [str "%\\%", str "a"]) = some (str "a\\%") ∧
    builtin_format 2 root_heap (sexpr [str "a\\b%", int 1]) = some (str "ab1") ∧
    builtin_format 2 root_heap (sexpr [str "%", buf [72, 0]]) = some (str "<0x48 0x00>") ∧
    builtin_to_string 1 root_heap (sexpr [buf [72, 0]]) = some (str "H") :=
  ⟨rfl, rfl, rfl, rfl, rfl⟩

theorem hex_digit_facts : ∀ c ∈ hex_digits,
    digit_value c = some (hex_digit_value c) ∧ hex_digit_value c < 16 ∧ symbol_char c = true ∧
    isspace c = false ∧ c ≠ 'x' ∧ c ≠ 'X' ∧ c ≠ '-' ∧ c ≠ '+' := by
  decide

theorem strtol_digits_hex (ds : List Char) (hds : ∀ c ∈ ds, c ∈ hex_digits) (acc : Nat) :
    strtol_digits 16 ds acc = ds.foldl (fun acc c => 16 * acc + hex_digit_value c) acc := by
  induction ds generalizing acc with
  | nil => rfl
  | cons c rest ih =>
    have hc := hex_digit_facts c (hds c (List.mem_cons_self _ _))
    simp only [strtol_digits, hc.1, hc.2.1, if_true, List.foldl_cons]
    rw [ih (fun d hd => hds d (List.mem_cons_of_mem _ hd)), Nat.mul_comm]

theorem hex_fold_lt (ds : List Char) (hds : ∀ c ∈ ds, c ∈ hex_digits) (acc : Nat) :
    ds.foldl (fun acc c => 16 * acc + hex_digit_value c) acc < (acc + 1) * 16 ^ ds.length := by
  induction ds generalizing acc with
  | nil => simp
  | cons c rest ih =>
    have hc := hex_digit_facts c (hds c (List.mem_cons_self _ _))
    simp only [List.foldl_cons, List.length_cons]
    have := ih (fun d hd => hds d (List.mem_cons_of_mem _ hd)) (16 * acc + hex_digit_value c)
    calc _ < (16 * acc + hex_digit_value c + 1) * 16 ^ rest.length := this
      _ ≤ (16 * (acc + 1)) * 16 ^ rest.length := by
        apply Nat.mul_le_mul_right
        omega
      _ = (acc + 1) * 16 ^ (rest.length + 1) := by ring

theorem hex_value_lt (ds : List Char) (hds : ∀ c ∈ ds, c ∈ hex_digits) :
    hex_value ds < 16 ^ ds.length := by
  have := hex_fold_lt ds hds 0
  simpa [hex_value] using this

theorem strtol_hex (ds : List Char) (hds : ∀ c ∈ ds, c ∈ hex_digits) (hlen : ds.length ≤ 8) :
    strtol ds 16 = ((hex_value ds : Int), false) := by
  have hlt := hex_value_lt ds hds
  have hb : hex_value ds < 16 ^ 8 :=
    lt_of_lt_of_le hlt (Nat.pow_le_pow_right (by norm_num) hlen)
  have h1 : ds.dropWhile isspace = ds := by
    cases ds with
    | nil => rfl
    | cons c rest =>
      have hc := hex_digit_facts c (hds c (List.mem_cons_self _ _))
      simp [List.dropWhile, hc.2.2.2.1]
  have h2 : ¬ (ds.head? = some '-' ∨ ds.head? = some '+') := by
    cases ds with
    | nil => simp
    | cons c rest =>
      have hc := hex_digit_facts c (hds c (List.mem_cons_self _ _))
      simp only [List.head?_cons, Option.some.injEq]
      exact fun h => h.elim hc.2.2.2.2.2.2.1 hc.2.2.2.2.2.2.2
  have h3 : ¬ (ds.get? 1 = some 'x' ∨ ds.get? 1 = some 'X') := by
    intro h
    rcases h with h | h
    · have := hex_digit_facts _ (hds _ (List.get?_mem h))
      exact this.2.2.2.2.1 rfl
    · have := hex_digit_facts _ (hds _ (List.get?_mem h))
      exact this.2.2.2.2.2.1 rfl
  have h4 : ¬ (ds.head? = some '-') := fun h => h2 (Or.inl h)
  have h5 : ¬ (ds.head? = some '+') := fun h => h2 (Or.inr h)
  simp only [strtol, h1, h4, h5, or_self, if_false, h3, false_and, and_false]
  rw [strtol_digits_hex ds hds 0]
  have hv : ds.foldl (fun acc c => 16 * acc + hex_digit_value c) 0 = hex_value ds := rfl
  rw [hv]
  rw [if_neg (by omega), if_neg (by omega)]

theorem lval_byte_small (x : Nat) (hx : x < 256) : lval_byte (x : Int) = byte x := by
  unfold lval_byte
  congr 1
  omega

theorem lval_int_small (x : Int) (h1 : - 2 ^ 63 ≤ x) (h2 : x < 2 ^ 63) : lval_int x = int x := by
  unfold lval_int
  congr 1
  omega

theorem string_to_number_hex (ds : List Char) (hds : ∀ c ∈ ds, c ∈ hex_digits)
    (h2 : 2 ≤ ds.length) (h8 : ds.length ≤ 8) :
    string_to_number false (String.mk ('0' :: 'x' :: ds)) =
      (some (byte_or_integer (hex_value ds)), false) := by
  have hlt := hex_value_lt ds hds
  have hb : hex_value ds < 16 ^ 8 :=
    lt_of_lt_of_le hlt (Nat.pow_le_pow_right (by norm_num) h8)
  have hlen : ('0' :: 'x' :: ds).length = ds.length + 2 := rfl
  have hc0 : char_at ('0' :: 'x' :: ds) 0 = '0' := rfl
  have hc1 : char_at ('0' :: 'x' :: ds) 1 = 'x' := rfl
  have hd : List.drop 2 ('0' :: 'x' :: ds) = ds := rfl
  have htl : (String.mk ('0' :: 'x' :: ds)).toList = '0' :: 'x' :: ds := rfl
  simp only [string_to_number, htl, hlen, hc0, hc1, hd, strtol_hex ds hds h8, Bool.false_or]
  rw [if_neg (by omega), if_pos ⟨by omega, by omega, trivial, trivial⟩]
  simp only [Bool.false_eq_true, if_false, byte_or_integer]
  by_cases hx : hex_value ds < 256
  · rw [if_pos (by exact_mod_cast hx), if_pos hx, lval_byte_small _ hx]
  · rw [if_neg (by exact_mod_cast hx), if_neg hx, lval_int_small _ (by omega) (by omega)]

theorem symbol_char_facts (c : Char) (h : symbol_char c = true) :
    c ≠ Char.ofNat 0 ∧ c ≠ '\n' ∧ [' ', '\t', Char.ofNat 11, '\r'].contains c = false ∧
    c ≠ ';' ∧ c ≠ '(' ∧ c ≠ Char.ofNat 123 ∧ c ≠ ':' := by
  refine ⟨?_, ?_, ?_, ?_, ?_, ?_, ?_⟩
  · intro hc; subst hc; revert h; decide
  · intro hc; subst hc; revert h; decide
  · cases hcon : [' ', '\t', Char.ofNat 11, '\r'].contains c with
    | false => rfl
    | true =>
      simp only [List.contains_cons, List.contains_nil, Bool.or_false, Bool.or_eq_true,
        beq_iff_eq] at hcon
      rcases hcon with hc | hc | hc | hc <;> (subst hc; revert h; decide)
  · intro hc; subst hc; revert h; decide
  · intro hc; subst hc; revert h; decide
  · intro hc; subst hc; revert h; decide
  · intro hc; subst hc; revert h; decide

theorem read_sym_token (tok : List Char) (hall : ∀ c ∈ tok, symbol_char c = true)
    (errno : Bool) :
    read_sym errno tok 0 =
      (token_value errno (String.mk tok), tok.length, (string_to_number errno (String.mk tok)).2) := by
  have ht : (List.drop 0 tok).takeWhile symbol_char = tok := by
    rw [List.drop_zero, List.takeWhile_eq_self_iff]
    exact hall
  simp only [read_sym, ht, token_value, zero_add]
  rfl

theorem read_expr_token (tok : List Char) (hne : tok ≠ [])
    (hall : ∀ c ∈ tok, symbol_char c = true) (errno : Bool) :
    read_expr (tok.length + 2) tok [] 0 (Char.ofNat 0) errno =
      some ([token_value errno (String.mk tok)], tok.length + 1,
        (string_to_number errno (String.mk tok)).2) := by
  cases tok with
  | nil => exact absurd rfl hne
  | cons c rest =>
    have hc := symbol_char_facts c (hall c (List.mem_cons_self _ _))
    have hsc := hall c (List.mem_cons_self _ _)
    have h0 : char_at (c :: rest) 0 = c := rfl
    have hrs := read_sym_token (c :: rest) hall errno
    rw [read_expr]
    simp only [h0, hrs]
    rw [if_pos ⟨by simp, hc.1⟩, if_neg hc.2.1, if_neg (by rw [hc.2.2.1]; exact Bool.false_ne_true), if_neg hc.2.2.2.1,
      if_neg hc.2.2.2.2.1, if_neg hc.2.2.2.2.2.1, if_neg hc.2.2.2.2.2.2, if_pos hsc]
    rw [read_expr]
    rw [if_neg (by simp), if_neg (by simp)]
    rfl

theorem token_value_number (errno : Bool) (part : String) (v : lval) (e1 : Bool)
    (h : string_to_number errno part = (some v, e1)) : token_value errno part = v := by
  simp only [token_value, h]

/-- C30 (amended). Every token that consists of `0x` followed by two to eight
hexadecimal digits (upper or lower case), read while `errno` does not hold `ERANGE`,
is read by `string_to_number`, by the parser and by `to-number` as a number: a Byte
when its value lies in `[0, 256)`, and an Integer with that value otherwise. -/
theorem C30_hex_token (ds : List Char) (hds : ∀ c ∈ ds, c ∈ hex_digits) (h2 : 2 ≤ ds.length)
    (h8 : ds.length ≤ 8) :
    string_to_number false (String.mk ('0' :: 'x' :: ds)) =
      (some (byte_or_integer (hex_value ds)), false) ∧
    lval_read_expr false (String.mk ('0' :: 'x' :: ds)) 0 (Char.ofNat 0) =
      some (sexpr [byte_or_integer (hex_value ds)], false) ∧
    builtin_to_number false (sexpr [str (String.mk ('0' :: 'x' :: ds))]) =
      some (byte_or_integer (hex_value ds)) ∧
    (hex_value ds < 256 → byte_or_integer (hex_value ds) = byte (hex_value ds)) ∧
    (256 ≤ hex_value ds → byte_or_integer (hex_value ds) = int (hex_value ds)) := by
  have hn := string_to_number_hex ds hds h2 h8
  have hall : ∀ c ∈ '0' :: 'x' :: ds, symbol_char c = true := by
    intro c hc
    rcases List.mem_cons.1 hc with hc | hc
    · subst hc; decide
    · rcases List.mem_cons.1 hc with hc | hc
      · subst hc; decide
      · exact (hex_digit_facts c (hds c hc)).2.2.1
  have hr := read_expr_token ('0' :: 'x' :: ds) (by simp) hall false
  refine ⟨hn, ?_, ?_, fun h => if_pos h, fun h => if_neg (by omega)⟩
  · have hl : (String.mk ('0' :: 'x' :: ds)).length = ('0' :: 'x' :: ds).length := rfl
    have htl : (String.mk ('0' :: 'x' :: ds)).toList = '0' :: 'x' :: ds := rfl
    simp only [lval_read_expr, hl, htl, hr, Option.map_some', token_value_number _ _ _ _ hn, hn]
  · simp only [builtin_to_number, lval.cells, hn]

/-- Witness for C30: `0x01` is the Byte 1, `0xff` the Byte 255 and `0x0100` the
Integer 256. -/
theorem C30_hex_token_witness :
    builtin_to_number false (sexpr [str "0x01"]) = some (byte 1) ∧
    lval_read_expr false "0xff" 0 (Char.ofNat 0) = some (sexpr [byte 255], false) ∧
    lval_read_expr false "0x0100" 0 (Char.ofNat 0) = some (sexpr [int 256], false) :=
  ⟨(C30_hex_token ['0', '1'] (by decide) (by decide) (by decide)).2.2.1,
    (C30_hex_token ['f', 'f'] (by decide) (by decide) (by decide)).2.1,
    (C30_hex_token ['0', '1', '0', '0'] (by decide) (by decide) (by decide)).2.1⟩

/-- C30 (counterexample). The token `0x1`, with one digit, and the token
`0x100000000`, with nine, are read as Symbols, and `to-number` answers an Error for
them. After a token that leaves `ERANGE` in `errno`, the token `0x01` is read as an
Error. -/
theorem C30_counterexample :
    lval_read_expr false "0x1" 0 (Char.ofNat 0) = some (sexpr [sym "0x1"], false) ∧
    builtin_to_number false (sexpr [str "0x1"]) =
      some (lval_err_for_val "Failed to convert string to number") ∧
    lval_read_expr false "0x100000000" 0 (Char.ofNat 0) =
      some (sexpr [sym "0x100000000"], false) ∧
    builtin_to_number false (sexpr [str "0x100000000"]) =
      some (lval_err_for_val "Failed to convert string to number") ∧
    lval_read_expr false "99999999999999999999 0x01" 0 (Char.ofNat 0) =
      some (sexpr [lval_err "Invalid integer", lval_err "Invalid number"], true) :=
  ⟨rfl, rfl, rfl, rfl, rfl⟩

theorem digitChar_facts : ∀ k, k < 10 →
    digit_value (Nat.digitChar k) = some k ∧ symbol_char (Nat.digitChar k) = true ∧
    isspace (Nat.digitChar k) = false ∧ (Nat.digitChar k).isDigit = true ∧
    Nat.digitChar k ≠ '.' ∧ Nat.digitChar k ≠ '-' ∧ Nat.digitChar k ≠ '+' ∧
    Nat.digitChar k ≠ 'x' := by
  decide

theorem toDigitsCore_spec (fuel : Nat) : ∀ (n : Nat) (ds : List Char), n < fuel →
    ∃ L, Nat.toDigitsCore 10 fuel n ds = L ++ ds ∧ L ≠ [] ∧
      (∀ c ∈ L, ∃ k, k < 10 ∧ c = Nat.digitChar k) ∧
      ∀ acc rest, strtol_digits 10 (L ++ rest) acc =
        strtol_digits 10 rest (acc * 10 ^ L.length + n) := by
  induction fuel with
  | zero => intro n ds h; omega
  | succ fuel ih =>
    intro n ds h
    have hd := digitChar_facts (n % 10) (Nat.mod_lt _ (by norm_num))
    simp only [Nat.toDigitsCore]
    by_cases h0 : n / 10 = 0
    · rw [if_pos h0]
      refine ⟨[Nat.digitChar (n % 10)], rfl, by simp, ?_, ?_⟩
      · intro c hc
        rw [List.mem_singleton] at hc
        exact ⟨n % 10, Nat.mod_lt _ (by norm_num), hc⟩
      · intro acc rest
        simp only [List.singleton_append, strtol_digits, hd.1, List.length_singleton, pow_one]
        rw [if_pos (by omega)]
        congr 1
        omega
    · rw [if_neg h0]
      obtain ⟨L, hL, hne, hall, hparse⟩ := ih (n / 10) (Nat.digitChar (n % 10) :: ds) (by omega)
      refine ⟨L ++ [Nat.digitChar (n % 10)], by rw [hL]; simp, by simp, ?_, ?_⟩
      · intro c hc
        rcases List.mem_append.1 hc with hc | hc
        · exact hall c hc
        · rw [List.mem_singleton] at hc
          exact ⟨n % 10, Nat.mod_lt _ (by norm_num), hc⟩
      · intro acc rest
        rw [List.append_assoc, hparse]
        simp only [List.singleton_append, strtol_digits, hd.1, List.length_append,
          List.length_singleton]
        rw [if_pos (by omega)]
        congr 1
        rw [pow_succ]
        have := Nat.div_add_mod n 10
        nlinarith [Nat.div_add_mod n 10]

theorem number_scan_digits (L : List Char)
    (hall : ∀ c ∈ L, ∃ k, k < 10 ∧ c = Nat.digitChar k) (f : Bool) :
    number_scan L f = (true, f) := by
  induction L with
  | nil => rfl
  | cons c rest ih =>
    obtain ⟨k, hk, rfl⟩ := hall c (List.mem_cons_self _ _)
    have hd := digitChar_facts k hk
    simp only [number_scan, hd.2.2.2.2.1, if_false, hd.2.2.2.1, if_true]
    exact ih (fun d hd1 => hall d (List.mem_cons_of_mem _ hd1))

theorem char_at_cases (s : List Char) (i : Nat) :
    char_at s i = Char.ofNat 0 ∨ char_at s i ∈ s := by
  unfold char_at
  by_cases hi : i < s.length
  · right
    rw [List.getD_eq_getElem _ _ hi]
    exact List.getElem_mem _
  · left
    rw [List.getD_eq_default _ _ (by omega)]

theorem strtol_dec (L : List Char) (m : Nat) (hne : L ≠ [])
    (hall : ∀ c ∈ L, ∃ k, k < 10 ∧ c = Nat.digitChar k) (hp : strtol_digits 10 L 0 = m) :
    strtol L 10 = (if (m : Int) ≥ 2 ^ 63 then (2 ^ 63 - 1, true) else ((m : Int), false)) ∧
    strtol ('-' :: L) 10 =
      (if - (m : Int) < - 2 ^ 63 then (- 2 ^ 63, true) else (- (m : Int), false)) := by
  obtain ⟨c, rest, rfl⟩ := List.exists_cons_of_ne_nil hne
  obtain ⟨k, hk, hc⟩ := hall c (List.mem_cons_self _ _)
  have hd := digitChar_facts k hk
  rw [← hc] at hd
  have h1 : (c :: rest).dropWhile isspace = c :: rest := by
    simp [List.dropWhile, hd.2.2.1]
  have h1n : ('-' :: c :: rest).dropWhile isspace = '-' :: c :: rest := by
    have : isspace '-' = false := by decide
    simp [List.dropWhile, this]
  have h4 : ¬ ((c :: rest).head? = some '-') := by
    simp only [List.head?_cons, Option.some.injEq]; exact hd.2.2.2.2.2.1
  have h5 : ¬ ((c :: rest).head? = some '+') := by
    simp only [List.head?_cons, Option.some.injEq]; exact hd.2.2.2.2.2.2.1
  have h16 : ¬ ((10 : Nat) = 16) := by decide
  constructor
  · simp only [strtol, h1, h4, h5, or_self, if_false, h16, false_and, hp]
    rw [if_neg (by omega)]
  · have hh : ('-' :: c :: rest).head? = some '-' := rfl
    have ht : ('-' :: c :: rest).tail = c :: rest := rfl
    simp only [strtol, h1n, hh, true_or, if_true, ht, h16, false_and, if_false, hp]
    by_cases hlt : - (m : Int) < - 2 ^ 63
    · rw [if_pos hlt, if_pos hlt]
    · rw [if_neg hlt, if_neg hlt, if_neg (by omega)]

theorem string_to_number_dec (errno : Bool) (L : List Char) (m : Nat) (hne : L ≠ [])
    (hall : ∀ c ∈ L, ∃ k, k < 10 ∧ c = Nat.digitChar k) (hp : strtol_digits 10 L 0 = m) :
    (m < 2 ^ 63 → string_to_number errno (String.mk L) = (some (int m), false)) ∧
    (m ≤ 2 ^ 63 →
      string_to_number errno (String.mk ('-' :: L)) = (some (int (- (m : Int))), false)) := by
  have hst := strtol_dec L m hne hall hp
  have hx : ∀ s : List Char, (∀ c ∈ s, c = '-' ∨ ∃ k, k < 10 ∧ c = Nat.digitChar k) →
      char_at s 1 ≠ 'x' := by
    intro s hs hx
    rcases char_at_cases s 1 with h0 | hmem
    · rw [h0] at hx; revert hx; decide
    · rcases hs _ hmem with h | ⟨k, hk, h⟩
      · rw [h] at hx; revert hx; decide
      · rw [hx] at h
        exact (digitChar_facts k hk).2.2.2.2.2.2.2 h.symm
  obtain ⟨c, rest, rfl⟩ := List.exists_cons_of_ne_nil hne
  obtain ⟨k, hk, hc⟩ := hall c (List.mem_cons_self _ _)
  have hd := digitChar_facts k hk
  rw [← hc] at hd
  have hrest : ∀ d ∈ rest, ∃ k, k < 10 ∧ d = Nat.digitChar k :=
    fun d hd1 => hall d (List.mem_cons_of_mem _ hd1)
  constructor
  · intro hm
    have hx1 := hx (c :: rest) (fun d hd1 => Or.inr (hall d hd1))
    have htl : (String.mk (c :: rest)).toList = c :: rest := rfl
    have h0 : char_at (c :: rest) 0 = c := rfl
    simp only [string_to_number, htl, h0, hx1, and_false, if_false, List.length_cons,
      Nat.add_one_ne_zero, hd.2.2.2.1, or_true, if_true, hd.2.2.2.2.2.1, false_and, List.tail_cons,
      number_scan_digits rest hrest false, Bool.false_eq_true, hst.1]
    have hge : ¬ ((m : Int) ≥ 2 ^ 63) := by omega
    simp only [hge, if_false, Bool.false_eq_true]
    rw [lval_int_small _ (by omega) (by omega)]
  · intro hm
    have hx1 := hx ('-' :: c :: rest) (fun d hd1 => by
      rcases List.mem_cons.1 hd1 with h | h
      · exact Or.inl h
      · exact Or.inr (hall d h))
    have htl : (String.mk ('-' :: c :: rest)).toList = '-' :: c :: rest := rfl
    have h0 : char_at ('-' :: c :: rest) 0 = '-' := rfl
    simp only [string_to_number, htl, h0, hx1, and_false, if_false, List.length_cons,
      Nat.add_one_ne_zero, true_or, if_true, List.tail_cons,
      number_scan_digits (c :: rest) hall false, hst.2]
    have hlen : ¬ (True ∧ rest.length + 1 + 1 = 1) := by omega
    have hlt : ¬ (- (m : Int) < - 2 ^ 63) := by omega
    simp only [hlen, hlt, if_false, Bool.false_eq_true, if_true]
    rw [lval_int_small _ (by omega) (by omega)]

theorem eval_string_number_token (k : Nat) (errno e1 : Bool) (h : heap) (e : lenv)
    (tok : List Char) (v : lval) (hne : tok ≠ []) (hall : ∀ c ∈ tok, symbol_char c = true)
    (hn : string_to_number errno (String.mk tok) = (some v, e1))
    (hv : lval_is_number v = true) :
    builtin_eval_string (interp (k + 1)) errno h e (sexpr [str (String.mk tok)]) =
      some (v, h) := by
  have hr := read_expr_token tok hne hall errno
  rw [token_value_number _ _ _ _ hn] at hr
  have hl : (String.mk tok).length = tok.length := rfl
  have htl : (String.mk tok).toList = tok := rfl
  simp only [builtin_eval_string, lval.cells, lval_read_expr, hl, htl, hr, Option.map_some',
    eval_each, interp_eval, lval_eval_number _ h e v hv, is_err_number v hv, Bool.false_eq_true,
    if_false]

theorem int_text (n : Int) :
    ∃ (L : List Char) (m : Nat), L ≠ [] ∧ (∀ c ∈ L, ∃ k, k < 10 ∧ c = Nat.digitChar k) ∧
      strtol_digits 10 L 0 = m ∧
      ((n = m ∧ toString n = String.mk L) ∨
        (0 < m ∧ n = - (m : Int) ∧ toString n = String.mk ('-' :: L))) := by
  cases n with
  | ofNat m =>
    obtain ⟨L, hL, hne, hall, hp⟩ := toDigitsCore_spec (m + 1) m [] (by omega)
    refine ⟨L, m, hne, hall, ?_, Or.inl ⟨rfl, ?_⟩⟩
    · have := hp 0 []
      simpa using this
    · have hs : toString (Int.ofNat m) = String.mk (Nat.toDigitsCore 10 (m + 1) m []) := rfl
      rw [hs, hL, List.append_nil]
  | negSucc m =>
    obtain ⟨L, hL, hne, hall, hp⟩ := toDigitsCore_spec (m + 2) (m + 1) [] (by omega)
    refine ⟨L, m + 1, hne, hall, ?_, Or.inr ⟨by omega, rfl, ?_⟩⟩
    · have := hp 0 []
      simpa using this
    · have hs : toString (Int.negSucc m) =
          String.mk ('-' :: Nat.toDigitsCore 10 (m + 2) (m + 1) []) := rfl
      rw [hs, hL, List.append_nil]

theorem eval_string_int (k : Nat) (errno : Bool) (h : heap) (e : lenv) (n : Int)
    (h1 : - 2 ^ 63 ≤ n) (h2 : n < 2 ^ 63) :
    builtin_eval_string (interp (k + 1)) errno h e (sexpr [str (toString n)]) =
      some (int n, h) := by
  obtain ⟨L, m, hne, hall, hp, hcase⟩ := int_text n
  have hsym : ∀ c ∈ L, symbol_char c = true := by
    intro c hc
    obtain ⟨j, hj, rfl⟩ := hall c hc
    exact (digitChar_facts j hj).2.1
  have hnum := string_to_number_dec errno L m hne hall hp
  rcases hcase with ⟨hn, hs⟩ | ⟨_, hn, hs⟩
  · rw [hs, hn]
    exact eval_string_number_token k errno false h e L (int m) hne hsym
      (hnum.1 (by omega)) rfl
  · rw [hs, hn]
    refine eval_string_number_token k errno false h e ('-' :: L) (int (- (m : Int)))
      (by simp) ?_ (hnum.2 (by omega)) rfl
    intro c hc
    rcases List.mem_cons.1 hc with hc | hc
    · subst hc; decide
    · exact hsym c hc

theorem hex_digit_facts2 : ∀ k, k < 16 →
    hex_digit k ∈ hex_digits ∧ hex_digit_value (hex_digit k) = k := by
  decide

theorem eval_string_byte (k : Nat) (h : heap) (e : lenv) (b : Nat) (hb : b < 256) :
    builtin_eval_string (interp (k + 1)) false h e
      (sexpr [str ("0x" ++ String.mk [hex_digit (b / 16 % 16), hex_digit (b % 16)])]) =
      some (byte b, h) := by
  have ha := hex_digit_facts2 (b / 16 % 16) (Nat.mod_lt _ (by norm_num))
  have hc := hex_digit_facts2 (b % 16) (Nat.mod_lt _ (by norm_num))
  have hds : ∀ c ∈ [hex_digit (b / 16 % 16), hex_digit (b % 16)], c ∈ hex_digits := by
    intro c hcm
    simp only [List.mem_cons, List.mem_singleton, List.not_mem_nil, or_false] at hcm
    rcases hcm with rfl | rfl
    · exact ha.1
    · exact hc.1
  have hval : hex_value [hex_digit (b / 16 % 16), hex_digit (b % 16)] = b := by
    simp only [hex_value, List.foldl_cons, List.foldl_nil, ha.2, hc.2]
    omega
  have hn := string_to_number_hex _ hds (by simp) (by simp)
  rw [hval] at hn
  have hbo : byte_or_integer b = byte b := if_pos hb
  rw [hbo] at hn
  have hs : "0x" ++ String.mk [hex_digit (b / 16 % 16), hex_digit (b % 16)] =
      String.mk ('0' :: 'x' :: [hex_digit (b / 16 % 16), hex_digit (b % 16)]) := rfl
  rw [hs]
  refine eval_string_number_token k false false h e _ (byte b) (by simp) ?_ hn rfl
  intro c hcm
  rcases List.mem_cons.1 hcm with hcm | hcm
  · subst hcm; decide
  · rcases List.mem_cons.1 hcm with hcm | hcm
    · subst hcm; decide
    · exact (hex_digit_facts c (hds c hcm)).2.2.1

theorem drop_char_at (s : List Char) (i : Nat) (c : Char) (rest : List Char)
    (h : s.drop i = c :: rest) : char_at s i = c ∧ i < s.length := by
  have hi : i < s.length := by
    by_contra hn
    rw [List.drop_eq_nil_of_le (by omega)] at h
    exact absurd h (by simp)
  refine ⟨?_, hi⟩
  unfold char_at
  rw [List.getD_eq_getElem _ _ hi]
  have := List.drop_eq_getElem_cons hi
  rw [h] at this
  exact (List.cons.inj this).1.symm

theorem drop_add_of_drop (s : List Char) (i : Nat) (a b : List Char)
    (h : s.drop i = a ++ b) : s.drop (i + a.length) = b := by
  rw [← List.drop_drop, h, List.drop_left]

theorem read_expr_space (f : Nat) (s : List Char) (acc : List lval) (i : Nat) (close : Char)
    (errno : Bool) (rest : List Char) (hd : s.drop i = ' ' :: rest) (hc : close ≠ ' ') :
    read_expr (f + 1) s acc i close errno = read_expr f s acc (i + 1) close errno := by
  obtain ⟨h0, hi⟩ := drop_char_at s i _ _ hd
  rw [read_expr]
  simp only [h0]
  rw [if_pos ⟨hi, fun h => hc h.symm⟩, if_neg (by decide), if_pos (by decide)]

theorem read_expr_open (f : Nat) (s : List Char) (acc : List lval) (i : Nat) (close : Char)
    (errno e1 : Bool) (rest : List Char) (x : List lval) (j : Nat)
    (hd : s.drop i = Char.ofNat 123 :: rest) (hc : close ≠ Char.ofNat 123)
    (hx : read_expr f s [] (i + 1) (Char.ofNat 125) errno = some (x, j, e1)) :
    read_expr (f + 1) s acc i close errno = read_expr f s (acc ++ [qexpr x]) j close e1 := by
  obtain ⟨h0, hi⟩ := drop_char_at s i _ _ hd
  rw [read_expr]
  simp only [h0, hx]
  rw [if_pos ⟨hi, fun h => hc h.symm⟩, if_neg (by decide), if_neg (by decide), if_neg (by decide),
    if_neg (by decide), if_pos trivial]

theorem read_expr_close (f : Nat) (s : List Char) (acc : List lval) (i : Nat) (close : Char)
    (errno : Bool) (rest : List Char) (hd : s.drop i = close :: rest) :
    read_expr (f + 1) s acc i close errno = some (acc, i + 1, errno) := by
  obtain ⟨h0, hi⟩ := drop_char_at s i _ _ hd
  rw [read_expr]
  rw [if_neg (fun h => h.2 h0), if_neg (fun h => by omega)]

theorem read_expr_end (f : Nat) (s : List Char) (acc : List lval) (errno : Bool) :
    read_expr (f + 1) s acc s.length (Char.ofNat 0) errno = some (acc, s.length + 1, errno) := by
  rw [read_expr]
  rw [if_neg (fun h => by omega), if_neg (fun h => h.2 rfl)]

theorem read_expr_tok (f : Nat) (s : List Char) (acc : List lval) (i : Nat) (close : Char)
    (errno e1 : Bool) (tok suf : List Char) (v : lval) (hd : s.drop i = tok ++ suf)
    (hne : tok ≠ []) (hall : ∀ c ∈ tok, symbol_char c = true)
    (hsuf : ∀ c ∈ suf.head?, symbol_char c = false)
    (hclose : symbol_char close = false)
    (hn : string_to_number errno (String.mk tok) = (some v, e1)) :
    read_expr (f + 1) s acc i close errno =
      read_expr f s (acc ++ [v]) (i + tok.length) close e1 := by
  obtain ⟨c, rest, rfl⟩ := List.exists_cons_of_ne_nil hne
  obtain ⟨h0, hi⟩ := drop_char_at s i c (rest ++ suf) (by rw [hd]; rfl)
  have hsc := hall c (List.mem_cons_self _ _)
  have hc := symbol_char_facts c hsc
  have hcc : c ≠ close := by
    intro h; rw [h] at hsc; rw [hsc] at hclose; exact absurd hclose (by simp)
  have ht : (s.drop i).takeWhile symbol_char = c :: rest := by
    rw [hd]
    cases suf with
    | nil =>
      rw [List.append_nil, List.takeWhile_eq_self_iff]
      exact hall
    | cons d suf1 =>
      have hdn : symbol_char d = false := hsuf d rfl
      rw [List.takeWhile_append_of_pos (by simpa using hall)]
      simp [List.takeWhile, hdn]
  have hrs : read_sym errno s i = (v, i + (c :: rest).length, e1) := by
    simp only [read_sym, ht, hn]
    rfl
  rw [read_expr]
  simp only [h0, hrs]
  rw [if_pos ⟨hi, hcc⟩, if_neg hc.2.1, if_neg (by rw [hc.2.2.1]; exact Bool.false_ne_true),
    if_neg hc.2.2.2.1, if_neg hc.2.2.2.2.1, if_neg hc.2.2.2.2.2.1, if_neg hc.2.2.2.2.2.2, if_pos hsc]

theorem int_token (n : Int) (h1 : - 2 ^ 63 ≤ n) (h2 : n < 2 ^ 63) :
    (toString n).toList ≠ [] ∧ (∀ c ∈ (toString n).toList, symbol_char c = true) ∧
    ∀ errno, string_to_number errno (String.mk (toString n).toList) = (some (int n), false) := by
  obtain ⟨L, m, hne, hall, hp, hcase⟩ := int_text n
  have hsym : ∀ c ∈ L, symbol_char c = true := by
    intro c hc
    obtain ⟨j, hj, rfl⟩ := hall c hc
    exact (digitChar_facts j hj).2.1
  rcases hcase with ⟨hn, hs⟩ | ⟨_, hn, hs⟩
  · rw [hs]
    refine ⟨hne, hsym, fun errno => ?_⟩
    rw [hn]
    exact (string_to_number_dec errno L m hne hall hp).1 (by omega)
  · rw [hs]
    refine ⟨by simp, ?_, fun errno => ?_⟩
    · intro c hc
      rcases List.mem_cons.1 hc with hc | hc
      · subst hc; decide
      · exact hsym c hc
    · rw [hn]
      exact (string_to_number_dec errno L m hne hall hp).2 (by omega)

theorem byte_token (b : Nat) (hb : b < 256) :
    (∀ c ∈ '0' :: 'x' :: [hex_digit (b / 16 % 16), hex_digit (b % 16)], symbol_char c = true) ∧
    string_to_number false
      (String.mk ('0' :: 'x' :: [hex_digit (b / 16 % 16), hex_digit (b % 16)])) =
      (some (byte b), false) := by
  have ha := hex_digit_facts2 (b / 16 % 16) (Nat.mod_lt _ (by norm_num))
  have hc := hex_digit_facts2 (b % 16) (Nat.mod_lt _ (by norm_num))
  have hds : ∀ c ∈ [hex_digit (b / 16 % 16), hex_digit (b % 16)], c ∈ hex_digits := by
    intro c hcm
    simp only [List.mem_cons, List.mem_singleton, List.not_mem_nil, or_false] at hcm
    rcases hcm with rfl | rfl
    · exact ha.1
    · exact hc.1
  have hval : hex_value [hex_digit (b / 16 % 16), hex_digit (b % 16)] = b := by
    simp only [hex_value, List.foldl_cons, List.foldl_nil, ha.2, hc.2]
    omega
  have hn := string_to_number_hex _ hds (by simp) (by simp)
  rw [hval] at hn
  have hbo : byte_or_integer b = byte b := if_pos hb
  rw [hbo] at hn
  refine ⟨?_, hn⟩
  intro c hcm
  rcases List.mem_cons.1 hcm with hcm | hcm
  · subst hcm; decide
  · rcases List.mem_cons.1 hcm with hcm | hcm
    · subst hcm; decide
    · exact (hex_digit_facts c (hds c hcm)).2.2.1

theorem tree_text_ne_nil (v : lval) (hv : number_tree v = true) : tree_text v ≠ [] := by
  cases v with
  | int n =>
    simp only [number_tree, decide_eq_true_eq] at hv
    simp only [tree_text]
    exact (int_token n hv.1 hv.2).1
  | byte b => simp [tree_text]
  | qexpr c => simp [tree_text]
  | _ => simp [number_tree] at hv

theorem parse_trees_of_tree (d : Nat)
    (htree : ∀ (v : lval), number_tree v = true → list_depth v ≤ d →
      ∀ (f : Nat) (s : List Char) (acc : List lval) (i : Nat) (close : Char) (suf : List Char),
        s.drop i = tree_text v ++ suf → (∀ c ∈ suf.head?, symbol_char c = false) →
        symbol_char close = false → close ≠ Char.ofNat 123 → s.length + 2 ≤ f + 1 + i →
        read_expr (f + 1) s acc i close false =
          read_expr f s (acc ++ [v]) (i + (tree_text v).length) close false) :
    ∀ (c : List lval), number_trees c = true → c ≠ [] → list_depths c ≤ d →
      ∀ (f : Nat) (s : List Char) (acc : List lval) (p : Nat) (suf : List Char),
        s.drop p = trees_text c ++ Char.ofNat 125 :: suf → s.length + 2 ≤ f + p →
        read_expr f s acc p (Char.ofNat 125) false =
          some (acc ++ c, p + (trees_text c).length + 1, false) := by
  intro c
  induction c with
  | nil => intro _ hne; exact absurd rfl hne
  | cons v rest ih =>
    intro hnt _ hdep f s acc p suf hd hf
    simp only [number_trees, Bool.and_eq_true] at hnt
    simp only [list_depths] at hdep
    have hvne := tree_text_ne_nil v hnt.1
    have hlen : (s.drop p).length = s.length - p := List.length_drop _ _
    have htl : 1 ≤ (tree_text v).length := by
      cases htv : tree_text v with
      | nil => exact absurd htv hvne
      | cons _ _ => simp
    cases rest with
    | nil =>
      have htt : trees_text [v] = tree_text v := by simp [trees_text]
      rw [htt] at hd ⊢
      rw [hd] at hlen
      simp only [List.length_append, List.length_cons] at hlen
      obtain ⟨f1, rfl⟩ : ∃ f1, f = f1 + 1 := ⟨f - 1, by omega⟩
      rw [htree v hnt.1 (by omega) f1 s acc p _ _ hd (by simp; decide) (by decide) (by decide)
        (by omega)]
      obtain ⟨f2, rfl⟩ : ∃ f2, f1 = f2 + 1 := ⟨f1 - 1, by omega⟩
      rw [read_expr_close f2 s _ _ _ false suf (drop_add_of_drop s p _ _ hd)]
    | cons w rest2 =>
      have htt : trees_text (v :: w :: rest2) = tree_text v ++ ' ' :: trees_text (w :: rest2) := by
        simp [trees_text]
      rw [htt] at hd ⊢
      rw [List.append_assoc] at hd
      rw [hd] at hlen
      simp only [List.length_append, List.length_cons] at hlen
      obtain ⟨f1, rfl⟩ : ∃ f1, f = f1 + 1 := ⟨f - 1, by omega⟩
      rw [htree v hnt.1 (by omega) f1 s acc p _ _ hd (by simp; decide) (by decide) (by decide)
        (by omega)]
      obtain ⟨f2, rfl⟩ : ∃ f2, f1 = f2 + 1 := ⟨f1 - 1, by omega⟩
      have hd2 := drop_add_of_drop s p _ _ hd
      rw [List.cons_append] at hd2
      rw [read_expr_space f2 s _ _ _ false _ hd2 (by decide)]
      have hd3 : s.drop (p + (tree_text v).length + 1) =
          trees_text (w :: rest2) ++ Char.ofNat 125 :: suf := by
        have := drop_add_of_drop s (p + (tree_text v).length) [' '] _ hd2
        simpa using this
      rw [ih hnt.2 (by simp) (by omega) f2 s (acc ++ [v]) _ suf hd3 (by omega)]
      simp only [List.append_assoc, List.singleton_append, List.length_append, List.length_cons]
      have hnum : p + (tree_text v).length + 1 + (trees_text (w :: rest2)).length + 1 =
          p + ((tree_text v).length + ((trees_text (w :: rest2)).length + 1)) + 1 := by omega
      rw [hnum]

theorem parse_tree (d : Nat) :
    ∀ (v : lval), number_tree v = true → list_depth v ≤ d →
      ∀ (f : Nat) (s : List Char) (acc : List lval) (i : Nat) (close : Char) (suf : List Char),
        s.drop i = tree_text v ++ suf → (∀ c ∈ suf.head?, symbol_char c = false) →
        symbol_char close = false → close ≠ Char.ofNat 123 → s.length + 2 ≤ f + 1 + i →
        read_expr (f + 1) s acc i close false =
          read_expr f s (acc ++ [v]) (i + (tree_text v).length) close false := by
  induction d with
  | zero =>
    intro v hv hdep f s acc i close suf hd hsuf hclose hopen hf
    cases v with
    | int n =>
      simp only [number_tree, decide_eq_true_eq] at hv
      simp only [tree_text] at hd ⊢
      have ht := int_token n hv.1 hv.2
      exact read_expr_tok f s acc i close false false _ suf (int n) hd ht.1 ht.2.1 hsuf hclose
        (ht.2.2 false)
    | byte b =>
      simp only [number_tree, decide_eq_true_eq] at hv
      simp only [tree_text] at hd ⊢
      have ht := byte_token b hv
      exact read_expr_tok f s acc i close false false _ suf (byte b) hd (by simp) ht.1 hsuf
        hclose ht.2
    | qexpr c => simp [list_depth] at hdep
    | _ => simp [number_tree] at hv
  | succ d ih =>
    intro v hv hdep f s acc i close suf hd hsuf hclose hopen hf
    cases v with
    | int n => exact ih (int n) hv (by simp [list_depth]) f s acc i close suf hd hsuf hclose hopen hf
    | byte b =>
      exact ih (byte b) hv (by simp [list_depth]) f s acc i close suf hd hsuf hclose hopen hf
    | qexpr c =>
      simp only [number_tree, Bool.and_eq_true, Bool.not_eq_true', List.isEmpty_eq_false] at hv
      simp only [list_depth, Nat.add_le_add_iff_right] at hdep
      simp only [tree_text, List.cons_append, List.append_assoc, List.singleton_append] at hd
      have hne : c ≠ [] := by
        intro hc; rw [hc] at hv; simp at hv
      have hd1 : s.drop (i + 1) = trees_text c ++ Char.ofNat 125 :: suf := by
        have := drop_add_of_drop s i [Char.ofNat 123] _ hd
        simpa using this
      have hx := parse_trees_of_tree d ih c hv.2 hne hdep f s [] (i + 1) suf hd1 (by omega)
      rw [read_expr_open f s acc i close false false _ _ _ hd hopen hx]
      simp only [tree_text, List.nil_append, List.length_cons, List.length_append,
        List.length_singleton, List.length_nil, Nat.zero_add]
      have hnum : i + 1 + (trees_text c).length + 1 = i + ((trees_text c).length + 1 + 1) := by
        omega
      rw [hnum]
    | _ => simp [number_tree] at hv

theorem intercalate_go_data (acc : String) (ts : List String) :
    (String.intercalate.go acc " " ts).data = acc.data ++ ts.flatMap (fun t => ' ' :: t.data) := by
  induction ts generalizing acc with
  | nil => simp [String.intercalate.go]
  | cons t rest ih =>
    rw [String.intercalate.go, ih]
    simp [List.flatMap_cons, String.data_append]

theorem trees_text_cons (v : lval) (rest : List lval) :
    trees_text (v :: rest) = tree_text v ++ rest.flatMap (fun w => ' ' :: tree_text w) := by
  induction rest generalizing v with
  | nil => simp [trees_text]
  | cons w rest2 ih =>
    have h1 : trees_text (v :: w :: rest2) = tree_text v ++ ' ' :: trees_text (w :: rest2) := by
      simp [trees_text]
    rw [h1, ih w]
    simp [List.flatMap_cons]

theorem expr_sprint_text (c : List lval) (hne : c ≠ []) :
    lval_expr_sprint "\x7b" "\x7d" (c.map (fun v => String.mk (tree_text v))) =
      String.mk (Char.ofNat 123 :: (trees_text c ++ [Char.ofNat 125])) := by
  obtain ⟨v, rest, rfl⟩ := List.exists_cons_of_ne_nil hne
  have hi : (" ".intercalate ((v :: rest).map (fun v => String.mk (tree_text v)))).data =
      trees_text (v :: rest) := by
    rw [List.map_cons, String.intercalate, intercalate_go_data, trees_text_cons]
    simp [List.flatMap_map]
  unfold lval_expr_sprint
  rw [if_neg (by simp)]
  apply String.ext
  simp only [String.data_append, hi]
  rfl

theorem sprint_tree (n : Nat) (h : heap) :
    ∀ v : lval, number_tree v = true → list_depth v < n →
      lval_sprint n h v true = some (String.mk (tree_text v)) := by
  induction n with
  | zero => intro v _ hd; omega
  | succ n ih =>
    intro v hv hd
    cases v with
    | int x => rfl
    | byte b => rfl
    | qexpr c =>
      simp only [number_tree, Bool.and_eq_true, Bool.not_eq_true', List.isEmpty_eq_false] at hv
      simp only [list_depth, Nat.add_lt_add_iff_right] at hd
      have hne : c ≠ [] := by
        intro hc; rw [hc] at hv; simp at hv
      have hitems : ∀ l : List lval, number_trees l = true → list_depths l < n →
          sprint_items (fun x => lval_sprint n h x true) l =
            some (l.map (fun v => String.mk (tree_text v))) := by
        intro l
        induction l with
        | nil => intro _ _; rfl
        | cons w rest ihl =>
          intro hl hdl
          simp only [number_trees, Bool.and_eq_true] at hl
          simp only [list_depths] at hdl
          simp only [sprint_items, ih w hl.1 (by omega), ihl hl.2 (by omega), List.map_cons]
      have hs : lval_sprint (n + 1) h (qexpr c) true =
          (sprint_items (fun x => lval_sprint n h x true) c).map
            (lval_expr_sprint "\x7b" "\x7d") := rfl
      rw [hs, hitems c hv.2 hd, Option.map_some', expr_sprint_text c hne]
      simp only [tree_text]
    | _ => simp [number_tree] at hv

theorem to_string_tree (n : Nat) (h : heap) (v : lval) (hv : number_tree v = true)
    (hd : list_depth v < n) :
    builtin_to_string n h (sexpr [v]) = some (str (String.mk (tree_text v))) := by
  cases v with
  | int x => rfl
  | byte b => rfl
  | qexpr c =>
    have h1 : builtin_to_string n h (sexpr [qexpr c]) =
        (lval_sprint n h (qexpr c) true).map str := rfl
    rw [h1, sprint_tree n h _ hv hd]
    rfl
  | _ => simp [number_tree] at hv

theorem lval_eq_tree (n : Nat) (h : heap) :
    ∀ v : lval, number_tree v = true → list_depth v < n → lval_eq n h v v = some true := by
  induction n with
  | zero => intro v _ hd; omega
  | succ n ih =>
    intro v hv hd
    cases v with
    | int x =>
      exact (show lval_eq (n + 1) h (int x) (int x) = some (x == x) from rfl).trans
        (by rw [beq_self_eq_true])
    | byte b =>
      exact (show lval_eq (n + 1) h (byte b) (byte b) = some (b == b) from rfl).trans
        (by rw [beq_self_eq_true])
    | qexpr c =>
      simp only [number_tree, Bool.and_eq_true] at hv
      simp only [list_depth, Nat.add_lt_add_iff_right] at hd
      have hcells : ∀ l : List lval, number_trees l = true → list_depths l < n →
          lval_eq_cells (lval_eq n h) l l = some true := by
        intro l
        induction l with
        | nil => intro _ _; rfl
        | cons w rest ihl =>
          intro hl hdl
          simp only [number_trees, Bool.and_eq_true] at hl
          simp only [list_depths] at hdl
          simp only [lval_eq_cells, ih w hl.1 (by omega), ihl hl.2 (by omega)]
      have hq : lval_eq (n + 1) h (qexpr c) (qexpr c) =
          if c.length ≠ c.length then some false else lval_eq_cells (lval_eq n h) c c := rfl
      rw [hq, if_neg (by simp), hcells c hv.2 hd]
    | _ => simp [number_tree] at hv

theorem eval_string_tree (k : Nat) (h : heap) (e : lenv) (v : lval) (hv : number_tree v = true) :
    builtin_eval_string (interp (k + 1)) false h e (sexpr [str (String.mk (tree_text v))]) =
      some (v, h) := by
  have hp := parse_tree (list_depth v) v hv (le_refl _) ((tree_text v).length + 1) (tree_text v)
    [] 0 (Char.ofNat 0) [] (by simp) (by simp) (by decide) (by decide) (by omega)
  rw [zero_add, read_expr_end] at hp
  have hl : (String.mk (tree_text v)).length = (tree_text v).length := rfl
  have htl : (String.mk (tree_text v)).toList = tree_text v := rfl
  have hev : lval_eval (interp k) h e v = some (v, h) := by
    cases v <;> first | rfl | simp [number_tree] at hv
  have herr : v.is_err = false := by
    cases v <;> first | rfl | simp [number_tree] at hv
  simp only [builtin_eval_string, lval.cells, lval_read_expr, hl, htl, hp, Option.map_some',
    List.nil_append, eval_each, interp_eval, hev, herr, Bool.false_eq_true, if_false]

/-! ### Symbol tables: insertion, resizing and removal -/

theorem insert_count (t : lval_table) (wf : table_wf t) (k : String) (v : lval) :
    (lval_table_get_entry t k = none → (lval_table_insert t k v).count = t.count + 1) ∧
    (lval_table_get_entry t k ≠ none → (lval_table_insert t k v).count = t.count) := by
  unfold lval_table_insert
  rw [(resize_if_needed_spec _ (insert_entry_wf t wf _)).2.1]
  constructor
  · intro hg
    exact insert_entry_count t wf ⟨k, v, none⟩ hg
  · intro hg
    cases hg1 : lval_table_get_entry t k with
    | none => exact absurd hg1 hg
    | some o => exact insert_entry_count_of_some t wf ⟨k, v, none⟩ o hg1

/-- C33. For every well-formed symbol table `t`, all symbols `k` and `k'` with `k'`
different from `k`, and every value `v`: after `lval_table_insert(t, k, v)`, which
includes the automatic resize, `lval_table_get` returns `v` for `k` and what it
returned before for `k'`; the entry count grows by one if `k` was absent and is
unchanged if it was present; and if the replaced entry had a declared type, the new
entry for `k` carries that type with the value `v`. -/
theorem C33_insert_then_get (t : lval_table) (wf : table_wf t) (k k' : String) (v : lval)
    (hk : k' ≠ k) :
    lval_table_get (lval_table_insert t k v) k = some v ∧
    lval_table_get (lval_table_insert t k v) k' = lval_table_get t k' ∧
    (lval_table_get_entry t k = none → (lval_table_insert t k v).count = t.count + 1) ∧
    (lval_table_get_entry t k ≠ none → (lval_table_insert t k v).count = t.count) ∧
    (∀ o, lval_table_get_entry t k = some o →
      lval_table_get_entry (lval_table_insert t k v) k =
        some { key := k, value := v, type := o.type }) ∧
    table_wf (lval_table_insert t k v) := by
  refine ⟨?_, ?_, ?_, ?_, ?_, insert_wf t wf k v⟩
  · rw [get_insert t wf, if_pos rfl]
  · rw [get_insert t wf, if_neg (fun h => hk h.symm)]
  · exact (insert_count t wf k v).1
  · exact (insert_count t wf k v).2
  · intro o ho
    rw [get_entry_insert t wf, if_pos rfl, ho]
    rfl

/-- Witness for C33: three inserts into a table of two buckets, the second of which
resizes the table and the third of which replaces the value of `a`. -/
theorem C33_insert_then_get_witness :
    lval_table_get (lval_table_insert (lval_table_insert (lval_table_alloc 2) "a" (int 1))
      "b" (int 2)) "b" = some (int 2) ∧
    lval_table_get (lval_table_insert (lval_table_insert (lval_table_alloc 2) "a" (int 1))
      "b" (int 2)) "a" = lval_table_get (lval_table_insert (lval_table_alloc 2) "a" (int 1)) "a" ∧
    (lval_table_insert (lval_table_insert (lval_table_alloc 2) "a" (int 1)) "b" (int 2)).count =
      (lval_table_insert (lval_table_alloc 2) "a" (int 1)).count + 1 :=
  have w := C33_insert_then_get (lval_table_insert (lval_table_alloc 2) "a" (int 1))
    (insert_wf _ (alloc_wf 2) "a" (int 1)) "b" "a" (int 2) (by decide)
  ⟨w.1, w.2.1, w.2.2.1 rfl⟩

theorem foldl_insert_entry_buckets (l : List lval_entry) (t0 : lval_table) :
    (l.foldl lval_table_insert_entry t0).bucket_count = t0.bucket_count := by
  induction l generalizing t0 with
  | nil => rfl
  | cons x rest ih =>
    rw [List.foldl_cons, ih]
    rfl

theorem resize_fields (t : lval_table) (n : Nat) :
    (lval_table_resize t n).bucket_count = max 2 n ∧
    (lval_table_resize t n).min_buckets = t.min_buckets ∧
    (lval_table_resize t n).count = t.count := by
  refine ⟨?_, rfl, rfl⟩
  show (t.items.flatten.foldl lval_table_insert_entry (lval_table_alloc n)).bucket_count = _
  rw [foldl_insert_entry_buckets]
  rfl

theorem resize_if_needed_fields (t : lval_table) :
    (lval_table_resize_if_needed t).bucket_count =
      (if t.count ≥ t.bucket_count / 2 ∨ max t.min_buckets t.count < t.bucket_count / 2
        then max 2 (t.count * 4) else t.bucket_count) ∧
    (lval_table_resize_if_needed t).min_buckets = t.min_buckets ∧
    (lval_table_resize_if_needed t).count = t.count := by
  unfold lval_table_resize_if_needed
  by_cases h1 : t.count ≥ t.bucket_count / 2
  · rw [if_pos h1, if_pos (Or.inl h1)]
    exact resize_fields t _
  · rw [if_neg h1]
    by_cases h2 : max t.min_buckets t.count < t.bucket_count / 2
    · rw [if_pos h2, if_pos (Or.inr h2)]
      exact resize_fields t _
    · rw [if_neg h2, if_neg (by tauto)]
      exact ⟨rfl, rfl, rfl⟩

/-- C35 (amended). On a table with at least two buckets,
`lval_table_resize_if_needed` sets the bucket count to `max(2, 4 * count)` when
`count >= bucket_count / 2`, which is an increase. When `count < bucket_count / 2`
and the floor `min_buckets` is at least `bucket_count / 2`, it leaves the bucket
count unchanged, however small the count is. When `max(min_buckets, count) <
bucket_count / 2` and `max(2, 4 * count) < bucket_count`, it decreases the bucket
count to `max(2, 4 * count)`. The floor and the entry count are never changed. -/
theorem C35_resize_thresholds (t : lval_table) (hb : 2 ≤ t.bucket_count) :
    (t.count ≥ t.bucket_count / 2 →
      (lval_table_resize_if_needed t).bucket_count = max 2 (t.count * 4) ∧
      t.bucket_count < (lval_table_resize_if_needed t).bucket_count) ∧
    (t.count < t.bucket_count / 2 → t.min_buckets ≥ t.bucket_count / 2 →
      (lval_table_resize_if_needed t).bucket_count = t.bucket_count) ∧
    (max t.min_buckets t.count < t.bucket_count / 2 → max 2 (t.count * 4) < t.bucket_count →
      (lval_table_resize_if_needed t).bucket_count = max 2 (t.count * 4) ∧
      (lval_table_resize_if_needed t).bucket_count < t.bucket_count) ∧
    (lval_table_resize_if_needed t).min_buckets = t.min_buckets ∧
    (lval_table_resize_if_needed t).count = t.count := by
  have hf := resize_if_needed_fields t
  refine ⟨fun h1 => ?_, fun h1 h2 => ?_, fun h1 h2 => ?_, hf.2.1, hf.2.2⟩
  · rw [hf.1, if_pos (Or.inl h1)]
    exact ⟨rfl, by omega⟩
  · rw [hf.1, if_neg (by omega)]
  · rw [hf.1, if_pos (Or.inr h1)]
    exact ⟨rfl, h2⟩

/-- Witness for C35: the table `(dict ab:1 ba:2)`, with 8 buckets, 2 entries and
the floor 4, is left unchanged; a table with 2 buckets and 1 entry grows to 4
buckets; a table with 40 buckets, the floor 2 and 1 entry shrinks to 4 buckets. -/
theorem C35_resize_thresholds_witness :
    (lval_table_resize_if_needed ab_ba_table).bucket_count = ab_ba_table.bucket_count ∧
    (lval_table_resize_if_needed
      (lval_table_insert_entry (lval_table_alloc 2) ⟨"a", int 1, none⟩)).bucket_count =
      max 2 (1 * 4) ∧
    (lval_table_resize_if_needed
      { count := 1, min_buckets := 2, bucket_count := 40,
        items := List.replicate 40 [] }).bucket_count = max 2 (1 * 4) :=
  ⟨(C35_resize_thresholds ab_ba_table (by decide)).2.1 (by decide) (by decide),
    ((C35_resize_thresholds (lval_table_insert_entry (lval_table_alloc 2) ⟨"a", int 1, none⟩)
      (by decide)).1 (by decide)).1,
    ((C35_resize_thresholds
      { count := 1, min_buckets := 2, bucket_count := 40, items := List.replicate 40 [] }
      (by decide)).2.2.1 (by decide) (by decide)).1⟩

/-- C35 (counterexample). After five inserts into a table made with ten buckets the
table has 20 buckets and the floor 10; removing one key brings the count to 4, below
a quarter of the bucket count, and the bucket count stays 20 although 16 buckets
would be above the floor: the test for shrinking is `max(min_buckets, count) <
bucket_count / 2`. With that test a table of 8 buckets and the floor 2 that
receives its third entry is resized as well, to 12 buckets. -/
theorem C35_counterexample :
    (lval_table_insert (lval_table_insert (lval_table_insert (lval_table_insert
      (lval_table_insert (lval_table_alloc 10) "a" (int 1)) "b" (int 2)) "c" (int 3))
      "d" (int 4)) "e" (int 5)).bucket_count = 20 ∧
    (lval_table_remove (lval_table_insert (lval_table_insert (lval_table_insert
      (lval_table_insert (lval_table_insert (lval_table_alloc 10) "a" (int 1)) "b" (int 2))
      "c" (int 3)) "d" (int 4)) "e" (int 5)) "e").map
      (fun t => (t.count, t.bucket_count, t.min_buckets)) = some (4, 20, 10) ∧
    4 < 20 / 4 ∧ 10 ≤ 4 * 4 ∧
    (lval_table_insert_entry
      (lval_table_insert (lval_table_insert (lval_table_alloc 2) "a" (int 1)) "b" (int 2))
      ⟨"c", int 3, none⟩).bucket_count = 8 ∧
    (lval_table_insert
      (lval_table_insert (lval_table_insert (lval_table_alloc 2) "a" (int 1)) "b" (int 2))
      "c" (int 3)).bucket_count = 12 :=
  ⟨rfl, rfl, by decide, by decide, rfl, rfl⟩

theorem resize_if_needed_inv (t t1 : lval_table) (hi : bucket_inv t)
    (hm : t1.min_buckets = t.min_buckets) (hb : t1.bucket_count = t.bucket_count)
    (hc : t.count ≤ t1.count + 1) :
    bucket_inv (lval_table_resize_if_needed t1) ∧
    (lval_table_resize_if_needed t1).min_buckets = t.min_buckets := by
  obtain ⟨h1, h2, h3⟩ := resize_if_needed_fields t1
  obtain ⟨i1, i2, i3⟩ := hi
  refine ⟨?_, by rw [h2, hm]⟩
  unfold bucket_inv
  rw [h1, h2, h3, hm, hb]
  by_cases c1 : t1.count ≥ t.bucket_count / 2
  · rw [if_pos (Or.inl c1)]
    refine ⟨i1, ?_, Or.inr rfl⟩
    omega
  · by_cases c2 : max t.min_buckets t1.count < t.bucket_count / 2
    · rw [if_pos (Or.inr c2)]
      refine ⟨i1, ?_, Or.inr rfl⟩
      omega
    · rw [if_neg (by tauto)]
      refine ⟨i1, i2, Or.inl ?_⟩
      omega

theorem insert_inv (t : lval_table) (hi : bucket_inv t) (k : String) (v : lval) :
    bucket_inv (lval_table_insert t k v) ∧
    (lval_table_insert t k v).min_buckets = t.min_buckets := by
  unfold lval_table_insert
  refine resize_if_needed_inv t _ hi ?_ ?_ ?_
  · rfl
  · rfl
  show t.count ≤ (if _ then t.count + 1 else t.count) + 1
  split
  · exact Nat.le_succ_of_le (Nat.le_succ _)
  · exact Nat.le_succ _

theorem chain_remove_some (l : List lval_entry) (k : String)
    (h : l.find? (fun entry => equal_symbols entry.key k) ≠ none) :
    ∃ r, chain_remove l k = some r := by
  induction l with
  | nil => exact absurd rfl h
  | cons x rest ih =>
    unfold chain_remove
    cases hx : equal_symbols x.key k
    · rw [List.find?_cons, hx] at h
      obtain ⟨r, hr⟩ := ih h
      exact ⟨x :: r, by simp [hr]⟩
    · exact ⟨rest, by simp⟩

theorem remove_inv (t : lval_table) (hi : bucket_inv t) (k : String)
    (hp : lval_table_get_entry t k ≠ none) :
    ∃ t1, lval_table_remove t k = some t1 ∧ bucket_inv t1 ∧
      t1.min_buckets = t.min_buckets := by
  unfold lval_table_get_entry at hp
  have hc : t.count ≠ 0 := by
    intro h0
    rw [if_pos h0] at hp
    exact hp rfl
  rw [if_neg hc] at hp
  unfold lval_table_remove
  cases hb : t.items.getD (bucket_for_key t k) [] with
  | nil =>
    rw [hb] at hp
    exact absurd rfl hp
  | cons entry next =>
    rw [hb] at hp
    simp only []
    cases hx : equal_symbols entry.key k
    · rw [List.find?_cons, hx] at hp
      obtain ⟨r, hr⟩ := chain_remove_some next k hp
      simp only [hr, Bool.false_eq_true, if_false]
      refine ⟨_, rfl, ?_⟩
      refine resize_if_needed_inv t _ hi ?_ ?_ ?_
      · rfl
      · rfl
      show t.count ≤ (if t.count = 0 then 2 ^ 64 - 1 else t.count - 1) + 1
      rw [if_neg hc]
      omega
    · simp only [if_true]
      refine ⟨_, rfl, ?_⟩
      refine resize_if_needed_inv t _ hi ?_ ?_ ?_
      · rfl
      · rfl
      show t.count ≤ (if t.count = 0 then 2 ^ 64 - 1 else t.count - 1) + 1
      rw [if_neg hc]
      omega

theorem alloc_inv (n : Nat) :
    bucket_inv (lval_table_alloc n) ∧ (lval_table_alloc n).min_buckets = max 2 n := by
  refine ⟨⟨?_, ?_, Or.inl ?_⟩, ?_⟩
  · show 2 ≤ max 2 (max 2 n)
    omega
  · show max 2 (max 2 n) ≤ max 2 n
    omega
  · show max 2 n / 2 ≤ max 2 (max 2 n)
    omega
  · show max 2 (max 2 n) = max 2 n
    omega

theorem run_ops_inv (ops : List table_op) (t : lval_table) (hi : bucket_inv t)
    (hp : removes_present t ops) :
    ∃ ts, run_ops t ops = some ts ∧
      ∀ t1 ∈ ts, bucket_inv t1 ∧ t1.min_buckets = t.min_buckets := by
  induction ops generalizing t with
  | nil => exact ⟨[], rfl, fun _ h => absurd h (List.not_mem_nil _)⟩
  | cons op rest ih =>
    obtain ⟨hp1, hp2⟩ := hp
    have step : ∃ t1, apply_op t op = some t1 ∧ bucket_inv t1 ∧
        t1.min_buckets = t.min_buckets := by
      cases op with
      | insert key value => exact ⟨_, rfl, insert_inv t hi key value⟩
      | remove key => exact remove_inv t hi key hp1
    obtain ⟨t1, h1, i1, m1⟩ := step
    obtain ⟨ts, hts, hall⟩ := ih t1 i1 (hp2 t1 h1)
    refine ⟨t1 :: ts, ?_, ?_⟩
    · unfold run_ops
      rw [h1]
      simp only [hts, Option.map_some']
    · intro t2 h2
      rcases List.mem_cons.mp h2 with h | h
      · rw [h]
        exact ⟨i1, m1⟩
      · obtain ⟨a, b⟩ := hall t2 h
        exact ⟨a, b.trans m1⟩

/-- C36. For a table made by `lval_table_alloc(n)` and every sequence of calls
of `lval_table_insert` and of `lval_table_remove` with keys that the table holds at
the time of the call, every call returns, and in the table after each call the
floor `min_buckets` is still `max(2, n)` and the bucket count is at least the
floor, so it is never zero. -/
theorem C36_bucket_count_floor (n : Nat) (ops : List table_op)
    (hp : removes_present (lval_table_alloc n) ops) :
    ∃ ts, run_ops (lval_table_alloc n) ops = some ts ∧ ts.length = ops.length ∧
      ∀ t ∈ ts, t.min_buckets = max 2 n ∧ max 2 n ≤ t.bucket_count ∧
        0 < t.bucket_count := by
  obtain ⟨ts, h1, h2⟩ := run_ops_inv ops (lval_table_alloc n) (alloc_inv n).1 hp
  refine ⟨ts, h1, ?_, ?_⟩
  · clear h2 hp
    generalize lval_table_alloc n = t at h1
    induction ops generalizing t ts with
    | nil =>
      cases h1
      rfl
    | cons op rest ih =>
      unfold run_ops at h1
      cases ha : apply_op t op with
      | none =>
        rw [ha] at h1
        cases h1
      | some t1 =>
        rw [ha] at h1
        simp only [] at h1
        cases hr : run_ops t1 rest with
        | none =>
          rw [hr] at h1
          cases h1
        | some ts1 =>
          rw [hr] at h1
          cases h1
          simp only [List.length_cons, ih ts1 t1 hr]
  · intro t ht
    obtain ⟨⟨i1, i2, _⟩, m⟩ := h2 t ht
    rw [(alloc_inv n).2] at m
    rw [m] at i1 i2
    exact ⟨m, i2, by omega⟩

/-- Witness for C36: three inserts and two removes on a table made with three
buckets. -/
theorem C36_bucket_count_floor_witness :
    removes_present (lval_table_alloc 3)
      [table_op.insert "a" (int 1), table_op.insert "b" (int 2), table_op.remove "a",
        table_op.insert "c" (int 3), table_op.remove "c"] ∧
    ∃ ts, run_ops (lval_table_alloc 3)
      [table_op.insert "a" (int 1), table_op.insert "b" (int 2), table_op.remove "a",
        table_op.insert "c" (int 3), table_op.remove "c"] = some ts ∧ ts.length = 5 ∧
      ∀ t ∈ ts, t.min_buckets = max 2 3 ∧ max 2 3 ≤ t.bucket_count ∧
        0 < t.bucket_count :=
  have hp : removes_present (lval_table_alloc 3)
      [table_op.insert "a" (int 1), table_op.insert "b" (int 2), table_op.remove "a",
        table_op.insert "c" (int 3), table_op.remove "c"] := by
    refine ⟨trivial, fun t1 h1 => ?_⟩
    cases h1
    refine ⟨trivial, fun t2 h2 => ?_⟩
    cases h2
    refine ⟨fun h => ?_, fun t3 h3 => ?_⟩
    · exact absurd (congrArg Option.isSome h) (by decide)
    cases h3
    refine ⟨trivial, fun t4 h4 => ?_⟩
    cases h4
    refine ⟨fun h => ?_, fun t5 h5 => trivial⟩
    exact absurd (congrArg Option.isSome h) (by decide)
  ⟨hp, C36_bucket_count_floor 3 _ hp⟩

/-- C37 (failing input). In the table of `(dict ab:1 ba:2)` the keys `ab` and `ba`
have the same hash and lie in one chain, `ab` first. `lval_table_remove` with the
key `ab` sets the bucket to `NULL`: afterwards `ba` is not found either, although
it was found before, and the table holds no entry while its count is 1. With the
key `ba`, the second of the chain, the call removes that entry alone. -/
theorem C37_remove_drops_the_chain :
    lval_table_get ab_ba_table "ab" = some (int 1) ∧
    lval_table_get ab_ba_table "ba" = some (int 2) ∧
    ab_ba_table.count = 2 ∧
    (lval_table_remove ab_ba_table "ab").map (fun t => lval_table_get t "ab") = some none ∧
    (lval_table_remove ab_ba_table "ab").map (fun t => lval_table_get t "ba") = some none ∧
    (lval_table_remove ab_ba_table "ab").map (fun t => t.count) = some 1 ∧
    (lval_table_remove ab_ba_table "ab").map (fun t => (lval_table_entries t).length) =
      some 0 ∧
    (lval_table_remove ab_ba_table "ba").map (fun t => lval_table_get t "ab") =
      some (some (int 1)) ∧
    (lval_table_remove ab_ba_table "ba").map (fun t => lval_table_get t "ba") = some none ∧
    (lval_table_remove ab_ba_table "ba").map
      (fun t => (t.count, (lval_table_entries t).length)) = some (1, 1) :=
  ⟨rfl, rfl, rfl, rfl, rfl, rfl, rfl, rfl, rfl, rfl⟩

/-! ### Errors among the children of an S-expression -/

theorem eval_children_append (ev : evaluator) (e : lenv) (pre post : List lval)
    (h h1 h2 : heap) (vs outs : List lval)
    (hpre : eval_children ev e pre h = some (vs, h1))
    (hpost : eval_children ev e post h1 = some (outs, h2)) :
    eval_children ev e (pre ++ post) h = some (vs ++ outs, h2) := by
  induction pre generalizing h vs with
  | nil =>
    cases hpre
    exact hpost
  | cons c rest ih =>
    simp only [eval_children] at hpre
    cases hc : ev.eval h e c with
    | none =>
      rw [hc] at hpre
      cases hpre
    | some r =>
      obtain ⟨o, h0⟩ := r
      rw [hc] at hpre
      simp only [] at hpre
      cases hr : eval_children ev e rest h0 with
      | none =>
        rw [hr] at hpre
        cases hpre
      | some r2 =>
        obtain ⟨vs2, h12⟩ := r2
        rw [hr] at hpre
        cases hpre
        show eval_children ev e (c :: (rest ++ post)) h = _
        rw [eval_children]
        simp only [hc, ih h0 vs2 hr, List.cons_append]

theorem eval_sexpr_children_split (ev : evaluator) (h : heap) (e : lenv) (pre post : List lval)
    (c : lval) (vs outs : List lval) (er : lval) (h1 h2 h3 : heap)
    (hpre : eval_sexpr_children ev h e pre = some (vs, h1))
    (hc : ev.eval h1 (children_env e vs) c = some (er, h2))
    (hpost : eval_children ev (children_env e (vs ++ [er])) post h2 = some (outs, h3)) :
    eval_sexpr_children ev h e (pre ++ c :: post) = some (vs ++ er :: outs, h3) := by
  cases pre with
  | nil =>
    cases hpre
    simp only [List.nil_append, eval_sexpr_children]
    rw [show ev.eval h e c = some (er, h2) from hc]
    simp only []
    rw [show eval_children ev (temp_env e er) post h2 = some (outs, h3) from hpost]
  | cons c0 rest =>
    simp only [eval_sexpr_children] at hpre
    cases h0 : ev.eval h e c0 with
    | none =>
      rw [h0] at hpre
      cases hpre
    | some r =>
      obtain ⟨f, hf⟩ := r
      rw [h0] at hpre
      simp only [] at hpre
      cases hr : eval_children ev (temp_env e f) rest hf with
      | none =>
        rw [hr] at hpre
        cases hpre
      | some r2 =>
        obtain ⟨vs2, h12⟩ := r2
        rw [hr] at hpre
        cases hpre
        have hc2 : ev.eval h1 (temp_env e f) c = some (er, h2) := hc
        have hp2 : eval_children ev (temp_env e f) post h2 = some (outs, h3) := hpost
        have one : eval_children ev (temp_env e f) (c :: post) h1 = some (er :: outs, h3) := by
          simp only [eval_children, hc2, hp2]
        show eval_sexpr_children ev h e (c0 :: (rest ++ c :: post)) = _
        rw [eval_sexpr_children]
        simp only [h0,
          eval_children_append ev (temp_env e f) rest (c :: post) hf h1 h3 vs2 (er :: outs) hr one,
          List.cons_append]

/-- C34 (amended). `lval_eval_sexpr` evaluates every child before it looks for an
Error. When the children to the left of the child `c` evaluate to values `vs` that
are not Errors, `c` evaluates to the Error `er`, and the evaluation of the children
`post` to its right returns, leaving the state `h3`, then `lval_eval_sexpr` returns
`er` in the state `h3`: the first Error is the result, and the side effects of the
children to its right have taken place. -/
theorem C34_error_after_all_children (ev : evaluator) (h : heap) (e : lenv) (v : lval)
    (pre post : List lval) (c : lval) (vs outs : List lval) (er : lval) (h1 h2 h3 : heap)
    (hv : v.cells = some (pre ++ c :: post))
    (hpre : eval_sexpr_children ev h e pre = some (vs, h1))
    (hok : ∀ x ∈ vs, x.is_err = false)
    (hc : ev.eval h1 (children_env e vs) c = some (er, h2))
    (her : er.is_err = true)
    (hpost : eval_children ev (children_env e (vs ++ [er])) post h2 = some (outs, h3)) :
    lval_eval_sexpr ev h e v = some (er, h3) := by
  have hch := eval_sexpr_children_split ev h e pre post c vs outs er h1 h2 h3 hpre hc hpost
  have hf : (vs ++ er :: outs).find? is_err = some er := by
    rw [List.find?_append]
    have hnone : vs.find? is_err = none := by
      rw [List.find?_eq_none]
      intro x hx
      rw [hok x hx]
      exact Bool.false_ne_true
    rw [hnone]
    simp only [Option.none_or, List.find?_cons, her]
  simp only [lval_eval_sexpr, hv, hch, hf]

/-- Witness for C34: `(list 1 (error "boom") (def {y} 1))` in the start state. -/
theorem C34_error_after_all_children_witness :
    ((lval_eval_sexpr (interp 4) root_heap root_env
      (sexpr [sym "list", int 1, sexpr [sym "error", str "boom"],
        sexpr [sym "def", qexpr [sym "y"], int 1]])).map
      (fun r => (r.1.is_err, lenv_get r.2 root_env "y"))) = some (true, some (int 1)) :=
  congrArg (Option.map (fun r => (r.1.is_err, lenv_get r.2 root_env "y")))
    (C34_error_after_all_children (interp 4) root_heap root_env
      (sexpr [sym "list", int 1, sexpr [sym "error", str "boom"],
        sexpr [sym "def", qexpr [sym "y"], int 1]])
      [sym "list", int 1] [sexpr [sym "def", qexpr [sym "y"], int 1]]
      (sexpr [sym "error", str "boom"]) [fn lbuiltin.b_list, int 1] [sexpr []]
      (err "boom" none) root_heap root_heap
      (root_heap.set_table 0 (lval_table_insert (lenv_add_builtins (lval_table_alloc 416))
        "y" (int 1)))
      rfl rfl (by decide) rfl rfl rfl)

/-- C34 (counterexample). In `(list (error "boom") (def {y} 1))` the first argument
evaluates to an Error; the form returns that Error, and afterwards `y` is bound to 1
in the root environment, where it was unbound before: the child to the right of the
Error has been evaluated. -/
theorem C34_counterexample :
    lenv_get root_heap root_env "y" = some (err "Unbound symbol 'y'" stack_trace) ∧
    (lval_eval (interp 5) root_heap root_env
      (sexpr [sym "list", sexpr [sym "error", str "boom"],
        sexpr [sym "def", qexpr [sym "y"], int 1]])).map
      (fun r => (r.1, lenv_get r.2 root_env "y")) =
      some (err "boom" none, some (int 1)) :=
  ⟨rfl, rfl⟩

/-! ### Property access and the enclosing environment -/

/-- The form `(p k)`, with `p` bound to an instance or a dictionary, when the lookup
of `k` from the frame of the properties gives the literal `w`. -/
theorem property_lookup (m : Nat) (h2 : heap) (e2 : lenv) (p k : String) (o w : lval)
    (a : Nat) (ho : (∃ t, o = inst t a) ∨ o = dict a)
    (hp : lenv_get h2 e2 p = some o)
    (hget : lenv_get h2 (a :: e2) k = some w) (hw : literal_value w = true) :
    lval_eval_sexpr (interp (m + 2)) h2 e2 (sexpr [sym p, sym k]) = some (w, h2) := by
  have hwe : ∀ n, lval_eval (interp n) h2 e2 w = some (w, h2) := by
    intro n
    cases w <;> simp [literal_value] at hw <;> rfl
  have herr : w.is_err = false := by
    cases w <;> simp [literal_value] at hw <;> rfl
  have hfun : w.is_fun = false := by
    cases w <;> simp [literal_value] at hw <;> rfl
  have htmp : temp_env e2 w = e2 := by
    cases w <;> simp [literal_value] at hw <;> rfl
  have single : ∀ n (x : lval), lval_eval (interp n) h2 e2 x = some (w, h2) →
      eval_sexpr_children (interp (n + 1)) h2 e2 [x] = some ([w], h2) := by
    intro n x hx
    simp only [eval_sexpr_children, interp_eval, hx, htmp, eval_children]
  have inner : lval_eval (interp (m + 1)) h2 e2 (sexpr [w]) = some (w, h2) := by
    rw [lval_eval_of_sexpr]
    simp only [lval_eval_sexpr, lval.cells]
    rw [single m w (hwe m)]
    simp only [List.find?_cons, herr, List.find?_nil, eval_sexpr_head, List.isEmpty_nil, hfun,
      Bool.not_false, Bool.and_self, if_true]
  have children : ∀ (o : lval), lenv_get h2 e2 p = some o → temp_env e2 o = a :: e2 →
      eval_sexpr_children (interp (m + 2)) h2 e2 [sym p, sym k] = some ([o, w], h2) := by
    intro o hpo hto
    simp only [eval_sexpr_children, interp_eval, lval_eval_of_sym _ h2 e2 p o hpo, hto,
      eval_children, lval_eval_of_sym _ h2 (a :: e2) k w hget]
  rcases ho with ⟨t, rfl⟩ | rfl
  · have hie : (inst t a).is_err = false := rfl
    simp only [lval_eval_sexpr, lval.cells]
    rw [children _ hp rfl]
    simp only [List.find?_cons, hie, herr, List.find?_nil, eval_sexpr_head,
      List.isEmpty_cons, Bool.false_and, Bool.false_eq_true, if_false, interp_eval]
    exact inner
  · have hie : (dict a).is_err = false := rfl
    simp only [lval_eval_sexpr, lval.cells]
    rw [children _ hp rfl]
    simp only [List.find?_cons, hie, herr, List.find?_nil, eval_sexpr_head,
      List.isEmpty_cons, Bool.false_and, Bool.false_eq_true, if_false, interp_eval]
    exact inner

/-- The form `(p k)`, with `p` bound to an instance or a dictionary, when the lookup
of `k` from the frame of the properties gives an Error. -/
theorem property_lookup_error (m : Nat) (h2 : heap) (e2 : lenv) (p k : String) (o w : lval)
    (a : Nat) (ho : (∃ t, o = inst t a) ∨ o = dict a)
    (hp : lenv_get h2 e2 p = some o)
    (hget : lenv_get h2 (a :: e2) k = some w) (hw : w.is_err = true) :
    lval_eval_sexpr (interp (m + 1)) h2 e2 (sexpr [sym p, sym k]) = some (w, h2) := by
  have children : ∀ (o : lval), lenv_get h2 e2 p = some o → temp_env e2 o = a :: e2 →
      eval_sexpr_children (interp (m + 1)) h2 e2 [sym p, sym k] = some ([o, w], h2) := by
    intro o hpo hto
    simp only [eval_sexpr_children, interp_eval, lval_eval_of_sym _ h2 e2 p o hpo, hto,
      eval_children, lval_eval_of_sym _ h2 (a :: e2) k w hget]
  rcases ho with ⟨t, rfl⟩ | rfl
  · have hie : (inst t a).is_err = false := rfl
    simp only [lval_eval_sexpr, lval.cells]
    rw [children _ hp rfl]
    simp only [List.find?_cons, hie, hw]
  · have hie : (dict a).is_err = false := rfl
    simp only [lval_eval_sexpr, lval.cells]
    rw [children _ hp rfl]
    simp only [List.find?_cons, hie, hw]

/-- C38 (amended). Let `p` be bound to a dictionary or a record instance whose
table has no entry for the symbol `z`. The lookup of `z` in `(p z)` goes on from the
table of `p` to the environment that encloses the access: when `z` is unbound there
too, `(p z)` returns the Error for the unbound symbol; when `z` is bound there to a
literal value `w` (a number, a string or a list), `(p z)` returns `w`. -/
theorem C38_property_lookup_reaches_enclosing (m : Nat) (h : heap) (e : lenv) (p z : String)
    (o : lval) (a : Nat) (tbl : lval_table) (ho : (∃ t, o = inst t a) ∨ o = dict a)
    (hp : lenv_get h e p = some o) (ht : h.table a = some tbl)
    (hz : lval_table_get tbl z = none) :
    (∀ w, lenv_get h e z = some w → w.is_err = true →
      lval_eval_sexpr (interp (m + 2)) h e (sexpr [sym p, sym z]) = some (w, h)) ∧
    (∀ w, lenv_get h e z = some w → literal_value w = true →
      lval_eval_sexpr (interp (m + 2)) h e (sexpr [sym p, sym z]) = some (w, h)) := by
  have hget : ∀ w, lenv_get h e z = some w → lenv_get h (a :: e) z = some w := by
    intro w hw
    simp only [lenv_get, ht, hz]
    exact hw
  exact ⟨fun w hw hwe => property_lookup_error (m + 1) h e p z o w a ho hp (hget w hw) hwe,
    fun w hw hwl => property_lookup m h e p z o w a ho hp (hget w hw) hwl⟩

/-- Witness for C38: the empty dictionary `d` of `dict_state`, with the symbol `zz`
that is unbound everywhere, and, after `(def {x} 5)`, with the symbol `x`. -/
theorem C38_property_lookup_reaches_enclosing_witness :
    lval_eval_sexpr (interp 2) dict_state root_env (sexpr [sym "d", sym "zz"]) =
      some (err "Unbound symbol 'zz'" stack_trace, dict_state) ∧
    lval_eval_sexpr (interp 2)
      (dict_state.set_table 0 (lval_table_insert
        (lval_table_insert (lenv_add_builtins (lval_table_alloc 416)) "d" (dict 1))
        "x" (int 5))) root_env
      (sexpr [sym "d", sym "x"]) =
      some (int 5, dict_state.set_table 0 (lval_table_insert
        (lval_table_insert (lenv_add_builtins (lval_table_alloc 416)) "d" (dict 1))
        "x" (int 5))) :=
  ⟨(C38_property_lookup_reaches_enclosing 0 dict_state root_env "d" "zz" (dict 1) 1
      (lval_table_alloc 4) (Or.inr rfl) rfl rfl rfl).1 _ rfl rfl,
    (C38_property_lookup_reaches_enclosing 0
      (dict_state.set_table 0 (lval_table_insert
        (lval_table_insert (lenv_add_builtins (lval_table_alloc 416)) "d" (dict 1))
        "x" (int 5))) root_env "d" "x" (dict 1) 1
      (lval_table_alloc 4) (Or.inr rfl) rfl rfl rfl).2 _ rfl rfl⟩

/-- C38 (counterexample). With the empty dictionary `d` and the record instance `i`,
whose properties are `x` and `y`, the symbol `z` is a key of neither. After
`(def {z} 5)` in the root environment, `(d z)` and `(i z)` return 5, the value that
`z` is bound to outside the object, and not an Error. -/
theorem C38_counterexample :
    (dict_state.table 1).bind (fun t => lval_table_get t "z") = none ∧
    ((builtin_load_str (interp 4) root_env [sexpr [sym "def", qexpr [sym "z"], int 5]]
        dict_state).bind
      (fun r => (lval_eval (interp 4) r.2 root_env (sexpr [sym "d", sym "z"])).map
        Prod.fst)) = some (int 5) ∧
    (instance_state.table 1).bind (fun t => lval_table_get t "z") = none ∧
    ((builtin_load_str (interp 4) root_env [sexpr [sym "def", qexpr [sym "z"], int 5]]
        instance_state).bind
      (fun r => (lval_eval (interp 4) r.2 root_env (sexpr [sym "i", sym "z"])).map
        Prod.fst)) = some (int 5) :=
  ⟨rfl, rfl, rfl, rfl⟩

/-! ### The parser at a `:` without key or value -/

theorem read_expr_tokv (f : Nat) (s : List Char) (acc : List lval) (i : Nat) (close : Char)
    (errno : Bool) (tok suf : List Char) (hd : s.drop i = tok ++ suf)
    (hne : tok ≠ []) (hall : ∀ c ∈ tok, symbol_char c = true)
    (hsuf : ∀ c ∈ suf.head?, symbol_char c = false)
    (hclose : symbol_char close = false) :
    read_expr (f + 1) s acc i close errno =
      read_expr f s (acc ++ [token_value errno (String.mk tok)]) (i + tok.length) close
        (string_to_number errno (String.mk tok)).2 := by
  obtain ⟨c, rest, rfl⟩ := List.exists_cons_of_ne_nil hne
  obtain ⟨h0, hi⟩ := drop_char_at s i c (rest ++ suf) (by rw [hd]; rfl)
  have hsc := hall c (List.mem_cons_self _ _)
  have hc := symbol_char_facts c hsc
  have hcc : c ≠ close := by
    intro h; rw [h] at hsc; rw [hsc] at hclose; exact absurd hclose (by simp)
  have ht : (s.drop i).takeWhile symbol_char = c :: rest := by
    rw [hd]
    cases suf with
    | nil =>
      rw [List.append_nil, List.takeWhile_eq_self_iff]
      exact hall
    | cons d suf1 =>
      have hdn : symbol_char d = false := hsuf d rfl
      rw [List.takeWhile_append_of_pos (by simpa using hall)]
      simp [List.takeWhile, hdn]
  have hrs : read_sym errno s i = (token_value errno (String.mk (c :: rest)),
      i + (c :: rest).length, (string_to_number errno (String.mk (c :: rest))).2) := by
    simp only [read_sym, ht, token_value]
    rfl
  rw [read_expr]
  simp only [h0, hrs]
  rw [if_pos ⟨hi, hcc⟩, if_neg hc.2.1, if_neg (by rw [hc.2.2.1]; exact Bool.false_ne_true),
    if_neg hc.2.2.2.1, if_neg hc.2.2.2.2.1, if_neg hc.2.2.2.2.2.1, if_neg hc.2.2.2.2.2.2, if_pos hsc]

/-- The step of `read_expr` at a `:` when the list read so far is empty: the key is
taken from `child(v, count(v) - 1)` with `count(v) = 0`. -/
theorem read_expr_colon_first (f : Nat) (s : List Char) (i : Nat) (close : Char)
    (errno : Bool) (rest : List Char) (hd : s.drop i = ':' :: rest) (hc : close ≠ ':') :
    read_expr (f + 1) s [] i close errno = none := by
  obtain ⟨h0, hi⟩ := drop_char_at s i _ _ hd
  rw [read_expr]
  simp only [h0]
  rw [if_pos ⟨hi, fun h => hc h.symm⟩, if_neg (by decide), if_neg (by decide), if_neg (by decide),
    if_neg (by decide), if_neg (by decide), if_pos trivial]
  cases read_expr f s [] (i + 1) close errno with
  | none => rfl
  | some r => rfl

/-- The step of `read_expr` at a `:` when the continuation read after it holds no
value: the value is taken from `child(tmp, 0)` with `count(tmp) = 0`. -/
theorem read_expr_colon_last (f : Nat) (s : List Char) (acc : List lval) (i : Nat)
    (close : Char) (errno : Bool) (rest : List Char) (hd : s.drop i = ':' :: rest)
    (hc : close ≠ ':')
    (ht : ∀ r, read_expr f s [] (i + 1) close errno = some r → r.1 = []) :
    read_expr (f + 1) s acc i close errno = none := by
  obtain ⟨h0, hi⟩ := drop_char_at s i _ _ hd
  rw [read_expr]
  simp only [h0]
  rw [if_pos ⟨hi, fun h => hc h.symm⟩, if_neg (by decide), if_neg (by decide), if_neg (by decide),
    if_neg (by decide), if_neg (by decide), if_pos trivial]
  cases hr : read_expr f s [] (i + 1) close errno with
  | none => rfl
  | some r =>
    obtain ⟨tmp, j, e1⟩ := r
    have := ht _ hr
    simp only at this
    subst this
    cases acc.getLast? with
    | none => rfl
    | some k => cases k <;> rfl

/-- C32 (failing inputs). A `:` with nothing before it in its list, as in `:1` and
`(:a)`, makes `read_expr` take the key from `child(v, count(v) - 1)` of the empty
list `v`; a `:` with no value after it before the list ends, as in `(dict k:)` and
`k:`, makes it take the value from `child(tmp, 0)` of the empty list `tmp`. Both
fail the assertion `i < count(v)` of `child`, and no tree is returned, whatever the
fuel of the model. A string that ends in a backslash and a first line `#!` without
an end of line are read past the end of the text. A `:` after a number or a string
does give the Error value. -/
theorem C32_colon_without_key_or_value :
    (∀ fuel, read_expr fuel ":1".toList [] 0 (Char.ofNat 0) false = none) ∧
    (∀ fuel, read_expr fuel "(:a)".toList [] 0 (Char.ofNat 0) false = none) ∧
    (∀ fuel, read_expr (fuel + 1) "(dict k:)".toList [] 8 ')' false = some ([], 9, false)) ∧
    (∀ fuel, read_expr fuel "(dict k:)".toList [] 0 (Char.ofNat 0) false = none) ∧
    (∀ fuel, read_expr fuel "k:".toList [] 0 (Char.ofNat 0) false = none) ∧
    lval_read_expr false ":1" 0 (Char.ofNat 0) = none ∧
    lval_read_expr false "(:a)" 0 (Char.ofNat 0) = none ∧
    lval_read_expr false "(dict k:)" 0 (Char.ofNat 0) = none ∧
    lval_read_expr false "k:" 0 (Char.ofNat 0) = none ∧
    lval_read_expr false "\"a\\" 0 (Char.ofNat 0) = none ∧
    lval_read_expr false "#!x" 0 (Char.ofNat 0) = none ∧
    lval_read_expr false "1:2" 0 (Char.ofNat 0) =
      some (sexpr [lval_err "Encountered unexpected key:value pair"], false) ∧
    lval_read_expr false "(f \"a\":2)" 0 (Char.ofNat 0) =
      some (sexpr [sexpr [sym "f", lval_err "Encountered unexpected key:value pair"]],
        false) := by
  have hclose : ∀ fuel, read_expr (fuel + 1) "(dict k:)".toList [] 8 ')' false =
      some ([], 9, false) := fun fuel =>
    read_expr_close fuel "(dict k:)".toList [] 8 ')' false [] rfl
  refine ⟨?_, ?_, hclose, ?_, ?_, rfl, rfl, rfl, rfl, rfl, rfl, rfl, rfl⟩
  · intro fuel
    cases fuel with
    | zero => rfl
    | succ f => exact read_expr_colon_first f _ 0 _ false _ rfl (by decide)
  · intro fuel
    cases fuel with
    | zero => rfl
    | succ f =>
      have inner : read_expr f "(:a)".toList [] 1 ')' false = none := by
        cases f with
        | zero => rfl
        | succ f => exact read_expr_colon_first f _ 1 _ false _ rfl (by decide)
      rw [read_expr]
      rw [if_pos (by decide), if_neg (by decide), if_neg (by decide), if_neg (by decide),
        if_pos (by decide)]
      simp only [inner]
  · intro fuel
    cases fuel with
    | zero => rfl
    | succ f =>
      have inner : read_expr f "(dict k:)".toList [] 1 ')' false = none := by
        cases f with
        | zero => rfl
        | succ f =>
          rw [read_expr_tokv f "(dict k:)".toList [] 1 ')' false "dict".toList " k:)".toList
            rfl (by decide) (by decide) (by decide) (by decide)]
          show read_expr f "(dict k:)".toList [sym "dict"] 5 ')' false = none
          cases f with
          | zero => rfl
          | succ f =>
            rw [read_expr_space f "(dict k:)".toList _ 5 ')' _ "k:)".toList rfl (by decide)]
            show read_expr f "(dict k:)".toList [sym "dict"] 6 ')' false = none
            cases f with
            | zero => rfl
            | succ f =>
              rw [read_expr_tokv f "(dict k:)".toList _ 6 ')' _ "k".toList ":)".toList
                rfl (by decide) (by decide) (by decide) (by decide)]
              show read_expr f "(dict k:)".toList [sym "dict", sym "k"] 7 ')' false = none
              cases f with
              | zero => rfl
              | succ f =>
                refine read_expr_colon_last f "(dict k:)".toList _ 7 ')' _ ")".toList rfl
                  (by decide) ?_
                intro r hr
                cases f with
                | zero => cases hr
                | succ f =>
                  rw [hclose f] at hr
                  cases hr
                  rfl
      rw [read_expr]
      rw [if_pos (by decide), if_neg (by decide), if_neg (by decide), if_neg (by decide),
        if_pos (by decide)]
      simp only [inner]
  · intro fuel
    cases fuel with
    | zero => rfl
    | succ f =>
      rw [read_expr_tokv f "k:".toList [] 0 (Char.ofNat 0) false "k".toList ":".toList
        rfl (by decide) (by decide) (by decide) (by decide)]
      show read_expr f "k:".toList [sym "k"] 1 (Char.ofNat 0) false = none
      cases f with
      | zero => rfl
      | succ f =>
        refine read_expr_colon_last f "k:".toList _ 1 (Char.ofNat 0) _ [] rfl (by decide) ?_
        intro r hr
        cases f with
        | zero => cases hr
        | succ f =>
          have he := read_expr_end f "k:".toList [] false
          have he2 : read_expr (f + 1) "k:".toList [] (1 + 1) (Char.ofNat 0) false =
              some ([], 3, false) := he
          rw [he2] at hr
          cases hr
          rfl

/-! ### Typed properties and `set-prop` -/

/-- C39 (failing input). The type `P` declares `y:Integer`, and `i` is an instance
of it. `(set-prop {i y} "s")` returns the instance, not an Error, and afterwards the
property `y` holds the String `"s"`; `(set-prop {i y} 0x07)` stores the Byte as it
is, not cast to Integer. The construction `(P x:1 y:"s")` is rejected with an Error
and `(P x:1 y:0x07)` stores the Integer 7; likewise `(set {n} "s")` on a variable
declared as `n:Integer` is rejected and `(set {n} 0x07)` stores the Integer 7. -/
theorem C39_set_prop_skips_the_type :
    (lval_eval (interp 5) instance_state root_env
      (sexpr [sym "set-prop", qexpr [sym "i", sym "y"], str "s"])).map
      (fun r => (r.1, (r.2.table 1).bind (fun t => lval_table_get t "y"))) =
      some (inst point_type 1, some (str "s")) ∧
    (lval_eval (interp 5) instance_state root_env
      (sexpr [sym "set-prop", qexpr [sym "i", sym "y"], byte 7])).map
      (fun r => (r.1, (r.2.table 1).bind (fun t => lval_table_get t "y"))) =
      some (inst point_type 1, some (byte 7)) ∧
    (lval_eval (interp 5) type_state root_env
      (sexpr [sym "P", kvpair (sym "x") (int 1), kvpair (sym "y") (str "s")])).map
      (fun r => r.1) = some (err "Property: Type mismatch" stack_trace) ∧
    (lval_eval (interp 5) type_state root_env
      (sexpr [sym "P", kvpair (sym "x") (int 1), kvpair (sym "y") (byte 7)])).map
      (fun r => (r.1, (r.2.table 1).bind (fun t => lval_table_get t "y"))) =
      some (inst point_type 1, some (int 7)) ∧
    (builtin_load_str (interp 6) root_env
      [sexpr [sym "def", qexpr [kvpair (sym "n") (ptype LVAL_INT)], int 1],
        sexpr [sym "set", qexpr [sym "n"], str "s"]] root_heap).map
      (fun r => (r.1, lenv_get r.2 root_env "n")) =
      some (err "Variable: Type mismatch" stack_trace, some (int 1)) ∧
    (builtin_load_str (interp 6) root_env
      [sexpr [sym "def", qexpr [kvpair (sym "n") (ptype LVAL_INT)], int 1],
        sexpr [sym "set", qexpr [sym "n"], byte 7]] root_heap).map
      (fun r => (r.1, lenv_get r.2 root_env "n")) =
      some (sexpr [], some (int 7)) :=
  ⟨rfl, rfl, rfl, rfl, rfl, rfl⟩

/-! ### Printing and reading Integers and Bytes -/

theorem string_to_number_hex_stale (ds : List Char) (h2 : 2 ≤ ds.length)
    (h8 : ds.length ≤ 8) :
    string_to_number true (String.mk ('0' :: 'x' :: ds)) =
      (some (lval_err "Invalid number"), true) := by
  have hlen : ('0' :: 'x' :: ds).length = ds.length + 2 := rfl
  have hc0 : char_at ('0' :: 'x' :: ds) 0 = '0' := rfl
  have hc1 : char_at ('0' :: 'x' :: ds) 1 = 'x' := rfl
  have htl : (String.mk ('0' :: 'x' :: ds)).toList = '0' :: 'x' :: ds := rfl
  unfold string_to_number
  simp only [htl, hlen, hc0, hc1]
  rw [if_neg (by omega), if_pos ⟨by omega, by omega, trivial, trivial⟩]
  rfl

/-- C40 (the identity and its failure). For every Integer `n` of the range of
`long`, `string_to_number` applied to the text that `lval_sprint` produces for `n`
returns the Integer `n`, whatever `errno` holds. For every Byte `b`, applied to the
text that `lval_sprint` produces for `b` it returns the Byte `b` when `errno` is
clear; when `errno` still holds `ERANGE` from an earlier conversion it returns the
Error `Invalid number`, because the hexadecimal branch tests `errno` without
clearing it first, as the decimal branch does. This is the state in which the second
token of the text `99999999999999999999 0x0A` is read. -/
theorem C40_print_then_read (k : Nat) (h : heap) (q : Bool) :
    (∀ n : Int, - 2 ^ 63 ≤ n → n < 2 ^ 63 → ∀ errno,
      (lval_sprint (k + 1) h (int n) q).map (string_to_number errno) =
        some (some (int n), false)) ∧
    (∀ b : Nat, b < 256 →
      (lval_sprint (k + 1) h (byte b) q).map (string_to_number false) =
        some (some (byte b), false) ∧
      (lval_sprint (k + 1) h (byte b) q).map (string_to_number true) =
        some (some (lval_err "Invalid number"), true)) ∧
    lval_read_expr false "99999999999999999999 0x0A" 0 (Char.ofNat 0) =
      some (sexpr [lval_err "Invalid integer", lval_err "Invalid number"], true) := by
  refine ⟨fun n h1 h2 errno => ?_, fun b hb => ⟨?_, ?_⟩, rfl⟩
  · have hs : lval_sprint (k + 1) h (int n) q = some (toString n) := rfl
    rw [hs]
    exact congrArg some ((int_token n h1 h2).2.2 errno)
  · have hs : lval_sprint (k + 1) h (byte b) q =
        some (String.mk ('0' :: 'x' :: [hex_digit (b / 16 % 16), hex_digit (b % 16)])) := rfl
    rw [hs]
    exact congrArg some (byte_token b hb).2
  · have hs : lval_sprint (k + 1) h (byte b) q =
        some (String.mk ('0' :: 'x' :: [hex_digit (b / 16 % 16), hex_digit (b % 16)])) := rfl
    rw [hs]
    exact congrArg some (string_to_number_hex_stale _ (by simp) (by simp))

/-- Witness for C40: the Integer -42 and the Byte 10, printed as `0x0A`. -/
theorem C40_print_then_read_witness :
    (lval_sprint 1 root_heap (int (-42)) true).map (string_to_number true) =
      some (some (int (-42)), false) ∧
    (lval_sprint 1 root_heap (byte 10) true).map (string_to_number false) =
      some (some (byte 10), false) ∧
    (lval_sprint 1 root_heap (byte 10) true).map (string_to_number true) =
      some (some (lval_err "Invalid number"), true) :=
  ⟨(C40_print_then_read 0 root_heap true).1 (-42) (by decide) (by decide) true,
    ((C40_print_then_read 0 root_heap true).2.1 10 (by decide)).1,
    ((C40_print_then_read 0 root_heap true).2.1 10 (by decide)).2⟩

/-! ### Key-value pairs in the parser -/

theorem string_to_number_none (part : String)
    (h : (string_to_number false part).1 = none) (errno : Bool) :
    string_to_number errno part = (none, errno) := by
  unfold string_to_number at h ⊢
  simp only at h ⊢
  split_ifs at h ⊢ <;> rfl

theorem symbol_token_spec (t : List Char) (h : symbol_token t = true) (errno : Bool) :
    t ≠ [] ∧ (∀ c ∈ t, symbol_char c = true) ∧
    token_value errno (String.mk t) = sym (String.mk t) ∧
    (string_to_number errno (String.mk t)).2 = errno := by
  simp only [symbol_token, Bool.and_eq_true, Bool.not_eq_true', List.isEmpty_eq_false,
    List.all_eq_true, Option.isNone_iff_eq_none] at h
  obtain ⟨⟨⟨h1, h2⟩, h3⟩, h4⟩ := h
  have hn := string_to_number_none (String.mk t) h3 errno
  refine ⟨h1, h2, ?_, by rw [hn]⟩
  simp only [token_value, hn, h4]

theorem read_expr_open_round (f : Nat) (s : List Char) (acc : List lval) (i : Nat)
    (close : Char) (errno e1 : Bool) (rest : List Char) (x : List lval) (j : Nat)
    (hd : s.drop i = '(' :: rest) (hc : close ≠ '(')
    (hx : read_expr f s [] (i + 1) ')' errno = some (x, j, e1)) :
    read_expr (f + 1) s acc i close errno = read_expr f s (acc ++ [sexpr x]) j close e1 := by
  obtain ⟨h0, hi⟩ := drop_char_at s i _ _ hd
  rw [read_expr]
  simp only [h0, hx]
  rw [if_pos ⟨hi, fun h => hc h.symm⟩, if_neg (by decide), if_neg (by decide), if_neg (by decide),
    if_pos trivial]

theorem read_expr_colon (f : Nat) (s : List Char) (acc : List lval) (i : Nat)
    (close : Char) (errno e1 : Bool) (rest : List Char) (key : String) (val : lval)
    (more : List lval) (j : Nat)
    (hd : s.drop i = ':' :: rest) (hc : close ≠ ':')
    (hx : read_expr f s [] (i + 1) close errno = some (val :: more, j, e1)) :
    read_expr (f + 1) s (acc ++ [sym key]) i close errno =
      read_expr f s (acc ++ [kvpair (sym key) val] ++ more) (j - 1) close e1 := by
  obtain ⟨h0, hi⟩ := drop_char_at s i _ _ hd
  rw [read_expr]
  have hl : (acc ++ [sym key]).getLast? = some (sym key) := by simp
  have hdl : (acc ++ [sym key]).dropLast = acc := by simp
  simp only [h0, hx, hl, hdl]
  rw [if_pos ⟨hi, fun h => hc h.symm⟩, if_neg (by decide), if_neg (by decide), if_neg (by decide),
    if_neg (by decide), if_neg (by decide), if_pos trivial]

theorem read_str_loop_plain (s : List Char) (close : Char) (t : List Char) :
    ∀ (fuel i : Nat) (part suf : List Char),
      (∀ c ∈ t, c ≠ close ∧ c ≠ '\\' ∧ c ≠ Char.ofNat 0) →
      s.drop i = t ++ close :: suf → t.length + 1 ≤ fuel →
      read_str_loop s close fuel i part =
        some (str (String.mk (part ++ t)), i + t.length + 1) := by
  induction t with
  | nil =>
    intro fuel i part suf _ hd hf
    obtain ⟨f1, rfl⟩ : ∃ f1, fuel = f1 + 1 := ⟨fuel - 1, by simp at hf; omega⟩
    obtain ⟨h0, _⟩ := drop_char_at s i _ _ hd
    rw [read_str_loop, if_pos h0]
    simp
  | cons c rest ih =>
    intro fuel i part suf hall hd hf
    obtain ⟨f1, rfl⟩ : ∃ f1, fuel = f1 + 1 := ⟨fuel - 1, by simp at hf; omega⟩
    obtain ⟨h0, _⟩ := drop_char_at s i c (rest ++ close :: suf) hd
    have hc := hall c (List.mem_cons_self _ _)
    rw [read_str_loop, h0, if_neg hc.1, if_neg hc.2.2, if_neg hc.2.1]
    have hd2 : s.drop (i + 1) = rest ++ close :: suf := by
      have := drop_add_of_drop s i [c] _ hd
      simpa using this
    rw [ih f1 (i + 1) (part ++ [c]) suf (fun x hx => hall x (List.mem_cons_of_mem _ hx)) hd2
      (by simp at hf; omega)]
    simp only [List.append_assoc, List.singleton_append, List.length_cons]
    have hnum : i + 1 + rest.length + 1 = i + (rest.length + 1) + 1 := by omega
    rw [hnum]

theorem read_expr_str (f : Nat) (s : List Char) (acc : List lval) (i : Nat) (close : Char)
    (errno : Bool) (t suf : List Char)
    (hd : s.drop i = Char.ofNat 34 :: (t ++ Char.ofNat 34 :: suf)) (hc : close ≠ Char.ofNat 34)
    (hall : ∀ c ∈ t, c ≠ Char.ofNat 34 ∧ c ≠ '\\' ∧ c ≠ Char.ofNat 0) :
    read_expr (f + 1) s acc i close errno =
      read_expr f s (acc ++ [str (String.mk t)]) (i + (t.length + 2)) close errno := by
  obtain ⟨h0, hi⟩ := drop_char_at s i _ _ hd
  have hd2 : s.drop (i + 1) = t ++ Char.ofNat 34 :: suf := by
    have := drop_add_of_drop s i [Char.ofNat 34] _ hd
    simpa using this
  have hlen : (s.drop (i + 1)).length = s.length - (i + 1) := List.length_drop _ _
  rw [hd2] at hlen
  simp only [List.length_append, List.length_cons] at hlen
  have hrs : read_str s (i + 1) (Char.ofNat 34) =
      some (str (String.mk t), i + 1 + t.length + 1) := by
    have := read_str_loop_plain s (Char.ofNat 34) t (s.length + 1) (i + 1) [] suf
      hall hd2 (by omega)
    simpa [read_str] using this
  rw [read_expr]
  simp only [h0, hrs]
  rw [if_pos ⟨hi, fun h => hc h.symm⟩, if_neg (by decide), if_neg (by decide), if_neg (by decide),
    if_neg (by decide), if_neg (by decide), if_neg (by decide), if_neg (by decide),
    if_pos (Or.inl trivial)]
  have hnum : i + 1 + t.length + 1 = i + (t.length + 2) := by omega
  rw [hnum]

theorem form_text_ne_nil (v : form) (hv : v.well_formed = true) : v.text ≠ [] := by
  cases v with
  | token t =>
    simp only [form.well_formed, Bool.and_eq_true, Bool.not_eq_true', List.isEmpty_eq_false] at hv
    simp only [form.text]
    exact hv.1
  | string t => simp [form.text]
  | round c => simp [form.text]
  | curly c => simp [form.text]

theorem read_forms_of_form (d : Nat) (K : Char) (hK1 : symbol_char K = false) (hK2 : K ≠ ' ')
    (hK3 : K ≠ '(') (hK4 : K ≠ Char.ofNat 123) (hK5 : K ≠ Char.ofNat 34)
    (hform : ∀ (v : form), v.well_formed = true → v.depth ≤ d →
      ∀ (f : Nat) (s : List Char) (acc : List lval) (i : Nat) (close : Char) (suf : List Char)
        (errno : Bool),
        s.drop i = v.text ++ suf → (∀ c ∈ suf.head?, symbol_char c = false) →
        symbol_char close = false → close ≠ '(' → close ≠ Char.ofNat 123 →
        close ≠ Char.ofNat 34 → s.length + 2 ≤ f + 1 + i →
        read_expr (f + 1) s acc i close errno =
          read_expr f s (acc ++ [(v.read errno).1]) (i + v.text.length) close (v.read errno).2) :
    ∀ (c : List form), forms_well_formed c = true → forms_depth c ≤ d →
      ∀ (f : Nat) (s : List Char) (acc : List lval) (p : Nat) (suf : List Char) (errno : Bool),
        s.drop p = forms_text c ++ K :: suf → s.length + 2 ≤ f + p →
        read_expr f s acc p K errno =
          some (acc ++ (forms_read c errno).1, p + (forms_text c).length + 1,
            (forms_read c errno).2) := by
  intro c
  induction c with
  | nil =>
    intro _ _ f s acc p suf errno hd hf
    simp only [forms_text, List.nil_append] at hd
    obtain ⟨_, hp⟩ := drop_char_at s p _ _ hd
    obtain ⟨f1, rfl⟩ : ∃ f1, f = f1 + 1 := ⟨f - 1, by omega⟩
    rw [read_expr_close f1 s acc p K errno suf hd]
    simp [forms_read, forms_text]
  | cons v rest ih =>
    intro hwf hdep f s acc p suf errno hd hf
    simp only [forms_well_formed, Bool.and_eq_true] at hwf
    simp only [forms_depth] at hdep
    have hvne := form_text_ne_nil v hwf.1
    have hlen : (s.drop p).length = s.length - p := List.length_drop _ _
    have htl : 1 ≤ v.text.length := by
      cases htv : v.text with
      | nil => exact absurd htv hvne
      | cons _ _ => simp
    cases rest with
    | nil =>
      have htt : forms_text [v] = v.text := by simp [forms_text]
      rw [htt] at hd ⊢
      rw [hd] at hlen
      simp only [List.length_append, List.length_cons] at hlen
      obtain ⟨f1, rfl⟩ : ∃ f1, f = f1 + 1 := ⟨f - 1, by omega⟩
      rw [hform v hwf.1 (by omega) f1 s acc p K _ errno hd (by simpa using hK1) hK1 hK3 hK4 hK5
        (by omega)]
      obtain ⟨f2, rfl⟩ : ∃ f2, f1 = f2 + 1 := ⟨f1 - 1, by omega⟩
      rw [read_expr_close f2 s _ _ _ _ suf (drop_add_of_drop s p _ _ hd)]
      simp [forms_read]
    | cons w rest2 =>
      have htt : forms_text (v :: w :: rest2) = v.text ++ ' ' :: forms_text (w :: rest2) := by
        simp [forms_text]
      rw [htt] at hd ⊢
      rw [List.append_assoc] at hd
      rw [hd] at hlen
      simp only [List.length_append, List.length_cons] at hlen
      obtain ⟨f1, rfl⟩ : ∃ f1, f = f1 + 1 := ⟨f - 1, by omega⟩
      rw [hform v hwf.1 (by omega) f1 s acc p K _ errno hd (by simp; decide) hK1 hK3 hK4 hK5
        (by omega)]
      obtain ⟨f2, rfl⟩ : ∃ f2, f1 = f2 + 1 := ⟨f1 - 1, by omega⟩
      have hd2 := drop_add_of_drop s p _ _ hd
      rw [List.cons_append] at hd2
      rw [read_expr_space f2 s _ _ _ _ _ hd2 hK2]
      have hd3 : s.drop (p + v.text.length + 1) =
          forms_text (w :: rest2) ++ K :: suf := by
        have := drop_add_of_drop s (p + v.text.length) [' '] _ hd2
        simpa using this
      rw [ih hwf.2 (by omega) f2 s (acc ++ [(v.read errno).1]) _ suf _ hd3 (by omega)]
      have hfr : forms_read (v :: w :: rest2) errno =
          ((v.read errno).1 :: (forms_read (w :: rest2) (v.read errno).2).1,
            (forms_read (w :: rest2) (v.read errno).2).2) := by
        rw [forms_read]
      rw [hfr]
      simp only [List.append_assoc, List.singleton_append, List.length_append, List.length_cons]
      have hnum : p + v.text.length + 1 + (forms_text (w :: rest2)).length + 1 =
          p + (v.text.length + ((forms_text (w :: rest2)).length + 1)) + 1 := by omega
      rw [hnum]

theorem read_form (d : Nat) :
    ∀ (v : form), v.well_formed = true → v.depth ≤ d →
      ∀ (f : Nat) (s : List Char) (acc : List lval) (i : Nat) (close : Char) (suf : List Char)
        (errno : Bool),
        s.drop i = v.text ++ suf → (∀ c ∈ suf.head?, symbol_char c = false) →
        symbol_char close = false → close ≠ '(' → close ≠ Char.ofNat 123 →
        close ≠ Char.ofNat 34 → s.length + 2 ≤ f + 1 + i →
        read_expr (f + 1) s acc i close errno =
          read_expr f s (acc ++ [(v.read errno).1]) (i + v.text.length) close
            (v.read errno).2 := by
  have base : ∀ (v : form), v.well_formed = true → v.depth = 0 →
      ∀ (f : Nat) (s : List Char) (acc : List lval) (i : Nat) (close : Char) (suf : List Char)
        (errno : Bool),
        s.drop i = v.text ++ suf → (∀ c ∈ suf.head?, symbol_char c = false) →
        symbol_char close = false → close ≠ '(' → close ≠ Char.ofNat 123 →
        close ≠ Char.ofNat 34 → s.length + 2 ≤ f + 1 + i →
        read_expr (f + 1) s acc i close errno =
          read_expr f s (acc ++ [(v.read errno).1]) (i + v.text.length) close
            (v.read errno).2 := by
    intro v hv hdep f s acc i close suf errno hd hsuf hclose ho1 ho2 ho3 hf
    cases v with
    | token t =>
      simp only [form.well_formed, Bool.and_eq_true, Bool.not_eq_true', List.isEmpty_eq_false,
        List.all_eq_true] at hv
      simp only [form.text] at hd ⊢
      simp only [form.read]
      exact read_expr_tokv f s acc i close errno t suf hd hv.1 hv.2 hsuf hclose
    | string t =>
      simp only [form.well_formed, List.all_eq_true, Bool.and_eq_true, bne_iff_ne, ne_eq] at hv
      simp only [form.text, List.cons_append, List.append_assoc, List.singleton_append] at hd
      simp only [form.text, form.read, List.length_cons, List.length_append,
        List.length_singleton, List.length_nil]
      exact read_expr_str f s acc i close errno t suf hd ho3
        (fun c hc => ⟨(hv c hc).1.1, (hv c hc).1.2, (hv c hc).2⟩)
    | round c => simp [form.depth] at hdep
    | curly c => simp [form.depth] at hdep
  induction d with
  | zero =>
    intro v hv hdep
    exact base v hv (by omega)
  | succ d ih =>
    intro v hv hdep f s acc i close suf errno hd hsuf hclose ho1 ho2 ho3 hf
    cases v with
    | token t => exact base _ hv rfl f s acc i close suf errno hd hsuf hclose ho1 ho2 ho3 hf
    | string t => exact base _ hv rfl f s acc i close suf errno hd hsuf hclose ho1 ho2 ho3 hf
    | round c =>
      simp only [form.well_formed] at hv
      simp only [form.depth, Nat.add_le_add_iff_right] at hdep
      simp only [form.text, List.cons_append, List.append_assoc, List.singleton_append] at hd
      have hd1 : s.drop (i + 1) = forms_text c ++ ')' :: suf := by
        have := drop_add_of_drop s i ['('] _ hd
        simpa using this
      have hx := read_forms_of_form d ')' (by decide) (by decide) (by decide) (by decide)
        (by decide) ih c hv hdep f s [] (i + 1) suf errno hd1 (by omega)
      rw [read_expr_open_round f s acc i close errno _ _ _ _ hd ho1 hx]
      simp only [form.text, form.read, List.nil_append, List.length_cons, List.length_append,
        List.length_singleton, List.length_nil, Nat.zero_add]
      have hnum : i + 1 + (forms_text c).length + 1 = i + ((forms_text c).length + 1 + 1) := by
        omega
      rw [hnum]
    | curly c =>
      simp only [form.well_formed] at hv
      simp only [form.depth, Nat.add_le_add_iff_right] at hdep
      simp only [form.text, List.cons_append, List.append_assoc, List.singleton_append] at hd
      have hd1 : s.drop (i + 1) = forms_text c ++ Char.ofNat 125 :: suf := by
        have := drop_add_of_drop s i [Char.ofNat 123] _ hd
        simpa using this
      have hx := read_forms_of_form d (Char.ofNat 125) (by decide) (by decide) (by decide)
        (by decide) (by decide) ih c hv hdep f s [] (i + 1) suf errno hd1 (by omega)
      rw [read_expr_open f s acc i close errno _ _ _ _ hd ho2 hx]
      simp only [form.text, form.read, List.nil_append, List.length_cons, List.length_append,
        List.length_singleton, List.length_nil, Nat.zero_add]
      have hnum : i + 1 + (forms_text c).length + 1 = i + ((forms_text c).length + 1 + 1) := by
        omega
      rw [hnum]

theorem read_pairs (ps : List (List Char × form)) :
    (∀ p ∈ ps, symbol_token p.1 = true ∧ p.2.well_formed = true) →
    ∀ (f : Nat) (s : List Char) (acc : List lval) (p : Nat) (suf : List Char) (errno : Bool),
      s.drop p = pairs_text ps ++ ')' :: suf → s.length + 2 ≤ f + p →
      read_expr f s acc p ')' errno =
        some (acc ++ (pairs_read ps errno).1, p + (pairs_text ps).length + 1,
          (pairs_read ps errno).2) := by
  induction ps with
  | nil =>
    intro _ f s acc p suf errno hd hf
    simp only [pairs_text, List.nil_append] at hd
    obtain ⟨_, hp⟩ := drop_char_at s p _ _ hd
    obtain ⟨f1, rfl⟩ : ∃ f1, f = f1 + 1 := ⟨f - 1, by omega⟩
    rw [read_expr_close f1 s acc p ')' errno suf hd]
    simp [pairs_read, pairs_text]
  | cons kv rest ih =>
    intro hall f s acc p suf errno hd hf
    obtain ⟨k, v⟩ := kv
    have hkv := hall (k, v) (List.mem_cons_self _ _)
    simp only at hkv
    obtain ⟨hk1, hk2, hk3, hk4⟩ := symbol_token_spec k hkv.1 errno
    have hvne := form_text_ne_nil v hkv.2
    have hkl : 1 ≤ k.length := by
      cases hkk : k with
      | nil => exact absurd hkk hk1
      | cons _ _ => simp
    have hvl : 1 ≤ v.text.length := by
      cases htv : v.text with
      | nil => exact absurd htv hvne
      | cons _ _ => simp
    simp only [pairs_text, List.cons_append] at hd
    have hlen : (s.drop p).length = s.length - p := List.length_drop _ _
    rw [hd] at hlen
    simp only [List.length_append, List.length_cons] at hlen
    -- the blank
    obtain ⟨f1, rfl⟩ : ∃ f1, f = f1 + 1 := ⟨f - 1, by omega⟩
    rw [read_expr_space f1 s acc p ')' errno _ hd (by decide)]
    -- the key
    have hd1 : s.drop (p + 1) = k ++ (':' :: (v.text ++ pairs_text rest) ++ ')' :: suf) := by
      have := drop_add_of_drop s p [' '] _ hd
      simpa using this
    obtain ⟨f2, rfl⟩ : ∃ f2, f1 = f2 + 1 := ⟨f1 - 1, by omega⟩
    rw [read_expr_tokv f2 s acc (p + 1) ')' errno k _ hd1 hk1 hk2 (by simp; decide) (by decide)]
    rw [hk3, hk4]
    -- the colon and what follows it
    have hd2 : s.drop (p + 1 + k.length) = ':' :: (v.text ++ pairs_text rest ++ ')' :: suf) := by
      have := drop_add_of_drop s (p + 1) k _ hd1
      simpa using this
    have hd3 : s.drop (p + 1 + k.length + 1) = v.text ++ (pairs_text rest ++ ')' :: suf) := by
      have := drop_add_of_drop s (p + 1 + k.length) [':'] _ hd2
      simpa using this
    have hd4 : s.drop (p + 1 + k.length + 1 + v.text.length) = pairs_text rest ++ ')' :: suf :=
      drop_add_of_drop s _ _ _ hd3
    have hsuf : ∀ c ∈ (pairs_text rest ++ ')' :: suf).head?, symbol_char c = false := by
      cases rest with
      | nil => simp [pairs_text]; decide
      | cons _ _ => simp [pairs_text]; decide
    obtain ⟨f3, rfl⟩ : ∃ f3, f2 = f3 + 1 := ⟨f2 - 1, by omega⟩
    obtain ⟨f4, rfl⟩ : ∃ f4, f3 = f4 + 1 := ⟨f3 - 1, by omega⟩
    have hx : read_expr (f4 + 1) s [] (p + 1 + k.length + 1) ')' errno =
        some ((v.read errno).1 :: (pairs_read rest (v.read errno).2).1,
          p + 1 + k.length + 1 + v.text.length + (pairs_text rest).length + 1,
          (pairs_read rest (v.read errno).2).2) := by
      rw [read_form v.depth v hkv.2 (le_refl _) f4 s [] _ ')' _ errno hd3 hsuf (by decide)
        (by decide) (by decide) (by decide) (by omega)]
      rw [ih (fun q hq => hall q (List.mem_cons_of_mem _ hq)) f4 s _ _ suf _ hd4 (by omega)]
      simp
    rw [read_expr_colon (f4 + 1) s acc (p + 1 + k.length) ')' errno _ _ (String.mk k) _ _ _ hd2
      (by decide) hx]
    have hd5 : s.drop (p + 1 + k.length + 1 + v.text.length + (pairs_text rest).length + 1 - 1) =
        ')' :: suf := by
      have := drop_add_of_drop s _ _ _ hd4
      simpa using this
    rw [read_expr_close f4 s _ _ ')' _ suf hd5]
    have hpr : pairs_read ((k, v) :: rest) errno =
        (kvpair (sym (String.mk k)) (v.read errno).1 :: (pairs_read rest (v.read errno).2).1,
          (pairs_read rest (v.read errno).2).2) := rfl
    rw [hpr]
    simp only [pairs_text, List.append_assoc, List.singleton_append, List.length_append,
      List.length_cons]
    have hnum : p + 1 + k.length + 1 + v.text.length + (pairs_text rest).length + 1 - 1 + 1 =
        p + (k.length + (v.text.length + (pairs_text rest).length + 1) + 1) + 1 := by omega
    rw [hnum]

theorem read_one_form (v : form) (hv : v.well_formed = true) (errno : Bool) :
    lval_read_expr errno (String.mk v.text) 0 (Char.ofNat 0) =
      some (sexpr [(v.read errno).1], (v.read errno).2) := by
  have hl : (String.mk v.text).length = v.text.length := rfl
  have htl : (String.mk v.text).toList = v.text := rfl
  unfold lval_read_expr
  rw [hl, htl]
  rw [read_form v.depth v hv (le_refl _) (v.text.length + 1) v.text [] 0 (Char.ofNat 0) []
    errno (by simp) (by simp) (by decide) (by decide) (by decide) (by decide) (by omega)]
  have := read_expr_end v.text.length v.text ([] ++ [(v.read errno).1]) (v.read errno).2
  rw [Nat.zero_add, this]
  rfl

/-- C31. For every source text `(f k1:v1 k2:v2 ... kn:vn)`, where `f` and the `vi`
are expressions (a token, a string, or a list of expressions between round or curly
brackets) and every `ki` is a token that reads as a Symbol, the parser returns the
root S-expression that holds one S-expression, whose children are the value of `f`
followed by exactly the `n` pairs `KVPair{k1, v1}, ..., KVPair{kn, vn}` in source
order. The value in each pair is the one the parser reads from the text of `vi`
alone, in the state of `errno` left by what was read before it. -/
theorem C31_key_value_pairs (f : form) (ps : List (List Char × form)) (errno : Bool)
    (hf : f.well_formed = true)
    (hps : ∀ p ∈ ps, symbol_token p.1 = true ∧ p.2.well_formed = true) :
    lval_read_expr errno (String.mk ('(' :: (f.text ++ (pairs_text ps ++ [')'])))) 0
        (Char.ofNat 0) =
      some (sexpr [sexpr ((f.read errno).1 :: (pairs_read ps (f.read errno).2).1)],
        (pairs_read ps (f.read errno).2).2) ∧
    (pairs_read ps (f.read errno).2).1.length = ps.length ∧
    (∀ (v : form) (e : Bool), v.well_formed = true →
      lval_read_expr e (String.mk v.text) 0 (Char.ofNat 0) =
        some (sexpr [(v.read e).1], (v.read e).2)) := by
  refine ⟨?_, ?_, fun v e hv => read_one_form v hv e⟩
  · have hfne := form_text_ne_nil f hf
    have hfl : 1 ≤ f.text.length := by
      cases htv : f.text with
      | nil => exact absurd htv hfne
      | cons _ _ => simp
    generalize hs : '(' :: (f.text ++ (pairs_text ps ++ [')'])) = s
    have hl : (String.mk s).length = s.length := rfl
    have htl : (String.mk s).toList = s := rfl
    have hlen : s.length = 1 + f.text.length + (pairs_text ps).length + 1 := by
      rw [← hs]
      simp only [List.length_cons, List.length_append, List.length_nil]
      omega
    have hd0 : s.drop 0 = '(' :: (f.text ++ (pairs_text ps ++ [')'])) := by
      rw [List.drop_zero, hs]
    have hd1 : s.drop (0 + 1) = f.text ++ (pairs_text ps ++ [')']) := by
      rw [← hs]
      rfl
    have hd2 : s.drop (0 + 1 + f.text.length) = pairs_text ps ++ ')' :: [] :=
      drop_add_of_drop s _ _ _ hd1
    have hsuf : ∀ c ∈ (pairs_text ps ++ [')']).head?, symbol_char c = false := by
      cases ps with
      | nil => simp [pairs_text]; decide
      | cons _ _ => simp [pairs_text]; decide
    have hx : read_expr (s.length + 1) s [] (0 + 1) ')' errno =
        some ((f.read errno).1 :: (pairs_read ps (f.read errno).2).1, s.length,
          (pairs_read ps (f.read errno).2).2) := by
      rw [read_form f.depth f hf (le_refl _) s.length s [] _ ')' _ errno hd1 hsuf (by decide)
        (by decide) (by decide) (by decide) (by omega)]
      rw [read_pairs ps hps s.length s _ _ [] _ hd2 (by omega)]
      simp only [List.nil_append, List.singleton_append]
      have hnum : 0 + 1 + f.text.length + (pairs_text ps).length + 1 = s.length := by omega
      rw [hnum]
    unfold lval_read_expr
    rw [hl, htl]
    rw [read_expr_open_round (s.length + 1) s [] 0 (Char.ofNat 0) errno _ _ _ _ hd0 (by decide)
      hx]
    rw [read_expr_end s.length s _ _]
    rfl
  · generalize (f.read errno).2 = e
    induction ps generalizing e with
    | nil => rfl
    | cons p rest ih =>
      have hpr : pairs_read (p :: rest) e =
          (kvpair (sym (String.mk p.1)) (p.2.read e).1 :: (pairs_read rest (p.2.read e).2).1,
            (pairs_read rest (p.2.read e).2).2) := rfl
      rw [hpr]
      simp only [List.length_cons]
      rw [ih (fun q hq => hps q (List.mem_cons_of_mem _ hq))]

/-- Witness for C31: the text `(f a:1 b:{2 3} c:(g "x") d:e)`. -/
theorem C31_key_value_pairs_witness :
    lval_read_expr false "(f a:1 b:\x7b2 3\x7d c:(g \"x\") d:e)" 0 (Char.ofNat 0) =
      some (sexpr [sexpr [sym "f", kvpair (sym "a") (int 1),
        kvpair (sym "b") (qexpr [int 2, int 3]),
        kvpair (sym "c") (sexpr [sym "g", str "x"]),
        kvpair (sym "d") (sym "e")]], false) :=
  (C31_key_value_pairs (form.token "f".toList)
    [("a".toList, form.token "1".toList),
      ("b".toList, form.curly [form.token "2".toList, form.token "3".toList]),
      ("c".toList, form.round [form.token "g".toList, form.string "x".toList]),
      ("d".toList, form.token "e".toList)] false rfl (by decide)).1

/-! ### Printing a value and reading it back -/

end Benzl
